import Mathlib

/-!
# GPSTk stream filters: `ZStreamBuf` (LZW, compress `.Z`) and `CRinexStreamBuf` (Hatanaka)

A shallow embedding of `src/core/lib/FileHandling/ZStreamBuf.cpp` and
`src/core/lib/FileHandling/CRinexStreamBuf.cpp`, and of `ObsState::update` of
`src/ext/lib/FileHandling/CompressedObsStream.cpp`.

Conventions of the embedding

* a byte of the LZW layer is a `Nat` below 256; a `char` of the CRINEX layer is a `Char`;
* a `std::string` is a `List Char`; a C array is a total map `Nat → α` (its cells outside
  the declared size are never touched on the paths that are embedded);
* `long` and `int` values are integers (`Int`), `/` and `%` on them are the truncating
  `Int.tdiv` and `Int.tmod` of C; `size_t` values are naturals, and a `size_t` subtraction
  that would wrap is made explicit;
* a statement that throws is an `Except.error` carrying the message of the C++ exception;
  a read or write outside a `std::string` is reported as the error `outOfBounds`.
-/

namespace GPSTk

/-! ## Shared C library helpers -/

/-- The C function `strncmp(a, b, n) == 0` on buffers read as `a` and `b` (a buffer that
ends is continued by the terminator `nul`): bytes are compared one by one, the comparison
stops after `n` bytes or at the first terminator met in both. -/
def strncmp_eq {α : Type} [DecidableEq α] (nul : α) : Nat → List α → List α → Bool
  | 0, _, _ => true
  | n + 1, a, b =>
    if a.headD nul ≠ b.headD nul then false
    else if a.headD nul = nul then true
    else strncmp_eq nul n a.tail b.tail

/-! ## `ZStreamBuf`: constants and state -/

namespace ZStreamBuf

def BUFSIZE : Nat := 4
def IN_BUFSIZE : Nat := BUFSIZE + 64
def OUT_BUFSIZE : Nat := BUFSIZE + 2048
def BITS : Int := 16
def INIT_BITS : Int := 9
/-- The C macro `MAXCODE(n)`, that is `1L << n`. -/
def MAXCODE (n : Int) : Int := 2 ^ n.toNat
def FIRST : Int := 257
def CLEAR : Int := 256
def HSIZE : Nat := 2 ^ 17

/-- The string literal `"\037\235"`. -/
def LZW_MAGIC : List Nat := [0x1f, 0x9d]

/-- The member `lzwstate`, together with the upstream `source` (the bytes not yet read).
The decode stack lives at the top of `htab` in the C code (`de_stack = &htab[HSIZE-1]`)
and grows downwards: `stackp = some st` means that `stackp` is not `NULL` and that the
bytes from `stackp` up to `de_stack` are `st`, lowest address first. `unreadbuf` is kept
as an offset into `outbuf`. -/
structure LzwState where
  source : List Nat
  eof : Bool
  inbuf : Nat → Nat
  outbuf : Nat → Nat
  stackp : Option (List Nat)
  unreadbuf : Nat
  stackp_diff : Nat
  insize : Nat
  outpos : Nat
  rsize : Int
  flags : Nat
  maxbits : Int
  block_mode : Nat
  htab : Nat → Nat
  codetab : Nat → Nat
  n_bits : Int
  posbits : Int
  inbits : Int
  bitmask : Int
  finchar : Int
  maxcode : Int
  oldcode : Int
  incode : Int
  code : Int
  free_ent : Int

/-- Outcome of the constructor `ZStreamBuf::ZStreamBuf`. -/
inductive Ctor where
  /-- `source->sgetn(buf, 3) != 3`: the constructor returns early. -/
  | short : Ctor
  /-- A `std::runtime_error` is thrown. -/
  | raised : String → Ctor
  /-- The decoder state is initialised. -/
  | ok : LzwState → Ctor

/-- The constructor `ZStreamBuf::ZStreamBuf(std::streambuf* _source, ...)`. -/
def ctor (src : List Nat) : Ctor :=
  if (src.take 3).length ≠ 3 then Ctor.short
  else
    let buf := src.take 3
    if strncmp_eq 0 2 buf LZW_MAGIC = false ∨ (buf.getD 2 0) &&& 0x60 ≠ 0 then
      Ctor.raised "Not a LZW-compressed stream"
    else
      let flags := buf.getD 2 0
      let maxbits : Int := ((flags &&& 0x1f : Nat) : Int)
      let block_mode := flags &&& 0x80
      if maxbits > BITS then Ctor.raised "LZW bits flag exceeds maximum"
      else Ctor.ok
        { source := src.drop 3
          eof := false
          inbuf := fun _ => 0
          outbuf := fun _ => 0
          stackp := none
          unreadbuf := 0
          stackp_diff := 0
          insize := 3
          outpos := 0
          rsize := 0
          flags := flags
          maxbits := maxbits
          block_mode := block_mode
          htab := fun c => if c < 256 then c else 0
          codetab := fun _ => 0
          n_bits := INIT_BITS
          posbits := 24
          inbits := 0
          bitmask := 2 ^ 9 - 1
          finchar := 0
          maxcode := MAXCODE INIT_BITS - 1
          oldcode := -1
          incode := 0
          code := -1
          free_ent := if block_mode ≠ 0 then FIRST else 256 }

end ZStreamBuf

/-! ## `CRinexStreamBuf` -/

namespace CRinexStreamBuf

/-- The terminator `'\0'`. -/
def NUL : Char := Char.ofNat 0

/-- Loop of `CRinexStreamBuf::repair` from column `n` on: `instr` is what is left of the
delta line, the result is `outstr` and the local `finalize`. -/
def repair_loop : List Char → Nat → List Char → Bool → List Char × Bool
  | [], _, outstr, finalize => (outstr, finalize)
  | c :: cs, n, outstr, finalize =>
    let outstr1 := if outstr.length = n then outstr ++ [ ' ' ] else outstr
    let finalize1 := if outstr.length = n then true else finalize
    if c = ' ' then repair_loop cs (n + 1) outstr1 finalize1
    else if c = '&' then repair_loop cs (n + 1) (outstr1.set n ' ') finalize1
    else repair_loop cs (n + 1) (outstr1.set n c) finalize1

/-- The function `CRinexStreamBuf::repair(std::string& outstr, const std::string& instr)`;
the result is the new value of `outstr`. -/
def repair (outstr instr : List Char) : List Char :=
  let r := repair_loop instr 0 outstr false
  if r.2 then r.1 ++ [NUL] else r.1

/-! ### C library helpers used by the decoder -/

/-- Failure of a decoder step: a thrown `std::runtime_error` with its message, or an
access outside a `std::string` or a fixed array (undefined behaviour in C++). -/
inductive Err where
  | raised : String → Err
  | outOfBounds : Err
  /-- The fuel given to an embedded loop ran out before the loop ended. -/
  | diverged : Err
  deriving DecidableEq, Repr

/-- The C function `isdigit`. -/
def isdigit (c : Char) : Bool := decide (48 ≤ c.toNat ∧ c.toNat ≤ 57)

/-- The C function `isspace` (in the "C" locale). -/
def isspace (c : Char) : Bool := decide (c.toNat = 32 ∨ (9 ≤ c.toNat ∧ c.toNat ≤ 13))

/-- Digit accumulation of `strtol` in base 10: reads digits until the first other
character (the terminator at the latest). -/
def digits_value : List Char → Nat → Nat
  | [], acc => acc
  | c :: cs, acc => if isdigit c then digits_value cs (acc * 10 + (c.toNat - 48)) else acc

/-- The C functions `atol` and `atoi` on the C string whose characters are `s`
(followed by a terminator): leading white space, an optional sign, decimal digits. -/
def atol (s : List Char) : Int :=
  match s.dropWhile isspace with
  | [] => 0
  | c :: r =>
    if c = '-' then -((digits_value r 0 : Nat) : Int)
    else if c = '+' then ((digits_value r 0 : Nat) : Int)
    else ((digits_value (c :: r) 0 : Nat) : Int)

/-- The conversion `%d` of `sscanf`: as `atol`, but a matching failure (`none`) when no
digit follows the optional sign. -/
def sscanf_d (s : List Char) : Option Int :=
  match s.dropWhile isspace with
  | [] => none
  | c :: r =>
    if c = '-' ∨ c = '+' then
      (if (r.headD NUL |> isdigit) then some (atol (c :: r)) else none)
    else if isdigit c then some (atol (c :: r)) else none

/-- The C function `labs`. -/
def labs (z : Int) : Nat := z.natAbs

/-- The characters of the C string that starts at the head of `s`: up to the first
terminator. -/
def c_str (s : List Char) : List Char := s.takeWhile (fun c => c ≠ NUL)

/-- The pointer `&s[pos]` into a `std::string`: defined up to `pos = s.length`, where it
points at the terminator. -/
def ptr_at (s : List Char) (pos : Nat) : Except Err (List Char) :=
  if pos ≤ s.length then Except.ok (s.drop pos) else Except.error Err.outOfBounds

/-- The read access `s[pos]` of a `std::string`: `s[s.length]` is the terminator. -/
def char_at (s : List Char) (pos : Nat) : Except Err Char :=
  if pos ≤ s.length then Except.ok (s.getD pos NUL) else Except.error Err.outOfBounds

/-- The write access `s[pos] = c` of a `std::string`; writing the terminator onto
`s[s.length]` changes nothing. -/
def put_at (s : List Char) (pos : Nat) (c : Char) : Except Err (List Char) :=
  if pos < s.length then Except.ok (s.set pos c)
  else if pos = s.length ∧ c = NUL then Except.ok s
  else Except.error Err.outOfBounds

/-- Decimal digits of a natural number, as `printf` writes them. -/
def utoa (n : Nat) : List Char := Nat.toDigits 10 n

/-- The conversion `%ld`. -/
def fmt_ld (z : Int) : List Char :=
  if z < 0 then '-' :: utoa z.natAbs else utoa z.natAbs

/-- The conversion `%.Pld`: at least `prec` digits, zero filled, after the sign. -/
def fmt_ld_prec (prec : Nat) (z : Int) : List Char :=
  let d := utoa z.natAbs
  let d0 := List.replicate (prec - d.length) '0' ++ d
  if z < 0 then '-' :: d0 else d0

/-- Right justification in a field of `width` characters. -/
def pad_left (width : Nat) (s : List Char) : List Char :=
  List.replicate (width - s.length) ' ' ++ s

/-- Left justification in a field of `width` characters. -/
def pad_right (width : Nat) (s : List Char) : List Char :=
  s ++ List.replicate (width - s.length) ' '

/-- A C string stored in a character array `m` of `size` cells: the cells up to the first
terminator. -/
def row_str (m : Nat → Char) (size : Nat) : List Char :=
  c_str ((List.range size).map m)

/-- The C function `strncpy(dst, src, n)` on a character array `dst`, for the C string
`src`: the characters of `src`, then terminators, `n` cells in all. -/
def strncpy (dst : Nat → Char) (src : List Char) (n : Nat) : Nat → Char :=
  fun k => if k < n then (c_str src).getD k NUL else dst k

/-- Storing a C string (`strcpy`, `sprintf`) into a character array: the characters of
`src`, then one terminator. -/
def strcpy (dst : Nat → Char) (src : List Char) : Nat → Char :=
  fun k => if k ≤ src.length then src.getD k NUL else dst k

/-! ### Data model -/

def MAXSAT : Int := 90
def MAXTYPE : Int := 20
def MAX_DIFF_ORDER : Int := 5

/-- The line feed character. -/
def LF : Char := Char.ofNat 10

/-- The struct `data_format`: split differences `u[k]`, `l[k]` of each order, the current
`order` and the `arc_order` of the arc. -/
structure data_format where
  u : Nat → Int
  l : Nat → Int
  order : Int
  arc_order : Int

/-- The member `crx`. The pointers `p_event` (into `in_buffer`), `p_nsat` and `p_satlst`
(into `epoch_buffer`) are kept as column offsets; `dflag[i]` is kept as the C string that
`getdiff` stores in it. -/
structure Crx where
  version : Int
  rinex_version : Int
  ep_top_from : Char
  ep_top_to : Char
  p_event : Nat
  p_nsat : Nat
  p_satlst : Nat
  shift_clk : Nat
  offset : Nat
  nsat1 : Int
  clk1 : data_format
  dy1 : Nat → Nat → data_format
  dy0 : Nat → Nat → data_format
  flag1 : Nat → Nat → Char
  flag : Nat → Nat → Char
  sattbl : Nat → Int
  sat_lst_old : Nat → Char
  dflag : Nat → List Char
  ntype : Int
  ntype_gnss : Nat → Int
  ntype_record : Nat → Int

/-- The member `input` (a `std::istream`): the characters not yet extracted and the state
bits that `std::getline` tests and sets. -/
structure IStream where
  rest : List Char
  eofbit : Bool
  failbit : Bool

/-- The object `CRinexStreamBuf`; `out` is what has been written through `out_ptr` since
`underflow` reset it, `in_capacity` is `in_buffer.capacity()`. -/
structure Decoder where
  input : IStream
  in_buffer : List Char
  in_capacity : Nat
  epoch_buffer : List Char
  header_done : Bool
  crx : Crx
  out : List Char

/-- Assignment to the cell `m[i][j]` of a two-dimensional array. -/
def upd2 {α : Type} (m : Nat → Nat → α) (i j : Nat) (v : α) : Nat → Nat → α :=
  Function.update m i (Function.update (m i) j v)

/-- The call `std::getline(input, str)`: result stream, new value of `str`, and whether
the stream is good afterwards. Nothing is extracted once `eofbit` or `failbit` is set
(`str` is left as it is); otherwise `str` is erased and filled up to the next line feed,
which is extracted and dropped; reaching the end sets `eofbit`, and also `failbit` when no
character was extracted. -/
def getline (inp : IStream) (str : List Char) : IStream × List Char × Bool :=
  if inp.eofbit ∨ inp.failbit then ({ inp with failbit := true }, str, false)
  else
    let line := inp.rest.takeWhile (fun c => c ≠ LF)
    match inp.rest.dropWhile (fun c => c ≠ LF) with
    | [] =>
      if line = [] then ({ rest := [], eofbit := true, failbit := true }, [], false)
      else ({ rest := [], eofbit := true, failbit := false }, line, true)
    | _ :: r => ({ inp with rest := r }, line, true)

/-! ### `set_sat_table` -/

/-- The inner loop `for (j = 0; j < crx.nsat1; j++)` of `set_sat_table` from `j` on, with
`n` iterations left: `id` is the buffer at `&p_new[3*i]`, `cur` the value of `sattbl[i]`
so far. -/
def find_prev (id : List Char) (p_old : Nat → Char) : Nat → Nat → Int → Int
  | 0, _, cur => cur
  | n + 1, j, cur =>
    if strncmp_eq NUL 3 id [p_old (3 * j), p_old (3 * j + 1), p_old (3 * j + 2)] then (j : Int)
    else find_prev id p_old n (j + 1) cur

/-- First loop of `set_sat_table` (RINEX 2): `ntype_record[i] = ntype`. -/
def set_ntype_record2 (crx : Crx) : List Nat → Crx
  | [] => crx
  | i :: is =>
    set_ntype_record2 { crx with ntype_record := Function.update crx.ntype_record i crx.ntype } is

/-- First loop of `set_sat_table` (RINEX 3): `ntype_record[i]` is looked up in
`ntype_gnss` (an array of `UCHAR_MAX` cells) under the first byte of the satellite ID;
`char` is signed, a byte above 127 gives an index outside the array. -/
def set_ntype_record3 (epoch_buffer : List Char) (crx : Crx) : List Nat → Except Err Crx
  | [] => Except.ok crx
  | i :: is => do
    let c ← char_at epoch_buffer (crx.p_satlst + 3 * i)
    if c.toNat ≥ 128 then Except.error Err.outOfBounds
    else
      let v := crx.ntype_gnss c.toNat
      let crx1 := { crx with ntype_record := Function.update crx.ntype_record i v }
      if v < 0 then Except.error (Err.raised "GNSS type not defined in header")
      else set_ntype_record3 epoch_buffer crx1 is

/-- Second loop of `set_sat_table`: the index table `sattbl`. -/
def set_sattbl (epoch_buffer : List Char) (crx : Crx) : List Nat → Except Err Crx
  | [] => Except.ok crx
  | i :: is => do
    let id ← ptr_at epoch_buffer (crx.p_satlst + 3 * i)
    let v := find_prev id crx.sat_lst_old crx.nsat1.toNat 0 (-1)
    set_sattbl epoch_buffer { crx with sattbl := Function.update crx.sattbl i v } is

/-- The function `CRinexStreamBuf::set_sat_table(p_new, p_old, nsat, sattbl)` as
`read_data` calls it: `p_new` is `crx.p_satlst` (into `epoch_buffer`), `p_old` is
`crx.sat_lst_old`, `sattbl` is `crx.sattbl`. -/
def set_sat_table (epoch_buffer : List Char) (crx : Crx) (nsat : Int) : Except Err Crx := do
  let crx1 ←
    if crx.rinex_version = 2 then Except.ok (set_ntype_record2 crx (List.range nsat.toNat))
    else set_ntype_record3 epoch_buffer crx (List.range nsat.toNat)
  set_sattbl epoch_buffer crx1 (List.range nsat.toNat)

/-! ### `getdiff` -/

/-- Conversion of an `int` to `size_t` (64 bits). -/
def size_t_of_int (z : Int) : Nat := if z < 0 then 2 ^ 64 - z.natAbs else z.toNat

/-- First loop of `getdiff` (`for (nfields = 0; nfields < crx.ntype; p++)`): the fields
are separated by terminators. The result is the line and the final `p`. -/
def split_fields (ntype : Nat) : Nat → List Char → Nat → Nat → Except Err (List Char × Nat)
  | 0, _, _, _ => Except.error Err.outOfBounds
  | fuel + 1, line, p, nfields =>
    if nfields < ntype then do
      let c ← char_at line p
      if c = NUL then do
        let line1 ← put_at line (p + 1) NUL
        split_fields ntype fuel line1 (p + 1) (nfields + 1)
      else if c = ' ' then do
        let line1 ← put_at line p NUL
        split_fields ntype fuel line1 (p + 1) (nfields + 1)
      else split_fields ntype fuel line (p + 1) nfields
    else Except.ok (line, p)

/-- The call `line.find(NUL, pos)`; `none` is `npos`. -/
def find_nul (line : List Char) (pos : Nat) : Option Nat :=
  if pos + (line.drop pos).indexOf NUL < line.length then
    some (pos + (line.drop pos).indexOf NUL)
  else none

/-- Body of the second loop of `getdiff` for a field that is not blank, first part (arc
initialisation or inheritance): `sat_old` is `crx.sattbl[sat]`, `y0` is
`crx.dy0[oldsat][j]`, `y` is `crx.dy1[sat][j]`. The result is `crx.dy1[sat][j]` and the
new `fbegin`. -/
def getdiff_arc (line : List Char) (fbegin : Nat) (sat_old : Int) (y0 y : data_format) :
    Except Err (data_format × Nat) :=
  match char_at line (fbegin + 1) with
  | Except.error e => Except.error e
  | Except.ok c1 =>
    if c1 = '&' then
      if atol (line.drop fbegin) > MAX_DIFF_ORDER then
        Except.error (Err.raised "Difference order exceeds the maximum")
      else Except.ok ({ y with order := -1, arc_order := atol (line.drop fbegin) }, fbegin + 2)
    else if sat_old < 0 then Except.error (Err.raised "Uninitialized new satellite arc")
    else if y0.arc_order < 0 then Except.error (Err.raised "Uninitialized data sequence")
    else Except.ok ({ y with order := y0.order, arc_order := y0.arc_order }, fbegin)

/-- Body of the second loop of `getdiff` for a field that is not blank, second part (from
`fend = line.find(NUL, fbegin)` on): the number at `fbegin` is stored, split, in `u[0]`
and `l[0]`. The result is the line, the new `fbegin` and `crx.dy1[sat][j]`. -/
def getdiff_value (line : List Char) (fbegin : Nat) (y : data_format) :
    Except Err (List Char × Nat × data_format) :=
  match find_nul line fbegin with
  | none => Except.error Err.outOfBounds
  | some fend =>
    match char_at line fbegin with
    | Except.error e => Except.error e
    | Except.ok c0 =>
      if (if c0 = '-' then fend - fbegin - 1 else fend - fbegin) < 6 then
        Except.ok (line, fend + 1,
          { y with u := Function.update y.u 0 0,
                   l := Function.update y.l 0 (atol (line.drop fbegin)) })
      else
        let lowstart := fend - 5
        let l0 := atol (line.drop lowstart)
        let line1 := line.set lowstart NUL
        let u0 := atol (line1.drop fbegin)
        Except.ok (line1, fend + 1,
          { y with u := Function.update y.u 0 u0,
                   l := Function.update y.l 0 (if u0 < 0 then -l0 else l0) })

/-- Body of the second loop of `getdiff` for a field that is not blank
(`line[fbegin] != NUL`). -/
def getdiff_field (line : List Char) (fbegin : Nat) (sat_old : Int) (y0 y : data_format) :
    Except Err (List Char × Nat × data_format) :=
  match getdiff_arc line fbegin sat_old y0 y with
  | Except.error e => Except.error e
  | Except.ok r => getdiff_value line r.2 r.1

/-- Second loop of `getdiff` (`for (j = 0; j < crx.ntype; j++)`) from `j` on, with `n`
iterations left; `row0` is `crx.dy0[oldsat]` and `row` is `crx.dy1[sat]`. -/
def getdiff_fields (sat_old : Int) (row0 : Nat → data_format) :
    Nat → Nat → List Char → Nat → (Nat → data_format) → Except Err (Nat → data_format)
  | 0, _, _, _, row => Except.ok row
  | n + 1, j, line, fbegin, row =>
    match char_at line fbegin with
    | Except.error e => Except.error e
    | Except.ok c =>
      if c = NUL then
        getdiff_fields sat_old row0 n (j + 1) line (fbegin + 1)
          (Function.update row j { row j with arc_order := -1, order := -1 })
      else
        match getdiff_field line fbegin sat_old (row0 j) (row j) with
        | Except.error e => Except.error e
        | Except.ok r =>
          getdiff_fields sat_old row0 n (j + 1) r.1 r.2.1 (Function.update row j r.2.2)

/-- The line of `getdiff` after `line.resize(in_buffer.capacity(), NUL)`. -/
def resize_line (line : List Char) (capacity : Nat) : List Char :=
  (line ++ List.replicate (capacity - line.length) NUL).take capacity

/-- The function `CRinexStreamBuf::getdiff(int sat)`; the Boolean is its return value
(`false` when no line could be read). -/
def getdiff (d : Decoder) (sat : Nat) : Except Err (Decoder × Bool) :=
  let g := getline d.input []
  if g.2.2 = false then Except.ok ({ d with input := g.1 }, false)
  else
    let line0 := resize_line g.2.1 d.in_capacity
    match split_fields (size_t_of_int d.crx.ntype) (line0.length + 2) line0 0 0 with
    | Except.error e => Except.error e
    | Except.ok sp =>
      match ptr_at sp.1 sp.2 with
      | Except.error e => Except.error e
      | Except.ok fl =>
        if (c_str fl).length ≥ 2 * MAXTYPE.toNat then Except.error Err.outOfBounds
        else
          match getdiff_fields (d.crx.sattbl sat) (d.crx.dy0 (d.crx.sattbl sat).toNat)
              d.crx.ntype.toNat 0 sp.1 0 (d.crx.dy1 sat) with
          | Except.error e => Except.error e
          | Except.ok row =>
            Except.ok ({ d with input := g.1,
                                crx := { d.crx with
                                  dflag := Function.update d.crx.dflag sat (c_str fl),
                                  dy1 := Function.update d.crx.dy1 sat row } }, true)

/-! ### `read_clock`, `process_clock`, `print_clock` -/

/-- First part of `read_clock` for a line that is not empty (arc initialisation): the
result is `*clk` and `clock_start`. -/
def read_clock_arc (instr : List Char) (clk : data_format) : Except Err (data_format × Nat) :=
  match char_at instr 1 with
  | Except.error e => Except.error e
  | Except.ok c1 =>
    if c1 = '&' then
      if (sscanf_d instr).getD clk.arc_order > MAX_DIFF_ORDER then
        Except.error (Err.raised "Difference order exceeds the maximum")
      else
        Except.ok ({ clk with arc_order := (sscanf_d instr).getD clk.arc_order, order := -1 }, 2)
    else Except.ok (clk, 0)

/-- Second part of `read_clock` (from `size_t number_start = clock_start` on): the number
at `clock_start` is stored, split, in `u[0]` and `l[0]`. In the branch of nine digits or
more the code runs `len -= 8` and then uses the index `len - 8`, that is
`instr.length() - 16` computed in `size_t`. -/
def read_clock_value (instr : List Char) (clock_start : Nat) (clk : data_format) :
    Except Err (List Char × data_format) :=
  match char_at instr clock_start with
  | Except.error e => Except.error e
  | Except.ok c0 =>
    if instr.length - (if c0 = '-' then clock_start + 1 else clock_start) < 9 then
      Except.ok (instr, { clk with u := Function.update clk.u 0 0,
                                   l := Function.update clk.l 0 (atol (instr.drop clock_start)) })
    else
      let len := instr.length - 8
      if len < 8 then Except.error Err.outOfBounds
      else
        let l0 := atol (instr.drop (len - 8))
        let instr1 := instr.set (len - 8) NUL
        let u0 := atol (instr1.drop clock_start)
        Except.ok (instr1, { clk with u := Function.update clk.u 0 u0,
                                      l := Function.update clk.l 0 (if u0 < 0 then -l0 else l0) })

/-- The function `CRinexStreamBuf::read_clock(std::string& instr, data_format* clk)`: the
result is the new value of `instr` and of `*clk`. -/
def read_clock (instr : List Char) (clk : data_format) :
    Except Err (List Char × data_format) :=
  if instr.length = 0 then Except.ok (instr, { clk with order := -1 })
  else
    match read_clock_arc instr clk with
    | Except.error e => Except.error e
    | Except.ok r => read_clock_value instr r.2 r.1

/-- The loop of `process_clock` from `i` on (`j = i + 1`), with `n` iterations left. -/
def process_clock_loop (oldclk : data_format) : Nat → Nat → data_format → data_format
  | 0, _, clk => clk
  | n + 1, i, clk =>
    let j := i + 1
    let k := if clk.order < clk.arc_order then i else j
    let u1 := clk.u i + oldclk.u k
    let l1 := clk.l i + oldclk.l k
    process_clock_loop oldclk n (i + 1)
      { clk with u := Function.update clk.u j (u1 + l1.tdiv 100000000),
                 l := Function.update clk.l j (l1.tmod 100000000) }

/-- The function `CRinexStreamBuf::process_clock(const data_format& oldclk)`, on
`crx.clk1`. -/
def process_clock (oldclk clk1 : data_format) : data_format :=
  let clk := if clk1.order < clk1.arc_order then { clk1 with order := clk1.order + 1 } else clk1
  process_clock_loop oldclk clk.order.toNat 0 clk

/-- The sign adjustment at the head of `putfield` (modulus `10^5`) and of `print_clock`
(modulus `10^8`). -/
def adjust_sign (m : Int) (u l : Int) : Int × Int :=
  if u < 0 ∧ l > 0 then (u + 1, l - m)
  else if u > 0 ∧ l < 0 then (u - 1, l + m)
  else (u, l)

/-- The function `CRinexStreamBuf::print_clock(long yu, long yl, int shift_clk)`: the
characters appended to the output. The local `tmp` has 8 cells. -/
def print_clock (yu yl : Int) (shift_clk : Nat) : Except Err (List Char) :=
  let a := adjust_sign 100000000 yu yl
  let sgn : Int := if a.2 < 0 then -1 else 1
  let tmp := fmt_ld_prec (shift_clk + 1) (a.1 * 10 + sgn)
  if tmp.length + 1 > 8 then Except.error Err.outOfBounds
  else
    let n := tmp.length - 1
    if n < shift_clk then Except.error Err.outOfBounds
    else
      let p_tmp := n - shift_clk
      let t0 := [ ' ', ' ', '.' ] ++ (tmp.take n).drop p_tmp
      let t1 := if n > shift_clk then t0.set 1 (tmp.getD (p_tmp - 1) NUL) else t0
      let t2 := if n > shift_clk + 1 then t1.set 0 (tmp.getD (p_tmp - 2) NUL) else t1
      if n > shift_clk + 2 then Except.error (Err.raised "Clock offset out of range")
      else Except.ok (t2 ++ fmt_ld_prec 8 (labs a.2) ++ [LF])

/-! ### `putfield` and `write_data` -/

/-- The character `out_ptr[-k]` of the text written last. -/
def get_back (t : List Char) (k : Nat) : Char := t.getD (t.length - k) NUL

/-- The assignment `out_ptr[-k] = c`. -/
def set_back (t : List Char) (k : Nat) (c : Char) : List Char := t.set (t.length - k) c

/-- The function `CRinexStreamBuf::putfield(data_format* y, char* flag)`: the new `*y` and
the characters appended to the output; `f0`, `f1` are `flag[0]`, `flag[1]`. -/
def putfield (y : data_format) (f0 f1 : Char) : Except Err (data_format × List Char) :=
  let i := y.order.toNat
  let a := adjust_sign 100000 (y.u i) (y.l i)
  let y1 := { y with u := Function.update y.u i a.1, l := Function.update y.l i a.2 }
  if a.1 ≠ 0 then
    let t := pad_left 8 (fmt_ld a.1) ++ [ ' ' ] ++ fmt_ld_prec 5 (labs a.2) ++ [f0, f1]
    let t1 := set_back t 8 (get_back t 7)
    let t2 := set_back t1 7 (get_back t1 6)
    if a.1 > 99999999 ∨ a.1 < -9999999 then Except.error (Err.raised "Data record out of range")
    else Except.ok (y1, set_back t2 6 '.')
  else
    let t := List.replicate 9 ' ' ++ fmt_ld_prec 5 (labs a.2) ++ [f0, f1]
    let t3 :=
      if get_back t 7 ≠ '0' then
        let t1 := set_back t 8 (get_back t 7)
        let t2 := set_back t1 7 (get_back t1 6)
        if a.2 < 0 then set_back t2 9 '-' else t2
      else if get_back t 6 ≠ '0' then
        let t1 := set_back t 7 (get_back t 6)
        set_back t1 8 (if a.2 < 0 then '-' else ' ')
      else set_back t 7 (if a.2 < 0 then '-' else ' ')
    Except.ok (y1, set_back t3 6 '.')

/-- The two loops over `k` in `write_data`: `sh = 0` is the branch taken when the order
has just been raised (`dy0[..].u[k]` is added), `sh = 1` the other branch
(`dy0[..].u[k + 1]`). `n` iterations are left from `k` on. -/
def recover_loop (y0 : data_format) (sh : Nat) : Nat → Nat → data_format → data_format
  | 0, _, y => y
  | n + 1, k, y =>
    let u1 := y.u k + y0.u (k + sh)
    let l1 := y.l k + y0.l (k + sh)
    recover_loop y0 sh n (k + 1)
      { y with u := Function.update y.u (k + 1) (u1 + l1.tdiv 100000),
               l := Function.update y.l (k + 1) (l1.tmod 100000) }

/-- The block "recover the data" of `write_data` for a cell with `arc_order >= 0`, up to
the call of `putfield`: `y` is `crx.dy1[i][j]`, `y0` is `crx.dy0[sattbl[i]][j]`. -/
def recover (y y0 : data_format) : data_format :=
  if y.order < y.arc_order then
    let y1 := { y with order := y.order + 1 }
    recover_loop y0 0 y1.order.toNat 0 y1
  else recover_loop y0 1 y.order.toNat 0 y

/-- The loop over the flag delta in `write_data` from column `n` on. -/
def apply_dflag (dflag : List Char) (n : Nat) (f : Nat → Char) : Nat → Char :=
  match dflag with
  | [] => f
  | c :: cs =>
    if c = ' ' then apply_dflag cs (n + 1) f
    else if c = '&' then apply_dflag cs (n + 1) (Function.update f n ' ')
    else apply_dflag cs (n + 1) (Function.update f n c)

/-- The block "repair the data flags" of `write_data` for satellite `i`: the new row
`crx.flag[i]`. -/
def repair_flags (crx : Crx) (i : Nat) : Nat → Char :=
  let n := (crx.ntype * 2).toNat
  let base :=
    if crx.sattbl i < 0 then
      if crx.rinex_version = 3 then Function.update (crx.flag i) 0 NUL
      else strcpy (crx.flag i) (pad_right n (crx.dflag i))
    else strncpy (crx.flag i) ((List.range n).map (crx.flag1 (crx.sattbl i).toNat)) n
  apply_dflag (crx.dflag i) 0 base

/-- The end of an output line in `write_data`: trailing blanks are cut, a line feed is
written. -/
def cut_spaces (out : List Char) : Except Err (List Char) :=
  let r := (out.reverse.dropWhile (fun c => c = ' ')).reverse
  if r = [] then Except.error Err.outOfBounds else Except.ok (r ++ [LF])

/-- The branch `arc_order >= 0` of the loop body of `write_data`: the value is recovered
from the differences and printed by `putfield`; `y` is `crx.dy1[i][j]`, `y0` is
`crx.dy0[sattbl[i]][j]`, `f0` and `f1` are the flag bytes `flag[i][j*2]`, `flag[i][j*2+1]`.
The result is the new `crx.dy1[i][j]` and the text appended to the output. -/
def write_value (y y0 : data_format) (f0 f1 : Char) : Except Err (data_format × List Char) :=
  putfield (recover y y0) f0 f1

/-- Body of the loop `for (j = 0; j < crx.ntype; j++)` of `write_data` for satellite `i`,
up to the test for the end of the output line. -/
def write_cell (i j : Nat) (crx : Crx) (out : List Char) : Except Err (Crx × List Char) :=
  if (crx.dy1 i j).arc_order ≥ 0 then
    match write_value (crx.dy1 i j) (crx.dy0 (crx.sattbl i).toNat j)
        (crx.flag i (j * 2)) (crx.flag i (j * 2 + 1)) with
    | Except.error e => Except.error e
    | Except.ok r => Except.ok ({ crx with dy1 := upd2 crx.dy1 i j r.1 }, out ++ r.2)
  else if crx.version = 1 then
    Except.ok ({ crx with flag := upd2 (upd2 crx.flag i (j * 2 + 1) ' ') i (j * 2) ' ' },
      out ++ List.replicate 16 ' ')
  else
    Except.ok (crx, out ++ List.replicate 14 ' ' ++
      [crx.flag i (j * 2), crx.flag i (j * 2 + 1)])

/-- The loop `for (j = 0; j < crx.ntype; j++)` of `write_data` for satellite `i`, from `j`
on with `n` iterations left. -/
def write_cells (i : Nat) : Nat → Nat → Crx → List Char → Except Err (Crx × List Char)
  | 0, _, crx, out => Except.ok (crx, out)
  | n + 1, j, crx, out =>
    match write_cell i j crx out with
    | Except.error e => Except.error e
    | Except.ok r =>
      if ((j : Int) + 1 = r.1.ntype) ∨ (r.1.rinex_version = 2 ∧ (j + 1) % 5 = 0) then
        match cut_spaces r.2 with
        | Except.error e => Except.error e
        | Except.ok out2 => write_cells i n (j + 1) r.1 out2
      else write_cells i n (j + 1) r.1 r.2

/-- Head of the loop body of `write_data` for satellite `i`: in RINEX 3 the number of
data types is set and the satellite ID is written. -/
def write_sat_id (epoch_buffer : List Char) (i : Nat) (crx : Crx) (out : List Char) :
    Except Err (Crx × List Char) :=
  if crx.rinex_version = 3 then
    match ptr_at epoch_buffer (crx.p_satlst + i * 3) with
    | Except.error e => Except.error e
    | Except.ok id =>
      Except.ok ({ crx with ntype := crx.ntype_record i },
        out ++ (List.range 3).map (fun k => (c_str id).getD k NUL))
  else Except.ok (crx, out)

/-- The loop `for (i = 0; i < nsat; i++)` of `write_data`. -/
def write_sats (epoch_buffer : List Char) : List Nat → Crx → List Char →
    Except Err (Crx × List Char)
  | [], crx, out => Except.ok (crx, out)
  | i :: is, crx, out =>
    match write_sat_id epoch_buffer i crx out with
    | Except.error e => Except.error e
    | Except.ok r1 =>
      let crx2 := { r1.1 with flag := Function.update r1.1.flag i (repair_flags r1.1 i) }
      match write_cells i crx2.ntype.toNat 0 crx2 r1.2 with
      | Except.error e => Except.error e
      | Except.ok r => write_sats epoch_buffer is r.1 r.2

/-- The function `CRinexStreamBuf::write_data(nsat, p_sat_lst, sattbl, dflag)` as
`read_data` calls it. -/
def write_data (d : Decoder) (nsat : Int) : Except Err Decoder := do
  let r ← write_sats d.epoch_buffer (List.range nsat.toNat) d.crx d.out
  Except.ok { d with crx := r.1, out := r.2 }

/-! ### `skip_to_next`, `put_event_data`, `read_data` -/

/-- The call `std::getline(input, in_buffer)` on the decoder; the capacity of `in_buffer`
never shrinks and is at least its length. -/
def getline_in (d : Decoder) : Decoder × Bool :=
  let g := getline d.input d.in_buffer
  ({ d with input := g.1, in_buffer := g.2.1,
            in_capacity := max d.in_capacity g.2.1.length }, g.2.2)

/-- Left to right evaluation of `b[k] == ' ' && ...` over the columns `ks`. -/
def all_blank (b : List Char) : List Nat → Except Err Bool
  | [] => Except.ok true
  | k :: ks => do
    let c ← char_at b k
    if c = ' ' then all_blank b ks else Except.ok false

/-- The test of the loop in `skip_to_next`. -/
def epoch_shape (crx : Crx) (b : List Char) : Except Err Bool := do
  let c0 ← char_at b 0
  if c0 ≠ crx.ep_top_from ∨ b.length < 29 then Except.ok false
  else do
    let bl ← all_blank b [crx.offset, crx.offset + 3, crx.offset + 6, crx.offset + 9,
      crx.offset + 12, crx.offset + 23, crx.offset + 24]
    if bl then do
      let c ← char_at b (crx.offset + 25)
      Except.ok (isdigit c)
    else Except.ok false

/-- The loop `while (std::getline(input, in_buffer))` of `skip_to_next`. -/
def skip_to_next_loop : Nat → Decoder → Except Err Decoder
  | 0, _ => Except.error Err.diverged
  | fuel + 1, d =>
    let g := getline_in d
    if g.2 = false then Except.ok g.1
    else do
      let b ← epoch_shape g.1.crx g.1.in_buffer
      if b then Except.ok g.1 else skip_to_next_loop fuel g.1

/-- The text that `skip_to_next` writes: `message_fmt` applied to 4, 1 and the comment. -/
def skip_message (rinex_version : Int) : List Char :=
  (if rinex_version = 2 then pad_left 29 (fmt_ld 4) else '>' :: pad_left 31 (fmt_ld 4)) ++
    pad_left 3 (fmt_ld 1) ++ [LF] ++
    pad_right 60 "  *** Some epochs are skipped by CRX2RNX ***".toList ++ "COMMENT".toList ++ [LF]

/-- The function `CRinexStreamBuf::skip_to_next()`. -/
def skip_to_next (d : Decoder) : Except Err Decoder := do
  let d1 ← skip_to_next_loop (d.input.rest.length + 2) d
  Except.ok { d1 with out := d1.out ++ skip_message d1.crx.rinex_version }

/-- The call `s.compare(pos, len, t) == 0` of `std::string`; it throws
`std::out_of_range` when `pos > s.size()`. -/
def compare_eq (s : List Char) (pos len : Nat) (t : List Char) : Except Err Bool :=
  if pos > s.length then Except.error (Err.raised "std::out_of_range")
  else Except.ok (decide ((s.drop pos).take len = t))

/-- The update of the observation type counts from an auxiliary line of an event record
(`put_event_data`). -/
def event_types (crx : Crx) (instr : List Char) : Except Err Crx := do
  let b1 ← compare_eq instr 60 19 "# / TYPES OF OBSERV".toList
  let c5 ← (if b1 then char_at instr 5 else Except.ok ' ')
  if b1 ∧ c5 ≠ ' ' then Except.ok { crx with ntype := atol instr }
  else do
    let b2 ← compare_eq instr 60 19 "SYS / # / OBS TYPES".toList
    if b2 then do
      let c0 ← char_at instr 0
      if c0.toNat ≥ 128 then Except.error Err.outOfBounds
      else
        let crx1 :=
          if c0 ≠ ' ' then
            { crx with ntype_gnss := Function.update crx.ntype_gnss c0.toNat (atol (instr.drop 3)) }
          else crx
        if crx1.ntype_gnss c0.toNat > MAXTYPE then
          Except.error (Err.raised "GNSS type ID exceeds maximum")
        else Except.ok crx1
    else Except.ok crx

/-- The loop `for (i = 0; i < n; i++)` of `put_event_data`, with `n` iterations left; the
Boolean is `false` when `getline` failed (the function then returns `false`). -/
def event_lines : Nat → Decoder → Except Err (Decoder × Bool)
  | 0, d => Except.ok (d, true)
  | n + 1, d =>
    let g := getline_in d
    if g.2 = false then Except.ok (g.1, false)
    else do
      let crx1 ← event_types g.1.crx g.1.in_buffer
      event_lines n { g.1 with crx := crx1, out := g.1.out ++ c_str g.1.in_buffer ++ [LF] }

/-- The inner loop `do { getline } while (crx.version == 3 && instr[0] == '&')` of
`put_event_data`. -/
def event_next : Nat → Decoder → Except Err (Decoder × Bool)
  | 0, _ => Except.error Err.diverged
  | fuel + 1, d =>
    let g := getline_in d
    if g.2 = false then Except.ok (g.1, false)
    else if g.1.crx.version = 3 ∧ g.1.in_buffer.headD NUL = '&' then event_next fuel g.1
    else Except.ok (g.1, true)

/-- The function `CRinexStreamBuf::put_event_data(instr, p_event)` as `read_data` calls
it, on `in_buffer`; the Boolean is its return value. -/
def put_event_data : Nat → Decoder → Except Err (Decoder × Bool)
  | 0, _ => Except.error Err.diverged
  | fuel + 1, d => do
    let b1 ← put_at d.in_buffer 0 d.crx.ep_top_to
    let d1 := { d with in_buffer := b1, out := d.out ++ c_str b1 ++ [LF] }
    let r1 ←
      if d1.in_buffer.length > 29 then do
        let p ← ptr_at d1.in_buffer (d1.crx.p_event + 1)
        event_lines (atol p).toNat d1
      else Except.ok (d1, true)
    if r1.2 = false then Except.ok (r1.1, false)
    else do
      let r2 ← event_next (r1.1.input.rest.length + 2) r1.1
      if r2.2 = false then Except.ok (r2.1, false)
      else
        let d2 := r2.1
        if d2.in_buffer.headD NUL ≠ d2.crx.ep_top_from ∨ d2.in_buffer.length < 29 then
          Except.error (Err.raised "Uninitialized epoch")
        else do
          let e ← char_at d2.in_buffer d2.crx.p_event
          if isdigit e = false then Except.error (Err.raised "Uninitialized epoch")
          else if e ≠ '0' ∧ e ≠ '1' then put_event_data fuel d2
          else Except.ok (d2, true)

/-- The loop `for (i = 0; i < nsat; i++)` of `read_data` that calls `getdiff`; the Boolean
is `false` when a call returned `false`. -/
def getdiff_all : List Nat → Decoder → Except Err (Decoder × Bool)
  | [], d => Except.ok (d, true)
  | i :: is, d => do
    let r ← getdiff { d with crx := { d.crx with ntype := d.crx.ntype_record i } } i
    if r.2 then getdiff_all is r.1 else Except.ok (r.1, false)

/-- The test on the repaired epoch line in `read_data` (`true`: incorrect epoch record). -/
def bad_epoch (crx : Crx) (eb : List Char) : Bool :=
  eb.headD NUL ≠ crx.ep_top_to ∨ eb.length < crx.offset + 26 ∨
    eb.getD (crx.offset + 23) NUL ≠ ' ' ∨ eb.getD (crx.offset + 24) NUL ≠ ' ' ∨
    isdigit (eb.getD (crx.offset + 25) NUL) = false

/-- The continuation lines of a RINEX 2 epoch record
(`for (i = 1; nsat - 12*i > 0; i++)`), from `i` on with `n` iterations left. -/
def epoch_continuation (eb : List Char) : Nat → Nat → List Char → Except Err (List Char)
  | 0, _, out => Except.ok out
  | n + 1, i, out => do
    let p ← ptr_at eb (32 + 36 * i)
    epoch_continuation eb n (i + 1) (out ++ List.replicate 32 ' ' ++ (c_str p).take 36 ++ [LF])

/-- The block "save current epoch" of `read_data`, loop over the satellites. -/
def save_sats : List Nat → Crx → Crx
  | [], crx => crx
  | i :: is, crx =>
    let n := (crx.ntype_record i * 2).toNat
    save_sats is
      { crx with
        flag1 := Function.update crx.flag1 i
          (strncpy (crx.flag1 i) ((List.range n).map (crx.flag i)) n)
        dy0 := Function.update crx.dy0 i
          (fun j => if (j : Int) < crx.ntype_record i then crx.dy1 i j else crx.dy0 i j) }

/-- The epoch line (and, in RINEX 2, its continuation lines) that `read_data` writes
before it calls `write_data`; `clk` is `crx.clk1`. The result is the new output. -/
def epoch_head (d : Decoder) (nsat : Int) : Except Err (List Char) :=
  let clk := d.crx.clk1
  if d.crx.rinex_version = 2 then
    if clk.order ≥ 0 then
      match print_clock (clk.u clk.order.toNat) (clk.l clk.order.toNat) d.crx.shift_clk with
      | Except.error e => Except.error e
      | Except.ok pc =>
        epoch_continuation d.epoch_buffer ((nsat.toNat - 1) / 12) 1
          (d.out ++ pad_right 68 ((c_str d.epoch_buffer).take 68) ++ pc)
    else
      epoch_continuation d.epoch_buffer ((nsat.toNat - 1) / 12) 1
        (d.out ++ (c_str d.epoch_buffer).take 68 ++ [LF])
  else
    if clk.order ≥ 0 then
      match print_clock (clk.u clk.order.toNat) (clk.l clk.order.toNat) d.crx.shift_clk with
      | Except.error e => Except.error e
      | Except.ok pc => Except.ok (d.out ++ (c_str d.epoch_buffer).take 41 ++ pc)
    else Except.ok (d.out ++ (c_str d.epoch_buffer).take 41 ++ [LF])

/-- The block "save current epoch" of `read_data`. -/
def save_epoch (d : Decoder) (nsat : Int) : Except Err Decoder :=
  if nsat < 0 then Except.error Err.outOfBounds
  else
    match (if nsat = 0 then Except.ok [] else ptr_at d.epoch_buffer d.crx.p_satlst) with
    | Except.error e => Except.error e
    | Except.ok lst =>
      let crx1 := { d.crx with nsat1 := nsat,
                               sat_lst_old := strncpy d.crx.sat_lst_old lst (nsat.toNat * 3) }
      Except.ok { d with crx := save_sats (List.range nsat.toNat) crx1 }

/-- Part of `read_data` from "print the recovered line(s)" to `return true`, entered when
the clock line and the `nsat` difference lines have been read; `oldclk` is the local of
that name. -/
def emit_epoch (d : Decoder) (nsat : Int) (oldclk : data_format) : Except Err Decoder :=
  let clk := if d.in_buffer.headD NUL ≠ NUL then process_clock oldclk d.crx.clk1
    else d.crx.clk1
  let d1 := { d with crx := { d.crx with clk1 := clk } }
  match epoch_head d1 nsat with
  | Except.error e => Except.error e
  | Except.ok head =>
    match write_data { d1 with out := head } nsat with
    | Except.error e => Except.error e
    | Except.ok d2 => save_epoch d2 nsat

/-- Part of `read_data` from `int nsat = atoi(crx.p_nsat)` to `return true`, entered when
the repaired epoch line is accepted. The Boolean is `true` for `return true` and `false`
for `goto SKIP` (after `skip_to_next`). -/
def read_epoch (d : Decoder) : Except Err (Decoder × Bool) :=
  match ptr_at d.epoch_buffer d.crx.p_nsat with
  | Except.error e => Except.error e
  | Except.ok pn =>
    let nsat := atol pn
    if nsat > MAXSAT then Except.error (Err.raised "Satellite number exceeds the maximum")
    else
      match set_sat_table d.epoch_buffer d.crx nsat with
      | Except.error e => Except.error e
      | Except.ok crx1 =>
        let g := getline_in { d with crx := crx1 }
        if g.2 = false then
          match skip_to_next g.1 with
          | Except.error e => Except.error e
          | Except.ok d1 => Except.ok (d1, false)
        else
          let oldclk := g.1.crx.clk1
          match read_clock g.1.in_buffer g.1.crx.clk1 with
          | Except.error e => Except.error e
          | Except.ok rc =>
            match getdiff_all (List.range nsat.toNat)
                { g.1 with in_buffer := rc.1, crx := { g.1.crx with clk1 := rc.2 } } with
            | Except.error e => Except.error e
            | Except.ok gd =>
              if gd.2 = false then
                match skip_to_next gd.1 with
                | Except.error e => Except.error e
                | Except.ok d4 => Except.ok (d4, false)
              else
                match emit_epoch gd.1 nsat oldclk with
                | Except.error e => Except.error e
                | Except.ok d8 => Except.ok (d8, true)

/-- Head of the loop body of `read_data` (from the label `SKIP` to the call of `repair`)
for a line that is not a CRINEX 3 escape line: an epoch line that starts with
`ep_top_from` gets `ep_top_to`, an event record is passed to `put_event_data`, otherwise
the epoch is initialised. The Boolean is `true` for `goto SKIP`. -/
def epoch_top (d : Decoder) : Except Err (Decoder × Bool) :=
  if d.in_buffer.headD NUL = d.crx.ep_top_from then
    match put_at d.in_buffer 0 d.crx.ep_top_to with
    | Except.error e => Except.error e
    | Except.ok b =>
      let d1 := { d with in_buffer := b }
      match char_at d1.in_buffer d1.crx.p_event with
      | Except.error e => Except.error e
      | Except.ok e =>
        if e ≠ '0' ∧ e ≠ '1' then
          match put_event_data (d1.input.rest.length + 2) d1 with
          | Except.error e => Except.error e
          | Except.ok pe =>
            if pe.2 = false then
              match skip_to_next pe.1 with
              | Except.error e => Except.error e
              | Except.ok d2 => Except.ok (d2, true)
            else Except.ok (pe.1, true)
        else
          Except.ok ({ d1 with epoch_buffer := [], crx := { d1.crx with nsat1 := 0 } }, false)
  else Except.ok (d, false)

/-- The function `CRinexStreamBuf::read_data()`: `fresh = true` enters at the loop test
`while (std::getline(input, in_buffer))`, `fresh = false` at the label `SKIP`. The Boolean
of the result is the return value. -/
def read_data_go : Nat → Bool → Decoder → Except Err (Decoder × Bool)
  | 0, _, _ => Except.error Err.diverged
  | fuel + 1, fresh, d0 =>
    let g := if fresh then getline_in d0 else (d0, true)
    if g.2 = false then Except.ok (g.1, false)
    else if g.1.crx.version = 3 ∧ g.1.in_buffer.headD NUL = '&' then read_data_go fuel true g.1
    else
      match epoch_top g.1 with
      | Except.error e => Except.error e
      | Except.ok r =>
        if r.2 then read_data_go fuel false r.1
        else
          let d3 := { r.1 with epoch_buffer := repair r.1.epoch_buffer r.1.in_buffer }
          if bad_epoch d3.crx d3.epoch_buffer then
            match skip_to_next d3 with
            | Except.error e => Except.error e
            | Except.ok d4 => read_data_go fuel false d4
          else
            match read_epoch d3 with
            | Except.error e => Except.error e
            | Except.ok e => if e.2 then Except.ok (e.1, true) else read_data_go fuel false e.1

/-- One call of `CRinexStreamBuf::read_data()` from `underflow` (which resets `out_ptr`),
with the given fuel for its loop. -/
def read_data (fuel : Nat) (d : Decoder) : Except Err (Decoder × Bool) :=
  read_data_go fuel true { d with out := [] }

end CRinexStreamBuf

namespace CRinexStreamBuf

/-! ### Auxiliary definitions for the statements about `repair` -/

/-- The column rule of `repair`: what the column `c` of the delta makes of the column
`o` of the buffer. -/
def repair_col (c o : Char) : Char := if c = ' ' then o else if c = '&' then ' ' else c

/-- Column `k` of a line, read as a blank beyond its end. -/
def col (l : List Char) (k : Nat) : Char := l.getD k ' '

end CRinexStreamBuf

namespace CRinexStreamBuf

/-! ### Auxiliary definitions for the statements about `set_sat_table` -/

/-- The three bytes of slot `j` of the previous-epoch list `p_old`. -/
def old_id (p_old : Nat → Char) (j : Nat) : List Char :=
  [p_old (3 * j), p_old (3 * j + 1), p_old (3 * j + 2)]

/-- The value `v` is the least `j < nsat1` for which `strncmp(id, &p_old[3*j], 3) == 0`,
and `-1` when there is no such `j`. -/
def first_match (id : List Char) (p_old : Nat → Char) (nsat1 : Nat) (v : Int) : Prop :=
  (∃ j, j < nsat1 ∧ v = (j : Int) ∧ strncmp_eq NUL 3 id (old_id p_old j) = true ∧
      ∀ j', j' < j → strncmp_eq NUL 3 id (old_id p_old j') = false) ∨
  (v = -1 ∧ ∀ j, j < nsat1 → strncmp_eq NUL 3 id (old_id p_old j) = false)

end CRinexStreamBuf

namespace CRinexStreamBuf

/-- The table `sattbl` after the second loop of `set_sat_table` over the slots `is`. -/
def sattbl_after (eb : List Char) (crx : Crx) (is : List Nat) : Nat → Int :=
  fun k =>
    if k ∈ is then
      find_prev (eb.drop (crx.p_satlst + 3 * k)) crx.sat_lst_old crx.nsat1.toNat 0 (-1)
    else crx.sattbl k

/-! ### Decoder states used in examples -/

/-- The value of a `data_format` all of whose cells are zero. -/
def data_format.zero : data_format := { u := fun _ => 0, l := fun _ => 0, order := 0, arc_order := 0 }

/-- A content of the member `crx` in which every cell is zero. (The constructor does not
initialise `crx`; the examples below start from this content.) -/
def Crx.zero : Crx :=
  { version := 0, rinex_version := 0, ep_top_from := NUL, ep_top_to := NUL,
    p_event := 0, p_nsat := 0, p_satlst := 0, shift_clk := 0, offset := 0, nsat1 := 0,
    clk1 := data_format.zero, dy1 := fun _ _ => data_format.zero,
    dy0 := fun _ _ => data_format.zero, flag1 := fun _ _ => NUL, flag := fun _ _ => NUL,
    sattbl := fun _ => 0, sat_lst_old := fun _ => NUL, dflag := fun _ => [], ntype := 0,
    ntype_gnss := fun _ => 0, ntype_record := fun _ => 0 }

/-- The assignments that `read_header` makes to `crx` when it meets `END OF HEADER`. -/
def end_of_header (crx : Crx) : Crx :=
  let crx1 := { crx with clk1 := { crx.clk1 with order := 0, arc_order := 0 } }
  if crx.rinex_version = 2 then
    { crx1 with ep_top_from := '&', ep_top_to := ' ', p_event := 28, p_nsat := 29,
                p_satlst := 32, shift_clk := 1, offset := 3 }
  else
    { crx1 with ep_top_from := '>', ep_top_to := '>', p_event := 31, p_nsat := 32,
                p_satlst := 41, shift_clk := 4, offset := 6 }

/-- A decoder positioned at the start of the body `body` (the header has been read),
with the default capacity 1024 of `in_buffer`. -/
def body_decoder (crx : Crx) (body : List Char) : Decoder :=
  { input := { rest := body, eofbit := false, failbit := false }, in_buffer := [],
    in_capacity := 1024, epoch_buffer := [], header_done := true, crx := crx, out := [] }

/-- The outputs of `n` successive calls of `underflow` on a decoder that is in the body:
each call runs `read_data`; the calls stop at the first one that returns `false`. -/
def decode_calls (fuel : Nat) : Nat → Decoder → Except Err (List (List Char))
  | 0, _ => Except.ok []
  | n + 1, d =>
    match read_data fuel d with
    | Except.error e => Except.error e
    | Except.ok r =>
      if r.2 then
        match decode_calls fuel n r.1 with
        | Except.error e => Except.error e
        | Except.ok outs => Except.ok (r.1.out :: outs)
      else Except.ok []

/-- The statements of `read_data` that work on `crx.clk1` in one epoch, for the clock
line `line`: `oldclk = crx.clk1`, `read_clock(in_buffer, &crx.clk1)` and, when
`in_buffer[0]` is not the terminator afterwards, `process_clock(oldclk)`. -/
def clock_line (line : List Char) (clk1 : data_format) : Except Err data_format :=
  match read_clock line clk1 with
  | Except.error e => Except.error e
  | Except.ok r => Except.ok (if r.1.headD NUL ≠ NUL then process_clock clk1 r.2 else r.2)

/-- The clock value that `read_data` passes to `print_clock`, as one integer:
`u[order] * 10^8 + l[order]`. -/
def clock_value (clk : data_format) : Int :=
  clk.u clk.order.toNat * 100000000 + clk.l clk.order.toNat

/-- The observation value that `putfield` prints, as one integer:
`u[order] * 10^5 + l[order]`. -/
def obs_value (y : data_format) : Int :=
  y.u y.order.toNat * 100000 + y.l y.order.toNat

end CRinexStreamBuf

namespace CRinexStreamBuf

/-! ### Decimal tokens -/

/-- The natural number that a string of decimal digits denotes. -/
def decimal_value (ds : List Char) : Nat :=
  ds.foldl (fun acc c => acc * 10 + (c.toNat - 48)) 0

/-- The integer that an optional `-` followed by the digits `ds` denotes. -/
def signed_value (neg : Bool) (ds : List Char) : Int :=
  if neg then -((decimal_value ds : Nat) : Int) else ((decimal_value ds : Nat) : Int)

/-- The characters of the token: an optional `-`, then the digits. -/
def sign_chars (neg : Bool) : List Char := if neg then [ '-' ] else []

end CRinexStreamBuf

namespace CRinexStreamBuf

/-! ### One observation slot over the epochs -/

/-- Backward difference of order `k` of the sequence `y` at epoch `t`. -/
def bdiff (y : Nat → Int) : Nat → Nat → Int
  | 0, t => y t
  | k + 1, t => bdiff y k t - bdiff y k (t - 1)

/-- The token that the slot receives at epoch `t` for an arc of order `N` that starts at
epoch 0: `N&y_0` at epoch 0, and afterwards the decimal token of the backward difference
of order `min t N` of `y` at `t`. -/
def obs_token (N : Nat) (y : Nat → Int) (t : Nat) : List Char :=
  if t = 0 then Nat.digitChar N :: '&' :: fmt_ld (y 0) else fmt_ld (bdiff y (min t N) t)

/-- What one epoch does to the cell of a slot whose field is not blank: the body of the
second loop of `getdiff` for the field at `fbegin` of `line`, then the branch
`arc_order >= 0` of `write_data` (`write_value`). `y0` is the cell of the satellite in
the previous epoch, `y` the content of `crx.dy1[sat][j]` before `getdiff`. -/
def obs_epoch (line : List Char) (fbegin : Nat) (sat_old : Int) (y0 y : data_format)
    (f0 f1 : Char) : Except Err (data_format × List Char) :=
  match getdiff_field line fbegin sat_old y0 y with
  | Except.error e => Except.error e
  | Except.ok r => write_value r.2.2 y0 f0 f1

/-- What surrounds the field of the slot at one epoch: the line before the field and after
its terminator, the content of `crx.dy1[sat][j]` left by earlier epochs, the entry
`sattbl[sat]` and the two flag bytes. -/
structure SlotCtx where
  pre : List Char
  rest : List Char
  stale : data_format
  sat_old : Int
  f0 : Char
  f1 : Char

/-- The cell of the slot after epoch `t`, when the slot receives the tokens
`obs_token N y` and the cell of each epoch is the previous-epoch cell of the next
(`crx.dy0 = crx.dy1` in "save current epoch"); `p0` is the cell of `crx.dy0` that is
paired with the slot at epoch 0. -/
def obs_run (N : Nat) (y : Nat → Int) (ctx : Nat → SlotCtx) (p0 : data_format) :
    Nat → Except Err data_format
  | 0 =>
    match obs_epoch ((ctx 0).pre ++ obs_token N y 0 ++ NUL :: (ctx 0).rest) (ctx 0).pre.length
        (ctx 0).sat_old p0 (ctx 0).stale (ctx 0).f0 (ctx 0).f1 with
    | Except.error e => Except.error e
    | Except.ok r => Except.ok r.1
  | t + 1 =>
    match obs_run N y ctx p0 t with
    | Except.error e => Except.error e
    | Except.ok prev =>
      match obs_epoch ((ctx (t + 1)).pre ++ obs_token N y (t + 1) ++ NUL :: (ctx (t + 1)).rest)
          (ctx (t + 1)).pre.length (ctx (t + 1)).sat_old prev (ctx (t + 1)).stale
          (ctx (t + 1)).f0 (ctx (t + 1)).f1 with
      | Except.error e => Except.error e
      | Except.ok r => Except.ok r.1

end CRinexStreamBuf

namespace CRinexStreamBuf

/-- The difference of index `k` of a cell, as one integer: `u[k] * 10^5 + l[k]`. -/
def cell_value (y : data_format) (k : Nat) : Int := y.u k * 100000 + y.l k

end CRinexStreamBuf

namespace CRinexStreamBuf

/-- The cell `c` of a slot after epoch `t` of an arc of order `N` that carries the values
`y`: its order is `min t N`, its arc order is `N`, and its difference of index `k` is the
backward difference of order `min t N - k` of `y` at `t`. -/
def cell_inv (N : Nat) (y : Nat → Int) (t : Nat) (c : data_format) : Prop :=
  c.order = ((min t N : Nat) : Int) ∧ c.arc_order = (N : Int) ∧
  ∀ k, k ≤ min t N → cell_value c k = bdiff y (min t N - k) t

end CRinexStreamBuf

namespace CRinexStreamBuf

/-- A slot context for examples: the field is alone on its line, the slot's satellite was
slot 0 of the previous epoch, both flag bytes are blanks. -/
def SlotCtx.blank : SlotCtx :=
  { pre := [], rest := [], stale := data_format.zero, sat_old := 0, f0 := ' ', f1 := ' ' }

/-- The sequence 100000, 150000, 200000, ... -/
def y_ramp (t : Nat) : Int := 100000 + 50000 * (t : Int)

end CRinexStreamBuf

namespace CRinexStreamBuf

/-- The member `crx` at the start of the body of a CRINEX 1 file whose RINEX 2 header
declares one observation type, every other cell being zero. -/
def crx_one_type : Crx :=
  end_of_header { Crx.zero with version := 1, rinex_version := 2, ntype := 1 }

end CRinexStreamBuf

namespace CRinexStreamBuf

/-- The value `v` is the least `j < nsat1` whose three bytes in `p_old` are the three
bytes `id3`, and `-1` when there is no such `j`. -/
def first_equal (id3 : List Char) (p_old : Nat → Char) (nsat1 : Nat) (v : Int) : Prop :=
  (∃ j, j < nsat1 ∧ v = (j : Int) ∧ old_id p_old j = id3 ∧
      ∀ j', j' < j → old_id p_old j' ≠ id3) ∨
  (v = -1 ∧ ∀ j, j < nsat1 → old_id p_old j ≠ id3)

/-- The three bytes of slot `i` of the satellite list of the epoch line `eb`. -/
def new_id (eb : List Char) (crx : Crx) (i : Nat) : List Char :=
  (eb.drop (crx.p_satlst + 3 * i)).take 3

/-- A RINEX 2 state whose previous epoch listed `G01 G02`. -/
def crx_prev_G01_G02 : Crx :=
  { crx_one_type with nsat1 := 2, sat_lst_old := strncpy (fun _ => NUL) "G01G02".toList 6 }

/-- A RINEX 2 epoch line that lists `G02 G01`. -/
def epoch_G02_G01 : List Char := List.replicate 32 ' ' ++ "G02G01".toList

/-- A RINEX 2 state whose previous epoch listed one satellite with the bytes `G`, NUL,
`a`. -/
def crx_prev_nul : Crx :=
  { crx_one_type with nsat1 := 1, sat_lst_old := strncpy (fun _ => NUL) [ 'G', NUL, 'a' ] 3 }

/-- A RINEX 2 epoch line that lists one satellite with the bytes `G`, NUL, `b`. -/
def epoch_nul : List Char := List.replicate 32 ' ' ++ [ 'G', NUL, 'b' ]

end CRinexStreamBuf

namespace CRinexStreamBuf

/-- The member `crx` at the start of the body of a CRINEX 3 file whose RINEX 3 header
declares one observation type for the system `G`, every other cell being zero. -/
def crx_gps_one_type : Crx :=
  end_of_header { Crx.zero with version := 3, rinex_version := 3, ntype_gnss := fun c => if c = 'G'.toNat then 1 else 0 }

/-- An initialised RINEX 3 epoch line for two satellites, with its line feed. -/
def epoch_line_v3 (sats : String) : List Char :=
  "> 2020 01 01 00 00  0.0000000  0  2      ".toList ++ sats.toList ++ [LF]

/-- An epoch with the satellites `G01`, `G02`, no clock offset, one initialised value
each and the flag bytes `1`, `2` for `G01` and `3`, `4` for `G02`. -/
def body_first_epoch : List Char :=
  epoch_line_v3 "G01G02" ++ "\n3&100000 12\n3&200000 34\n".toList

/-- The first epoch followed by an initialised epoch that lists `G01`, `G02` in the same
order, each with a new value and no flag bytes. -/
def body_same_order : List Char :=
  body_first_epoch ++ epoch_line_v3 "G01G02" ++ "\n3&101000\n3&201000\n".toList

/-- The body `body_same_order` with the two satellites of the later epoch (ID together
with its difference line) in the other order. -/
def body_permuted : List Char :=
  body_first_epoch ++ epoch_line_v3 "G02G01" ++ "\n3&201000\n3&101000\n".toList

end CRinexStreamBuf

namespace CRinexStreamBuf

/-! ### `read_preamble` and `read_header` -/

/-- The function `CRinexStreamBuf::read_preamble()`, which the constructor calls. -/
def read_preamble (d : Decoder) : Except Err Decoder :=
  let g := getline_in d
  match compare_eq g.1.in_buffer 0 3 "1.0".toList, compare_eq g.1.in_buffer 0 3 "3.0".toList,
      compare_eq g.1.in_buffer 60 20 "CRINEX VERS   / TYPE".toList with
  | Except.ok v1, Except.ok v3, Except.ok h =>
    if g.1.input.failbit ∨ ¬ (v1 ∨ v3) ∨ ¬ h then
      Except.error (Err.raised "Not a compressed RINEX file")
    else
      Except.ok (getline_in { g.1 with crx := { g.1.crx with version := atol g.1.in_buffer, rinex_version := -1 } }).1
  | Except.error e, _, _ => Except.error e
  | _, Except.error e, _ => Except.error e
  | _, _, Except.error e => Except.error e

/-- The branch of `read_header` for the first line after the preamble
(`crx.rinex_version == -1`). The comparison is with the whole C string at
`&in_buffer[60]`. -/
def header_first_line (d : Decoder) : Except Err Decoder :=
  match ptr_at d.in_buffer 60, char_at d.in_buffer 5 with
  | Except.ok p, Except.ok c5 =>
    if c_str p ≠ "RINEX VERSION / TYPE".toList ∨ (c5 ≠ '2' ∧ c5 ≠ '3') then
      Except.error (Err.raised "Incorrect RINEX header")
    else Except.ok { d with crx := { d.crx with rinex_version := atol d.in_buffer } }
  | Except.error e, _ => Except.error e
  | _, Except.error e => Except.error e

/-- The branch of `read_header` for a line `SYS / # / OBS TYPES`. -/
def header_sys_types (d : Decoder) : Except Err Decoder :=
  match char_at d.in_buffer 0 with
  | Except.error e => Except.error e
  | Except.ok c0 =>
    if c0.toNat ≥ 128 then Except.error Err.outOfBounds
    else
      let crx1 :=
        if c0 ≠ ' ' then
          { d.crx with ntype_gnss := Function.update d.crx.ntype_gnss c0.toNat (atol (d.in_buffer.drop 3)) }
        else d.crx
      if crx1.ntype_gnss c0.toNat > MAXTYPE then
        Except.error (Err.raised "Too many observation types")
      else Except.ok { d with crx := crx1 }

/-- The branch of `read_header` for the line `END OF HEADER`. -/
def header_end (d : Decoder) : Decoder :=
  let crx1 := { d.crx with clk1 := { d.crx.clk1 with order := 0, arc_order := 0 } }
  { d with
    header_done := true
    crx :=
      if d.crx.rinex_version = 2 then
        { crx1 with ep_top_from := '&', ep_top_to := ' ', p_event := 28, p_nsat := 29, p_satlst := 32, shift_clk := 1, offset := 3 }
      else
        { crx1 with ep_top_from := '>', ep_top_to := '>', p_event := 31, p_nsat := 32, p_satlst := 41, shift_clk := 4, offset := 6 } }

/-- The chain of tests of `read_header` on the line in
`in_buffer`, up to the `sprintf` that copies the line to the output. -/
def header_line (d : Decoder) : Except Err Decoder :=
  if d.crx.rinex_version = -1 then header_first_line d
  else
    match compare_eq d.in_buffer 60 19 "# / TYPES OF OBSERV".toList with
    | Except.error e => Except.error e
    | Except.ok b1 =>
      match (if b1 then char_at d.in_buffer 5 else Except.ok ' ') with
      | Except.error e => Except.error e
      | Except.ok c5 =>
        if b1 ∧ c5 ≠ ' ' then Except.ok { d with crx := { d.crx with ntype := atol d.in_buffer } }
        else
          match compare_eq d.in_buffer 60 19 "SYS / # / OBS TYPES".toList with
          | Except.error e => Except.error e
          | Except.ok b2 =>
            if b2 then header_sys_types d
            else
              match compare_eq d.in_buffer 60 13 "END OF HEADER".toList with
              | Except.error e => Except.error e
              | Except.ok b3 => Except.ok (if b3 then header_end d else d)

/-- One call of `CRinexStreamBuf::read_header()` from `underflow` (which resets
`out_ptr`); the Boolean is its return value. -/
def read_header (d : Decoder) : Except Err (Decoder × Bool) :=
  let g := getline_in { d with out := [] }
  if g.2 = false then Except.ok (g.1, false)
  else
    match header_line g.1 with
    | Except.error e => Except.error e
    | Except.ok d1 => Except.ok ({ d1 with out := d1.out ++ c_str d1.in_buffer ++ [LF] }, true)

/-- The tuple of constants that `read_header` commits at `END OF HEADER`: the epoch
'from' byte, the epoch 'to' byte, the columns of the event flag, of the satellite count
and of the satellite list, the clock digit shift and the offset. -/
def version_constants (crx : Crx) : Char × Char × Nat × Nat × Nat × Nat × Nat :=
  (crx.ep_top_from, crx.ep_top_to, crx.p_event, crx.p_nsat, crx.p_satlst, crx.shift_clk, crx.offset)

/-- A header line: `text` in columns 0 to 59, then the label. -/
def labelled_line (text label : String) : List Char :=
  pad_right 60 text.toList ++ label.toList

/-- A decoder in the header whose next input line is `line`. -/
def header_decoder (crx : Crx) (line : List Char) : Decoder :=
  { input := { rest := line ++ [LF], eofbit := false, failbit := false }, in_buffer := [],
    in_capacity := 1024, epoch_buffer := [], header_done := false, crx := crx, out := [] }

end CRinexStreamBuf

namespace CRinexStreamBuf

/-- A RINEX 2 body that ends after the epoch line of its first epoch (one satellite
announced): the clock line and the difference line are missing. -/
def body_truncated : List Char := "&20  1  1  0  0  0.0000000  0  1G01\n".toList

/-- The decoder once the input `body_truncated` has run out inside the epoch: the stream
has failed, `in_buffer` is empty, the epoch line is kept; `out`, `sattbl` and
`ntype_record` are left open. -/
def stuck_decoder (out : List Char) (sattbl ntype_record : Nat → Int) : Decoder :=
  { input := { rest := [], eofbit := true, failbit := true }, in_buffer := [],
    in_capacity := 1024,
    epoch_buffer := " 20  1  1  0  0  0.0000000  0  1G01".toList ++ [NUL],
    header_done := true,
    crx := { crx_one_type with nsat1 := 0, sattbl := sattbl, ntype_record := ntype_record },
    out := out }

end CRinexStreamBuf

namespace CRinexStreamBuf

/-- An initialised RINEX 3 epoch line for one satellite, with its line feed. -/
def epoch_line_v3_one (sats : String) : List Char :=
  "> 2020 01 01 00 00  0.0000000  0  1      ".toList ++ sats.toList ++ [LF]

/-- An initialised epoch with the satellite `G01`, no clock offset, an initialised value
and no flag bytes. -/
def body_recovered : List Char :=
  epoch_line_v3_one "G01" ++ "\n3&101000\n".toList

/-- An epoch with `G01` and the flag bytes `1`, `2`, then a line `x` that spoils the
epoch line, then the epoch `body_recovered`. -/
def body_skip : List Char :=
  epoch_line_v3_one "G01" ++ "\n3&100000 12\nx\n".toList ++ body_recovered

end CRinexStreamBuf

namespace CRinexStreamBuf

/-! ### One cell over the epochs, for arbitrary lines -/

/-- The arc invariant of a cell: `-1 <= order <= arc_order <= 5`. -/
def arc_ok (c : data_format) : Prop := -1 ≤ c.order ∧ c.order ≤ c.arc_order ∧ c.arc_order ≤ 5

/-- What one epoch does to the cell `crx.dy1[sat][j]` whose field starts at `fbegin` of
`line`: a blank field (second loop of `getdiff`, branch `line[fbegin] == NUL`; `write_data`
then leaves the cell as it is), or a field that is not blank (`obs_epoch`). -/
def cell_epoch (line : List Char) (fbegin : Nat) (sat_old : Int) (y0 y : data_format)
    (f0 f1 : Char) : Except Err data_format :=
  match char_at line fbegin with
  | Except.error e => Except.error e
  | Except.ok c =>
    if c = NUL then Except.ok { y with arc_order := -1, order := -1 }
    else
      match obs_epoch line fbegin sat_old y0 y f0 f1 with
      | Except.error e => Except.error e
      | Except.ok r => Except.ok r.1

/-- What surrounds the cell of a slot at one epoch: the difference line after the fields
have been separated, the start of the field, the entry `sattbl[sat]`, the content of
`crx.dy1[sat][j]` left by earlier epochs and the two flag bytes. -/
structure SlotLine where
  line : List Char
  fbegin : Nat
  sat_old : Int
  stale : data_format
  f0 : Char
  f1 : Char

/-- The cell of a slot after epoch `t`, for arbitrary lines: the cell of each epoch is the
previous-epoch cell of the next ("save current epoch"); `p0` is the cell of `crx.dy0`
that is paired with the slot at epoch 0. -/
def cell_run (ctx : Nat → SlotLine) (p0 : data_format) : Nat → Except Err data_format
  | 0 =>
    cell_epoch (ctx 0).line (ctx 0).fbegin (ctx 0).sat_old p0 (ctx 0).stale (ctx 0).f0 (ctx 0).f1
  | t + 1 =>
    match cell_run ctx p0 t with
    | Except.error e => Except.error e
    | Except.ok prev =>
      cell_epoch (ctx (t + 1)).line (ctx (t + 1)).fbegin (ctx (t + 1)).sat_old prev
        (ctx (t + 1)).stale (ctx (t + 1)).f0 (ctx (t + 1)).f1

end CRinexStreamBuf

namespace CRinexStreamBuf

/-- An example of a slot over three epochs: the tokens `1&5`, `3`, `2` of a satellite that
is new at epoch 0 and found at slot 0 afterwards. -/
def slot_lines (t : Nat) : SlotLine :=
  { line := if t = 0 then [ '1', '&', '5', NUL ] else if t = 1 then [ '3', NUL ] else [ '2', NUL ], fbegin := 0, sat_old := if t = 0 then -1 else 0, stale := data_format.zero, f0 := ' ', f1 := ' ' }

end CRinexStreamBuf

namespace CRinexStreamBuf

/-! ### The renderings of the output formatter, in the words of the specification -/

/-- The rendering of a datum in the words of the specification: the integer `v`, scaled by
`10^-3`, in 14 columns, right justified, with exactly three decimals, a `-` in front when
`v < 0`, and no digit before the decimal point when `|v| < 1000`. -/
def render_datum (v : Int) : List Char :=
  pad_left 14 ((if v < 0 then [ '-' ] else []) ++
    (if v.natAbs / 1000 = 0 then [] else utoa (v.natAbs / 1000)) ++
    '.' :: fmt_ld_prec 3 ((v.natAbs % 1000 : Nat) : Int))

end CRinexStreamBuf

namespace CRinexStreamBuf

/-- The high part of a clock value as it is written: a `-` when the value is negative,
then the digits of `|yu|`, filled with zeros to `shift_clk` digits. -/
def clock_high (yu yl : Int) (shift_clk : Nat) : List Char :=
  (if yu < 0 ∨ yl < 0 then [ '-' ] else []) ++ fmt_ld_prec shift_clk (labs yu)

/-- The rendering of a clock value in the words of the specification: the high part,
right justified so that its last `shift_clk` digits follow the `.` and what is before them
(sign included) stands in the two columns before the `.`, then `|yl|` as 8 digits filled
with zeros. -/
def render_clock (yu yl : Int) (shift_clk : Nat) : List Char :=
  pad_left 2 ((clock_high yu yl shift_clk).take ((clock_high yu yl shift_clk).length - shift_clk)) ++
    '.' :: (clock_high yu yl shift_clk).drop ((clock_high yu yl shift_clk).length - shift_clk) ++
    fmt_ld_prec 8 (labs yl)

end CRinexStreamBuf

namespace CRinexStreamBuf

/-! ### The constructor and `underflow` -/

/-- The constructor `CRinexStreamBuf::CRinexStreamBuf(_source, stream_buffer_size,
in_buffer_size)` on a source that holds `src`: `crx0` is what the storage of the member
`crx` holds, which the constructor does not initialise. -/
def ctor (src : List Char) (in_buffer_size : Nat) (crx0 : Crx) : Except Err Decoder :=
  read_preamble { input := { rest := src, eofbit := false, failbit := false }, in_buffer := List.replicate in_buffer_size NUL, in_capacity := in_buffer_size, epoch_buffer := List.replicate in_buffer_size NUL, header_done := false, crx := crx0, out := [] }

/-- The function `CRinexStreamBuf::underflow()`, with the given fuel for the loop of
`read_data`: the Boolean is `false` when it returns `eof`. -/
def underflow (fuel : Nat) (d : Decoder) : Except Err (Decoder × Bool) :=
  if d.header_done = false then read_header d else read_data fuel d

/-- The outputs of `n` successive calls of `underflow`; the calls stop at the first one
that returns `eof`. -/
def underflow_calls (fuel : Nat) : Nat → Decoder → Except Err (List (List Char))
  | 0, _ => Except.ok []
  | n + 1, d =>
    match underflow fuel d with
    | Except.error e => Except.error e
    | Except.ok r =>
      if r.2 then
        match underflow_calls fuel n r.1 with
        | Except.error e => Except.error e
        | Except.ok outs => Except.ok (r.1.out :: outs)
      else Except.ok []

/-- The two lines of a CRINEX 3 preamble, with their line feeds. -/
def preamble_v3 : List Char :=
  labelled_line "3.0                 COMPACT RINEX FORMAT" "CRINEX VERS   / TYPE" ++ [LF] ++
    labelled_line "RNX2CRX ver.4.0.7" "CRINEX PROG / DATE" ++ [LF]

/-- A RINEX 3 header that declares one observation type for the system `G` and none for
any other system, with its line feeds. -/
def header_gps_only : List Char :=
  labelled_line "     3.04           OBSERVATION DATA    M" "RINEX VERSION / TYPE" ++ [LF] ++
    labelled_line "G    1 C1C" "SYS / # / OBS TYPES" ++ [LF] ++
    labelled_line "" "END OF HEADER" ++ [LF]

/-- An initialised epoch with the satellite `R01`, no clock offset and an empty
difference line. -/
def body_glonass : List Char := epoch_line_v3_one "R01" ++ "\n\n".toList

end CRinexStreamBuf

namespace CRinexStreamBuf

/-- The outputs of the first `n` calls of `underflow` on a decoder constructed on a
source that holds `src`, with the default size 1024 of `in_buffer`. -/
def decode_file (fuel n : Nat) (src : List Char) (crx0 : Crx) : Except Err (List (List Char)) :=
  match ctor src 1024 crx0 with
  | Except.error e => Except.error e
  | Except.ok d => underflow_calls fuel n d

end CRinexStreamBuf

namespace CRinexStreamBuf

/-- A RINEX 2 body of one epoch whose satellite count field holds `-1`, followed by an
empty clock line. -/
def body_negative_count : List Char := "&20  1  1  0  0  0.0000000  0 -1\n\n".toList

/-- The same body with the count `0`. -/
def body_zero_count : List Char := "&20  1  1  0  0  0.0000000  0  0\n\n".toList

end CRinexStreamBuf

namespace CRinexStreamBuf

/-! ### Auxiliary definitions for the statements about event records -/

/-- The lines `ls` as they stand in a stream: each followed by a line feed. -/
def lines_text : List (List Char) → List Char
  | [] => []
  | l :: ls => l ++ LF :: lines_text ls

/-- The line carries `# / TYPES OF OBSERV` at column 60 and its column 5 is not blank. -/
def types_line (l : List Char) : Prop :=
  (l.drop 60).take 19 = "# / TYPES OF OBSERV".toList ∧ l.getD 5 NUL ≠ ' '

instance (l : List Char) : Decidable (types_line l) :=
  inferInstanceAs (Decidable ((l.drop 60).take 19 = "# / TYPES OF OBSERV".toList ∧ l.getD 5 NUL ≠ ' '))

/-- An auxiliary line of a RINEX 2 event record as the statements below take it: no line
feed and no terminator in it, at least 60 characters (the label of a header record starts
at column 60), and not a `SYS / # / OBS TYPES` record. -/
def aux_line (l : List Char) : Prop :=
  LF ∉ l ∧ NUL ∉ l ∧ 60 ≤ l.length ∧ (l.drop 60).take 19 ≠ "SYS / # / OBS TYPES".toList

instance (l : List Char) : Decidable (aux_line l) :=
  inferInstanceAs (Decidable (LF ∉ l ∧ NUL ∉ l ∧ 60 ≤ l.length ∧ (l.drop 60).take 19 ≠ "SYS / # / OBS TYPES".toList))

/-- The rest of a RINEX 2 event header (after its first byte `&`): event flag 4 at column
28 and the count 2 of auxiliary lines at columns 29 to 31. -/
def event_header_rest : List Char := List.replicate 27 ' ' ++ "4  2".toList

/-- The two auxiliary lines of the example: a `# / TYPES OF OBSERV` record that declares
two types, and a comment. -/
def event_aux : List (List Char) :=
  [labelled_line "     2    L1    C1" "# / TYPES OF OBSERV", labelled_line "two types from here on" "COMMENT"]

/-- An ordinary epoch line for the satellite `G01`. -/
def epoch_after_event : List Char := "&20  1  1  0  0  0.0000000  0  1G01".toList

/-- A RINEX 2 body that starts with the event record and goes on with the epoch line, an
empty clock line and a difference line with two initialised values. -/
def body_event : List Char :=
  '&' :: event_header_rest ++ LF :: lines_text event_aux ++ epoch_after_event ++
    "\n\n3&100000 3&200000\n".toList

end CRinexStreamBuf

namespace CRinexStreamBuf

/-! ### Auxiliary definitions for the statements about the preamble and the header -/

/-- The first line of a stream: the characters before the first line feed. -/
def first_line (s : List Char) : List Char := s.takeWhile (fun c => c ≠ LF)

/-- What is left of a stream after its first line and the line feed of that line. -/
def after_line (s : List Char) : List Char := (s.dropWhile (fun c => c ≠ LF)).drop 1

end CRinexStreamBuf

namespace ZStreamBuf

/-! ## `ZStreamBuf::lzw_read` -/

/-- A subtraction `a - b` computed in `size_t` (64 bits). -/
def size_sub (a b : Nat) : Nat := if b ≤ a then a - b else 2 ^ 64 - (b - a)

/-- The bytes `buf[off], ..., buf[off + n - 1]`. -/
def bytes_at (buf : Nat → Nat) (off n : Nat) : List Nat :=
  (List.range n).map (fun i => buf (off + i))

/-- The call `memcpy(buf + off, src, n)`, `src` being given by the bytes it points to. -/
def memcpy_at (buf : Nat → Nat) (off : Nat) (src : List Nat) (n : Nat) : Nat → Nat :=
  fun i => if off ≤ i ∧ i < off + n then src.getD (i - off) 0 else buf i

/-- The local variables of one call `lzw_read(readbuf, count)` that change during the
call: the bytes copied to the caller's buffer so far (the pointer `readbuf` has advanced
past them) and `count_left`; `count` is the argument. -/
structure Call where
  readbuf : List Nat
  count_left : Nat
  count : Nat

/-- What a call of `lzw_read` leaves: the member `lzwstate`, the value returned and the
bytes it has copied to the caller's buffer. -/
structure Ret where
  state : LzwState
  value : Int
  bytes : List Nat

/-- The places of `lzw_read` at which control is followed: the labels of the C code and
the heads of its loops. -/
inductive Pc where
  /-- The label `resetbuf`, head of the body of the outer `do ... while`. -/
  | resetbuf : Pc
  /-- The test of `while (lzwstate.inbits > lzwstate.posbits)`. -/
  | next_code : Pc
  /-- The test of `while (lzwstate.code >= 256)`. -/
  | walk : Pc
  /-- The head of the body of the inner `do ... while` that copies the stack out. -/
  | put_out : Pc
  /-- The label `resume_reading`. -/
  | resume_reading : Pc
  /-- The comment "Generate the new entry". -/
  | new_entry : Pc
  deriving DecidableEq

/-- What the code does from one place on, as far as `lzwstate` alone decides it: control
reaches another place, or `return -1` is met, or the test `outpos >= BUFSIZE` inside the
inner `do ... while` has succeeded (the output buffer is handed to the caller, label
`resume_partial_reading` or `empty_existing_buffer`), or the outer `do ... while` is
left. -/
inductive Step where
  | next : Pc → LzwState → Step
  | error : LzwState → Step
  | full : LzwState → Step
  | finished : LzwState → Step

/-- The expression that moves `posbits` up to a multiple of `n_bits << 3`. -/
def realign (posbits n_bits : Int) : Int :=
  (posbits - 1) + ((n_bits * 8) - Int.tmod (posbits - 1 + n_bits * 8) (n_bits * 8))

/-- The macro `input(b, o, c, n, m)`: the value stored in `c`. -/
def input (inbuf : Nat → Nat) (posbits bitmask : Int) : Int :=
  let o := (posbits / 8).toNat
  let w := (inbuf o % 256) ||| ((inbuf (o + 1) % 256) <<< 8) ||| ((inbuf (o + 2) % 256) <<< 16)
  (((w >>> (posbits % 8).toNat) &&& bitmask.toNat : Nat) : Int)

/-- The block at the label `resetbuf`, up to the assignment of `inbits`. `posbits >> 3`
is not negative on every path; `sgetn` delivers the next `BUFSIZE` bytes of the source,
or what is left of it, and never a negative value. The last expression is computed in
`size_t` and stored in an `int`, which gives the integer difference. -/
def resetbuf (s : LzwState) : LzwState :=
  let o := (s.posbits / 8).toNat
  let e := if o ≤ s.insize then s.insize - o else 0
  let inbuf1 : Nat → Nat := fun i => if i < e then s.inbuf (i + o) else s.inbuf i
  let s1 := { s with inbuf := inbuf1, insize := e, posbits := 0 }
  let s2 :=
    if s1.insize < IN_BUFSIZE - BUFSIZE then
      let got := s1.source.take BUFSIZE
      { s1 with inbuf := memcpy_at s1.inbuf s1.insize got got.length, source := s1.source.drop BUFSIZE, rsize := (got.length : Int), insize := s1.insize + got.length }
    else s1
  { s2 with inbits := if s2.rsize > 0 then (((s2.insize - s2.insize % s2.n_bits.toNat) * 8 : Nat) : Int) else (s2.insize : Int) * 8 - (s2.n_bits - 1) }

/-- The branch `free_ent > maxcode` of the loop over the codes: the width grows. -/
def widen (s : LzwState) : LzwState :=
  { s with posbits := realign s.posbits s.n_bits, n_bits := s.n_bits + 1, maxcode := if s.n_bits + 1 = s.maxbits then MAXCODE s.maxbits else MAXCODE (s.n_bits + 1) - 1, bitmask := 2 ^ (s.n_bits + 1).toNat - 1 }

/-- The branch `code == CLEAR && block_mode`. -/
def clear (s : LzwState) : LzwState :=
  { s with codetab := fun _ => 0, free_ent := FIRST - 1, posbits := realign s.posbits s.n_bits, n_bits := INIT_BITS, maxcode := MAXCODE INIT_BITS - 1, bitmask := 2 ^ INIT_BITS.toNat - 1 }

/-- The bytes from `stackp` up to `de_stack`. -/
def stack (s : LzwState) : List Nat := s.stackp.getD []

/-- The statement `*--stackp = c`. -/
def push (s : LzwState) (c : Nat) : LzwState :=
  { s with stackp := some ((c % 256) :: stack s) }

/-- The end of the body of the inner `do ... while` and its test:
`stackp += stackp_diff`, then `(stackp_diff = de_stack - stackp) > 0`. -/
def step_stack (s : LzwState) : Step :=
  let s1 := { s with stackp := some ((stack s).drop s.stackp_diff), stackp_diff := ((stack s).drop s.stackp_diff).length }
  if s1.stackp_diff > 0 then Step.next Pc.put_out s1 else Step.next Pc.new_entry s1

/-- The body of `while (inbits > posbits)` from the macro `input` on, up to the loop
`while (code >= 256)`. -/
def read_code (s : LzwState) : Step :=
  let s1 := { s with code := input s.inbuf s.posbits s.bitmask, posbits := s.posbits + s.n_bits }
  if s1.oldcode = -1 then
    if s1.code ≥ 256 then Step.error s1
    else
      Step.next Pc.next_code
        { s1 with outbuf := Function.update s1.outbuf s1.outpos (s1.code.toNat % 256), outpos := s1.outpos + 1, finchar := s1.code, oldcode := s1.code }
  else if s1.code = CLEAR ∧ s1.block_mode ≠ 0 then Step.next Pc.resetbuf (clear s1)
  else
    let s2 := { s1 with incode := s1.code, stackp := some [] }
    if s2.code ≥ s2.free_ent then
      if s2.code > s2.free_ent then Step.error s2
      else Step.next Pc.walk { push s2 s2.finchar.toNat with code := s2.oldcode }
    else Step.next Pc.walk s2

/-- The end of the loop `while (code >= 256)` and the test that follows: the last byte
is pushed, `stackp_diff` is set, and either the inner `do ... while` is entered or the
stack is copied to `outbuf` at once. -/
def walk_end (s : LzwState) : Step :=
  let s1 := { push s (s.htab s.code.toNat) with finchar := ((s.htab s.code.toNat : Nat) : Int) }
  let s2 := { s1 with stackp_diff := (stack s1).length }
  if s2.outpos + s2.stackp_diff ≥ BUFSIZE then Step.next Pc.put_out s2
  else
    Step.next Pc.new_entry
      { s2 with outbuf := memcpy_at s2.outbuf s2.outpos (stack s2) s2.stackp_diff, outpos := s2.outpos + s2.stackp_diff }

/-- The body of the inner `do ... while` up to the test `outpos >= BUFSIZE`. -/
def put_out (s : LzwState) : LzwState :=
  let s1 :=
    if s.stackp_diff > size_sub BUFSIZE s.outpos then { s with stackp_diff := size_sub BUFSIZE s.outpos }
    else s
  if s1.stackp_diff > 0 then
    { s1 with outbuf := memcpy_at s1.outbuf s1.outpos (stack s1) s1.stackp_diff, outpos := s1.outpos + s1.stackp_diff }
  else s1

/-- The block "Generate the new entry" and the assignment to `oldcode` after it. -/
def new_entry (s : LzwState) : LzwState :=
  let s1 := { s with code := s.free_ent }
  let s2 :=
    if s1.code < MAXCODE s1.maxbits then
      { s1 with codetab := Function.update s1.codetab s1.code.toNat ((s1.oldcode % 65536).toNat), htab := Function.update s1.htab s1.code.toNat s1.finchar.toNat, free_ent := s1.code + 1 }
    else s1
  { s2 with oldcode := s2.incode }

/-- One step of `lzw_read` from the place `pc`. -/
def step (pc : Pc) (s : LzwState) : Step :=
  match pc with
  | Pc.resetbuf => Step.next Pc.next_code (resetbuf s)
  | Pc.next_code =>
    if s.inbits > s.posbits then
      if s.free_ent > s.maxcode then Step.next Pc.resetbuf (widen s)
      else read_code s
    else if s.rsize ≠ 0 then Step.next Pc.resetbuf s
    else Step.finished s
  | Pc.walk =>
    if s.code ≥ 256 then
      Step.next Pc.walk { push s (s.htab s.code.toNat) with code := (s.codetab s.code.toNat : Int) }
    else walk_end s
  | Pc.put_out =>
    if (put_out s).outpos ≥ BUFSIZE then Step.full (put_out s) else step_stack (put_out s)
  | Pc.resume_reading => step_stack { s with outpos := 0 }
  | Pc.new_entry => Step.next Pc.next_code (new_entry s)

/-- The code from the label `empty_existing_buffer` to `return count`; `off` is the
offset in `lzwstate.outbuf` of the local pointer `outbuf`. -/
def empty_existing_buffer (s : LzwState) (c : Call) (off : Nat) : Ret :=
  { state := { s with outpos := size_sub s.outpos c.count_left, unreadbuf := off + c.count_left }
    value := (c.count : Int)
    bytes := c.readbuf ++ bytes_at s.outbuf off c.count_left }

/-- The statements `memcpy(readbuf, buf + off, outpos)` and, at the label
`resume_partial_reading`, `readbuf += outpos; count_left -= outpos`. -/
def resume_partial_reading (s : LzwState) (c : Call) (off : Nat) : Call :=
  { readbuf := c.readbuf ++ bytes_at s.outbuf off s.outpos
    count_left := size_sub c.count_left s.outpos
    count := c.count }

/-- The end of `lzw_read`, after the outer `do ... while`. -/
def finish (s : LzwState) (c : Call) : Ret :=
  if s.outpos < c.count_left then
    { state := { s with eof := true }
      value := (c.count : Int) - ((size_sub c.count_left s.outpos : Nat) : Int)
      bytes := c.readbuf ++ bytes_at s.outbuf 0 s.outpos }
  else empty_existing_buffer s c 0

/-- The steps of `lzw_read` from the place `pc` until the call returns; `none` when the
call has not returned after `fuel` steps. -/
def run : Nat → Pc → LzwState → Call → Option Ret
  | 0, _, _, _ => none
  | fuel + 1, pc, s, c =>
    match step pc s with
    | Step.next pc1 s1 => run fuel pc1 s1 c
    | Step.error s1 => some { state := s1, value := -1, bytes := c.readbuf }
    | Step.full s1 =>
      if s1.outpos < c.count_left then run fuel Pc.resume_reading s1 (resume_partial_reading s1 c 0)
      else some (empty_existing_buffer s1 c 0)
    | Step.finished s1 => some (finish s1 c)

/-- The function `ZStreamBuf::lzw_read(char* readbuf, size_t count)`. -/
def lzw_read (fuel : Nat) (s : LzwState) (count : Nat) : Option Ret :=
  let c : Call := { readbuf := [], count_left := count, count := count }
  if count = 0 ∨ s.eof = true then some { state := s, value := 0, bytes := [] }
  else
    match s.stackp with
    | some _ =>
      if s.outpos ≠ 0 then
        if s.outpos ≥ count then some (empty_existing_buffer s c s.unreadbuf)
        else run fuel Pc.resume_reading s (resume_partial_reading s c s.unreadbuf)
      else run fuel Pc.resume_reading s c
    | none => run fuel Pc.resetbuf s c

/-- What `ZStreamBuf::underflow` does. -/
inductive Underflow where
  /-- A `std::runtime_error` is thrown. -/
  | raised : String → Underflow
  /-- The get area is set to the bytes that `lzw_read` has delivered (`eof` is returned
  when there are none). -/
  | filled : LzwState → List Nat → Underflow

/-- The function `ZStreamBuf::underflow()`, for an `outbuffer` of `size` bytes (where
`ssize_t` is a signed type: the build without `WIN32`). -/
def underflow (fuel : Nat) (s : LzwState) (size : Nat) : Option Underflow :=
  match lzw_read fuel s size with
  | none => none
  | some r =>
    if r.value < 0 then some (Underflow.raised "Error while decompressing")
    else some (Underflow.filled r.state r.bytes)

/-- Successive calls of `lzw_read` on one decoder with the counts `ks`. -/
def read_calls (fuel : Nat) : LzwState → List Nat → Option (List Ret)
  | _, [] => some []
  | s, k :: ks =>
    match lzw_read fuel s k with
    | none => none
    | some r =>
      match read_calls fuel r.state ks with
      | none => none
      | some rs => some (r :: rs)

end ZStreamBuf

namespace ZStreamBuf

/-! ### Auxiliary definitions for the statements about `lzw_read` -/

/-- The decoder state after a constructor that has succeeded. -/
def Ctor.state : Ctor → Option LzwState
  | Ctor.ok s => some s
  | _ => none

/-- The steps of a call of `lzw_read` that `run` makes: `n` steps from the place `pc`,
if the call does not return within them. -/
def advance : Nat → Pc → LzwState → Call → Option (Pc × LzwState × Call)
  | 0, pc, s, c => some (pc, s, c)
  | n + 1, pc, s, c =>
    match step pc s with
    | Step.next pc1 s1 => advance n pc1 s1 c
    | Step.full s1 =>
      if s1.outpos < c.count_left then
        advance n Pc.resume_reading s1 (resume_partial_reading s1 c 0)
      else none
    | _ => none

/-- The places and states at which `run` takes a step, in order, until the call returns or
the fuel ends. -/
def visits : Nat → Pc → LzwState → Call → List (Pc × LzwState)
  | 0, _, _, _ => []
  | fuel + 1, pc, s, c =>
    (pc, s) ::
      match step pc s with
      | Step.next pc1 s1 => visits fuel pc1 s1 c
      | Step.full s1 =>
        if s1.outpos < c.count_left then
          visits fuel Pc.resume_reading s1 (resume_partial_reading s1 c 0)
        else []
      | _ => []

/-- At the place `pc` in the state `s` the next thing done is the macro `input`: the loop
over the codes goes on and the width does not grow. -/
def reads (pc : Pc) (s : LzwState) : Prop :=
  pc = Pc.next_code ∧ s.inbits > s.posbits ∧ ¬ s.free_ent > s.maxcode

/-- The code that the macro `input` reads in the state `s`. -/
def next_code (s : LzwState) : Int := input s.inbuf s.posbits s.bitmask

/-- The decoded output of a call so far: the bytes copied to the caller's buffer and the
bytes that wait in `outbuf`. -/
def emitted (c : Call) (s : LzwState) : List Nat := c.readbuf ++ bytes_at s.outbuf 0 s.outpos

/-- The string of a code: `[c]` for `c < 256` and the string of `codetab[c]` followed by
the byte `htab[c]` for `c >= 256`, by recursion with fuel `n` on the chain of `codetab`. -/
def expand (htab codetab : Nat → Nat) : Nat → Nat → List Nat
  | 0, c => [c % 256]
  | n + 1, c => if c < 256 then [c] else expand htab codetab n (codetab c) ++ [htab c % 256]

/-- The chain of `codetab` from the code `c` reaches a code below 256 within `n` steps. -/
def chain_ends (codetab : Nat → Nat) : Nat → Nat → Prop
  | 0, c => c < 256
  | n + 1, c => c < 256 ∨ chain_ends codetab n (codetab c)

end ZStreamBuf

namespace ZStreamBuf

/-- The code that is read at the place `pc` in the state `s` is one for which `lzw_read`
returns -1: the first code of the stream (`oldcode` is still -1) and not below 256, or a
later code above `free_ent`. -/
def corrupt (pc : Pc) (s : LzwState) : Prop :=
  reads pc s ∧
    ((s.oldcode = -1 ∧ next_code s ≥ 256) ∨ (s.oldcode ≠ -1 ∧ next_code s > s.free_ent))

/-- The places and states at which a call `lzw_read(readbuf, count)` takes a step. -/
def read_visits (fuel : Nat) (s : LzwState) (count : Nat) : List (Pc × LzwState) :=
  let c : Call := { readbuf := [], count_left := count, count := count }
  if count = 0 ∨ s.eof = true then []
  else
    match s.stackp with
    | some _ =>
      if s.outpos ≠ 0 then
        if s.outpos ≥ count then []
        else visits fuel Pc.resume_reading s (resume_partial_reading s c s.unreadbuf)
      else visits fuel Pc.resume_reading s c
    | none => visits fuel Pc.resetbuf s c

/-- The state that a step carries. -/
def Step.state : Step → LzwState
  | Step.next _ s => s
  | Step.error s => s
  | Step.full s => s
  | Step.finished s => s

end ZStreamBuf

namespace ZStreamBuf

/-- The members of `lzwstate` other than the output buffer and the stack pointer: what the
copying of the stack to `outbuf` leaves alone. -/
def decoding (s : LzwState) : LzwState :=
  { s with outbuf := fun _ => 0, outpos := 0, stackp := none, stackp_diff := 0, unreadbuf := 0 }

/-- The decoded bytes that the decoder holds for the next call when a call has returned
with the caller's buffer full: the `outpos` bytes of `outbuf` from `unreadbuf` on, then the
bytes of the stack above `stackp + stackp_diff`. -/
def pending (s : LzwState) : List Nat :=
  bytes_at s.outbuf s.unreadbuf s.outpos ++ (stack s).drop s.stackp_diff

end ZStreamBuf

namespace ZStreamBuf

/-- Whether the chain of `codetab` from `c` ends within `n` steps can be computed. -/
def chain_ends_decidable (codetab : Nat → Nat) : ∀ (n c : Nat), Decidable (chain_ends codetab n c)
  | 0, c => inferInstanceAs (Decidable (c < 256))
  | n + 1, c =>
    match chain_ends_decidable codetab n (codetab c) with
    | isTrue h => isTrue (Or.inr h)
    | isFalse h =>
      if hc : c < 256 then isTrue (Or.inl hc) else isFalse (fun h2 => h2.elim hc h)

instance (codetab : Nat → Nat) (n c : Nat) : Decidable (chain_ends codetab n c) :=
  chain_ends_decidable codetab n c

end ZStreamBuf

namespace ZStreamBuf

/-- Bit `k` of the input buffer as the specification counts the bits: bit `k mod 8`, least
significant first, of the byte `floor(k / 8)`. -/
def bit_at (inbuf : Nat → Nat) (k : Nat) : Nat := (inbuf (k / 8) % 256) / 2 ^ (k % 8) % 2

/-- The code of `n` bits at the bit offset `o` as the specification defines it: the sum over
`i < n` of `bit(o + i) * 2^i`. -/
def code_bits (inbuf : Nat → Nat) (o n : Nat) : Nat :=
  ((List.range n).map (fun i => bit_at inbuf (o + i) * 2 ^ i)).sum

end ZStreamBuf

namespace CompressedObsStream

open CRinexStreamBuf (Err NUL atol)

/-! ## `CompressedObsStream::ObsState` (`src/ext/lib/FileHandling/CompressedObsStream.cpp`) -/

/-- The constant `ObsState::MAX_ORDER`. -/
def MAX_ORDER : Nat := 10

/-- The class `CompressedObsStream::ObsState`: `order`, `arcOrder`, `lli` and `ssi` are
`int8_t`, `dy` is the array `int64_t dy[MAX_ORDER]`. -/
structure ObsState where
  order : Int
  arcOrder : Int
  lli : Int
  ssi : Int
  dy : Nat → Int

/-- Conversion of an integer to `int8_t`. -/
def to_int8 (z : Int) : Int := (z + 128) % 256 - 128

/-- Conversion of an integer to `int64_t` (the value of a sum that overflows, as a two's
complement machine computes it). -/
def to_int64 (z : Int) : Int := (z + 2 ^ 63) % 2 ^ 64 - 2 ^ 63

/-- Conversion of an integer to `size_t` (64 bits). -/
def to_size_t (z : Int) : Nat := (z % 2 ^ 64).toNat

/-- The C function `strtoll(s, NULL, 10)`: as `atol`, with the value clamped to the range
of `long long`. -/
def strtoll (s : List Char) : Int :=
  if atol s > 2 ^ 63 - 1 then 2 ^ 63 - 1
  else if atol s < -(2 ^ 63) then -(2 ^ 63)
  else atol s

/-- The loop `for (size_t i = 1; i < arcOrder; i++) dy[i] = 0;` from `i` on, `bound` being
`arcOrder` converted to `size_t` for the comparison. An index outside `dy` is reported as
`outOfBounds`; the loop ends or reaches the index `MAX_ORDER` within `MAX_ORDER` rounds. -/
def zero_loop : Nat → Nat → Nat → (Nat → Int) → Except Err (Nat → Int)
  | 0, _, _, _ => Except.error Err.diverged
  | fuel + 1, i, bound, dy =>
    if i < bound then
      if i < MAX_ORDER then zero_loop fuel (i + 1) bound (Function.update dy i 0)
      else Except.error Err.outOfBounds
    else Except.ok dy

/-- The loop `for (size_t i = order-1; i >= 0; i--) { dy[i] += dy[i + 1]; if (i == 0) break; }`
from `i` on. The test `i >= 0` of a `size_t` always holds. An index outside `dy` is reported
as `outOfBounds`; the loop ends or meets such an index within `MAX_ORDER` rounds. -/
def fold_loop : Nat → Nat → (Nat → Int) → Except Err (Nat → Int)
  | 0, _, _ => Except.error Err.diverged
  | fuel + 1, i, dy =>
    if i < MAX_ORDER ∧ (i + 1) % 2 ^ 64 < MAX_ORDER then
      let dy1 := Function.update dy i (to_int64 (dy i + dy ((i + 1) % 2 ^ 64)))
      if i = 0 then Except.ok dy1 else fold_loop fuel (i - 1) dy1
    else Except.error Err.outOfBounds

/-- The function `CompressedObsStream::ObsState::update(const std::string& diff)`. The
`char` `diff[0]` is taken as a signed byte. -/
def ObsState.update (st : ObsState) (diff : List Char) : Except Err ObsState :=
  if diff.length > 2 ∧ diff.getD 1 NUL = '&' then
    let arc := to_int8 (to_int8 ((diff.getD 0 NUL).toNat : Int) - 48)
    let dy0 := Function.update st.dy 0 (strtoll (diff.drop 2))
    match zero_loop (MAX_ORDER + 1) 1 (to_size_t arc) dy0 with
    | Except.error e => Except.error e
    | Except.ok dy1 => Except.ok { st with order := 0, arcOrder := arc, dy := dy1 }
  else if diff.length = 0 then Except.ok { st with order := -1 }
  else if st.order = -1 then Except.error (Err.raised "Uninitialized satellite arc")
  else
    let order := if st.order < st.arcOrder then st.order + 1 else st.order
    if order < 0 ∨ order ≥ (MAX_ORDER : Int) then Except.error Err.outOfBounds
    else
      let dy0 := Function.update st.dy order.toNat (strtoll diff)
      match fold_loop (MAX_ORDER + 1) (to_size_t (order - 1)) dy0 with
      | Except.error e => Except.error e
      | Except.ok dy1 => Except.ok { st with order := order, dy := dy1 }

/-- The function `CompressedObsStream::ObsState::reset()`. -/
def ObsState.reset (st : ObsState) : ObsState :=
  { st with dy := fun i => if i < MAX_ORDER then 0 else st.dy i, lli := -1, ssi := -1, order := -1, arcOrder := 0 }

/-- An `ObsState` as its default member initialisers and `reset` leave it. -/
def ObsState.fresh : ObsState :=
  { order := -1, arcOrder := 0, lli := -1, ssi := -1, dy := fun _ => 0 }

end CompressedObsStream

namespace CRinexStreamBuf

/-- The marker of `skip_to_next` for RINEX 2 written `n` times. -/
def skip_markers : Nat → List Char
  | 0 => []
  | n + 1 => skip_markers n ++ skip_message 2

end CRinexStreamBuf

namespace CRinexStreamBuf

/-- A RINEX 3 body of one initialised epoch for `G01` whose difference line carries the
value `3&101000` and the flag delta blank, `4`. -/
def body_new_flag : List Char := epoch_line_v3_one "G01" ++ "\n3&101000  4\n".toList

end CRinexStreamBuf

namespace ZStreamBuf

/-- The bytes `bs` written `n` times. -/
def repeat_bytes : Nat → List Nat → List Nat
  | 0, _ => []
  | n + 1, bs => bs ++ repeat_bytes n bs

/-- A stream with the flags byte `0x89` (block mode, `maxbits = 9`) that holds the code 97
257 times, 9 bits each: eight codes fill the nine bytes `61 C2 84 09 13 26 4C 98 30`. -/
def stream_maxbits_9 : List Nat :=
  [0x1f, 0x9d, 0x89] ++ repeat_bytes 32 [0x61, 0xC2, 0x84, 0x09, 0x13, 0x26, 0x4C, 0x98, 0x30] ++ [0x61, 0x00]

end ZStreamBuf

namespace ZStreamBuf

/-- The places and states at which successive calls `lzw_read(., k)`, for the counts `ks`,
take a step on one decoder. The calls go on as long as none of them returns a negative
value (`underflow` raises on a negative value). -/
def calls_visits (fuel : Nat) : LzwState → List Nat → List (Pc × LzwState)
  | _, [] => []
  | s, k :: ks =>
    read_visits fuel s k ++
      match lzw_read fuel s k with
      | some r => if r.value < 0 then [] else calls_visits fuel r.state ks
      | none => []

/-- The bound on the code width as the specification states it: `9 <= n_bits <= maxbits`,
`free_ent <= 2^maxbits`, and once `n_bits = maxbits` the member `maxcode` is `2^maxbits` and
the test `free_ent > maxcode` for a width increase fails. -/
def width_capped (s : LzwState) : Prop :=
  9 ≤ s.n_bits ∧ s.n_bits ≤ s.maxbits ∧ s.free_ent ≤ 2 ^ s.maxbits.toNat ∧
  (s.n_bits = s.maxbits → s.maxcode = 2 ^ s.maxbits.toNat ∧ ¬ s.free_ent > s.maxcode)

/-- The members of `lzwstate` that decide the code width. -/
def width_members (s : LzwState) : Int × Int × Int × Int :=
  (s.maxbits, s.n_bits, s.free_ent, s.maxcode)

/-- The invariant behind `width_capped` for `10 <= maxbits <= 16`, on the width members
`(maxbits, n_bits, free_ent, maxcode)`: below `maxbits` the member `maxcode` is
`2^n_bits - 1`, at `maxbits` it is `2^maxbits`. -/
def width_inv (w : Int × Int × Int × Int) : Prop :=
  10 ≤ w.1 ∧ w.1 ≤ 16 ∧ 9 ≤ w.2.1 ∧ w.2.1 ≤ w.1 ∧ w.2.2.1 ≤ MAXCODE w.1 ∧
  (w.2.1 = w.1 → w.2.2.2 = MAXCODE w.1) ∧ (w.2.1 < w.1 → w.2.2.2 = MAXCODE w.2.1 - 1)

end ZStreamBuf

namespace ZStreamBuf

/-- The members of `lzwstate` that the string table and its invariant depend on. -/
structure Table where
  free_ent : Int
  maxbits : Int
  block_mode : Nat
  codetab : Nat → Nat
  oldcode : Int
  incode : Int

/-- The table members of a decoder state. -/
def table (s : LzwState) : Table :=
  { free_ent := s.free_ent, maxbits := s.maxbits, block_mode := s.block_mode,
    codetab := s.codetab, oldcode := s.oldcode, incode := s.incode }

/-- The code `c` is the CLEAR code of a block-mode stream: the walk never visits it. -/
def Table.reserved (t : Table) (c : Int) : Prop := c = 256 ∧ t.block_mode ≠ 0

/-- The invariant of `codetab`: `free_ent >= 256`, `maxbits <= 16`, the entries from
`free_ent` on are 0, and every entry `c` with `256 <= c < free_ent` other than the
reserved one points to a code below `c` that is not reserved. -/
def Table.ok (t : Table) : Prop :=
  256 ≤ t.free_ent ∧ t.maxbits ≤ 16 ∧
  (∀ c : Nat, t.free_ent ≤ (c : Int) → t.codetab c = 0) ∧
  (∀ c : Nat, 256 ≤ c → (c : Int) < t.free_ent → ¬ t.reserved c →
    t.codetab c < c ∧ ¬ t.reserved (t.codetab c))

/-- What `oldcode` can be between two codes: -1 before the first code; a code below
`free_ent`; `free_ent` itself when the table is full (a KwKwK code was read and no entry
was made); or any code right after a CLEAR code (`free_ent = 256` in block mode). -/
def Table.old_ok (t : Table) : Prop :=
  t.oldcode = -1 ∨
  (0 ≤ t.oldcode ∧ t.oldcode < t.free_ent ∧ ¬ t.reserved t.oldcode) ∨
  (t.oldcode = t.free_ent ∧ ¬ t.free_ent < MAXCODE t.maxbits ∧ ¬ t.reserved t.oldcode) ∨
  (t.free_ent = 256 ∧ t.block_mode ≠ 0 ∧ 0 ≤ t.oldcode)

/-- What `incode` is while a code is being decoded: the code that was read, not above
`free_ent` and not reserved; it is not the first code. -/
def Table.mid_ok (t : Table) : Prop :=
  t.oldcode ≠ -1 ∧ 0 ≤ t.incode ∧ t.incode ≤ t.free_ent ∧ ¬ t.reserved t.incode

/-- The input is used up and a code has been decoded before: the loop over the codes will
not read again. A call that is resumed in such a state only passes through "Generate the
new entry" once more and returns. -/
def exhausted (s : LzwState) : Prop :=
  ¬ (s.inbits > s.posbits) ∧ s.rsize = 0 ∧ s.stackp ≠ none

/-- The invariant of the string table at the place `pc`: either the input is used up (and
the place is none from which the table is walked or the input read), or the table is in
order, with `incode` in order at the places inside the decoding of a code. -/
def table_inv (pc : Pc) (s : LzwState) : Prop :=
  (exhausted s ∧ pc ≠ Pc.resetbuf ∧ pc ≠ Pc.walk) ∨
  ((table s).ok ∧ (table s).old_ok ∧
    (pc ≠ Pc.resetbuf → pc ≠ Pc.next_code → (table s).mid_ok ∧ s.stackp ≠ none))

/-- The invariant of the string table between two calls. -/
def table_ret (s : LzwState) : Prop :=
  (s.stackp = none → (table s).ok ∧ (table s).old_ok) ∧
  (s.stackp ≠ none → exhausted s ∨ ((table s).ok ∧ (table s).old_ok ∧ (table s).mid_ok))

/-- The codes not below 256 that the loop `while (code >= 256) code = codetab[code]`
visits from the code `c` on, within `n` rounds. -/
def chain (codetab : Nat → Nat) : Nat → Nat → List Nat
  | 0, _ => []
  | n + 1, c => if c < 256 then [] else c :: chain codetab n (codetab c)

/-- The code from which the table is walked when the code `next_code s` is read: the code
itself, or `oldcode` for a KwKwK code. -/
def walk_start (s : LzwState) : Nat :=
  if next_code s = s.free_ent then s.oldcode.toNat else (next_code s).toNat

/-- The bytes pushed for the code `next_code s`: the string of `walk_start s`, and
`finchar` before it for a KwKwK code. -/
def pushed (s : LzwState) (n : Nat) : Nat :=
  (expand s.htab s.codetab n (walk_start s)).length + (if next_code s = s.free_ent then 1 else 0)

end ZStreamBuf

namespace ZStreamBuf

/-- What the step from the place `pc` in the state `s` hands on: the invariant at the next
place, or, when the loop over the codes ends, the invariant between calls. -/
def table_post (pc : Pc) (s : LzwState) : Prop :=
  (∀ pc1 s1, step pc s = Step.next pc1 s1 → table_inv pc1 s1) ∧
  (∀ s1, step pc s = Step.full s1 → table_inv Pc.resume_reading s1) ∧
  (∀ s1, step pc s = Step.finished s1 →
    (s1.stackp ≠ none → exhausted s1) ∧ (s1.stackp = none → (table s1).ok ∧ (table s1).old_ok))

end ZStreamBuf

namespace CRinexStreamBuf

/-- The first epoch line of the example for `repair`: RINEX 2, one satellite `G12`. -/
def epoch_one_sat : List Char := "&20  1  1  0  0  0.0000000  0  1G12".toList

/-- The delta of the second epoch line: the count becomes 2 (column 31) and the satellite
` 15` (blank system byte) is added at columns 35 to 37; the blank at column 35 is a column
that the delta leaves alone. -/
def delta_second_sat : List Char := List.replicate 31 ' ' ++ "2    15".toList

/-- A RINEX 2 body (one observation type) of two epochs: `G12` alone, then `G12` and ` 15`,
the second epoch line given by `delta_second_sat`; the clock lines are empty. -/
def body_second_sat : List Char :=
  epoch_one_sat ++ "\n\n3&100000\n".toList ++ delta_second_sat ++ "\n\n5\n3&200000\n".toList

/-- The two auxiliary lines of an event record: a `# / TYPES OF OBSERV` record that declares
two types, and a line of ten characters. -/
def event_aux_short : List (List Char) :=
  [labelled_line "     2    L1    C1" "# / TYPES OF OBSERV", "site visit".toList]

/-- The body `body_event` with the comment replaced by the line of ten characters. -/
def body_event_short : List Char :=
  '&' :: event_header_rest ++ LF :: lines_text event_aux_short ++ epoch_after_event ++
    "\n\n3&100000 3&200000\n".toList

end CRinexStreamBuf

end GPSTk

/-! # Theorems -/

namespace GPSTk
namespace ZStreamBuf

/-! ## `ZStreamBuf`: the magic number -/

theorem strncmp_magic (b0 b1 b2 : Nat) :
    strncmp_eq 0 2 [b0, b1, b2] LZW_MAGIC = true ↔ b0 = 0x1f ∧ b1 = 0x9d := by
  simp only [strncmp_eq, LZW_MAGIC, List.headD_cons, List.tail_cons]
  by_cases h0 : b0 = 0x1f
  · subst h0
    by_cases h1 : b1 = 0x9d
    · subst h1; simp
    · simp [h1]
  · simp [h0]

/-- C3, as stated, fails: a source that starts with the bytes `1F 9B` of the spec and
carries the valid flags byte `90` is rejected with the framing error, and the source
`1F 9D 90` is accepted although its first two bytes are not `1F 9B`. -/
theorem ctor_rejects_1F_9B :
    ctor [0x1f, 0x9b, 0x90] = Ctor.raised "Not a LZW-compressed stream" ∧
    ∃ s, ctor [0x1f, 0x9d, 0x90] = Ctor.ok s := by
  constructor
  · rfl
  · exact ⟨_, rfl⟩

/-- C3, amended (magic `1F 9D`, the string `"\037\235"` of the code): for every source of
at least three bytes, the constructor succeeds only if the first two bytes are `1F 9D`;
a source that starts with `1F 9D` and whose flags byte has bits 5 and 6 clear and
`maxbits` at most 16 is accepted; any other first two bytes raise the framing error
"Not a LZW-compressed stream". -/
theorem ctor_magic (b0 b1 b2 : Nat) (rest : List Nat) :
    ((∃ s, ctor (b0 :: b1 :: b2 :: rest) = Ctor.ok s) → b0 = 0x1f ∧ b1 = 0x9d) ∧
    (b0 = 0x1f → b1 = 0x9d → b2 &&& 0x60 = 0 → b2 &&& 0x1f ≤ 16 →
      ∃ s, ctor (b0 :: b1 :: b2 :: rest) = Ctor.ok s) ∧
    (¬ (b0 = 0x1f ∧ b1 = 0x9d) →
      ctor (b0 :: b1 :: b2 :: rest) = Ctor.raised "Not a LZW-compressed stream") := by
  have hm := strncmp_magic b0 b1 b2
  refine ⟨?_, ?_, ?_⟩
  · rintro ⟨s, hs⟩
    by_contra hne
    have hf : strncmp_eq 0 2 [b0, b1, b2] LZW_MAGIC = false := by
      cases h : strncmp_eq 0 2 [b0, b1, b2] LZW_MAGIC
      · rfl
      · exact absurd (hm.1 h) hne
    simp [ctor, hf] at hs
  · intro h0 h1 h2 h3
    have ht : strncmp_eq 0 2 [b0, b1, b2] LZW_MAGIC = true := hm.2 ⟨h0, h1⟩
    have h3' : ¬ ((((b2 &&& 0x1f : Nat) : Int)) > BITS) := by
      simp only [BITS]; omega
    simp only [ctor, List.take, List.length_cons, List.length_nil, ht, List.getD_cons_succ, List.getD_cons_zero]
    simp [h2, h3']
  · intro hne
    have hf : strncmp_eq 0 2 [b0, b1, b2] LZW_MAGIC = false := by
      cases h : strncmp_eq 0 2 [b0, b1, b2] LZW_MAGIC
      · rfl
      · exact absurd (hm.1 h) hne
    simp [ctor, hf]
/-- Witness of `ctor_magic`: the header `1F 9D 90` is accepted. -/
theorem ctor_magic_witness : ∃ s, ctor [0x1f, 0x9d, 0x90] = Ctor.ok s :=
  (ctor_magic 0x1f 0x9d 0x90 []).2.1 rfl rfl (by decide) (by decide)

end ZStreamBuf
end GPSTk

namespace GPSTk
namespace CRinexStreamBuf

/-! ## `repair` -/

theorem col_append_blank (l : List Char) (k : Nat) : col (l ++ [ ' ' ]) k = col l k := by
  simp only [col, List.getD_eq_getElem?_getD]
  by_cases h : k < l.length
  · rw [List.getElem?_append_left h]
  · have h1 : l.length ≤ k := Nat.le_of_not_lt h
    rw [List.getElem?_append_right h1, List.getElem?_eq_none h1]
    cases hk : k - l.length <;> simp

theorem col_set (l : List Char) (n k : Nat) (x : Char) (hn : n < l.length) :
    col (l.set n x) k = if k = n then x else col l k := by
  simp only [col, List.getD_eq_getElem?_getD, List.getElem?_set]
  by_cases h : n = k
  · subst h; simp [hn]
  · have h' : ¬ k = n := fun e => h e.symm
    simp [h, h']

theorem col_cons_succ (c : Char) (cs : List Char) (k : Nat) : col (c :: cs) (k + 1) = col cs k := by
  simp [col]

theorem repair_loop_spec (cs : List Char) :
    ∀ (n : Nat) (out : List Char) (fin : Bool), n ≤ out.length →
      (repair_loop cs n out fin).1.length =
        (if out.length < n + cs.length then n + cs.length else out.length) ∧
      (repair_loop cs n out fin).2 = (fin || decide (out.length < n + cs.length)) ∧
      ∀ k, col (repair_loop cs n out fin).1 k =
        if n ≤ k ∧ k < n + cs.length then repair_col (col cs (k - n)) (col out k)
        else col out k := by
  induction cs with
  | nil =>
    intro n out fin hn
    refine ⟨?_, ?_, ?_⟩
    · have : ¬ out.length < n + ([] : List Char).length := by simp; omega
      simp only [repair_loop, this, if_false]
    · have : ¬ out.length < n := by omega
      simp [repair_loop, this]
    · intro k
      have : ¬ (n ≤ k ∧ k < n + ([] : List Char).length) := by
        simp only [List.length_nil]; omega
      simp only [repair_loop, this, if_false]
  | cons c cs ih =>
    intro n out fin hn
    -- the buffer after the optional `push_back`
    obtain ⟨out1, hout1, hlen1, hget1⟩ :
        ∃ out1, out1 = (if out.length = n then out ++ [ ' ' ] else out) ∧
          out1.length = (if out.length = n then n + 1 else out.length) ∧
          ∀ k, col out1 k = col out k := by
      refine ⟨_, rfl, ?_, ?_⟩
      · split
        · rename_i h; simp [h]
        · rfl
      · intro k; split
        · exact col_append_blank out k
        · rfl
    have hn1 : n < out1.length := by rw [hlen1]; split <;> omega
    have key : ∀ (x : Char), repair_col c (col out n) = x →
        ∀ (out2 : List Char), out2.length = out1.length →
        (∀ k, col out2 k = if k = n then x else col out1 k) →
        ∀ fin1, fin1 = (fin || decide (out.length = n)) →
        (repair_loop cs (n + 1) out2 fin1).1.length =
          (if out.length < n + (c :: cs).length then n + (c :: cs).length else out.length) ∧
        (repair_loop cs (n + 1) out2 fin1).2 =
          (fin || decide (out.length < n + (c :: cs).length)) ∧
        ∀ k, col (repair_loop cs (n + 1) out2 fin1).1 k =
          if n ≤ k ∧ k < n + (c :: cs).length then
            repair_col (col (c :: cs) (k - n)) (col out k)
          else col out k := by
      intro x hx out2 hl2 hg2 fin1 hfin1
      obtain ⟨h1, h2, h3⟩ := ih (n + 1) out2 fin1 (by omega)
      refine ⟨?_, ?_, ?_⟩
      · rw [h1, hl2, hlen1]; simp only [List.length_cons]
        split_ifs <;> omega
      · rw [h2, hfin1, hl2, hlen1]
        simp only [List.length_cons]
        by_cases hfin : fin = true
        · simp [hfin]
        · have : fin = false := by simpa using hfin
          subst this
          simp only [Bool.false_or, Bool.or_eq_true, decide_eq_true_eq, Bool.decide_or,
            decide_eq_decide]
          rw [Bool.eq_iff_iff]
          simp only [Bool.or_eq_true, decide_eq_true_eq]
          split_ifs <;> omega
      · intro k
        rw [h3 k, hg2 k, hget1 k]
        simp only [List.length_cons]
        by_cases hk : k = n
        · subst hk
          have h5 : ¬ (k + 1 ≤ k ∧ k < k + 1 + cs.length) := by omega
          have h6 : k ≤ k ∧ k < k + (cs.length + 1) := by omega
          simp only [h5, h6, and_self, if_true, if_false, Nat.sub_self]
          rw [← hx]; rfl
        · by_cases hk2 : n + 1 ≤ k ∧ k < n + 1 + cs.length
          · have hk3 : n ≤ k ∧ k < n + (cs.length + 1) := by omega
            have hk4 : k - n = (k - (n + 1)) + 1 := by omega
            simp only [hk2, hk3, and_self, if_true, hk, if_false, hk4, col_cons_succ]
          · have hk3 : ¬ (n ≤ k ∧ k < n + (cs.length + 1)) := by omega
            simp only [hk2, hk3, if_false, hk]
    have hfin0 : (if out.length = n then true else fin) = (fin || decide (out.length = n)) := by
      by_cases h : out.length = n <;> simp [h]
    rw [repair_loop]
    simp only [← hout1, hfin0]
    by_cases hc1 : c = ' '
    · subst hc1
      simp only [if_true]
      refine key (col out n) (by simp [repair_col]) out1 rfl ?_ _ rfl
      intro k
      by_cases hk : k = n
      · subst hk; simp [hget1]
      · simp [hk]
    · by_cases hc2 : c = '&'
      · subst hc2
        simp only [hc1, if_true, if_false]
        refine key ' ' (by simp [repair_col, hc1]) (out1.set n ' ') (by simp) ?_ _ rfl
        intro k; exact col_set out1 n k ' ' hn1
      · simp only [hc1, hc2, if_false]
        refine key c (by simp [repair_col, hc1, hc2]) (out1.set n c) (by simp) ?_ _ rfl
        intro k; exact col_set out1 n k c hn1

theorem getElem?_eq_col (l : List Char) (n : Nat) (h : n < l.length) : l[n]? = some (col l n) := by
  simp [col, List.getD_eq_getElem?_getD, List.getElem?_eq_getElem h]

theorem col_of_getElem? (l : List Char) (n : Nat) (c : Char) (h : l[n]? = some c) : col l n = c := by
  simp [col, List.getD_eq_getElem?_getD, h]

/-- The length of the result of `repair` after an extension: for an empty buffer and the
delta `ab` the result has length 3, not `max 0 2`; it is `ab` followed by a terminator. -/
theorem repair_length_counterexample :
    (repair [] [ 'a', 'b' ]).length ≠ max ([] : List Char).length [ 'a', 'b' ].length ∧
    repair [] [ 'a', 'b' ] = [ 'a', 'b', NUL ] := by
  decide

/-- The bytes of the result of `repair`, the terminator included (what the code does, not
what the epoch line should be; see `body_second_sat` for a terminator that ends up inside
the line): `repair(out, delta)` has the length of `out` when `delta` is not longer, and
otherwise the length of `delta` plus one, the extra last byte being the terminator
pushed by `finalize`. For every column `n` of `delta`, holding `c`: the result holds a
blank if `c` is `&`; it holds `c` if `c` is neither a blank nor `&`; and if `c` is a blank
it holds `out[n]` when `n < |out|` and a blank otherwise. Every column `n >= |delta|` of
`out` is unchanged. -/
theorem repair_columns (out delta : List Char) :
    (repair out delta).length =
      (if out.length < delta.length then delta.length + 1 else out.length) ∧
    (out.length < delta.length → (repair out delta)[delta.length]? = some NUL) ∧
    (∀ n c, delta[n]? = some c →
      (repair out delta)[n]? =
        some (if c = '&' then ' ' else if c = ' ' then out.getD n ' ' else c)) ∧
    (∀ n, delta.length ≤ n → n < out.length → (repair out delta)[n]? = out[n]?) := by
  obtain ⟨h1, h2, h3⟩ := repair_loop_spec delta 0 out false (Nat.zero_le _)
  simp only [Nat.zero_add, Bool.false_or, Nat.sub_zero, Nat.zero_le, true_and] at h1 h2 h3
  have hcol : ∀ n c, delta[n]? = some c →
      some (repair_col (col delta n) (col out n)) =
        some (if c = '&' then ' ' else if c = ' ' then out.getD n ' ' else c) := by
    intro n c hc
    rw [col_of_getElem? delta n c hc]
    simp only [repair_col, col]
    by_cases hc1 : c = ' '
    · subst hc1; simp
    · simp [hc1]
  by_cases hlt : out.length < delta.length
  · have hfin : (repair_loop delta 0 out false).2 = true := by rw [h2]; simp [hlt]
    have hr : repair out delta = (repair_loop delta 0 out false).1 ++ [NUL] := by
      simp [repair, hfin]
    have hlen : (repair_loop delta 0 out false).1.length = delta.length := by
      rw [h1]; simp [hlt]
    refine ⟨?_, ?_, ?_, ?_⟩
    · rw [hr]; simp [hlen, hlt]
    · intro _
      rw [hr, List.getElem?_append_right (by omega), hlen]; simp
    · intro n c hc
      have hn : n < delta.length := by
        by_contra hge
        rw [List.getElem?_eq_none (by omega)] at hc
        cases hc
      rw [hr, List.getElem?_append_left (by omega), getElem?_eq_col _ _ (by omega), h3 n]
      simp only [hn, if_true]
      exact hcol n c hc
    · intro n h4 h5; omega
  · have hfin : (repair_loop delta 0 out false).2 = false := by rw [h2]; simp [hlt]
    have hr : repair out delta = (repair_loop delta 0 out false).1 := by
      simp [repair, hfin]
    have hlen : (repair_loop delta 0 out false).1.length = out.length := by
      rw [h1]; simp [hlt]
    refine ⟨?_, ?_, ?_, ?_⟩
    · rw [hr]; simp [hlen, hlt]
    · intro h; exact absurd h hlt
    · intro n c hc
      have hn : n < delta.length := by
        by_contra hge
        rw [List.getElem?_eq_none (by omega)] at hc
        cases hc
      rw [hr, getElem?_eq_col _ _ (by omega), h3 n]
      simp only [hn, if_true]
      exact hcol n c hc
    · intro n h4 h5
      have hn : ¬ n < delta.length := by omega
      rw [hr, getElem?_eq_col _ _ (by omega), h3 n, getElem?_eq_col _ _ h5]
      simp only [hn, if_false]

/-- Witness of `repair_columns`: column 1 of the delta `x& z` blanks column 1 of `AB`. -/
theorem repair_columns_witness :
    (repair [ 'A', 'B' ] [ 'x', '&', ' ', 'z' ])[1]? = some ' ' :=
  (repair_columns [ 'A', 'B' ] [ 'x', '&', ' ', 'z' ]).2.2.1 1 '&' (by decide)

end CRinexStreamBuf
end GPSTk

namespace GPSTk
namespace CRinexStreamBuf

/-! ## Decimal tokens and `atol` -/

theorem isdigit_iff (c : Char) : isdigit c = true ↔ 48 ≤ c.toNat ∧ c.toNat ≤ 57 := by
  simp [isdigit]

theorem foldl_digits_acc (ds : List Char) :
    ∀ acc : Nat, ds.foldl (fun a c => a * 10 + (c.toNat - 48)) acc =
      acc * 10 ^ ds.length + ds.foldl (fun a c => a * 10 + (c.toNat - 48)) 0 := by
  induction ds with
  | nil => intro acc; simp
  | cons c cs ih =>
    intro acc
    simp only [List.foldl_cons, List.length_cons]
    rw [ih (acc * 10 + (c.toNat - 48)), ih (0 * 10 + (c.toNat - 48))]
    ring

theorem decimal_value_cons (c : Char) (cs : List Char) :
    decimal_value (c :: cs) = (c.toNat - 48) * 10 ^ cs.length + decimal_value cs := by
  simp only [decimal_value, List.foldl_cons]
  rw [foldl_digits_acc cs (0 * 10 + (c.toNat - 48))]
  ring

theorem decimal_value_append (a b : List Char) :
    decimal_value (a ++ b) = decimal_value a * 10 ^ b.length + decimal_value b := by
  simp only [decimal_value, List.foldl_append]
  rw [foldl_digits_acc b]

theorem decimal_value_lt (ds : List Char) (h : ds.all isdigit = true) :
    decimal_value ds < 10 ^ ds.length := by
  induction ds with
  | nil => simp [decimal_value]
  | cons c cs ih =>
    simp only [List.all_cons, Bool.and_eq_true] at h
    have hc := (isdigit_iff c).1 h.1
    have := ih h.2
    rw [decimal_value_cons, List.length_cons, pow_succ]
    have h9 : c.toNat - 48 ≤ 9 := by omega
    nlinarith [Nat.mul_le_mul_right (10 ^ cs.length) h9]

theorem digits_value_digits (ds : List Char) (h : ds.all isdigit = true) (r : List Char) :
    ∀ acc : Nat, digits_value (ds ++ r) acc =
      digits_value r (acc * 10 ^ ds.length + decimal_value ds) := by
  induction ds with
  | nil => intro acc; simp [decimal_value]
  | cons c cs ih =>
    intro acc
    simp only [List.all_cons, Bool.and_eq_true] at h
    have e : digits_value (c :: cs ++ r) acc = digits_value (cs ++ r) (acc * 10 + (c.toNat - 48)) := by
      show digits_value (c :: (cs ++ r)) acc = _
      rw [digits_value]; simp [h.1]
    rw [e, ih h.2, decimal_value_cons, List.length_cons]
    congr 1
    ring

theorem digits_value_stop (r : List Char) (acc : Nat) (h : isdigit (r.headD NUL) = false) :
    digits_value r acc = acc := by
  cases r with
  | nil => rfl
  | cons c cs =>
    simp only [List.headD_cons] at h
    simp [digits_value, h]

/-- What `atol` reads on a token: an optional `-`, digits, then a character that is not a
digit (or the end). -/
theorem atol_token (neg : Bool) (ds r : List Char) (hd : ds.all isdigit = true)
    (hne : ds ≠ []) (hr : isdigit (r.headD NUL) = false) :
    atol (sign_chars neg ++ ds ++ r) = signed_value neg ds := by
  cases neg with
  | true =>
    have h1 : isspace '-' = false := by decide
    simp only [sign_chars, if_true, List.cons_append, List.nil_append, atol,
      List.dropWhile_cons, h1, signed_value]
    simp only [Bool.false_eq_true, if_false, if_true]
    rw [digits_value_digits ds hd r 0, digits_value_stop r _ hr]
    simp
  | false =>
    cases ds with
    | nil => exact absurd rfl hne
    | cons c cs =>
      simp only [List.all_cons, Bool.and_eq_true] at hd
      have hc := (isdigit_iff c).1 hd.1
      have h1 : isspace c = false := by
        simp only [isspace, decide_eq_false_iff_not]; omega
      have h2 : ¬ c = '-' := by
        intro e; rw [e] at hc; revert hc; decide
      have h3 : ¬ c = '+' := by
        intro e; rw [e] at hc; revert hc; decide
      have hall : (c :: cs).all isdigit = true := by
        simp only [List.all_cons, Bool.and_eq_true]; exact hd
      simp only [sign_chars, Bool.false_eq_true, if_false, List.nil_append, List.cons_append,
        atol, List.dropWhile_cons, h1, h2, h3, signed_value]
      have := digits_value_digits (c :: cs) hall r 0
      simp only [List.cons_append] at this
      rw [this, digits_value_stop r _ hr]
      simp

end CRinexStreamBuf
end GPSTk

namespace GPSTk
namespace CRinexStreamBuf

/-! ## `getdiff`: the value of a field -/

theorem digit_ne_NUL (c : Char) (h : isdigit c = true) : c ≠ NUL := by
  intro e; rw [e] at h; revert h; decide

theorem NUL_not_mem_token (neg : Bool) (ds : List Char) (hd : ds.all isdigit = true) :
    NUL ∉ sign_chars neg ++ ds := by
  intro hmem
  rcases List.mem_append.1 hmem with h | h
  · cases neg
    · simp [sign_chars] at h
    · simp only [sign_chars, if_true, List.mem_singleton] at h
      revert h; decide
  · exact digit_ne_NUL NUL (List.all_eq_true.1 hd NUL h) rfl

theorem find_nul_token (pre tok rest : List Char) (h : NUL ∉ tok) :
    find_nul (pre ++ tok ++ NUL :: rest) pre.length = some (pre.length + tok.length) := by
  have e1 : (pre ++ tok ++ NUL :: rest).drop pre.length = tok ++ NUL :: rest := by
    rw [List.append_assoc]; exact List.drop_left _ _
  have e2 : (tok ++ NUL :: rest).indexOf NUL = tok.length := by
    rw [List.indexOf_append_of_not_mem h, List.indexOf_cons_self]; simp
  simp only [find_nul, e1, e2]
  have : pre.length + tok.length < (pre ++ tok ++ NUL :: rest).length := by
    simp only [List.length_append, List.length_cons]; omega
  simp [this]

theorem char_at_token (pre tok rest : List Char) :
    char_at (pre ++ tok ++ NUL :: rest) pre.length = Except.ok ((tok ++ [NUL]).headD NUL) := by
  have h : pre.length ≤ (pre ++ tok ++ NUL :: rest).length := by
    simp only [List.length_append]; omega
  simp only [char_at, h, if_true]
  congr 1
  rw [List.append_assoc, List.getD_eq_getElem?_getD, List.getElem?_append_right (Nat.le_refl _)]
  cases tok <;> simp

theorem head_token_dash (neg : Bool) (ds : List Char) (hd : ds.all isdigit = true) (hne : ds ≠ []) :
    ((sign_chars neg ++ ds ++ [NUL]).headD NUL = '-') ↔ neg = true := by
  cases neg with
  | true => simp [sign_chars]
  | false =>
    cases ds with
    | nil => exact absurd rfl hne
    | cons c cs =>
      simp only [List.all_cons, Bool.and_eq_true] at hd
      have hc := (isdigit_iff c).1 hd.1
      simp only [sign_chars, Bool.false_eq_true, if_false, List.nil_append, List.cons_append,
        List.headD_cons, iff_false]
      intro e; rw [e] at hc; revert hc; decide

theorem sign_chars_length (neg : Bool) : (sign_chars neg).length = if neg then 1 else 0 := by
  cases neg <;> rfl

end CRinexStreamBuf
end GPSTk

namespace GPSTk
namespace CRinexStreamBuf

theorem isdigit_head_NUL {r : List Char} : isdigit ((NUL :: r).headD NUL) = false := by
  simp only [List.headD_cons]; decide

theorem getdiff_value_short (pre rest ds : List Char) (neg : Bool) (y : data_format)
    (hd : ds.all isdigit = true) (hne : ds ≠ []) (hlen : ds.length < 6) :
    getdiff_value (pre ++ sign_chars neg ++ ds ++ NUL :: rest) pre.length y =
      Except.ok (pre ++ sign_chars neg ++ ds ++ NUL :: rest,
        pre.length + (sign_chars neg ++ ds).length + 1,
        { y with u := Function.update y.u 0 0,
                 l := Function.update y.l 0 (signed_value neg ds) }) := by
  have hline : pre ++ sign_chars neg ++ ds ++ NUL :: rest =
      pre ++ (sign_chars neg ++ ds) ++ NUL :: rest := by simp
  have hfind := find_nul_token pre (sign_chars neg ++ ds) rest (NUL_not_mem_token neg ds hd)
  have hchar := char_at_token pre (sign_chars neg ++ ds) rest
  have hdash := head_token_dash neg ds hd hne
  have hdrop : (pre ++ (sign_chars neg ++ ds) ++ NUL :: rest).drop pre.length =
      sign_chars neg ++ ds ++ NUL :: rest := by
    rw [List.append_assoc]; simp
  have hatol : atol (sign_chars neg ++ ds ++ NUL :: rest) = signed_value neg ds :=
    atol_token neg ds (NUL :: rest) hd hne isdigit_head_NUL
  rw [hline]
  simp only [getdiff_value, hfind, hchar, hdrop, hatol]
  have hcond : (if (sign_chars neg ++ ds ++ [NUL]).headD NUL = '-' then
      pre.length + (sign_chars neg ++ ds).length - pre.length - 1
      else pre.length + (sign_chars neg ++ ds).length - pre.length) < 6 := by
    simp only [hdash, List.length_append, sign_chars_length]
    cases neg <;> simp <;> omega
  simp only [hcond, if_true]

theorem getdiff_value_long (pre rest up lo : List Char) (neg : Bool) (y : data_format)
    (hu : up.all isdigit = true) (hl : lo.all isdigit = true) (hune : up ≠ [])
    (hlo : lo.length = 5) :
    ∃ line1, getdiff_value (pre ++ sign_chars neg ++ (up ++ lo) ++ NUL :: rest) pre.length y =
      Except.ok (line1,
        pre.length + (sign_chars neg ++ (up ++ lo)).length + 1,
        { y with u := Function.update y.u 0 (signed_value neg up),
                 l := Function.update y.l 0
                   (if signed_value neg up < 0 then -((decimal_value lo : Nat) : Int)
                    else ((decimal_value lo : Nat) : Int)) }) := by
  have hd : (up ++ lo).all isdigit = true := by simp [List.all_append, hu, hl]
  have hne : up ++ lo ≠ [] := by simp [hune]
  have hlone : lo ≠ [] := by intro e; rw [e] at hlo; cases hlo
  have hline : pre ++ sign_chars neg ++ (up ++ lo) ++ NUL :: rest =
      pre ++ (sign_chars neg ++ (up ++ lo)) ++ NUL :: rest := by simp
  have hfind := find_nul_token pre (sign_chars neg ++ (up ++ lo)) rest
    (NUL_not_mem_token neg (up ++ lo) hd)
  have hchar := char_at_token pre (sign_chars neg ++ (up ++ lo)) rest
  have hdash := head_token_dash neg (up ++ lo) hd hne
  have hup : 1 ≤ up.length := by
    cases up with
    | nil => exact absurd rfl hune
    | cons _ _ => simp
  -- the position `lowstart`
  have hlow : pre.length + (sign_chars neg ++ (up ++ lo)).length - 5 =
      (pre ++ sign_chars neg ++ up).length := by
    simp only [List.length_append, hlo]; omega
  have hsplit : pre ++ (sign_chars neg ++ (up ++ lo)) ++ NUL :: rest =
      (pre ++ sign_chars neg ++ up) ++ (lo ++ NUL :: rest) := by simp
  have hdroplow : (pre ++ (sign_chars neg ++ (up ++ lo)) ++ NUL :: rest).drop
      (pre ++ sign_chars neg ++ up).length = lo ++ NUL :: rest := by
    rw [hsplit]; exact List.drop_left _ _
  have hatol_lo : atol (lo ++ NUL :: rest) = ((decimal_value lo : Nat) : Int) := by
    have := atol_token false lo (NUL :: rest) hl hlone isdigit_head_NUL
    simpa [sign_chars, signed_value] using this
  obtain ⟨c, lo', hlo'⟩ : ∃ c lo', lo = c :: lo' := by
    cases lo with
    | nil => exact absurd rfl hlone
    | cons c lo' => exact ⟨c, lo', rfl⟩
  have hset : (pre ++ (sign_chars neg ++ (up ++ lo)) ++ NUL :: rest).set
      (pre ++ sign_chars neg ++ up).length NUL =
      pre ++ (sign_chars neg ++ up ++ (NUL :: lo' ++ NUL :: rest)) := by
    rw [hsplit, List.set_append_right _ _ (Nat.le_refl _), Nat.sub_self, hlo']
    simp
  have hdrop1 : (pre ++ (sign_chars neg ++ up ++ (NUL :: lo' ++ NUL :: rest))).drop pre.length =
      sign_chars neg ++ up ++ (NUL :: lo' ++ NUL :: rest) := List.drop_left _ _
  have hatol_up : atol (sign_chars neg ++ up ++ (NUL :: lo' ++ NUL :: rest)) =
      signed_value neg up :=
    atol_token neg up _ hu hune isdigit_head_NUL
  have hcond : ¬ ((if (sign_chars neg ++ (up ++ lo) ++ [NUL]).headD NUL = '-' then
      pre.length + (sign_chars neg ++ (up ++ lo)).length - pre.length - 1
      else pre.length + (sign_chars neg ++ (up ++ lo)).length - pre.length) < 6) := by
    simp only [hdash, List.length_append, sign_chars_length, hlo]
    cases neg <;> simp <;> omega
  refine ⟨pre ++ (sign_chars neg ++ up ++ (NUL :: lo' ++ NUL :: rest)), ?_⟩
  rw [hline]
  simp only [getdiff_value, hfind, hchar, hcond, if_false, hlow, hdroplow, hatol_lo, hset,
    hdrop1, hatol_up]

end CRinexStreamBuf
end GPSTk

namespace GPSTk
namespace CRinexStreamBuf

theorem getdiff_value_stored (pre rest ds : List Char) (neg : Bool) (y : data_format)
    (hd : ds.all isdigit = true) (hne : ds ≠ []) :
    ∃ line1 u0 l0,
      getdiff_value (pre ++ sign_chars neg ++ ds ++ NUL :: rest) pre.length y =
        Except.ok (line1, pre.length + (sign_chars neg ++ ds).length + 1,
          { y with u := Function.update y.u 0 u0, l := Function.update y.l 0 l0 }) ∧
      u0 * 100000 + l0 =
        (if neg = true ∧ 6 ≤ ds.length ∧ decimal_value (ds.take (ds.length - 5)) = 0 then
          ((decimal_value ds : Nat) : Int)
         else signed_value neg ds) ∧
      -100000 < l0 ∧ l0 < 100000 := by
  by_cases hlen : ds.length < 6
  · refine ⟨_, 0, signed_value neg ds, getdiff_value_short pre rest ds neg y hd hne hlen, ?_, ?_⟩
    · have : ¬ (neg = true ∧ 6 ≤ ds.length ∧ decimal_value (ds.take (ds.length - 5)) = 0) := by
        omega
      simp [this]
    · have h1 := decimal_value_lt ds hd
      have h2 : (10 : Nat) ^ ds.length ≤ 10 ^ 5 := Nat.pow_le_pow_right (by norm_num) (by omega)
      have h3 : decimal_value ds < 100000 := by omega
      cases neg <;> simp only [signed_value, if_true, Bool.false_eq_true, if_false] <;> omega
  · -- six digits or more: the low five digits are split off
    have hsplit : ds = ds.take (ds.length - 5) ++ ds.drop (ds.length - 5) :=
      (List.take_append_drop _ _).symm
    have hu : (ds.take (ds.length - 5)).all isdigit = true := by
      rw [List.all_eq_true] at hd ⊢
      intro c hc; exact hd c (List.mem_of_mem_take hc)
    have hl : (ds.drop (ds.length - 5)).all isdigit = true := by
      rw [List.all_eq_true] at hd ⊢
      intro c hc; exact hd c (List.mem_of_mem_drop hc)
    have hlo : (ds.drop (ds.length - 5)).length = 5 := by
      rw [List.length_drop]; omega
    have hune : ds.take (ds.length - 5) ≠ [] := by
      intro e
      have := congrArg List.length e
      rw [List.length_take] at this
      simp at this; omega
    obtain ⟨line1, h⟩ := getdiff_value_long pre rest _ _ neg y hu hl hune hlo
    rw [← hsplit] at h
    have hv : decimal_value ds = decimal_value (ds.take (ds.length - 5)) * 100000 +
        decimal_value (ds.drop (ds.length - 5)) := by
      conv_lhs => rw [hsplit]
      rw [decimal_value_append, hlo]
      norm_num
    have hlt := decimal_value_lt _ hl
    rw [hlo] at hlt
    norm_num at hlt
    refine ⟨line1, _, _, h, ?_, ?_⟩
    · have h6 : 6 ≤ ds.length := by omega
      cases neg with
      | false =>
        simp only [signed_value, Bool.false_eq_true, if_false, false_and]
        have : ¬ (((decimal_value (ds.take (ds.length - 5)) : Nat) : Int) < 0) := by omega
        simp only [this, if_false, hv]
        push_cast; ring
      | true =>
        simp only [signed_value, if_true, true_and, h6]
        by_cases hz : decimal_value (ds.take (ds.length - 5)) = 0
        · simp only [hz, if_true]
          simp [hv, hz]
        · have : (-((decimal_value (ds.take (ds.length - 5)) : Nat) : Int)) < 0 := by omega
          simp only [this, if_true, hz, if_false, hv]
          push_cast; ring
    · split <;> omega

end CRinexStreamBuf
end GPSTk

namespace GPSTk
namespace CRinexStreamBuf

/-! ## Decimal rendering (`%ld`) -/

theorem digitChar_digit (m : Nat) (h : m < 10) :
    isdigit (Nat.digitChar m) = true ∧ (Nat.digitChar m).toNat - 48 = m := by
  interval_cases m <;> exact ⟨by decide, by decide⟩

theorem toDigitsCore_spec :
    ∀ (fuel n : Nat) (acc : List Char), n < fuel →
      ∃ ds, Nat.toDigitsCore 10 fuel n acc = ds ++ acc ∧ ds.all isdigit = true ∧
        decimal_value ds = n ∧ ds ≠ [] ∧ ∀ k, 1 ≤ k → n < 10 ^ k → ds.length ≤ k := by
  intro fuel
  induction fuel with
  | zero => intro n acc h; omega
  | succ fuel ih =>
    intro n acc h
    have hd := digitChar_digit (n % 10) (Nat.mod_lt _ (by norm_num))
    rw [Nat.toDigitsCore]
    by_cases h0 : n / 10 = 0
    · refine ⟨[Nat.digitChar (n % 10)], by simp [h0], by simp [hd.1], ?_, by simp, ?_⟩
      · simp only [decimal_value, List.foldl_cons, List.foldl_nil, hd.2]; omega
      · intro k hk _; simpa using hk
    · have hlt : n / 10 < fuel := by omega
      obtain ⟨ds, h1, h2, h3, h4, h5⟩ := ih (n / 10) (Nat.digitChar (n % 10) :: acc) hlt
      refine ⟨ds ++ [Nat.digitChar (n % 10)], by simp [h0, h1], ?_, ?_, by simp, ?_⟩
      · simp [List.all_append, h2, hd.1]
      · rw [decimal_value_append, h3]
        simp only [decimal_value, List.foldl_cons, List.foldl_nil, hd.2, List.length_singleton]
        omega
      · intro k hk hn
        have hk2 : 2 ≤ k := by
          by_contra hc
          have : k = 1 := by omega
          subst this
          norm_num at hn; omega
        have : n / 10 < 10 ^ (k - 1) := by
          have e : 10 ^ k = 10 ^ (k - 1) * 10 := by
            rw [← pow_succ]; congr 1; omega
          rw [e] at hn
          exact Nat.div_lt_of_lt_mul (by omega)
        have := h5 (k - 1) (by omega) this
        simp only [List.length_append, List.length_singleton]; omega

theorem utoa_spec (n : Nat) :
    (utoa n).all isdigit = true ∧ decimal_value (utoa n) = n ∧ utoa n ≠ [] ∧
      ∀ k, 1 ≤ k → n < 10 ^ k → (utoa n).length ≤ k := by
  obtain ⟨ds, h1, h2, h3, h4, h5⟩ := toDigitsCore_spec (n + 1) n [] (Nat.lt_succ_self n)
  have e : utoa n = ds := by simp [utoa, Nat.toDigits, h1]
  rw [e]; exact ⟨h2, h3, h4, h5⟩

theorem fmt_ld_eq (z : Int) : fmt_ld z = sign_chars (decide (z < 0)) ++ utoa z.natAbs := by
  by_cases h : z < 0 <;> simp [fmt_ld, sign_chars, h]

theorem signed_value_utoa (z : Int) : signed_value (decide (z < 0)) (utoa z.natAbs) = z := by
  rw [signed_value, (utoa_spec z.natAbs).2.1]
  by_cases h : z < 0
  · simp only [h, decide_True, if_true]; omega
  · simp only [h, decide_False, Bool.false_eq_true, if_false]; omega

/-- The field of a canonical decimal token: `getdiff` stores its value, split. -/
theorem getdiff_value_fmt_ld (pre rest : List Char) (z : Int) (y : data_format) :
    ∃ line1 u0 l0,
      getdiff_value (pre ++ fmt_ld z ++ NUL :: rest) pre.length y =
        Except.ok (line1, pre.length + (fmt_ld z).length + 1,
          { y with u := Function.update y.u 0 u0, l := Function.update y.l 0 l0 }) ∧
      u0 * 100000 + l0 = z ∧ -100000 < l0 ∧ l0 < 100000 := by
  obtain ⟨hd, hv, hne, hlen⟩ := utoa_spec z.natAbs
  obtain ⟨line1, u0, l0, h1, h2, h3⟩ :=
    getdiff_value_stored pre rest (utoa z.natAbs) (decide (z < 0)) y hd hne
  refine ⟨line1, u0, l0, ?_, ?_, h3⟩
  · rw [fmt_ld_eq, ← List.append_assoc]; exact h1
  · rw [h2, signed_value_utoa]
    have hno : ¬ (decide (z < 0) = true ∧ 6 ≤ (utoa z.natAbs).length ∧
        decimal_value ((utoa z.natAbs).take ((utoa z.natAbs).length - 5)) = 0) := by
      rintro ⟨_, h6, hz⟩
      have hsplit : utoa z.natAbs = (utoa z.natAbs).take ((utoa z.natAbs).length - 5) ++
          (utoa z.natAbs).drop ((utoa z.natAbs).length - 5) := (List.take_append_drop _ _).symm
      have hl : ((utoa z.natAbs).drop ((utoa z.natAbs).length - 5)).all isdigit = true := by
        rw [List.all_eq_true] at hd ⊢
        intro c hc; exact hd c (List.mem_of_mem_drop hc)
      have hlo : ((utoa z.natAbs).drop ((utoa z.natAbs).length - 5)).length = 5 := by
        rw [List.length_drop]; omega
      have hlt := decimal_value_lt _ hl
      rw [hlo] at hlt
      have hval : decimal_value (utoa z.natAbs) < 10 ^ 5 := by
        rw [hsplit, decimal_value_append, hz]; simpa using hlt
      rw [hv] at hval
      have := hlen 5 (by norm_num) hval
      omega
    simp only [hno, if_false]

end CRinexStreamBuf
end GPSTk

namespace GPSTk
namespace CRinexStreamBuf

/-! ## `getdiff`: arc initialisation and inheritance -/

theorem fmt_ld_ne_nil (z : Int) : fmt_ld z ≠ [] := by
  rw [fmt_ld_eq]
  intro e
  have := (utoa_spec z.natAbs).2.2.1
  exact this (List.append_eq_nil.1 e).2

theorem fmt_ld_no_amp (z : Int) : ∀ c, c ∈ fmt_ld z ++ [NUL] → c ≠ '&' := by
  intro c hc
  rw [fmt_ld_eq] at hc
  rcases List.mem_append.1 hc with h | h
  · rcases List.mem_append.1 h with h | h
    · by_cases hz : z < 0
      · simp only [sign_chars, hz, decide_True, if_true, List.mem_singleton] at h
        rw [h]; decide
      · simp [sign_chars, hz] at h
    · have hd := List.all_eq_true.1 (utoa_spec z.natAbs).1 c h
      intro e; rw [e] at hd; revert hd; decide
  · simp only [List.mem_singleton] at h
    rw [h]; decide

theorem getdiff_arc_init (pre tail : List Char) (N : Nat) (hN : N ≤ 5) (sat_old : Int)
    (y0 y : data_format) :
    getdiff_arc (pre ++ Nat.digitChar N :: '&' :: tail) pre.length sat_old y0 y =
      Except.ok ({ y with order := -1, arc_order := (N : Int) }, pre.length + 2) := by
  have hd := digitChar_digit N (by omega)
  have hlen : pre.length + 1 ≤ (pre ++ Nat.digitChar N :: '&' :: tail).length := by
    simp only [List.length_append, List.length_cons]; omega
  have hget : (pre ++ Nat.digitChar N :: '&' :: tail).getD (pre.length + 1) NUL = '&' := by
    rw [List.getD_eq_getElem?_getD, List.getElem?_append_right (by omega)]
    simp
  have hdrop : (pre ++ Nat.digitChar N :: '&' :: tail).drop pre.length =
      Nat.digitChar N :: '&' :: tail := List.drop_left _ _
  have hatol : atol (Nat.digitChar N :: '&' :: tail) = (N : Int) := by
    have := atol_token false [Nat.digitChar N] ('&' :: tail) (by simp [hd.1]) (by simp)
      (by simp only [List.headD_cons]; decide)
    simp only [sign_chars, Bool.false_eq_true, if_false, List.nil_append, List.singleton_append,
      signed_value] at this
    rw [this]
    simp only [decimal_value, List.foldl_cons, List.foldl_nil, hd.2]
    simp
  have hle : ¬ ((N : Int) > MAX_DIFF_ORDER) := by
    simp only [MAX_DIFF_ORDER]; omega
  simp only [getdiff_arc, char_at, hlen, if_true, hget, hdrop, hatol, hle, if_false]

theorem getdiff_arc_next (pre rest : List Char) (z : Int) (sat_old : Int)
    (y0 y : data_format) (hs : 0 ≤ sat_old) (ha : 0 ≤ y0.arc_order) :
    getdiff_arc (pre ++ fmt_ld z ++ NUL :: rest) pre.length sat_old y0 y =
      Except.ok ({ y with order := y0.order, arc_order := y0.arc_order }, pre.length) := by
  have hne := fmt_ld_ne_nil z
  have hpos : 1 ≤ (fmt_ld z).length := by
    cases h : fmt_ld z with
    | nil => exact absurd h hne
    | cons _ _ => simp
  have hlen : pre.length + 1 ≤ (pre ++ fmt_ld z ++ NUL :: rest).length := by
    simp only [List.length_append, List.length_cons]; omega
  have hget : (pre ++ fmt_ld z ++ NUL :: rest).getD (pre.length + 1) NUL ≠ '&' := by
    apply fmt_ld_no_amp z
    have e : (pre ++ fmt_ld z ++ NUL :: rest).getD (pre.length + 1) NUL =
        (fmt_ld z ++ [NUL]).getD 1 NUL := by
      rw [List.append_assoc, List.getD_eq_getElem?_getD, List.getD_eq_getElem?_getD,
        List.getElem?_append_right (by omega)]
      have e1 : pre.length + 1 - pre.length = 1 := by omega
      rw [e1]
      have e2 : fmt_ld z ++ NUL :: rest = (fmt_ld z ++ [NUL]) ++ rest := by simp
      rw [e2, List.getElem?_append_left (by simp; omega)]
    rw [e, List.getD_eq_getElem?_getD]
    have h1 : 1 < (fmt_ld z ++ [NUL]).length := by simp; omega
    rw [List.getElem?_eq_getElem h1]
    exact List.getElem_mem _
  have hs' : ¬ sat_old < 0 := by omega
  have ha' : ¬ y0.arc_order < 0 := by omega
  simp only [getdiff_arc, char_at, hlen, if_true, hget, if_false, hs', ha']

theorem getdiff_field_init (pre rest : List Char) (N : Nat) (hN : N ≤ 5) (z : Int)
    (sat_old : Int) (y0 y : data_format) :
    ∃ line1 fb u0 l0,
      getdiff_field (pre ++ (Nat.digitChar N :: '&' :: fmt_ld z) ++ NUL :: rest) pre.length
        sat_old y0 y =
        Except.ok (line1, fb,
          { y with order := -1, arc_order := (N : Int), u := Function.update y.u 0 u0,
                   l := Function.update y.l 0 l0 }) ∧
      u0 * 100000 + l0 = z ∧ -100000 < l0 ∧ l0 < 100000 := by
  have e1 : pre ++ (Nat.digitChar N :: '&' :: fmt_ld z) ++ NUL :: rest =
      pre ++ Nat.digitChar N :: '&' :: (fmt_ld z ++ NUL :: rest) := by simp
  have e2 : pre ++ (Nat.digitChar N :: '&' :: fmt_ld z) ++ NUL :: rest =
      (pre ++ [Nat.digitChar N, '&']) ++ fmt_ld z ++ NUL :: rest := by simp
  have e3 : pre.length + 2 = (pre ++ [Nat.digitChar N, '&']).length := by simp
  obtain ⟨line1, u0, l0, h1, h2, h3⟩ :=
    getdiff_value_fmt_ld (pre ++ [Nat.digitChar N, '&']) rest z
      { y with order := -1, arc_order := (N : Int) }
  refine ⟨line1, (pre ++ [Nat.digitChar N, '&']).length + (fmt_ld z).length + 1, u0, l0, ?_,
    h2, h3⟩
  rw [getdiff_field, e1, getdiff_arc_init pre _ N hN sat_old y0 y, ← e1, e2]
  simp only [e3]
  exact h1

theorem getdiff_field_next (pre rest : List Char) (z : Int) (sat_old : Int)
    (y0 y : data_format) (hs : 0 ≤ sat_old) (ha : 0 ≤ y0.arc_order) :
    ∃ line1 fb u0 l0,
      getdiff_field (pre ++ fmt_ld z ++ NUL :: rest) pre.length sat_old y0 y =
        Except.ok (line1, fb,
          { y with order := y0.order, arc_order := y0.arc_order,
                   u := Function.update y.u 0 u0, l := Function.update y.l 0 l0 }) ∧
      u0 * 100000 + l0 = z ∧ -100000 < l0 ∧ l0 < 100000 := by
  obtain ⟨line1, u0, l0, h1, h2, h3⟩ :=
    getdiff_value_fmt_ld pre rest z { y with order := y0.order, arc_order := y0.arc_order }
  refine ⟨line1, pre.length + (fmt_ld z).length + 1, u0, l0, ?_, h2, h3⟩
  rw [getdiff_field, getdiff_arc_next pre rest z sat_old y0 y hs ha]
  exact h1

end CRinexStreamBuf
end GPSTk

namespace GPSTk
namespace CRinexStreamBuf

/-! ## `write_data`: recovery of the value from the differences -/

theorem tmod_bounds (a : Int) : -100000 < a.tmod 100000 ∧ a.tmod 100000 < 100000 := by
  have h1 := Int.tmod_lt_of_pos a (show (0 : Int) < 100000 by norm_num)
  have h2 := Int.tmod_lt_of_pos (-a) (show (0 : Int) < 100000 by norm_num)
  have h3 := Int.tmod_def a 100000
  have h4 := Int.tmod_def (-a) 100000
  have h5 : (-a).tdiv 100000 = -(a.tdiv 100000) := Int.neg_tdiv a 100000
  rw [h5] at h4
  constructor <;> omega

theorem carry_value (u l : Int) :
    (u + l.tdiv 100000) * 100000 + l.tmod 100000 = u * 100000 + l := by
  have := Int.tdiv_add_tmod l 100000
  linarith

theorem recover_loop_spec (y0 : data_format) (sh : Nat) :
    ∀ (n k : Nat) (y : data_format),
      (recover_loop y0 sh n k y).order = y.order ∧
      (recover_loop y0 sh n k y).arc_order = y.arc_order ∧
      (∀ i, i ≤ k → (recover_loop y0 sh n k y).u i = y.u i ∧
        (recover_loop y0 sh n k y).l i = y.l i) ∧
      (∀ i, k ≤ i → i < k + n →
        cell_value (recover_loop y0 sh n k y) (i + 1) =
          cell_value (recover_loop y0 sh n k y) i + cell_value y0 (i + sh)) ∧
      (∀ i, k < i → i ≤ k + n → -100000 < (recover_loop y0 sh n k y).l i ∧
        (recover_loop y0 sh n k y).l i < 100000) := by
  intro n
  induction n with
  | zero =>
    intro k y
    refine ⟨rfl, rfl, fun i _ => ⟨rfl, rfl⟩, ?_, ?_⟩
    · intro i h1 h2; omega
    · intro i h1 h2; omega
  | succ n ih =>
    intro k y
    rw [recover_loop]
    obtain ⟨h1, h2, h3, h4, h5⟩ := ih (k + 1)
      { y with u := Function.update y.u (k + 1) (y.u k + y0.u (k + sh) + (y.l k + y0.l (k + sh)).tdiv 100000), l := Function.update y.l (k + 1) ((y.l k + y0.l (k + sh)).tmod 100000) }
    refine ⟨h1, h2, ?_, ?_, ?_⟩
    · intro i hi
      have := h3 i (by omega)
      have hne : i ≠ k + 1 := by omega
      simp only [Function.update_noteq hne] at this
      exact this
    · intro i hi1 hi2
      by_cases hik : i = k
      · subst hik
        have ha := h3 (i + 1) (Nat.le_refl _)
        have hb := h3 i (by omega)
        have hne : i ≠ i + 1 := by omega
        simp only [Function.update_same, Function.update_noteq hne] at ha hb
        simp only [cell_value, ha.1, ha.2, hb.1, hb.2]
        rw [carry_value]; ring
      · exact h4 i (by omega) (by omega)
    · intro i hi1 hi2
      by_cases hik : i = k + 1
      · subst hik
        have ha := h3 (k + 1) (Nat.le_refl _)
        simp only [Function.update_same] at ha
        rw [ha.2]
        exact tmod_bounds _
      · exact h5 i (by omega) (by omega)

theorem adjust_sign_spec (u l : Int) (hl : -100000 < l ∧ l < 100000) :
    (adjust_sign 100000 u l).1 * 100000 + (adjust_sign 100000 u l).2 = u * 100000 + l ∧
    ((adjust_sign 100000 u l).1 > 0 → (adjust_sign 100000 u l).2 ≥ 0) ∧
    ((adjust_sign 100000 u l).1 < 0 → (adjust_sign 100000 u l).2 ≤ 0) := by
  unfold adjust_sign
  by_cases h1 : u < 0 ∧ l > 0
  · simp only [h1, and_self, if_true]
    refine ⟨by ring, ?_, ?_⟩ <;> intro _ <;> omega
  · by_cases h2 : u > 0 ∧ l < 0
    · simp only [h1, h2, and_self, if_true, if_false]
      refine ⟨by ring, ?_, ?_⟩ <;> intro _ <;> omega
    · simp only [h1, h2, if_false]
      refine ⟨trivial, ?_, ?_⟩ <;> intro _ <;> omega

/-- `putfield` on a cell whose value is in the range that fits the output field: it does
not raise, and it leaves the value of the cell as it is. -/
theorem putfield_in_range (y : data_format) (f0 f1 : Char)
    (hl : -100000 < y.l y.order.toNat ∧ y.l y.order.toNat < 100000)
    (hv : -1000000000000 < cell_value y y.order.toNat ∧
      cell_value y y.order.toNat < 10000000000000) :
    ∃ y1 text, putfield y f0 f1 = Except.ok (y1, text) ∧ y1.order = y.order ∧
      y1.arc_order = y.arc_order ∧
      cell_value y1 y.order.toNat = cell_value y y.order.toNat ∧
      ∀ k, k ≠ y.order.toNat → y1.u k = y.u k ∧ y1.l k = y.l k := by
  obtain ⟨h1, h2, h3⟩ := adjust_sign_spec (y.u y.order.toNat) (y.l y.order.toNat) hl
  have hframe : ∀ (a b : Int) (k : Nat), k ≠ y.order.toNat →
      Function.update y.u y.order.toNat a k = y.u k ∧
      Function.update y.l y.order.toNat b k = y.l k :=
    fun a b k hk => ⟨Function.update_noteq hk _ _, Function.update_noteq hk _ _⟩
  simp only [cell_value] at hv
  by_cases hz : (adjust_sign 100000 (y.u y.order.toNat) (y.l y.order.toNat)).1 ≠ 0
  · have hr : ¬ ((adjust_sign 100000 (y.u y.order.toNat) (y.l y.order.toNat)).1 > 99999999 ∨
        (adjust_sign 100000 (y.u y.order.toNat) (y.l y.order.toNat)).1 < -9999999) := by
      intro hor
      rcases hor with h | h
      · have := h2 (by omega); omega
      · have := h3 (by omega); omega
    obtain ⟨text, ht⟩ : ∃ text, putfield y f0 f1 = Except.ok
        ({ y with u := Function.update y.u y.order.toNat (adjust_sign 100000 (y.u y.order.toNat) (y.l y.order.toNat)).1, l := Function.update y.l y.order.toNat (adjust_sign 100000 (y.u y.order.toNat) (y.l y.order.toNat)).2 }, text) := by
      simp only [putfield, hz, hr, if_true, if_false, ne_eq, not_false_eq_true]
      exact ⟨_, rfl⟩
    refine ⟨_, text, ht, rfl, rfl, ?_, hframe _ _⟩
    simp only [cell_value, Function.update_same]; exact h1
  · obtain ⟨text, ht⟩ : ∃ text, putfield y f0 f1 = Except.ok
        ({ y with u := Function.update y.u y.order.toNat (adjust_sign 100000 (y.u y.order.toNat) (y.l y.order.toNat)).1, l := Function.update y.l y.order.toNat (adjust_sign 100000 (y.u y.order.toNat) (y.l y.order.toNat)).2 }, text) := by
      simp only [putfield, hz, if_false]
      exact ⟨_, rfl⟩
    refine ⟨_, text, ht, rfl, rfl, ?_, hframe _ _⟩
    simp only [cell_value, Function.update_same]; exact h1

end CRinexStreamBuf
end GPSTk

namespace GPSTk
namespace CRinexStreamBuf

/-! ## One observation slot over the epochs of an arc -/

theorem bdiff_succ (y : Nat → Int) (k t : Nat) :
    bdiff y (k + 1) (t + 1) + bdiff y k t = bdiff y k (t + 1) := by
  rw [bdiff]; simp

theorem putfield_recover_loop (prev : data_format) (sh n : Nat) (y2 : data_format)
    (f0 f1 : Char) (D : Nat → Int) (hord : y2.order = (n : Int))
    (hl0 : -100000 < y2.l 0 ∧ y2.l 0 < 100000) (h0 : cell_value y2 0 = D 0)
    (hstep : ∀ i, i < n → D (i + 1) = D i + cell_value prev (i + sh))
    (hrange : -1000000000000 < D n ∧ D n < 10000000000000) :
    ∃ c text, putfield (recover_loop prev sh n 0 y2) f0 f1 = Except.ok (c, text) ∧
      c.order = (n : Int) ∧ c.arc_order = y2.arc_order ∧ ∀ k, k ≤ n → cell_value c k = D k := by
  obtain ⟨r1, r2, r3, r4, r5⟩ := recover_loop_spec prev sh n 0 y2
  have hcells : ∀ k, k ≤ n → cell_value (recover_loop prev sh n 0 y2) k = D k := by
    intro k
    induction k with
    | zero =>
      intro _
      have := r3 0 (Nat.le_refl _)
      simp only [cell_value] at h0 ⊢
      rw [this.1, this.2]; exact h0
    | succ k ih =>
      intro hk
      rw [r4 k (Nat.zero_le _) (by omega), ih (by omega), hstep k (by omega)]
  have hto : (recover_loop prev sh n 0 y2).order.toNat = n := by
    rw [r1, hord]; exact Int.toNat_natCast n
  have hl : -100000 < (recover_loop prev sh n 0 y2).l (recover_loop prev sh n 0 y2).order.toNat ∧
      (recover_loop prev sh n 0 y2).l (recover_loop prev sh n 0 y2).order.toNat < 100000 := by
    rw [hto]
    by_cases hn : n = 0
    · subst hn
      rw [(r3 0 (Nat.le_refl _)).2]; exact hl0
    · exact r5 n (by omega) (by omega)
  have hv : -1000000000000 <
        cell_value (recover_loop prev sh n 0 y2) (recover_loop prev sh n 0 y2).order.toNat ∧
      cell_value (recover_loop prev sh n 0 y2) (recover_loop prev sh n 0 y2).order.toNat <
        10000000000000 := by
    rw [hto, hcells n (Nat.le_refl _)]; exact hrange
  obtain ⟨c, text, hc, ho, ha, hval, hfr⟩ := putfield_in_range _ f0 f1 hl hv
  refine ⟨c, text, hc, ?_, ?_, ?_⟩
  · rw [ho, r1, hord]
  · rw [ha, r2]
  · intro k hk
    by_cases hkn : k = n
    · subst hkn
      rw [hto] at hval
      rw [hval]; exact hcells k hk
    · have := hfr k (by rw [hto]; exact hkn)
      simp only [cell_value] at hcells ⊢
      rw [this.1, this.2]; exact hcells k hk

theorem obs_epoch_init (N : Nat) (hN : N ≤ 5) (y : Nat → Int) (pre rest : List Char)
    (sat_old : Int) (p0 stale : data_format) (f0 f1 : Char)
    (hrange : -1000000000000 < y 0 ∧ y 0 < 10000000000000) :
    ∃ c text, obs_epoch (pre ++ obs_token N y 0 ++ NUL :: rest) pre.length sat_old p0 stale
        f0 f1 = Except.ok (c, text) ∧ cell_inv N y 0 c := by
  obtain ⟨line1, fb, u0, l0, hg, hz, hl⟩ :=
    getdiff_field_init pre rest N hN (y 0) sat_old p0 stale
  have hlt : ((-1 : Int) < (N : Int)) := by omega
  obtain ⟨c, text, hc, ho, ha, hcells⟩ :=
    putfield_recover_loop p0 0 0
      { stale with order := 0, arc_order := (N : Int), u := Function.update stale.u 0 u0, l := Function.update stale.l 0 l0 }
      f0 f1 (fun _ => y 0) rfl (by simpa using hl) (by simpa [cell_value] using hz)
      (fun i hi => absurd hi (Nat.not_lt_zero i)) hrange
  refine ⟨c, text, ?_, ?_, ?_, ?_⟩
  · simp only [obs_epoch, obs_token, if_true, hg, write_value, recover, hlt]
    exact hc
  · rw [ho]; simp
  · rw [ha]
  · intro k hk
    have hk0 : k = 0 := by simpa using hk
    subst hk0
    rw [hcells 0 (Nat.le_refl _)]
    simp [bdiff]

theorem obs_epoch_next (N : Nat) (y : Nat → Int) (t : Nat) (pre rest : List Char)
    (sat_old : Int) (prev stale : data_format) (f0 f1 : Char) (hs : 0 ≤ sat_old)
    (hinv : cell_inv N y t prev)
    (hrange : -1000000000000 < y (t + 1) ∧ y (t + 1) < 10000000000000) :
    ∃ c text, obs_epoch (pre ++ obs_token N y (t + 1) ++ NUL :: rest) pre.length sat_old prev
        stale f0 f1 = Except.ok (c, text) ∧ cell_inv N y (t + 1) c := by
  obtain ⟨ho, ha, hcells⟩ := hinv
  obtain ⟨line1, fb, u0, l0, hg, hz, hl⟩ :=
    getdiff_field_next pre rest (bdiff y (min (t + 1) N) (t + 1)) sat_old prev stale hs
      (by rw [ha]; exact Int.natCast_nonneg N)
  have htok : obs_token N y (t + 1) = fmt_ld (bdiff y (min (t + 1) N) (t + 1)) := by
    simp [obs_token]
  by_cases htN : t < N
  · have hmin : min t N = t := Nat.min_eq_left (by omega)
    have hmin1 : min (t + 1) N = t + 1 := Nat.min_eq_left (by omega)
    rw [hmin] at ho hcells
    rw [hmin1] at hz
    have hlt : prev.order < prev.arc_order := by rw [ho, ha]; exact_mod_cast htN
    obtain ⟨c, text, hc, hco, hca, hcc⟩ :=
      putfield_recover_loop prev 0 (t + 1)
        { stale with order := prev.order + 1, arc_order := prev.arc_order, u := Function.update stale.u 0 u0, l := Function.update stale.l 0 l0 }
        f0 f1 (fun k => bdiff y (t + 1 - k) (t + 1)) (by simp [ho])
        (by simpa using hl) (by simpa [cell_value] using hz)
        (by
          intro i hi
          show bdiff y (t + 1 - (i + 1)) (t + 1) = bdiff y (t + 1 - i) (t + 1) + cell_value prev (i + 0)
          rw [show i + 0 = i from rfl, hcells i (by omega)]
          have e1 : t + 1 - (i + 1) = t - i := by omega
          have e2 : t + 1 - i = (t - i) + 1 := by omega
          rw [e1, e2, bdiff_succ])
        (by simpa using hrange)
    have hto : (prev.order + 1).toNat = t + 1 := by rw [ho]; exact Int.toNat_natCast (t + 1)
    refine ⟨c, text, ?_, ?_, ?_, ?_⟩
    · simp only [obs_epoch, htok, hg, write_value, recover, hlt, if_true, hto]
      exact hc
    · rw [hco, hmin1]
    · rw [hca, ha]
    · rw [hmin1]; exact hcc
  · have hmin : min t N = N := Nat.min_eq_right (by omega)
    have hmin1 : min (t + 1) N = N := Nat.min_eq_right (by omega)
    rw [hmin] at ho hcells
    rw [hmin1] at hz
    have hlt : ¬ prev.order < prev.arc_order := by rw [ho, ha]; omega
    obtain ⟨c, text, hc, hco, hca, hcc⟩ :=
      putfield_recover_loop prev 1 N
        { stale with order := prev.order, arc_order := prev.arc_order, u := Function.update stale.u 0 u0, l := Function.update stale.l 0 l0 }
        f0 f1 (fun k => bdiff y (N - k) (t + 1)) ho
        (by simpa using hl) (by simpa [cell_value] using hz)
        (by
          intro i hi
          show bdiff y (N - (i + 1)) (t + 1) = bdiff y (N - i) (t + 1) + cell_value prev (i + 1)
          rw [hcells (i + 1) (by omega)]
          have e2 : N - i = (N - (i + 1)) + 1 := by omega
          rw [e2, bdiff_succ])
        (by simpa using hrange)
    have hto : prev.order.toNat = N := by rw [ho]; exact Int.toNat_natCast N
    refine ⟨c, text, ?_, ?_, ?_, ?_⟩
    · simp only [obs_epoch, htok, hg, write_value, recover, hlt, if_false, hto]
      exact hc
    · rw [hco, hmin1]
    · rw [hca, ha]
    · rw [hmin1]; exact hcc

theorem obs_run_inv (N : Nat) (hN : N ≤ 5) (y : Nat → Int) (ctx : Nat → SlotCtx)
    (p0 : data_format) (hs : ∀ t, 1 ≤ t → 0 ≤ (ctx t).sat_old) :
    ∀ T, (∀ t, t ≤ T → -1000000000000 < y t ∧ y t < 10000000000000) →
      ∃ c, obs_run N y ctx p0 T = Except.ok c ∧ cell_inv N y T c := by
  intro T
  induction T with
  | zero =>
    intro hr
    obtain ⟨c, text, hc, hi⟩ := obs_epoch_init N hN y (ctx 0).pre (ctx 0).rest (ctx 0).sat_old
      p0 (ctx 0).stale (ctx 0).f0 (ctx 0).f1 (hr 0 (Nat.le_refl _))
    exact ⟨c, by simp only [obs_run, hc], hi⟩
  | succ T ih =>
    intro hr
    obtain ⟨prev, hp, hi⟩ := ih (fun t ht => hr t (by omega))
    obtain ⟨c, text, hc, hi1⟩ := obs_epoch_next N y T (ctx (T + 1)).pre (ctx (T + 1)).rest
      (ctx (T + 1)).sat_old prev (ctx (T + 1)).stale (ctx (T + 1)).f0 (ctx (T + 1)).f1
      (hs (T + 1) (by omega)) hi (hr (T + 1) (Nat.le_refl _))
    exact ⟨c, by simp only [obs_run, hp, hc], hi1⟩

theorem cell_inv_value (N : Nat) (y : Nat → Int) (t : Nat) (c : data_format)
    (h : cell_inv N y t c) : obs_value c = y t := by
  obtain ⟨ho, _, hc⟩ := h
  have := hc (min t N) (Nat.le_refl _)
  simp only [cell_value, Nat.sub_self, bdiff] at this
  simp only [obs_value, ho, Int.toNat_natCast]
  exact this

end CRinexStreamBuf
end GPSTk

namespace GPSTk
namespace CRinexStreamBuf

/-- C4 (counterexample): the claim as stated, for every integer sequence, fails at the
one-epoch sequence `y_0 = 10^13` of an arc of order 0: the slot receives the token
`0&10000000000000`, `getdiff` stores it, and `write_data` does not deliver a value but
raises "Data record out of range" in `putfield`. -/
theorem obs_round_trip_out_of_range :
    obs_token 0 (fun _ => 10000000000000) 0 = "0&10000000000000".toList ∧
    obs_run 0 (fun _ => 10000000000000) (fun _ => SlotCtx.blank) data_format.zero 0 =
      Except.error (Err.raised "Data record out of range") := by
  constructor
  · decide
  · rfl

/-- C4 (amended): CRINEX difference round trip for observations. For every arc order `N`
in 0..5 and every integer sequence `y_0..y_T` whose values are in the range that `putfield`
prints (`-10^12 < y_t < 10^13`), if one slot that stays present (its satellite is found in
the previous epoch at every epoch `t >= 1`) receives the token `N&y_0` at epoch 0 and at
each epoch `t >= 1` the decimal token of the backward difference of order `min t N` of `y`
at `t`, then at every epoch `t <= T` `getdiff` followed by `write_data` does not raise and
the value reconstructed, `u[order] * 10^5 + l[order]`, equals `y_t`. -/
theorem obs_round_trip (N : Nat) (hN : N ≤ 5) (y : Nat → Int) (ctx : Nat → SlotCtx)
    (p0 : data_format) (T : Nat) (hs : ∀ t, 1 ≤ t → 0 ≤ (ctx t).sat_old)
    (hr : ∀ t, t ≤ T → -1000000000000 < y t ∧ y t < 10000000000000) :
    ∀ t, t ≤ T → ∃ c, obs_run N y ctx p0 t = Except.ok c ∧ obs_value c = y t := by
  intro t ht
  obtain ⟨c, hc, hi⟩ := obs_run_inv N hN y ctx p0 hs t (fun s hs' => hr s (by omega))
  exact ⟨c, hc, cell_inv_value N y t c hi⟩

/-- C4 (witness): the tokens `2&100000`, `50000`, `0` are the tokens of the sequence
100000, 150000, 200000 for an arc of order 2, and the values reconstructed at the three
epochs are 100000, 150000, 200000. -/
theorem obs_round_trip_witness :
    obs_token 2 y_ramp 0 = "2&100000".toList ∧ obs_token 2 y_ramp 1 = "50000".toList ∧
    obs_token 2 y_ramp 2 = "0".toList ∧
    (∀ t, t ≤ 2 → -1000000000000 < y_ramp t ∧ y_ramp t < 10000000000000) ∧
    ∀ t, t ≤ 2 → ∃ c, obs_run 2 y_ramp (fun _ => SlotCtx.blank) data_format.zero t =
      Except.ok c ∧ obs_value c = y_ramp t :=
  have hr : ∀ t, t ≤ 2 → -1000000000000 < y_ramp t ∧ y_ramp t < 10000000000000 := by
    intro t ht
    simp only [y_ramp]
    constructor <;> omega
  ⟨by decide, by decide, by decide, hr,
    obs_round_trip 2 (by decide) y_ramp (fun _ => SlotCtx.blank) data_format.zero 2
      (fun _ _ => Int.le_refl 0) hr⟩

end CRinexStreamBuf
end GPSTk

namespace GPSTk
namespace CRinexStreamBuf

/-! ## The clock offset -/

theorem read_clock_init_100 (clk : data_format) :
    read_clock "1&100".toList clk = Except.ok ("1&100".toList,
      { clk with arc_order := 1, order := -1, u := Function.update clk.u 0 0, l := Function.update clk.l 0 100 }) := by
  rfl

theorem read_clock_next_50 (clk : data_format) :
    read_clock "50".toList clk = Except.ok ("50".toList,
      { clk with u := Function.update clk.u 0 0, l := Function.update clk.l 0 50 }) := by
  rfl

/-- C5 (the code at the failing input): an arc of order 1 for the clock values
`c_0 = 100`, `c_1 = 150` is the pair of clock lines `1&100`, `50`. Whatever `crx.clk1`
holds before, both lines are accepted, and the value printed at epoch 1,
`clk1.u[order] * 10^8 + clk1.l[order]`, is 50 plus the stale content of cell 1 of `clk1`
(`u[1] * 10^8 + l[1]` as it was before epoch 0), not `50 + c_0 = 150`: `process_clock`
picks the index `k` after it has raised `order`, so at the epoch where `order` reaches
`arc_order` it adds `oldclk.u[1]`, `oldclk.l[1]` where `write_data` adds cell 0. -/
theorem process_clock_first_order (clk : data_format) :
    ∃ c0 c1, clock_line "1&100".toList clk = Except.ok c0 ∧
      clock_line "50".toList c0 = Except.ok c1 ∧ clock_value c0 = 100 ∧
      clock_value c1 = 50 + (clk.u 1 * 100000000 + clk.l 1) := by
  have hh1 : ("1&100".toList.headD NUL ≠ NUL) = True := by decide
  have hh2 : ("50".toList.headD NUL ≠ NUL) = True := by decide
  have e0 : clock_line "1&100".toList clk = Except.ok
      { clk with arc_order := 1, order := 0, u := Function.update clk.u 0 0, l := Function.update clk.l 0 100 } := by
    simp only [clock_line, read_clock_init_100, hh1, if_true, process_clock]
    rfl
  refine ⟨_, _, e0, rfl, ?_, ?_⟩
  · simp [clock_value]
  · simp only [clock_line, read_clock_next_50, hh2, if_true, process_clock, clock_value]
    have ha : atol [ '5', '0' ] = 50 := by decide
    simp [process_clock_loop, ha]
    have := Int.tdiv_add_tmod (50 + clk.l 1) 100000000
    omega

end CRinexStreamBuf
end GPSTk

namespace GPSTk
namespace CRinexStreamBuf

/-- C6 (the code at the failing input): a clock line of nine to fifteen characters that
is a plain number (no arc prefix, no sign), such as `123456789`, takes the branch of nine
digits or more; there `len -= 8` is followed by the index `len - 8`, which is
`instr.length() - 16` and wraps around in `size_t`: `read_clock` indexes outside the line
and stores no value. -/
theorem read_clock_index_wraps (instr : List Char) (clk : data_format)
    (h1 : 9 ≤ instr.length) (h2 : instr.length < 16) (h3 : instr.getD 1 NUL ≠ '&')
    (h4 : instr.getD 0 NUL ≠ '-') :
    read_clock instr clk = Except.error Err.outOfBounds := by
  have hl : ¬ instr.length = 0 := by omega
  have ha : (1 ≤ instr.length) = True := by simp; omega
  have hb : (0 ≤ instr.length) = True := by simp
  have hc : ¬ (instr.length - 0 < 9) := by omega
  have hd : (instr.length - 8 < 8) = True := by simp; omega
  simp only [read_clock, hl, if_false, read_clock_arc, char_at, ha, hb, if_true, h3, h4,
    read_clock_value, hc, hd]

/-- C6 (witness): the clock line `123456789`. -/
theorem read_clock_index_wraps_witness :
    read_clock "123456789".toList data_format.zero = Except.error Err.outOfBounds :=
  read_clock_index_wraps "123456789".toList data_format.zero (by decide) (by decide)
    (by decide) (by decide)

set_option maxRecDepth 1000000 in
/-- C7 (the code at the failing input): the difference line `0&-012345` of a satellite
with one observation type. The token is an arc prefix, a `-` and six digits that denote
-12345; `getdiff` takes the branch of six digits or more, reads the low part 12345, then
the high part `atol("-0") = 0`, and since the high part is not negative it leaves the low
part positive: it stores `u[0] = 0`, `l[0] = 12345`, that is +12345. -/
theorem getdiff_drops_sign :
    (getdiff (body_decoder crx_one_type "0&-012345\n".toList) 0).toOption.map
      (fun r => ((r.1.crx.dy1 0 0).arc_order, (r.1.crx.dy1 0 0).u 0, (r.1.crx.dy1 0 0).l 0)) =
      some (0, 0, 12345) := by
  rfl

end CRinexStreamBuf
end GPSTk

namespace GPSTk
namespace CRinexStreamBuf

/-! ## `set_sat_table` -/

theorem find_prev_spec (id : List Char) (p_old : Nat → Char) (cur : Int) :
    ∀ (n j : Nat),
      (∃ j1, j ≤ j1 ∧ j1 < j + n ∧ find_prev id p_old n j cur = (j1 : Int) ∧
          strncmp_eq NUL 3 id (old_id p_old j1) = true ∧
          ∀ j', j ≤ j' → j' < j1 → strncmp_eq NUL 3 id (old_id p_old j') = false) ∨
      (find_prev id p_old n j cur = cur ∧
          ∀ j', j ≤ j' → j' < j + n → strncmp_eq NUL 3 id (old_id p_old j') = false) := by
  intro n
  induction n with
  | zero =>
    intro j
    right
    refine ⟨rfl, ?_⟩
    intro j' h1 h2; omega
  | succ n ih =>
    intro j
    rw [find_prev]
    by_cases hm : strncmp_eq NUL 3 id (old_id p_old j) = true
    · left
      refine ⟨j, Nat.le_refl _, by omega, ?_, hm, ?_⟩
      · simp only [old_id] at hm; simp [hm]
      · intro j' h1 h2; omega
    · have hm' : strncmp_eq NUL 3 id (old_id p_old j) = false := by simpa using hm
      have hm2 : strncmp_eq NUL 3 id [p_old (3 * j), p_old (3 * j + 1), p_old (3 * j + 2)] = false := hm'
      simp only [hm2, Bool.false_eq_true, if_false]
      rcases ih (j + 1) with ⟨j1, h1, h2, h3, h4, h5⟩ | ⟨h3, h5⟩
      · left
        refine ⟨j1, by omega, by omega, h3, h4, ?_⟩
        intro j' ha hb
        by_cases hj : j' = j
        · subst hj; exact hm'
        · exact h5 j' (by omega) hb
      · right
        refine ⟨h3, ?_⟩
        intro j' ha hb
        by_cases hj : j' = j
        · subst hj; exact hm'
        · exact h5 j' (by omega) (by omega)

theorem find_prev_first_match (id : List Char) (p_old : Nat → Char) (nsat1 : Nat) :
    first_match id p_old nsat1 (find_prev id p_old nsat1 0 (-1)) := by
  rcases find_prev_spec id p_old (-1) nsat1 0 with ⟨j1, _, h2, h3, h4, h5⟩ | ⟨h3, h5⟩
  · left
    exact ⟨j1, by omega, h3, h4, fun j' hj => h5 j' (Nat.zero_le _) hj⟩
  · right
    exact ⟨h3, fun j hj => h5 j (Nat.zero_le _) (by omega)⟩

theorem set_sattbl_spec (eb : List Char) :
    ∀ (is : List Nat) (crx : Crx), (∀ i, i ∈ is → crx.p_satlst + 3 * i ≤ eb.length) →
      set_sattbl eb crx is = Except.ok { crx with sattbl := sattbl_after eb crx is } := by
  intro is
  induction is with
  | nil => intro crx _; rfl
  | cons i is ih =>
    intro crx h
    have hi : crx.p_satlst + 3 * i ≤ eb.length := h i (List.mem_cons_self _ _)
    simp only [set_sattbl, ptr_at, hi, if_true, bind, Except.bind]
    rw [ih { crx with sattbl := Function.update crx.sattbl i (find_prev (List.drop (crx.p_satlst + 3 * i) eb) crx.sat_lst_old crx.nsat1.toNat 0 (-1)) }
      (fun k hk => h k (List.mem_cons_of_mem _ hk))]
    congr 2
    funext k
    simp only [sattbl_after]
    by_cases hk : k = i
    · subst hk
      by_cases hk2 : k ∈ is <;> simp [hk2]
    · by_cases hk2 : k ∈ is
      · simp [hk, hk2]
      · simp [hk, hk2, Function.update_noteq hk]

theorem set_ntype_record2_spec :
    ∀ (is : List Nat) (crx : Crx),
      ∃ g, set_ntype_record2 crx is = { crx with ntype_record := g } := by
  intro is
  induction is with
  | nil => intro crx; exact ⟨crx.ntype_record, rfl⟩
  | cons i is ih =>
    intro crx
    obtain ⟨g, hg⟩ := ih { crx with ntype_record := Function.update crx.ntype_record i crx.ntype }
    exact ⟨g, by rw [set_ntype_record2, hg]⟩

theorem set_ntype_record3_spec (eb : List Char) :
    ∀ (is : List Nat) (crx : Crx),
      (∀ i, i ∈ is → crx.p_satlst + 3 * i ≤ eb.length ∧
        (eb.getD (crx.p_satlst + 3 * i) NUL).toNat < 128 ∧
        0 ≤ crx.ntype_gnss (eb.getD (crx.p_satlst + 3 * i) NUL).toNat) →
      ∃ g, set_ntype_record3 eb crx is = Except.ok { crx with ntype_record := g } := by
  intro is
  induction is with
  | nil => intro crx _; exact ⟨crx.ntype_record, rfl⟩
  | cons i is ih =>
    intro crx h
    obtain ⟨h1, h2, h3⟩ := h i (List.mem_cons_self _ _)
    obtain ⟨g, hg⟩ := ih
      { crx with ntype_record := Function.update crx.ntype_record i (crx.ntype_gnss (eb.getD (crx.p_satlst + 3 * i) NUL).toNat) }
      (fun k hk => h k (List.mem_cons_of_mem _ hk))
    refine ⟨g, ?_⟩
    have h2' : ¬ (eb.getD (crx.p_satlst + 3 * i) NUL).toNat ≥ 128 := by omega
    have h3' : ¬ crx.ntype_gnss (eb.getD (crx.p_satlst + 3 * i) NUL).toNat < 0 := by omega
    simp only [set_ntype_record3, char_at, h1, if_true, bind, Except.bind, h2', h3', if_false]
    exact hg


theorem strncmp_eq_three (x y z a b c : Char) (rest : List Char)
    (hx : x ≠ NUL) (hy : y ≠ NUL) (hz : z ≠ NUL) :
    strncmp_eq NUL 3 (x :: y :: z :: rest) [a, b, c] = true ↔ [x, y, z] = [a, b, c] := by
  simp only [strncmp_eq, List.headD_cons, List.tail_cons, hx, hy, hz, if_false, ne_eq]
  by_cases h1 : x = a
  · by_cases h2 : y = b
    · by_cases h3 : z = c
      · simp [h1, h2, h3]
      · simp [h1, h2, h3]
    · simp [h1, h2]
  · simp [h1]

theorem first_match_equal (id : List Char) (p_old : Nat → Char) (nsat1 : Nat) (v : Int)
    (hlen : 3 ≤ id.length) (hnul : NUL ∉ id.take 3) (h : first_match id p_old nsat1 v) :
    first_equal (id.take 3) p_old nsat1 v := by
  obtain ⟨x, y, z, rest, rfl⟩ : ∃ x y z rest, id = x :: y :: z :: rest := by
    match id, hlen with
    | x :: y :: z :: rest, _ => exact ⟨x, y, z, rest, rfl⟩
  simp only [List.take_succ_cons, List.take_zero, List.mem_cons, List.mem_nil_iff, or_false,
    not_or] at hnul
  have hx : x ≠ NUL := fun e => hnul.1 e.symm
  have hy : y ≠ NUL := fun e => hnul.2.1 e.symm
  have hz : z ≠ NUL := fun e => hnul.2.2 e.symm
  have key : ∀ j, strncmp_eq NUL 3 (x :: y :: z :: rest) (old_id p_old j) = true ↔
      old_id p_old j = [x, y, z] := by
    intro j
    rw [old_id, strncmp_eq_three x y z _ _ _ rest hx hy hz]
    exact eq_comm
  have key2 : ∀ j, strncmp_eq NUL 3 (x :: y :: z :: rest) (old_id p_old j) = false ↔
      old_id p_old j ≠ [x, y, z] := by
    intro j
    rw [ne_eq, ← key j]; simp
  simp only [List.take_succ_cons, List.take_zero]
  rcases h with ⟨j, h1, h2, h3, h4⟩ | ⟨h1, h2⟩
  · left
    exact ⟨j, h1, h2, (key j).1 h3, fun j' hj => (key2 j').1 (h4 j' hj)⟩
  · right
    exact ⟨h1, fun j hj => (key2 j).1 (h2 j hj)⟩

/-- C9 (counterexample): the previous epoch listed one satellite with the bytes `G`, NUL,
`a`, the current epoch lists one satellite with the bytes `G`, NUL, `b`. The two 3-byte
IDs differ, so the claim gives `sattbl[0] = -1`; `set_sat_table` compares with `strncmp`,
which stops at the NUL, and sets `sattbl[0] = 0`. -/
theorem set_sat_table_stops_at_nul :
    new_id epoch_nul crx_prev_nul 0 ≠ old_id crx_prev_nul.sat_lst_old 0 ∧
    (set_sat_table epoch_nul crx_prev_nul 1).toOption.map (fun c => c.sattbl 0) = some 0 := by
  constructor <;> decide

/-- C9 (amended): satellite index table. When the `nsat` IDs of the satellite list lie
within the epoch line (and, for RINEX 3, the system letter of each is a 7-bit byte with a
type count that is not negative), `set_sat_table` returns, and for every slot `i` in
`[0, nsat)`, `sattbl[i]` is the least `j < nsat_prev` for which `strncmp` over at most 3
bytes finds the ID of slot `j` of the previous-epoch list equal to the ID of slot `i` of
the current list (the comparison stops at a NUL byte), and `sattbl[i] = -1` when no such
`j` exists; when the ID of slot `i` holds no NUL byte this is equality of the 3 bytes. -/
theorem set_sat_table_index (eb : List Char) (crx : Crx) (nsat : Nat)
    (hlen : crx.p_satlst + 3 * nsat ≤ eb.length)
    (hv : crx.rinex_version = 2 ∨ ∀ i, i < nsat →
      (eb.getD (crx.p_satlst + 3 * i) NUL).toNat < 128 ∧
      0 ≤ crx.ntype_gnss (eb.getD (crx.p_satlst + 3 * i) NUL).toNat) :
    ∃ crx1, set_sat_table eb crx (nsat : Int) = Except.ok crx1 ∧
      ∀ i, i < nsat →
        first_match (eb.drop (crx.p_satlst + 3 * i)) crx.sat_lst_old crx.nsat1.toNat
          (crx1.sattbl i) ∧
        (NUL ∉ new_id eb crx i →
          first_equal (new_id eb crx i) crx.sat_lst_old crx.nsat1.toNat (crx1.sattbl i)) := by
  have hmem : ∀ i, i ∈ List.range nsat → crx.p_satlst + 3 * i ≤ eb.length := by
    intro i hi
    have := List.mem_range.1 hi
    omega
  obtain ⟨g, hg⟩ : ∃ g, set_sat_table eb crx (nsat : Int) =
      set_sattbl eb { crx with ntype_record := g } (List.range nsat) := by
    by_cases h2 : crx.rinex_version = 2
    · obtain ⟨g, hg⟩ := set_ntype_record2_spec (List.range nsat) crx
      exact ⟨g, by simp only [set_sat_table, Int.toNat_natCast, h2, if_true, hg, bind, Except.bind]⟩
    · have hv3 := hv.resolve_left h2
      obtain ⟨g, hg⟩ := set_ntype_record3_spec eb (List.range nsat) crx
        (fun i hi => ⟨hmem i hi, hv3 i (List.mem_range.1 hi)⟩)
      exact ⟨g, by simp only [set_sat_table, Int.toNat_natCast, h2, if_false, hg, bind, Except.bind]⟩
  refine ⟨{ ({ crx with ntype_record := g } : Crx) with sattbl := sattbl_after eb { crx with ntype_record := g } (List.range nsat) }, ?_, ?_⟩
  · rw [hg]
    exact set_sattbl_spec eb (List.range nsat) { crx with ntype_record := g } hmem
  · intro i hi
    have hin : i ∈ List.range nsat := List.mem_range.2 hi
    have hfm : first_match (eb.drop (crx.p_satlst + 3 * i)) crx.sat_lst_old crx.nsat1.toNat
        (sattbl_after eb { crx with ntype_record := g } (List.range nsat) i) := by
      simp only [sattbl_after, hin, if_true]
      exact find_prev_first_match _ _ _
    refine ⟨hfm, ?_⟩
    intro hn
    have hl : 3 ≤ (eb.drop (crx.p_satlst + 3 * i)).length := by
      rw [List.length_drop]; omega
    exact first_match_equal _ _ _ _ hl hn hfm

/-- C9 (witness): previous list `G01 G02`, current list `G02 G01` gives
`sattbl = [1, 0]`. -/
theorem set_sat_table_index_witness :
    (set_sat_table epoch_G02_G01 crx_prev_G01_G02 2).toOption.map
        (fun c => [c.sattbl 0, c.sattbl 1]) = some [1, 0] ∧
    ∃ crx1, set_sat_table epoch_G02_G01 crx_prev_G01_G02 ((2 : Nat) : Int) = Except.ok crx1 ∧
      ∀ i, i < 2 →
        first_match (epoch_G02_G01.drop (crx_prev_G01_G02.p_satlst + 3 * i))
          crx_prev_G01_G02.sat_lst_old crx_prev_G01_G02.nsat1.toNat (crx1.sattbl i) ∧
        (NUL ∉ new_id epoch_G02_G01 crx_prev_G01_G02 i →
          first_equal (new_id epoch_G02_G01 crx_prev_G01_G02 i) crx_prev_G01_G02.sat_lst_old
            crx_prev_G01_G02.nsat1.toNat (crx1.sattbl i)) :=
  ⟨by decide, set_sat_table_index epoch_G02_G01 crx_prev_G01_G02 2 (by decide) (Or.inl rfl)⟩

end CRinexStreamBuf
end GPSTk

namespace GPSTk
namespace CRinexStreamBuf

/-! ## Two epochs with the same satellites -/

set_option maxRecDepth 1000000 in
/-- C10 (the code at the failing input): a RINEX 3 body of two initialised epochs that
both list `G01`, `G02`, decoded once with the later epoch in the order `G01 G02` and once
in the order `G02 G01`. The values of the later epoch follow the satellite (101.000 for
`G01`, 201.000 for `G02`), the flag bytes do not: `G01` gets the bytes NUL, `2` in the
first order and NUL, `4` in the second. In an initialised epoch every satellite is new,
and for a new satellite `write_data` in RINEX 3 only stores a terminator at `flag[i][0]`,
so the rest of the row is what slot `i` held in the epoch before. -/
theorem permuted_epoch_flags :
    (decode_calls 100 2 (body_decoder crx_gps_one_type body_same_order)).toOption.map
        (fun o => o.getD 1 []) =
      some ("> 2020 01 01 00 00  0.0000000  0  2      \n" ++
        "G01       101.000\x002\nG02       201.000\x004\n").toList ∧
    (decode_calls 100 2 (body_decoder crx_gps_one_type body_permuted)).toOption.map
        (fun o => o.getD 1 []) =
      some ("> 2020 01 01 00 00  0.0000000  0  2      \n" ++
        "G02       201.000\x002\nG01       101.000\x004\n").toList := by
  constructor <;> rfl

end CRinexStreamBuf
end GPSTk

namespace GPSTk
namespace CRinexStreamBuf

/-! ## `read_header` -/

theorem takeWhile_append_LF (line more : List Char) (h : LF ∉ line) :
    (line ++ LF :: more).takeWhile (fun c => c ≠ LF) = line ∧
    (line ++ LF :: more).dropWhile (fun c => c ≠ LF) = LF :: more := by
  induction line with
  | nil => simp
  | cons c cs ih =>
    have hc : c ≠ LF := fun e => h (by simp [e])
    have hcs : LF ∉ cs := fun e => h (List.mem_cons_of_mem _ e)
    simpa [hc] using ih hcs

theorem getline_line (line more str : List Char) (h : LF ∉ line) :
    getline { rest := line ++ LF :: more, eofbit := false, failbit := false } str =
      ({ rest := more, eofbit := false, failbit := false }, line, true) := by
  have h1 := (takeWhile_append_LF line more h).1
  have h2 := (takeWhile_append_LF line more h).2
  simp only [getline, Bool.false_eq_true, or_self, if_false, h1, h2]

theorem take_ne_of_take (x a b : List Char) (n m : Nat) (hnm : n ≤ m) (h : x.take n = a)
    (hab : b.take n ≠ a) : x.take m ≠ b := by
  intro e
  apply hab
  rw [← e, List.take_take, Nat.min_eq_left hnm]
  exact h

/-- C11 (counterexample): a header whose preamble gave CRINEX version 1 and whose first
line declared RINEX version 3. At `END OF HEADER` the constants committed are those of
RINEX 3, not the tuple `('&', ' ', 28, 29, 32, 1, 3)` that the claim gives for CRINEX
version 1. -/
theorem read_header_constants_crinex1_rinex3 :
    (read_header (header_decoder { Crx.zero with version := 1, rinex_version := 3 }
        (labelled_line "" "END OF HEADER"))).toOption.map
      (fun r => (r.1.header_done, version_constants r.1.crx)) =
      some (true, ('>', '>', 31, 32, 41, 4, 6)) := by
  rfl

/-- C11 (amended): the version constants follow the RINEX version. When `read_header`
reads a line that carries `END OF HEADER` at column 60 (the first header line has been
read before, so `rinex_version` is not the sentinel -1), it returns `true`, marks the
header as done, and the tuple (epoch 'from' byte, epoch 'to' byte, event-flag column,
satellite-count column, satellite-list column, clock digit shift, offset) equals
`('&', ' ', 28, 29, 32, 1, 3)` when the stored RINEX version is 2 and
`('>', '>', 31, 32, 41, 4, 6)` otherwise, whatever the CRINEX version of the preamble. -/
theorem read_header_constants (d : Decoder) (line more : List Char)
    (hin : d.input = { rest := line ++ LF :: more, eofbit := false, failbit := false })
    (hLF : LF ∉ line) (hlen : 60 ≤ line.length)
    (hlabel : (line.drop 60).take 13 = "END OF HEADER".toList)
    (hv : d.crx.rinex_version ≠ -1) :
    ∃ d1, read_header d = Except.ok (d1, true) ∧ d1.header_done = true ∧
      d1.crx.version = d.crx.version ∧
      version_constants d1.crx =
        if d.crx.rinex_version = 2 then ('&', ' ', 28, 29, 32, 1, 3)
        else ('>', '>', 31, 32, 41, 4, 6) := by
  have hg : getline_in { d with out := [] } =
      ({ d with out := [], input := { rest := more, eofbit := false, failbit := false }, in_buffer := line, in_capacity := max d.in_capacity line.length }, true) := by
    simp only [getline_in, hin, getline_line line more _ hLF]
  have hpos : ¬ 60 > line.length := by omega
  have h1 : (line.drop 60).take 19 ≠ "# / TYPES OF OBSERV".toList :=
    take_ne_of_take _ _ _ 13 19 (by decide) hlabel (by decide)
  have h2 : (line.drop 60).take 19 ≠ "SYS / # / OBS TYPES".toList :=
    take_ne_of_take _ _ _ 13 19 (by decide) hlabel (by decide)
  have hrun : read_header d = Except.ok
      ({ header_end { d with out := [], input := { rest := more, eofbit := false, failbit := false }, in_buffer := line, in_capacity := max d.in_capacity line.length } with out := c_str line ++ [LF] }, true) := by
    simp only [read_header, hg, header_line, hv, if_false, compare_eq, hpos, h1, h2, hlabel,
      decide_False, decide_True, Bool.false_eq_true, false_and, if_true, header_end]
    rfl
  refine ⟨_, hrun, rfl, ?_, ?_⟩
  · by_cases h2v : d.crx.rinex_version = 2
    · simp only [header_end, h2v, if_true]
    · simp only [header_end, h2v, if_false]
  · by_cases h2v : d.crx.rinex_version = 2
    · simp only [header_end, h2v, if_true, version_constants]
    · simp only [header_end, h2v, if_false, version_constants]

/-- C11 (witness): CRINEX version 3 wrapping RINEX version 2 gives the RINEX 2 tuple. -/
theorem read_header_constants_witness :
    ∃ d1, read_header (header_decoder { Crx.zero with version := 3, rinex_version := 2 }
        (labelled_line "" "END OF HEADER")) = Except.ok (d1, true) ∧ d1.header_done = true ∧
      d1.crx.version = 3 ∧
      version_constants d1.crx = if (2 : Int) = 2 then ('&', ' ', 28, 29, 32, 1, 3)
        else ('>', '>', 31, 32, 41, 4, 6) :=
  read_header_constants (header_decoder { Crx.zero with version := 3, rinex_version := 2 }
      (labelled_line "" "END OF HEADER")) (labelled_line "" "END OF HEADER") [] rfl
    (by decide) (by decide) (by decide) (by decide)

end CRinexStreamBuf
end GPSTk

namespace GPSTk
namespace CRinexStreamBuf

/-- C20 (the code at the failing input): the RINEX 2 header line that declares 25
observation types. `read_header` stores `ntype = 25` and returns `true`, and an event
record with the same line stores 25 as well (`event_types`); neither raises. The sibling
branch for RINEX 3 does check: the line `G   25 ... SYS / # / OBS TYPES` raises
"Too many observation types". -/
theorem types_of_observ_unchecked :
    (read_header (header_decoder { Crx.zero with version := 1, rinex_version := 2 }
        (labelled_line "    25" "# / TYPES OF OBSERV"))).toOption.map
      (fun r => (r.2, r.1.crx.ntype)) = some (true, 25) ∧
    (event_types { Crx.zero with version := 1, rinex_version := 2 }
        (labelled_line "    25" "# / TYPES OF OBSERV")).toOption.map (fun c => c.ntype) =
      some 25 ∧
    read_header (header_decoder { Crx.zero with version := 3, rinex_version := 3 }
        (labelled_line "G   25" "SYS / # / OBS TYPES")) =
      Except.error (Err.raised "Too many observation types") := by
  refine ⟨?_, ?_, ?_⟩ <;> rfl

/-! ## `putfield`: the range test -/

/-- C16 (counterexample): the canonicalised high part `u = 10000000` has
`|u| > 9999999`, and `putfield` does not raise: it prints `1000000000.000`. -/
theorem putfield_accepts_eight_digits :
    (putfield { data_format.zero with u := fun _ => 10000000 } ' ' ' ').toOption.map Prod.snd =
      some "1000000000.000  ".toList := by
  rfl

/-- C16 (amended): `putfield` raises the out-of-range error if and only if the
canonicalised high part `u` satisfies `u > 99999999` or `u < -9999999` (positive values
have one more column, the one a `-` takes). -/
theorem putfield_raises_iff (y : data_format) (f0 f1 : Char) :
    putfield y f0 f1 = Except.error (Err.raised "Data record out of range") ↔
      ((adjust_sign 100000 (y.u y.order.toNat) (y.l y.order.toNat)).1 > 99999999 ∨
       (adjust_sign 100000 (y.u y.order.toNat) (y.l y.order.toNat)).1 < -9999999) := by
  by_cases hz : (adjust_sign 100000 (y.u y.order.toNat) (y.l y.order.toNat)).1 ≠ 0
  · by_cases hr : (adjust_sign 100000 (y.u y.order.toNat) (y.l y.order.toNat)).1 > 99999999 ∨
        (adjust_sign 100000 (y.u y.order.toNat) (y.l y.order.toNat)).1 < -9999999
    · simp only [putfield, hz, hr, if_true, ne_eq, not_false_eq_true]
    · simp only [putfield, hz, hr, if_true, if_false, ne_eq, not_false_eq_true, iff_false]
      intro h
      cases h
  · have hz0 : (adjust_sign 100000 (y.u y.order.toNat) (y.l y.order.toNat)).1 = 0 := by
      simpa using hz
    have hr : ¬ ((adjust_sign 100000 (y.u y.order.toNat) (y.l y.order.toNat)).1 > 99999999 ∨
        (adjust_sign 100000 (y.u y.order.toNat) (y.l y.order.toNat)).1 < -9999999) := by
      rw [hz0]; decide
    simp only [putfield, hz, if_false, hr, iff_false]
    intro h
    cases h

/-! ## `getdiff`: fields that continue an arc -/

/-- C18: for a field of `getdiff` that is not blank and whose second character is not
`&`, the code raises "Uninitialized new satellite arc" when the satellite is new
(`sattbl[sat] < 0`), raises "Uninitialized data sequence" when the cell of the previous
epoch is blank (`arc_order < 0`), and otherwise (the token being terminated) does not
raise: the cell inherits `order` and `arc_order` from `dy0[sattbl[sat]][j]`. -/
theorem getdiff_field_uninitialised (line : List Char) (fbegin : Nat) (sat_old : Int)
    (y0 y : data_format) (hb : fbegin + 1 ≤ line.length)
    (h2 : line.getD (fbegin + 1) NUL ≠ '&') :
    (sat_old < 0 → getdiff_field line fbegin sat_old y0 y =
      Except.error (Err.raised "Uninitialized new satellite arc")) ∧
    (0 ≤ sat_old → y0.arc_order < 0 → getdiff_field line fbegin sat_old y0 y =
      Except.error (Err.raised "Uninitialized data sequence")) ∧
    (0 ≤ sat_old → 0 ≤ y0.arc_order → (find_nul line fbegin).isSome = true →
      ∃ line1 fb y1, getdiff_field line fbegin sat_old y0 y = Except.ok (line1, fb, y1) ∧
        y1.order = y0.order ∧ y1.arc_order = y0.arc_order) := by
  have hb0 : fbegin ≤ line.length := by omega
  refine ⟨?_, ?_, ?_⟩
  · intro hs
    simp only [getdiff_field, getdiff_arc, char_at, hb, if_true, h2, if_false, hs]
  · intro hs ha
    have hs' : ¬ sat_old < 0 := by omega
    simp only [getdiff_field, getdiff_arc, char_at, hb, if_true, h2, if_false, hs', ha]
  · intro hs ha hf
    have hs' : ¬ sat_old < 0 := by omega
    have ha' : ¬ y0.arc_order < 0 := by omega
    obtain ⟨fend, hfend⟩ := Option.isSome_iff_exists.1 hf
    simp only [getdiff_field, getdiff_arc, char_at, hb, if_true, h2, if_false, hs', ha',
      getdiff_value, hfend, hb0]
    split_ifs <;> exact ⟨_, _, _, rfl, rfl, rfl⟩

/-- C18 (witness): the token `123` in the line `123`, NUL, for a satellite found at slot 0
of the previous epoch whose cell has `arc_order = 0`: the cell inherits. -/
theorem getdiff_field_uninitialised_witness :
    (((0 : Int) < 0 → getdiff_field [ '1', '2', '3', NUL ] 0 0 data_format.zero data_format.zero =
      Except.error (Err.raised "Uninitialized new satellite arc")) ∧
    (0 ≤ (0 : Int) → data_format.zero.arc_order < 0 →
      getdiff_field [ '1', '2', '3', NUL ] 0 0 data_format.zero data_format.zero =
      Except.error (Err.raised "Uninitialized data sequence")) ∧
    (0 ≤ (0 : Int) → 0 ≤ data_format.zero.arc_order →
      (find_nul [ '1', '2', '3', NUL ] 0).isSome = true →
      ∃ line1 fb y1, getdiff_field [ '1', '2', '3', NUL ] 0 0 data_format.zero
          data_format.zero = Except.ok (line1, fb, y1) ∧
        y1.order = data_format.zero.order ∧ y1.arc_order = data_format.zero.arc_order)) :=
  getdiff_field_uninitialised [ '1', '2', '3', NUL ] 0 0 data_format.zero data_format.zero
    (by decide) (by decide)

end CRinexStreamBuf
end GPSTk

namespace GPSTk
namespace CRinexStreamBuf

/-! ## `read_data` at the end of the input -/

set_option maxRecDepth 1000000 in
theorem stuck_decoder_round (fuel : Nat) (out : List Char) (f g : Nat → Int) :
    read_data_go (fuel + 1) false (stuck_decoder out f g) =
      read_data_go fuel false
        (stuck_decoder (out ++ skip_message 2) (Function.update f 0 (-1)) (Function.update g 0 1)) := by
  rfl

theorem stuck_decoder_never_returns (fuel : Nat) :
    ∀ (out : List Char) (f g : Nat → Int),
      read_data_go fuel false (stuck_decoder out f g) = Except.error Err.diverged := by
  induction fuel with
  | zero => intro out f g; rfl
  | succ n ih =>
    intro out f g
    rw [stuck_decoder_round]
    exact ih _ _ _

set_option maxRecDepth 1000000 in
theorem body_truncated_first_round (fuel : Nat) :
    read_data (fuel + 1) (body_decoder crx_one_type body_truncated) =
      read_data_go fuel false
        (stuck_decoder (skip_message 2) (Function.update crx_one_type.sattbl 0 (-1))
          (Function.update crx_one_type.ntype_record 0 1)) := by
  rfl

set_option maxRecDepth 1000000 in
/-- C12 (the code at the failing input): the RINEX 2 body `body_truncated` ends before
the clock line of its epoch. `read_data` does not raise: `getline` fails, `skip_to_next`
writes its marker, and `goto SKIP` takes the same path again with the epoch line that is
still in `epoch_buffer`; every round ends in the same state but for the output, which has
grown by one marker, so the call never returns (for every amount of fuel the model runs
out of it). A body that ends between epochs gives `false` without raising. -/
theorem read_data_eof_in_epoch (fuel : Nat) :
    read_data fuel (body_decoder crx_one_type body_truncated) = Except.error Err.diverged ∧
    (read_data (fuel + 1) (body_decoder crx_one_type [])).toOption.map Prod.snd = some false := by
  constructor
  · cases fuel with
    | zero => rfl
    | succ n =>
      rw [body_truncated_first_round]
      exact stuck_decoder_never_returns n _ _ _
  · rfl

end CRinexStreamBuf
end GPSTk

namespace GPSTk
namespace CRinexStreamBuf

/-! ## `skip_to_next` and the epoch after it -/

set_option maxRecDepth 1000000 in
/-- C13 (the code at the failing input): a RINEX 3 body whose first epoch gives `G01` the
flag bytes `1`, `2`, followed by a line `x` that spoils the epoch line and by an
initialised epoch for `G01` without flag bytes. The second call of `read_data` writes one
marker and then the recovered epoch, but not as that epoch is decoded at the head of a
body: the flag bytes are NUL, `2` after the skip (the `2` is left from the epoch before
the skip) and NUL, NUL at the head of a body. For a new satellite in RINEX 3 `write_data`
only stores a terminator at `flag[i][0]`. -/
theorem skip_recovery_stale_flags :
    (decode_calls 100 2 (body_decoder crx_gps_one_type body_skip)).toOption.map
        (fun o => o.getD 1 []) =
      some (skip_message 3 ++
        "> 2020 01 01 00 00  0.0000000  0  1      \nG01       101.000\x002\n".toList) ∧
    (decode_calls 100 1 (body_decoder crx_gps_one_type body_recovered)).toOption.map
        (fun o => o.getD 0 []) =
      some "> 2020 01 01 00 00  0.0000000  0  1      \nG01       101.000\x00\x00\n".toList := by
  constructor <;> rfl

end CRinexStreamBuf
end GPSTk

namespace GPSTk
namespace CRinexStreamBuf

/-! ## Bounds on what `atol` reads from a terminated token -/

theorem digits_value_le (tok rest : List Char) :
    ∀ acc : Nat, digits_value (tok ++ NUL :: rest) acc + 1 ≤ (acc + 1) * 10 ^ tok.length := by
  induction tok with
  | nil =>
    intro acc
    have h : digits_value (NUL :: rest) acc = acc := digits_value_stop _ _ isdigit_head_NUL
    simp [h]
  | cons c cs ih =>
    intro acc
    show digits_value (c :: (cs ++ NUL :: rest)) acc + 1 ≤ _
    rw [digits_value]
    by_cases hc : isdigit c = true
    · simp only [hc, if_true]
      have h9 : c.toNat - 48 ≤ 9 := by
        have := (isdigit_iff c).1 hc
        omega
      have := ih (acc * 10 + (c.toNat - 48))
      rw [List.length_cons, pow_succ]
      have hp : 0 < 10 ^ cs.length := Nat.pos_pow_of_pos _ (by norm_num)
      nlinarith [Nat.mul_le_mul_right (10 ^ cs.length) h9]
    · simp only [hc, if_false, Bool.false_eq_true]
      rw [List.length_cons, pow_succ]
      have hp : 0 < 10 ^ cs.length := Nat.pos_pow_of_pos _ (by norm_num)
      nlinarith

theorem isspace_NUL : isspace NUL = false := by decide

theorem dropWhile_isspace_token (tok rest : List Char) :
    ∃ t, (tok ++ NUL :: rest).dropWhile isspace = t ++ NUL :: rest ∧ t.length ≤ tok.length := by
  induction tok with
  | nil => exact ⟨[], by simp [List.dropWhile, isspace_NUL], Nat.le_refl _⟩
  | cons c cs ih =>
    by_cases hc : isspace c = true
    · obtain ⟨t, h1, h2⟩ := ih
      refine ⟨t, ?_, by simp only [List.length_cons]; omega⟩
      simp only [List.cons_append, List.dropWhile_cons, hc, if_true]
      exact h1
    · refine ⟨c :: cs, ?_, Nat.le_refl _⟩
      simp only [List.cons_append, List.dropWhile_cons, hc, if_false, Bool.false_eq_true]

/-- The value that `atol` reads from a token of `n` characters followed by a terminator
has at most `n` digits. -/
theorem atol_bound (tok rest : List Char) :
    -(10 ^ tok.length : Int) < atol (tok ++ NUL :: rest) ∧
      atol (tok ++ NUL :: rest) < (10 ^ tok.length : Int) := by
  obtain ⟨t, h1, h2⟩ := dropWhile_isspace_token tok rest
  have hmono : (10 : Int) ^ t.length ≤ 10 ^ tok.length :=
    pow_le_pow_right₀ (by norm_num) h2
  have hpos : (0 : Int) < 10 ^ t.length := by positivity
  rw [atol, h1]
  cases t with
  | nil =>
    have h : digits_value (NUL :: rest) 0 = 0 := digits_value_stop _ _ isdigit_head_NUL
    have hn1 : NUL ≠ '-' := by decide
    have hn2 : NUL ≠ '+' := by decide
    simp only [List.nil_append, hn1, hn2, if_false, h]
    constructor <;> simp
  | cons c r =>
    have hr := digits_value_le r rest 0
    have hcr := digits_value_le (c :: r) rest 0
    simp only [Nat.zero_add, Nat.one_mul] at hr hcr
    have hr' : ((digits_value (r ++ NUL :: rest) 0 : Nat) : Int) < 10 ^ r.length := by
      have : digits_value (r ++ NUL :: rest) 0 < 10 ^ r.length := by omega
      exact_mod_cast this
    have hcr' : ((digits_value (c :: r ++ NUL :: rest) 0 : Nat) : Int) < 10 ^ (c :: r).length := by
      have : digits_value (c :: r ++ NUL :: rest) 0 < 10 ^ (c :: r).length := by omega
      exact_mod_cast this
    have hstep : (10 : Int) ^ r.length ≤ 10 ^ (c :: r).length :=
      pow_le_pow_right₀ (by norm_num) (by simp)
    have hnn : (0 : Int) ≤ ((digits_value (r ++ NUL :: rest) 0 : Nat) : Int) := Int.natCast_nonneg _
    have hnn2 : (0 : Int) ≤ ((digits_value (c :: r ++ NUL :: rest) 0 : Nat) : Int) :=
      Int.natCast_nonneg _
    simp only [List.cons_append]
    simp only [List.cons_append] at hcr' hnn2
    split_ifs
    · constructor <;> linarith
    · constructor <;> linarith
    · constructor <;> linarith

/-- After a leading `-` the digits are read at once. -/
theorem atol_bound_minus (t rest : List Char) :
    -(10 ^ t.length : Int) < atol ('-' :: t ++ NUL :: rest) ∧
      atol ('-' :: t ++ NUL :: rest) < (10 ^ t.length : Int) := by
  have hs : isspace '-' = false := by decide
  have hr := digits_value_le t rest 0
  simp only [Nat.zero_add, Nat.one_mul] at hr
  have hr' : ((digits_value (t ++ NUL :: rest) 0 : Nat) : Int) < 10 ^ t.length := by
    have : digits_value (t ++ NUL :: rest) 0 < 10 ^ t.length := by omega
    exact_mod_cast this
  have hnn : (0 : Int) ≤ ((digits_value (t ++ NUL :: rest) 0 : Nat) : Int) := Int.natCast_nonneg _
  simp only [atol, List.cons_append, List.dropWhile_cons, hs, Bool.false_eq_true, if_false,
    if_true]
  constructor <;> linarith

end CRinexStreamBuf
end GPSTk

namespace GPSTk
namespace CRinexStreamBuf

/-! ## `getdiff`: the low part of every stored value has at most five digits -/

theorem indexOf_split (d : List Char) (h : d.indexOf NUL < d.length) :
    d = d.take (d.indexOf NUL) ++ NUL :: d.drop (d.indexOf NUL + 1) := by
  induction d with
  | nil => simp at h
  | cons c cs ih =>
    by_cases hc : c = NUL
    · subst hc
      simp [List.indexOf_cons_self]
    · have e : (c :: cs).indexOf NUL = cs.indexOf NUL + 1 := by
        rw [List.indexOf_cons_ne _ hc]
      rw [e] at h ⊢
      simp only [List.length_cons, Nat.add_lt_add_iff_right] at h
      simp only [List.take_succ_cons, List.drop_succ_cons, List.cons_append]
      congr 1
      exact ih h

/-- What `line.find(NUL, pos)` finds: the line from `pos` on is a token without
terminator, the terminator, and the rest. -/
theorem find_nul_split (line : List Char) (pos fend : Nat) (h : find_nul line pos = some fend) :
    ∃ tok rest, line.drop pos = tok ++ NUL :: rest ∧ fend = pos + tok.length ∧
      pos + tok.length < line.length := by
  simp only [find_nul] at h
  by_cases hlt : pos + (line.drop pos).indexOf NUL < line.length
  · simp only [hlt, if_true, Option.some.injEq] at h
    have hi : (line.drop pos).indexOf NUL < (line.drop pos).length := by
      rw [List.length_drop]; omega
    refine ⟨(line.drop pos).take ((line.drop pos).indexOf NUL),
      (line.drop pos).drop ((line.drop pos).indexOf NUL + 1), indexOf_split _ hi, ?_, ?_⟩
    · rw [List.length_take, Nat.min_eq_left (Nat.le_of_lt hi)]; exact h.symm
    · rw [List.length_take, Nat.min_eq_left (Nat.le_of_lt hi)]; exact hlt
  · simp [hlt] at h

theorem getdiff_value_low (line : List Char) (fbegin : Nat) (y : data_format)
    (line1 : List Char) (fb : Nat) (g : data_format)
    (h : getdiff_value line fbegin y = Except.ok (line1, fb, g)) :
    g.order = y.order ∧ g.arc_order = y.arc_order ∧ -100000 < g.l 0 ∧ g.l 0 < 100000 := by
  simp only [getdiff_value] at h
  cases hf : find_nul line fbegin with
  | none => simp [hf] at h
  | some fend =>
    obtain ⟨tok, rest, hd, hfend, hlen⟩ := find_nul_split line fbegin fend hf
    have hb : fbegin ≤ line.length := by omega
    have hc0 : line.getD fbegin NUL = (tok ++ [NUL]).headD NUL := by
      have : line.getD fbegin NUL = (line.drop fbegin).headD NUL := by
        rw [List.getD_eq_getElem?_getD, ← List.head?_drop, List.headD_eq_head?_getD]
      rw [this, hd]
      cases tok <;> rfl
    simp only [hf, char_at, hb, if_true] at h
    by_cases hshort : (if line.getD fbegin NUL = '-' then fend - fbegin - 1 else fend - fbegin) < 6
    · simp only [hshort, if_true, Except.ok.injEq, Prod.mk.injEq] at h
      obtain ⟨_, _, hg⟩ := h
      subst hg
      refine ⟨rfl, rfl, ?_⟩
      simp only [Function.update_same, hd]
      by_cases hm : line.getD fbegin NUL = '-'
      · simp only [hm, if_true] at hshort
        rw [hc0] at hm
        cases tok with
        | nil => exact absurd hm (by decide)
        | cons c t =>
          simp only [List.cons_append, List.headD_cons] at hm
          subst hm
          have hl : t.length ≤ 5 := by
            simp only [List.length_cons] at hfend; omega
          have hb := atol_bound_minus t rest
          have hp : (10 : Int) ^ t.length ≤ 10 ^ 5 := pow_le_pow_right₀ (by norm_num) hl
          have e5 : (10 : Int) ^ 5 = 100000 := by norm_num
          simp only [List.cons_append] at hb ⊢
          constructor <;> linarith [hb.1, hb.2]
      · simp only [hm, if_false] at hshort
        have hl : tok.length ≤ 5 := by omega
        have hb := atol_bound tok rest
        have hp : (10 : Int) ^ tok.length ≤ 10 ^ 5 := pow_le_pow_right₀ (by norm_num) hl
        have e5 : (10 : Int) ^ 5 = 100000 := by norm_num
        constructor <;> linarith [hb.1, hb.2]
    · simp only [hshort, if_false, Except.ok.injEq, Prod.mk.injEq] at h
      obtain ⟨_, _, hg⟩ := h
      subst hg
      refine ⟨rfl, rfl, ?_⟩
      have h6 : 6 ≤ tok.length := by
        by_cases hm : line.getD fbegin NUL = '-'
        · simp only [hm, if_true] at hshort; omega
        · simp only [hm, if_false] at hshort; omega
      have hdl : line.drop (fend - 5) = tok.drop (tok.length - 5) ++ NUL :: rest := by
        have e : fend - 5 = fbegin + (tok.length - 5) := by omega
        rw [e, ← List.drop_drop, hd, List.drop_append_of_le_length (by omega)]
      have hl5 : (tok.drop (tok.length - 5)).length = 5 := by
        rw [List.length_drop]; omega
      have hb := atol_bound (tok.drop (tok.length - 5)) rest
      rw [hl5] at hb
      have e5 : (10 : Int) ^ 5 = 100000 := by norm_num
      simp only [Function.update_same, hdl]
      split_ifs <;> constructor <;> linarith [hb.1, hb.2]

theorem getdiff_field_low (line : List Char) (fbegin : Nat) (sat_old : Int)
    (y0 y : data_format) (line1 : List Char) (fb : Nat) (g : data_format)
    (h : getdiff_field line fbegin sat_old y0 y = Except.ok (line1, fb, g)) :
    -100000 < g.l 0 ∧ g.l 0 < 100000 := by
  simp only [getdiff_field] at h
  cases ha : getdiff_arc line fbegin sat_old y0 y with
  | error e => simp [ha] at h
  | ok r =>
    simp only [ha] at h
    exact (getdiff_value_low line r.2 r.1 line1 fb g h).2.2

end CRinexStreamBuf
end GPSTk

namespace GPSTk
namespace CRinexStreamBuf

/-! ## `write_data` and `putfield`: the pair that is printed -/

/-- The low part at the index that `putfield` prints, after the block "recover the data":
it has at most five digits when the low part read by `getdiff` has. -/
theorem recover_low (g y0 : data_format) (hg : -100000 < g.l 0 ∧ g.l 0 < 100000) :
    -100000 < (recover g y0).l (recover g y0).order.toNat ∧
      (recover g y0).l (recover g y0).order.toNat < 100000 := by
  have key : ∀ (sh : Nat) (y : data_format), y.l 0 = g.l 0 →
      -100000 < (recover_loop y0 sh y.order.toNat 0 y).l
          (recover_loop y0 sh y.order.toNat 0 y).order.toNat ∧
        (recover_loop y0 sh y.order.toNat 0 y).l
          (recover_loop y0 sh y.order.toNat 0 y).order.toNat < 100000 := by
    intro sh y hy
    obtain ⟨h1, _, h3, _, h5⟩ := recover_loop_spec y0 sh y.order.toNat 0 y
    rw [h1]
    by_cases h0 : y.order.toNat = 0
    · rw [h0] at h3 ⊢
      rw [(h3 0 (Nat.le_refl 0)).2, hy]
      exact hg
    · exact h5 _ (Nat.pos_of_ne_zero h0) (by omega)
  unfold recover
  split_ifs
  · exact key 0 { g with order := g.order + 1 } rfl
  · exact key 1 g rfl

theorem adjust_sign_canonical (u l : Int) (hl : -100000 < l ∧ l < 100000) :
    0 ≤ (adjust_sign 100000 u l).1 * (adjust_sign 100000 u l).2 ∧
    -100000 < (adjust_sign 100000 u l).2 ∧ (adjust_sign 100000 u l).2 < 100000 := by
  unfold adjust_sign
  by_cases h1 : u < 0 ∧ l > 0
  · simp only [h1, and_self, if_true]
    refine ⟨?_, by omega, by omega⟩
    exact mul_nonneg_of_nonpos_of_nonpos (by omega) (by omega)
  · by_cases h2 : u > 0 ∧ l < 0
    · simp only [h1, h2, and_self, if_true, if_false]
      refine ⟨?_, by omega, by omega⟩
      exact mul_nonneg (by omega) (by omega)
    · simp only [h1, h2, if_false]
      refine ⟨?_, hl.1, hl.2⟩
      rcases le_or_lt 0 u with hu | hu
      · rcases le_or_lt 0 l with hl0 | hl0
        · exact mul_nonneg hu hl0
        · have : u = 0 := by
            by_contra hne
            exact h2 ⟨by omega, hl0⟩
          rw [this]; simp
      · rcases le_or_lt l 0 with hl0 | hl0
        · exact mul_nonneg_of_nonpos_of_nonpos (by omega) hl0
        · exact absurd ⟨hu, hl0⟩ h1

/-- The adjustment of `putfield` does nothing to a pair that it has adjusted. -/
theorem adjust_sign_idem (m u l : Int) (hl : -m < l ∧ l < m) :
    adjust_sign m (adjust_sign m u l).1 (adjust_sign m u l).2 = adjust_sign m u l := by
  unfold adjust_sign
  by_cases h1 : u < 0 ∧ l > 0
  · have a : ¬ (u + 1 < 0 ∧ l - m > 0) := by omega
    have b : ¬ (u + 1 > 0 ∧ l - m < 0) := by omega
    simp only [h1, and_self, if_true, a, b, if_false]
  · by_cases h2 : u > 0 ∧ l < 0
    · have a : ¬ (u - 1 < 0 ∧ l + m > 0) := by omega
      have b : ¬ (u - 1 > 0 ∧ l + m < 0) := by omega
      simp only [h1, h2, and_self, if_true, if_false, a, b]
    · simp only [h1, h2, if_false]

/-- What `putfield` returns when it returns: the cell with the adjusted pair at the index
`order`, and a text. -/
theorem putfield_ok (y : data_format) (f0 f1 : Char) (y1 : data_format) (text : List Char)
    (h : putfield y f0 f1 = Except.ok (y1, text)) :
    y1 = { y with u := Function.update y.u y.order.toNat (adjust_sign 100000 (y.u y.order.toNat) (y.l y.order.toNat)).1, l := Function.update y.l y.order.toNat (adjust_sign 100000 (y.u y.order.toNat) (y.l y.order.toNat)).2 } := by
  simp only [putfield] at h
  split_ifs at h <;> simp only [Except.ok.injEq, Prod.mk.injEq] at h <;> exact h.1.symm

/-- The text of `putfield` is a function of the adjusted pair: `putfield` on the cell it
returns gives the same cell and the same text. -/
theorem putfield_idem (y : data_format) (f0 f1 : Char) (y1 : data_format) (text : List Char)
    (hl : -100000 < y.l y.order.toNat ∧ y.l y.order.toNat < 100000)
    (h : putfield y f0 f1 = Except.ok (y1, text)) :
    putfield y1 f0 f1 = Except.ok (y1, text) := by
  have e := putfield_ok y f0 f1 y1 text h
  have hi := adjust_sign_idem 100000 (y.u y.order.toNat) (y.l y.order.toNat) hl
  have hu : y1.u y1.order.toNat = (adjust_sign 100000 (y.u y.order.toNat) (y.l y.order.toNat)).1 := by
    rw [e]; simp only [Function.update_same]
  have hlo : y1.l y1.order.toNat = (adjust_sign 100000 (y.u y.order.toNat) (y.l y.order.toNat)).2 := by
    rw [e]; simp only [Function.update_same]
  have ho : y1.order = y.order := by rw [e]
  have hy : ({ y1 with u := Function.update y1.u y1.order.toNat (adjust_sign 100000 (y.u y.order.toNat) (y.l y.order.toNat)).1, l := Function.update y1.l y1.order.toNat (adjust_sign 100000 (y.u y.order.toNat) (y.l y.order.toNat)).2 } : data_format) = y1 := by
    rw [← hu, ← hlo]
    simp only [Function.update_eq_self]
  rw [← h]
  simp only [putfield, hu, hlo, hi, hy]
  rw [e]

end CRinexStreamBuf
end GPSTk

namespace GPSTk
namespace CRinexStreamBuf

/-- C15: whenever the decoder emits an observation (`obs_epoch`: the field of `getdiff`
that is not blank, then "recover the data" and `putfield` of `write_data`), the pair
`(u, l)` at the index `order` of the cell that `putfield` leaves, which is the pair its
text is printed from (`putfield` on that cell gives the same cell and text), satisfies
`u * l >= 0` and `|l| < 10^5`, and `u * 10^5 + l` is the value that the recovery
computed: the adjustment leaves it unchanged. -/
theorem putfield_sign_canonical (line : List Char) (fbegin : Nat) (sat_old : Int)
    (y0 y : data_format) (f0 f1 : Char) (r : data_format × List Char)
    (h : obs_epoch line fbegin sat_old y0 y f0 f1 = Except.ok r) :
    ∃ line1 fb g, getdiff_field line fbegin sat_old y0 y = Except.ok (line1, fb, g) ∧
      putfield (recover g y0) f0 f1 = Except.ok r ∧
      putfield r.1 f0 f1 = Except.ok r ∧
      r.1.order = (recover g y0).order ∧
      0 ≤ r.1.u r.1.order.toNat * r.1.l r.1.order.toNat ∧
      -100000 < r.1.l r.1.order.toNat ∧ r.1.l r.1.order.toNat < 100000 ∧
      cell_value r.1 r.1.order.toNat = cell_value (recover g y0) r.1.order.toNat := by
  obtain ⟨y1, text⟩ := r
  simp only [obs_epoch] at h
  cases hg : getdiff_field line fbegin sat_old y0 y with
  | error e => simp [hg] at h
  | ok q =>
    obtain ⟨line1, fb, g⟩ := q
    simp only [hg, write_value] at h
    have hlow := recover_low g y0 (getdiff_field_low line fbegin sat_old y0 y line1 fb g hg)
    have e := putfield_ok _ f0 f1 y1 text h
    have ho : y1.order = (recover g y0).order := by rw [e]
    obtain ⟨c1, c2, c3⟩ := adjust_sign_canonical ((recover g y0).u (recover g y0).order.toNat)
      ((recover g y0).l (recover g y0).order.toNat) hlow
    obtain ⟨v1, _, _⟩ := adjust_sign_spec ((recover g y0).u (recover g y0).order.toNat)
      ((recover g y0).l (recover g y0).order.toNat) hlow
    have hu : y1.u y1.order.toNat = (adjust_sign 100000 ((recover g y0).u (recover g y0).order.toNat) ((recover g y0).l (recover g y0).order.toNat)).1 := by
      rw [e]; simp only [Function.update_same]
    have hl : y1.l y1.order.toNat = (adjust_sign 100000 ((recover g y0).u (recover g y0).order.toNat) ((recover g y0).l (recover g y0).order.toNat)).2 := by
      rw [e]; simp only [Function.update_same]
    refine ⟨line1, fb, g, rfl, h, putfield_idem _ f0 f1 y1 text hlow h, ho, ?_, ?_, ?_, ?_⟩
    · show 0 ≤ y1.u y1.order.toNat * y1.l y1.order.toNat
      rw [hu, hl]; exact c1
    · show -100000 < y1.l y1.order.toNat
      rw [hl]; exact c2
    · show y1.l y1.order.toNat < 100000
      rw [hl]; exact c3
    · show cell_value y1 y1.order.toNat = cell_value (recover g y0) y1.order.toNat
      simp only [cell_value]
      rw [hu, hl, ho]; exact v1

/-- C15 (witness): the token `-1` for a cell that continues an arc of order 1 whose
previous value is 100000 (`u = 1`, `l = 0`): the recovery gives `u = 1`, `l = -1`, and
`putfield` prints `99.999` from the adjusted pair `u = 0`, `l = 99999`. -/
theorem putfield_sign_canonical_witness :
    ∃ r, obs_epoch [ '-', '1', NUL ] 0 0
          { data_format.zero with u := fun _ => 1, arc_order := 1 } data_format.zero ' ' ' ' =
        Except.ok r ∧
      r.2 = "        99.999  ".toList ∧ r.1.u r.1.order.toNat = 0 ∧
      r.1.l r.1.order.toNat = 99999 ∧
      ∃ line1 fb g, getdiff_field [ '-', '1', NUL ] 0 0
          { data_format.zero with u := fun _ => 1, arc_order := 1 } data_format.zero =
          Except.ok (line1, fb, g) ∧
        putfield (recover g { data_format.zero with u := fun _ => 1, arc_order := 1 }) ' ' ' ' =
          Except.ok r ∧
        putfield r.1 ' ' ' ' = Except.ok r ∧
        r.1.order = (recover g { data_format.zero with u := fun _ => 1, arc_order := 1 }).order ∧
        0 ≤ r.1.u r.1.order.toNat * r.1.l r.1.order.toNat ∧
        -100000 < r.1.l r.1.order.toNat ∧ r.1.l r.1.order.toNat < 100000 ∧
        cell_value r.1 r.1.order.toNat =
          cell_value (recover g { data_format.zero with u := fun _ => 1, arc_order := 1 })
            r.1.order.toNat :=
  ⟨_, rfl, rfl, rfl, rfl,
    putfield_sign_canonical [ '-', '1', NUL ] 0 0
      { data_format.zero with u := fun _ => 1, arc_order := 1 } data_format.zero ' ' ' ' _ rfl⟩

end CRinexStreamBuf
end GPSTk

namespace GPSTk
namespace CRinexStreamBuf

/-! ## The arc invariant of a cell -/

theorem atol_amp (c0 : Char) (rest : List Char) :
    0 ≤ atol (c0 :: '&' :: rest) ∧ atol (c0 :: '&' :: rest) ≤ 9 := by
  have hamp : isspace '&' = false := by decide
  have hd : isdigit '&' = false := by decide
  have h0 : digits_value ('&' :: rest) 0 = 0 := by simp [digits_value, hd]
  unfold atol
  by_cases hs : isspace c0 = true
  · have e : List.dropWhile isspace (c0 :: '&' :: rest) = '&' :: rest := by
      simp [List.dropWhile, hs, hamp]
    rw [e]
    have a : ('&' : Char) ≠ '-' := by decide
    have b : ('&' : Char) ≠ '+' := by decide
    simp only [a, b, if_false, h0]
    constructor <;> simp
  · have e : List.dropWhile isspace (c0 :: '&' :: rest) = c0 :: '&' :: rest := by
      simp [List.dropWhile, hs]
    rw [e]
    by_cases hm : c0 = '-'
    · simp only [hm, if_true, h0]; constructor <;> simp
    · by_cases hp : c0 = '+'
      · have : ('+' : Char) ≠ '-' := by decide
        simp only [hp, this, if_true, if_false, h0]; constructor <;> simp
      · simp only [hm, hp, if_false]
        by_cases hdig : isdigit c0 = true
        · have hv : digits_value (c0 :: '&' :: rest) 0 = c0.toNat - 48 := by
            simp [digits_value, hdig, hd]
          rw [hv]
          have hb := (isdigit_iff c0).1 hdig
          constructor
          · exact Int.natCast_nonneg _
          · have : c0.toNat - 48 ≤ 9 := by omega
            exact_mod_cast this
        · have hv : digits_value (c0 :: '&' :: rest) 0 = 0 := by
            simp [digits_value, hdig]
          rw [hv]; constructor <;> simp

theorem drop_two (line : List Char) (fbegin : Nat) (h : line.getD (fbegin + 1) NUL = '&') :
    ∃ c0 rest, line.drop fbegin = c0 :: '&' :: rest := by
  have hlt : fbegin + 1 < line.length := by
    by_contra hn
    rw [List.getD_eq_default _ _ (by omega)] at h
    revert h; decide
  have h1 : line.drop fbegin = line.get ⟨fbegin, by omega⟩ :: line.drop (fbegin + 1) :=
    List.drop_eq_getElem_cons (by omega)
  have h2 : line.drop (fbegin + 1) = line.get ⟨fbegin + 1, hlt⟩ :: line.drop (fbegin + 1 + 1) :=
    List.drop_eq_getElem_cons hlt
  have h3 : line.get ⟨fbegin + 1, hlt⟩ = '&' := by
    rw [← h, List.getD_eq_getElem _ _ hlt]; rfl
  exact ⟨_, _, by rw [h1, h2, h3]⟩

/-- The two ways in which `getdiff` sets `order` and `arc_order` of a field that is not
blank: an arc initialisation (`order = -1`, `0 <= arc_order <= 5`), or the inheritance
from the cell of the previous epoch, whose `arc_order` is not negative. -/
theorem getdiff_arc_cases (line : List Char) (fbegin : Nat) (sat_old : Int)
    (y0 y g : data_format) (fb : Nat)
    (h : getdiff_arc line fbegin sat_old y0 y = Except.ok (g, fb)) :
    (line.getD (fbegin + 1) NUL = '&' ∧ g.order = -1 ∧ 0 ≤ g.arc_order ∧ g.arc_order ≤ 5) ∨
    (line.getD (fbegin + 1) NUL ≠ '&' ∧ 0 ≤ sat_old ∧ 0 ≤ y0.arc_order ∧
      g.order = y0.order ∧ g.arc_order = y0.arc_order) := by
  simp only [getdiff_arc, char_at] at h
  by_cases hb : fbegin + 1 ≤ line.length
  · simp only [hb, if_true] at h
    by_cases hc : line.getD (fbegin + 1) NUL = '&'
    · left
      obtain ⟨c0, rest, hd⟩ := drop_two line fbegin hc
      have ha := atol_amp c0 rest
      rw [← hd] at ha
      simp only [hc, if_true, MAX_DIFF_ORDER] at h
      by_cases hmax : atol (line.drop fbegin) > 5
      · simp [hmax] at h
      · simp only [hmax, if_false, Except.ok.injEq, Prod.mk.injEq] at h
        obtain ⟨hg, _⟩ := h
        subst hg
        exact ⟨hc, rfl, ha.1, by simpa using hmax⟩
    · right
      simp only [hc, if_false] at h
      by_cases hs : sat_old < 0
      · simp [hs] at h
      · simp only [hs, if_false] at h
        by_cases ha : y0.arc_order < 0
        · simp [ha] at h
        · simp only [ha, if_false, Except.ok.injEq, Prod.mk.injEq] at h
          obtain ⟨hg, _⟩ := h
          subst hg
          exact ⟨hc, by omega, by omega, rfl, rfl⟩
  · simp [hb] at h

theorem recover_order (g y0 : data_format) :
    (recover g y0).arc_order = g.arc_order ∧
    (recover g y0).order = if g.order < g.arc_order then g.order + 1 else g.order := by
  unfold recover
  split_ifs
  · obtain ⟨h1, h2, _⟩ := recover_loop_spec y0 0 (g.order + 1).toNat 0 { g with order := g.order + 1 }
    exact ⟨h2, h1⟩
  · obtain ⟨h1, h2, _⟩ := recover_loop_spec y0 1 g.order.toNat 0 g
    exact ⟨h2, h1⟩

/-- What `obs_epoch` does to `order` and `arc_order`. -/
theorem obs_epoch_order (line : List Char) (fbegin : Nat) (sat_old : Int)
    (y0 y : data_format) (f0 f1 : Char) (r : data_format × List Char)
    (h : obs_epoch line fbegin sat_old y0 y f0 f1 = Except.ok r) :
    (line.getD (fbegin + 1) NUL = '&' ∧ r.1.order = 0 ∧ 0 ≤ r.1.arc_order ∧
      r.1.arc_order ≤ 5) ∨
    (line.getD (fbegin + 1) NUL ≠ '&' ∧ 0 ≤ sat_old ∧ 0 ≤ y0.arc_order ∧
      r.1.arc_order = y0.arc_order ∧
      r.1.order = if y0.order < y0.arc_order then y0.order + 1 else y0.order) := by
  obtain ⟨y1, text⟩ := r
  simp only [obs_epoch] at h
  cases hg : getdiff_field line fbegin sat_old y0 y with
  | error e => simp [hg] at h
  | ok q =>
    obtain ⟨line1, fb, g⟩ := q
    simp only [hg, write_value] at h
    have e := putfield_ok _ f0 f1 y1 text h
    have ho : y1.order = (recover g y0).order := by rw [e]
    have ha : y1.arc_order = (recover g y0).arc_order := by rw [e]
    obtain ⟨r1, r2⟩ := recover_order g y0
    simp only [getdiff_field] at hg
    cases hq : getdiff_arc line fbegin sat_old y0 y with
    | error e => simp [hq] at hg
    | ok p =>
      obtain ⟨g0, fb0⟩ := p
      simp only [hq] at hg
      obtain ⟨go, ga, _⟩ := getdiff_value_low line fb0 g0 line1 fb g hg
      rcases getdiff_arc_cases line fbegin sat_old y0 y g0 fb0 hq with
        ⟨hc, h1, h2, h3⟩ | ⟨hc, h1, h2, h3, h4⟩
      · left
        refine ⟨hc, ?_, ?_, ?_⟩
        · show y1.order = 0
          rw [ho, r2, go, ga, h1]
          have : (-1 : Int) < g0.arc_order := by omega
          simp only [this, if_true]; rfl
        · show 0 ≤ y1.arc_order
          rw [ha, r1, ga]; exact h2
        · show y1.arc_order ≤ 5
          rw [ha, r1, ga]; exact h3
      · right
        refine ⟨hc, h1, h2, ?_, ?_⟩
        · show y1.arc_order = y0.arc_order
          rw [ha, r1, ga]; exact h4
        · show y1.order = _
          rw [ho, r2, go, ga, h3, h4]

end CRinexStreamBuf
end GPSTk

namespace GPSTk
namespace CRinexStreamBuf

theorem cell_epoch_arc (line : List Char) (fbegin : Nat) (sat_old : Int)
    (y0 y : data_format) (f0 f1 : Char) (c : data_format)
    (h : cell_epoch line fbegin sat_old y0 y f0 f1 = Except.ok c)
    (h0 : arc_ok y0 ∨ sat_old < 0) :
    arc_ok c ∧
    (line.getD fbegin NUL ≠ NUL → line.getD (fbegin + 1) NUL ≠ '&' →
      c.arc_order = y0.arc_order ∧
      c.order = (if y0.order < y0.arc_order then y0.order + 1 else y0.order) ∧
      y0.order ≤ c.order) := by
  simp only [cell_epoch, char_at] at h
  by_cases hb : fbegin ≤ line.length
  · simp only [hb, if_true] at h
    by_cases hn : line.getD fbegin NUL = NUL
    · simp only [hn, if_true, Except.ok.injEq] at h
      subst h
      exact ⟨⟨le_refl _, le_refl _, show (-1 : Int) ≤ 5 by decide⟩, fun hne => absurd hn hne⟩
    · simp only [hn, if_false] at h
      cases he : obs_epoch line fbegin sat_old y0 y f0 f1 with
      | error e => simp [he] at h
      | ok r =>
        simp only [he, Except.ok.injEq] at h
        subst h
        rcases obs_epoch_order line fbegin sat_old y0 y f0 f1 r he with
          ⟨hc, h1, h2, h3⟩ | ⟨hc, h1, h2, h3, h4⟩
        · exact ⟨⟨by omega, by omega, h3⟩, fun _ hne => absurd hc hne⟩
        · rcases h0 with hk | hk
          · obtain ⟨k1, k2, k3⟩ := hk
            have key : r.1.order = (if y0.order < y0.arc_order then y0.order + 1 else y0.order) ∧
                y0.order ≤ r.1.order ∧ r.1.order ≤ y0.arc_order := by
              rw [h4]
              split_ifs <;> refine ⟨rfl, ?_, ?_⟩ <;> omega
            refine ⟨⟨by omega, by rw [h3]; exact key.2.2, by rw [h3]; exact k3⟩, fun _ _ => ⟨h3, key.1, key.2.1⟩⟩
          · omega
  · simp [hb] at h

/-- C19: for the cell of a (satellite, observable) slot followed over the epochs of a body
(`cell_run`: each epoch is `getdiff` on the field of the slot, then "recover the data" and
`putfield` of `write_data`; the cell of an epoch is the previous-epoch cell of the next),
starting from a satellite that is new or from a cell that satisfies the invariant: after
every epoch that is decoded without error the cell satisfies
`-1 <= order <= arc_order <= 5`, and when the field of the next epoch is not blank and
carries no arc initialisation, the cell keeps `arc_order`, and its `order` is the previous
one plus one when that was below `arc_order` and the previous one otherwise; it never
decreases. -/
theorem arc_invariant (ctx : Nat → SlotLine) (p0 : data_format)
    (h0 : arc_ok p0 ∨ (ctx 0).sat_old < 0) :
    (∀ t c, cell_run ctx p0 t = Except.ok c → arc_ok c) ∧
    (∀ t prev c, cell_run ctx p0 t = Except.ok prev → cell_run ctx p0 (t + 1) = Except.ok c →
      (ctx (t + 1)).line.getD (ctx (t + 1)).fbegin NUL ≠ NUL →
      (ctx (t + 1)).line.getD ((ctx (t + 1)).fbegin + 1) NUL ≠ '&' →
      c.arc_order = prev.arc_order ∧
      c.order = (if prev.order < prev.arc_order then prev.order + 1 else prev.order) ∧
      prev.order ≤ c.order) := by
  have inv : ∀ t c, cell_run ctx p0 t = Except.ok c → arc_ok c := by
    intro t
    induction t with
    | zero =>
      intro c hc
      exact (cell_epoch_arc _ _ _ _ _ _ _ c hc h0).1
    | succ t ih =>
      intro c hc
      rw [cell_run] at hc
      cases hp : cell_run ctx p0 t with
      | error e => simp [hp] at hc
      | ok prev =>
        simp only [hp] at hc
        exact (cell_epoch_arc _ _ _ _ _ _ _ c hc (Or.inl (ih prev hp))).1
  refine ⟨inv, ?_⟩
  intro t prev c hp hc hn ha
  rw [cell_run] at hc
  simp only [hp] at hc
  exact (cell_epoch_arc _ _ _ _ _ _ _ c hc (Or.inl (inv t prev hp))).2 hn ha

/-- C19 (witness): the slot that receives `1&5`, `3`, `2` as a new satellite: the three
epochs are decoded, and the cell has order 0, 1, 1 of the arc order 1. -/
theorem arc_invariant_witness :
    (cell_run slot_lines data_format.zero 0).toOption.map (fun c => (c.order, c.arc_order)) =
      some (0, 1) ∧
    (cell_run slot_lines data_format.zero 1).toOption.map (fun c => (c.order, c.arc_order)) =
      some (1, 1) ∧
    (cell_run slot_lines data_format.zero 2).toOption.map (fun c => (c.order, c.arc_order)) =
      some (1, 1) ∧
    (arc_ok data_format.zero ∨ (slot_lines 0).sat_old < 0) ∧
    (∀ t c, cell_run slot_lines data_format.zero t = Except.ok c → arc_ok c) ∧
    (∀ t prev c, cell_run slot_lines data_format.zero t = Except.ok prev →
      cell_run slot_lines data_format.zero (t + 1) = Except.ok c →
      (slot_lines (t + 1)).line.getD (slot_lines (t + 1)).fbegin NUL ≠ NUL →
      (slot_lines (t + 1)).line.getD ((slot_lines (t + 1)).fbegin + 1) NUL ≠ '&' →
      c.arc_order = prev.arc_order ∧
      c.order = (if prev.order < prev.arc_order then prev.order + 1 else prev.order) ∧
      prev.order ≤ c.order) :=
  ⟨rfl, rfl, rfl, Or.inr (by decide),
    arc_invariant slot_lines data_format.zero (Or.inr (by decide))⟩

end CRinexStreamBuf
end GPSTk

namespace GPSTk
namespace CRinexStreamBuf

/-! ## The digits that `printf` writes -/

theorem toDigitsCore_utoa : ∀ (fuel n : Nat) (acc : List Char), n < fuel →
    Nat.toDigitsCore 10 fuel n acc = utoa n ++ acc := by
  intro fuel
  induction fuel using Nat.strong_induction_on with
  | _ fuel ih =>
    intro n acc h
    cases fuel with
    | zero => omega
    | succ fuel =>
      have e : utoa n = Nat.toDigitsCore 10 (n + 1) n [] := rfl
      rw [e, Nat.toDigitsCore, Nat.toDigitsCore]
      by_cases h0 : n / 10 = 0
      · simp [h0]
      · simp only [h0, if_false]
        have hn : n / 10 < n := Nat.div_lt_self (by omega) (by norm_num)
        rw [ih fuel (by omega) (n / 10) _ (by omega), ih n (by omega) (n / 10) _ hn]
        simp

theorem utoa_lt_ten (n : Nat) (h : n < 10) : utoa n = [Nat.digitChar n] := by
  have e : utoa n = Nat.toDigitsCore 10 (n + 1) n [] := rfl
  rw [e, Nat.toDigitsCore]
  have h0 : n / 10 = 0 := by omega
  have h1 : n % 10 = n := by omega
  simp [h0, h1]

theorem utoa_step (n : Nat) (h : 10 ≤ n) : utoa n = utoa (n / 10) ++ [Nat.digitChar (n % 10)] := by
  have e : utoa n = Nat.toDigitsCore 10 (n + 1) n [] := rfl
  rw [e, Nat.toDigitsCore]
  have h0 : n / 10 ≠ 0 := by omega
  simp only [h0, if_false]
  exact toDigitsCore_utoa n (n / 10) _ (Nat.div_lt_self (by omega) (by norm_num))

/-- The digits of `n * 10 + d` are the digits of `n` and the digit `d`, also when they
are filled with zeros to a width. -/
theorem zero_fill_step (k n d : Nat) (hd : d < 10) (hk : 1 ≤ k) :
    List.replicate (k + 1 - (utoa (n * 10 + d)).length) '0' ++ utoa (n * 10 + d) =
      (List.replicate (k - (utoa n).length) '0' ++ utoa n) ++ [Nat.digitChar d] := by
  by_cases hn : n = 0
  · subst hn
    simp only [Nat.zero_mul, Nat.zero_add]
    rw [utoa_lt_ten d hd, utoa_lt_ten 0 (by norm_num)]
    simp only [List.length_singleton, Nat.add_sub_cancel, List.append_assoc]
    obtain ⟨j, rfl⟩ : ∃ j, k = j + 1 := ⟨k - 1, by omega⟩
    simp only [Nat.add_sub_cancel]
    rw [List.replicate_succ' ]
    simp
    rfl
  · have h10 : 10 ≤ n * 10 + d := by omega
    rw [utoa_step _ h10]
    have e1 : (n * 10 + d) / 10 = n := by omega
    have e2 : (n * 10 + d) % 10 = d := by omega
    rw [e1, e2]
    simp only [List.length_append, List.length_singleton, Nat.add_sub_add_right,
      List.append_assoc]

/-- The conversion `%.5ld` of a number below `10^5`: its five digits. -/
theorem fmt_ld_prec_five (n : Nat) (h : n < 100000) :
    fmt_ld_prec 5 (n : Int) = [Nat.digitChar (n / 10000), Nat.digitChar (n / 1000 % 10),
      Nat.digitChar (n / 100 % 10), Nat.digitChar (n / 10 % 10), Nat.digitChar (n % 10)] := by
  have hneg : ¬ ((n : Int) < 0) := by omega
  simp only [fmt_ld_prec, hneg, if_false, Int.natAbs_ofNat]
  have s1 := zero_fill_step 4 (n / 10) (n % 10) (Nat.mod_lt _ (by norm_num)) (by norm_num)
  have s2 := zero_fill_step 3 (n / 10 / 10) (n / 10 % 10) (Nat.mod_lt _ (by norm_num)) (by norm_num)
  have s3 := zero_fill_step 2 (n / 10 / 10 / 10) (n / 10 / 10 % 10) (Nat.mod_lt _ (by norm_num)) (by norm_num)
  have s4 := zero_fill_step 1 (n / 10 / 10 / 10 / 10) (n / 10 / 10 / 10 % 10) (Nat.mod_lt _ (by norm_num)) (by norm_num)
  have e1 : n / 10 * 10 + n % 10 = n := by omega
  have e2 : n / 10 / 10 * 10 + n / 10 % 10 = n / 10 := by omega
  have e3 : n / 10 / 10 / 10 * 10 + n / 10 / 10 % 10 = n / 10 / 10 := by omega
  have e4 : n / 10 / 10 / 10 / 10 * 10 + n / 10 / 10 / 10 % 10 = n / 10 / 10 / 10 := by omega
  rw [e1] at s1; rw [e2] at s2; rw [e3] at s3; rw [e4] at s4
  have s5 : List.replicate (1 - (utoa (n / 10 / 10 / 10 / 10)).length) '0' ++
      utoa (n / 10 / 10 / 10 / 10) = [Nat.digitChar (n / 10 / 10 / 10 / 10)] := by
    rw [utoa_lt_ten _ (by omega)]; rfl
  rw [s5] at s4; rw [s4] at s3; rw [s3] at s2; rw [s2] at s1
  have a1 : n / 10 / 10 / 10 / 10 = n / 10000 := by omega
  have a2 : n / 10 / 10 / 10 % 10 = n / 1000 % 10 := by omega
  have a3 : n / 10 / 10 % 10 = n / 100 % 10 := by omega
  rw [a1, a2, a3] at s1
  rw [s1]; rfl

end CRinexStreamBuf
end GPSTk

namespace GPSTk
namespace CRinexStreamBuf

/-- The conversion `%.3ld` of a number below `10^3`: its three digits. -/
theorem fmt_ld_prec_three (n : Nat) (h : n < 1000) :
    fmt_ld_prec 3 (n : Int) = [Nat.digitChar (n / 100), Nat.digitChar (n / 10 % 10),
      Nat.digitChar (n % 10)] := by
  have hneg : ¬ ((n : Int) < 0) := by omega
  simp only [fmt_ld_prec, hneg, if_false, Int.natAbs_ofNat]
  have s1 := zero_fill_step 2 (n / 10) (n % 10) (Nat.mod_lt _ (by norm_num)) (by norm_num)
  have s2 := zero_fill_step 1 (n / 10 / 10) (n / 10 % 10) (Nat.mod_lt _ (by norm_num)) (by norm_num)
  have e1 : n / 10 * 10 + n % 10 = n := by omega
  have e2 : n / 10 / 10 * 10 + n / 10 % 10 = n / 10 := by omega
  rw [e1] at s1; rw [e2] at s2
  have s5 : List.replicate (1 - (utoa (n / 10 / 10)).length) '0' ++
      utoa (n / 10 / 10) = [Nat.digitChar (n / 10 / 10)] := by
    rw [utoa_lt_ten _ (by omega)]; rfl
  rw [s5] at s2; rw [s2] at s1
  have a1 : n / 10 / 10 = n / 100 := by omega
  rw [a1] at s1
  rw [s1]; rfl

theorem digitChar_eq_zero (m : Nat) (h : m < 10) : Nat.digitChar m = '0' ↔ m = 0 := by
  interval_cases m <;> decide

theorem set_back_append (p r : List Char) (k : Nat) (c : Char) (hk : k ≤ r.length) :
    set_back (p ++ r) k c = p ++ set_back r k c := by
  simp only [set_back, List.length_append]
  have e : p.length + r.length - k = p.length + (r.length - k) := by omega
  rw [e, List.set_append_right _ _ (by omega)]
  simp

theorem get_back_append (p r : List Char) (k : Nat) (hk : k ≤ r.length) :
    get_back (p ++ r) k = get_back r k := by
  simp only [get_back, List.length_append]
  have e : p.length + r.length - k = p.length + (r.length - k) := by omega
  rw [e, List.getD_eq_getElem?_getD, List.getD_eq_getElem?_getD,
    List.getElem?_append_right (by omega)]
  simp

/-- The three assignments of `putfield` after the `sprintf` with `%8ld %5.5ld%c%c`. -/
theorem shift_high (p : List Char) (s a b c d e f0 f1 : Char) :
    set_back (set_back (set_back (p ++ [s, a, b, c, d, e, f0, f1]) 8
        (get_back (p ++ [s, a, b, c, d, e, f0, f1]) 7)) 7
        (get_back (set_back (p ++ [s, a, b, c, d, e, f0, f1]) 8
          (get_back (p ++ [s, a, b, c, d, e, f0, f1]) 7)) 6)) 6 '.' =
      p ++ [a, b, '.', c, d, e, f0, f1] := by
  have h8 : ∀ x : Char, set_back (p ++ [s, a, b, c, d, e, f0, f1]) 8 x = p ++ [x, a, b, c, d, e, f0, f1] :=
    fun x => set_back_append p [s, a, b, c, d, e, f0, f1] 8 x (Nat.le_refl 8)
  have g7 : get_back (p ++ [s, a, b, c, d, e, f0, f1]) 7 = a :=
    get_back_append p [s, a, b, c, d, e, f0, f1] 7 (show 7 ≤ 8 by decide)
  rw [h8, g7]
  have g6 : get_back (p ++ [a, a, b, c, d, e, f0, f1]) 6 = b :=
    get_back_append p [a, a, b, c, d, e, f0, f1] 6 (show 6 ≤ 8 by decide)
  have h7 : set_back (p ++ [a, a, b, c, d, e, f0, f1]) 7 b = p ++ [a, b, b, c, d, e, f0, f1] :=
    set_back_append p [a, a, b, c, d, e, f0, f1] 7 b (show 7 ≤ 8 by decide)
  have h6 : set_back (p ++ [a, b, b, c, d, e, f0, f1]) 6 '.' = p ++ [a, b, '.', c, d, e, f0, f1] :=
    set_back_append p [a, b, b, c, d, e, f0, f1] 6 '.' (show 6 ≤ 8 by decide)
  rw [g6, h7, h6]

/-- The text of `putfield` for a high part that is not zero. -/
theorem putfield_text_high (u l : Int) (f0 f1 : Char) (hu0 : u ≠ 0)
    (hu : -9999999 ≤ u ∧ u ≤ 9999999) (hl : -100000 < l ∧ l < 100000) (hs : 0 ≤ u * l) :
    set_back (set_back (set_back (pad_left 8 (fmt_ld u) ++ [ ' ' ] ++ fmt_ld_prec 5 (labs l) ++ [f0, f1]) 8
        (get_back (pad_left 8 (fmt_ld u) ++ [ ' ' ] ++ fmt_ld_prec 5 (labs l) ++ [f0, f1]) 7)) 7
        (get_back (set_back (pad_left 8 (fmt_ld u) ++ [ ' ' ] ++ fmt_ld_prec 5 (labs l) ++ [f0, f1]) 8
          (get_back (pad_left 8 (fmt_ld u) ++ [ ' ' ] ++ fmt_ld_prec 5 (labs l) ++ [f0, f1]) 7)) 6)) 6 '.' =
      render_datum (u * 100000 + l) ++ [f0, f1] := by
  have hL : labs l < 100000 := by simp only [labs]; omega
  rw [fmt_ld_prec_five _ hL]
  have ht : pad_left 8 (fmt_ld u) ++ [ ' ' ] ++ [Nat.digitChar (labs l / 10000), Nat.digitChar (labs l / 1000 % 10), Nat.digitChar (labs l / 100 % 10), Nat.digitChar (labs l / 10 % 10), Nat.digitChar (labs l % 10)] ++ [f0, f1] =
      pad_left 8 (fmt_ld u) ++ [ ' ', Nat.digitChar (labs l / 10000), Nat.digitChar (labs l / 1000 % 10), Nat.digitChar (labs l / 100 % 10), Nat.digitChar (labs l / 10 % 10), Nat.digitChar (labs l % 10), f0, f1] := by
    simp
  rw [ht, shift_high]
  -- the value and its digits
  have hsame : (u > 0 → l ≥ 0) ∧ (u < 0 → l ≤ 0) := by
    constructor
    · intro h; by_contra hn
      have : u * l < 0 := mul_neg_of_pos_of_neg h (by omega)
      omega
    · intro h; by_contra hn
      have : u * l < 0 := mul_neg_of_neg_of_pos h (by omega)
      omega
  have hv : (u * 100000 + l).natAbs = u.natAbs * 100000 + labs l := by
    simp only [labs]; omega
  have hneg : (u * 100000 + l < 0) ↔ u < 0 := by omega
  have hU : 1 ≤ u.natAbs := by omega
  have hq : (u * 100000 + l).natAbs / 1000 = (u.natAbs * 10 + labs l / 10000) * 10 + labs l / 1000 % 10 := by
    rw [hv]; omega
  have hr : (u * 100000 + l).natAbs % 1000 = labs l % 1000 := by
    rw [hv]; omega
  have hq0 : ¬ ((u * 100000 + l).natAbs / 1000 = 0) := by rw [hq]; omega
  have hd1 : utoa ((u.natAbs * 10 + labs l / 10000) * 10 + labs l / 1000 % 10) =
      utoa u.natAbs ++ [Nat.digitChar (labs l / 10000), Nat.digitChar (labs l / 1000 % 10)] := by
    rw [utoa_step _ (by omega)]
    have e1 : ((u.natAbs * 10 + labs l / 10000) * 10 + labs l / 1000 % 10) / 10 = u.natAbs * 10 + labs l / 10000 := by omega
    have e2 : ((u.natAbs * 10 + labs l / 10000) * 10 + labs l / 1000 % 10) % 10 = labs l / 1000 % 10 := by omega
    rw [e1, e2, utoa_step _ (by omega)]
    have e3 : (u.natAbs * 10 + labs l / 10000) / 10 = u.natAbs := by omega
    have e4 : (u.natAbs * 10 + labs l / 10000) % 10 = labs l / 10000 := by omega
    rw [e3, e4]; simp
  have h3 := fmt_ld_prec_three (labs l % 1000) (Nat.mod_lt _ (by norm_num))
  have a1 : labs l % 1000 / 100 = labs l / 100 % 10 := by omega
  have a2 : labs l % 1000 / 10 % 10 = labs l / 10 % 10 := by omega
  have a3 : labs l % 1000 % 10 = labs l % 10 := by omega
  rw [a1, a2, a3] at h3
  simp only [render_datum, hq0, if_false, hr, h3]
  rw [hq, hd1, fmt_ld_eq]
  have hsg : (if u * 100000 + l < 0 then [ '-' ] else []) = sign_chars (decide (u < 0)) := by
    by_cases hu' : u < 0
    · simp [sign_chars, hu', hneg.2 hu']
    · have : ¬ (u * 100000 + l < 0) := fun h => hu' (hneg.1 h)
      simp [sign_chars, hu', this]
  rw [hsg]
  simp only [pad_left, List.length_append, List.length_cons,
    List.length_nil, List.append_assoc]
  have hlen : 14 - ((sign_chars (decide (u < 0))).length + ((utoa u.natAbs).length + (0 + 1 + 1 + (0 + 1 + 1 + 1 + 1)))) =
      8 - ((sign_chars (decide (u < 0))).length + (utoa u.natAbs).length) := by omega
  simp [hlen]

end CRinexStreamBuf
end GPSTk

namespace GPSTk
namespace CRinexStreamBuf

/-- The text of `putfield` for a high part that is zero. -/
theorem putfield_text_low (l : Int) (f0 f1 : Char) (hl : -100000 < l ∧ l < 100000) :
    set_back
      (if get_back (List.replicate 9 ' ' ++ fmt_ld_prec 5 (labs l) ++ [f0, f1]) 7 ≠ '0' then
        if l < 0 then
          set_back (set_back (set_back (List.replicate 9 ' ' ++ fmt_ld_prec 5 (labs l) ++ [f0, f1]) 8
            (get_back (List.replicate 9 ' ' ++ fmt_ld_prec 5 (labs l) ++ [f0, f1]) 7)) 7
            (get_back (set_back (List.replicate 9 ' ' ++ fmt_ld_prec 5 (labs l) ++ [f0, f1]) 8
              (get_back (List.replicate 9 ' ' ++ fmt_ld_prec 5 (labs l) ++ [f0, f1]) 7)) 6)) 9 '-'
        else
          set_back (set_back (List.replicate 9 ' ' ++ fmt_ld_prec 5 (labs l) ++ [f0, f1]) 8
            (get_back (List.replicate 9 ' ' ++ fmt_ld_prec 5 (labs l) ++ [f0, f1]) 7)) 7
            (get_back (set_back (List.replicate 9 ' ' ++ fmt_ld_prec 5 (labs l) ++ [f0, f1]) 8
              (get_back (List.replicate 9 ' ' ++ fmt_ld_prec 5 (labs l) ++ [f0, f1]) 7)) 6)
      else if get_back (List.replicate 9 ' ' ++ fmt_ld_prec 5 (labs l) ++ [f0, f1]) 6 ≠ '0' then
        set_back (set_back (List.replicate 9 ' ' ++ fmt_ld_prec 5 (labs l) ++ [f0, f1]) 7
          (get_back (List.replicate 9 ' ' ++ fmt_ld_prec 5 (labs l) ++ [f0, f1]) 6)) 8
          (if l < 0 then '-' else ' ')
      else set_back (List.replicate 9 ' ' ++ fmt_ld_prec 5 (labs l) ++ [f0, f1]) 7
        (if l < 0 then '-' else ' ')) 6 '.' =
      render_datum l ++ [f0, f1] := by
  have hL : labs l < 100000 := by simp only [labs]; omega
  have hLabs : l.natAbs = labs l := rfl
  rw [fmt_ld_prec_five _ hL]
  have h3 := fmt_ld_prec_three (labs l % 1000) (Nat.mod_lt _ (by norm_num))
  have a1 : labs l % 1000 / 100 = labs l / 100 % 10 := by omega
  have a2 : labs l % 1000 / 10 % 10 = labs l / 10 % 10 := by omega
  have a3 : labs l % 1000 % 10 = labs l % 10 := by omega
  rw [a1, a2, a3] at h3
  have g7 : ∀ a b c d e : Char, get_back (List.replicate 9 ' ' ++ [a, b, c, d, e] ++ [f0, f1]) 7 = a :=
    fun _ _ _ _ _ => rfl
  have g6 : ∀ a b c d e : Char, get_back (List.replicate 9 ' ' ++ [a, b, c, d, e] ++ [f0, f1]) 6 = b :=
    fun _ _ _ _ _ => rfl
  rw [g7, g6]
  have z4 := digitChar_eq_zero (labs l / 10000) (by omega)
  have z3 := digitChar_eq_zero (labs l / 1000 % 10) (Nat.mod_lt _ (by norm_num))
  simp only [render_datum, hLabs, h3, ne_eq, z4, z3]
  by_cases c4 : labs l / 10000 = 0
  · by_cases c3 : labs l / 1000 % 10 = 0
    · have q0 : labs l / 1000 = 0 := by omega
      simp only [c4, c3, q0, not_true_eq_false, if_false, if_true]
      by_cases hn : l < 0
      · simp only [hn, if_true]; rfl
      · simp only [hn, if_false]; rfl
    · have q0 : ¬ (labs l / 1000 = 0) := by omega
      have q1 : utoa (labs l / 1000) = [Nat.digitChar (labs l / 1000 % 10)] := by
        rw [utoa_lt_ten _ (by omega)]
        have : labs l / 1000 % 10 = labs l / 1000 := by omega
        rw [this]
      simp only [c4, c3, q0, q1, not_true_eq_false, not_false_eq_true, if_false, if_true]
      by_cases hn : l < 0
      · simp only [hn, if_true]; rfl
      · simp only [hn, if_false]; rfl
  · have q0 : ¬ (labs l / 1000 = 0) := by omega
    have q1 : utoa (labs l / 1000) =
        [Nat.digitChar (labs l / 10000), Nat.digitChar (labs l / 1000 % 10)] := by
      rw [utoa_step _ (by omega), utoa_lt_ten _ (by omega)]
      have : labs l / 1000 / 10 = labs l / 10000 := by omega
      rw [this]; rfl
    simp only [c4, q0, q1, not_false_eq_true, if_false, if_true]
    by_cases hn : l < 0
    · simp only [hn, if_true]; rfl
    · simp only [hn, if_false]; rfl

end CRinexStreamBuf
end GPSTk

namespace GPSTk
namespace CRinexStreamBuf

/-- The shape of the rendering of the specification: the decimal point, three digits
after it, and ten columns before it when the value has at most twelve digits. -/
theorem render_datum_shape (v : Int) (hv : v.natAbs < 10 ^ 12) :
    ∃ x d2 d1 d0, render_datum v = x ++ [ '.', d2, d1, d0] ∧ x.length = 10 := by
  have h3 := fmt_ld_prec_three (v.natAbs % 1000) (Nat.mod_lt _ (by norm_num))
  have hq : v.natAbs / 1000 < 10 ^ 9 := by
    have : (10 : Nat) ^ 12 = 1000 * 10 ^ 9 := by norm_num
    rw [this] at hv
    exact Nat.div_lt_of_lt_mul hv
  have hlen : ((if v < 0 then [ '-' ] else []) ++
      (if v.natAbs / 1000 = 0 then [] else utoa (v.natAbs / 1000))).length ≤ 10 := by
    have h9 := (utoa_spec (v.natAbs / 1000)).2.2.2 9 (by norm_num) hq
    rw [List.length_append]
    have s1 : (if v < 0 then [ '-' ] else ([] : List Char)).length ≤ 1 := by
      split_ifs <;> simp
    have s2 : (if v.natAbs / 1000 = 0 then [] else utoa (v.natAbs / 1000)).length ≤ 9 := by
      split_ifs
      · simp
      · exact h9
    omega
  refine ⟨List.replicate (10 - ((if v < 0 then [ '-' ] else []) ++
        (if v.natAbs / 1000 = 0 then [] else utoa (v.natAbs / 1000))).length) ' ' ++
      ((if v < 0 then [ '-' ] else []) ++
        (if v.natAbs / 1000 = 0 then [] else utoa (v.natAbs / 1000))),
      Nat.digitChar (v.natAbs % 1000 / 100), Nat.digitChar (v.natAbs % 1000 / 10 % 10),
      Nat.digitChar (v.natAbs % 1000 % 10), ?_, ?_⟩
  · simp only [render_datum, h3, pad_left, List.length_append, List.length_cons,
      List.length_nil, List.append_assoc]
    have e : ∀ a b : Nat, 14 - (a + (b + (0 + 1 + 1 + 1 + 1))) = 10 - (a + b) := by
      intro a b; omega
    rw [e]
  · rw [List.length_append, List.length_replicate]
    omega

/-- C14: for a cell whose pair `(u, l)` after the sign adjustment of `putfield` has
`|u| <= 9999999`, `|l| < 10^5` and `u * l >= 0`, `putfield` returns, and the text it
appends is the rendering of the specification of `v = u * 10^5 + l` (`v / 1000` with
exactly three decimals, right justified in 14 columns, `-` in front when `v < 0`, no digit
before the decimal point when `|v| < 1000`) followed by the two flag bytes: 16 bytes, the
decimal point being the 6th from the end. -/
theorem putfield_renders (y : data_format) (f0 f1 : Char)
    (hu : -9999999 ≤ (adjust_sign 100000 (y.u y.order.toNat) (y.l y.order.toNat)).1 ∧
      (adjust_sign 100000 (y.u y.order.toNat) (y.l y.order.toNat)).1 ≤ 9999999)
    (hl : -100000 < (adjust_sign 100000 (y.u y.order.toNat) (y.l y.order.toNat)).2 ∧
      (adjust_sign 100000 (y.u y.order.toNat) (y.l y.order.toNat)).2 < 100000)
    (hs : 0 ≤ (adjust_sign 100000 (y.u y.order.toNat) (y.l y.order.toNat)).1 *
      (adjust_sign 100000 (y.u y.order.toNat) (y.l y.order.toNat)).2) :
    ∃ y1, putfield y f0 f1 = Except.ok (y1,
        render_datum ((adjust_sign 100000 (y.u y.order.toNat) (y.l y.order.toNat)).1 * 100000 +
          (adjust_sign 100000 (y.u y.order.toNat) (y.l y.order.toNat)).2) ++ [f0, f1]) ∧
      (render_datum ((adjust_sign 100000 (y.u y.order.toNat) (y.l y.order.toNat)).1 * 100000 +
          (adjust_sign 100000 (y.u y.order.toNat) (y.l y.order.toNat)).2) ++ [f0, f1]).length = 16 ∧
      get_back (render_datum ((adjust_sign 100000 (y.u y.order.toNat) (y.l y.order.toNat)).1 * 100000 +
          (adjust_sign 100000 (y.u y.order.toNat) (y.l y.order.toNat)).2) ++ [f0, f1]) 6 = '.' := by
  have hsame : ((adjust_sign 100000 (y.u y.order.toNat) (y.l y.order.toNat)).1 > 0 →
      (adjust_sign 100000 (y.u y.order.toNat) (y.l y.order.toNat)).2 ≥ 0) ∧
      ((adjust_sign 100000 (y.u y.order.toNat) (y.l y.order.toNat)).1 < 0 →
      (adjust_sign 100000 (y.u y.order.toNat) (y.l y.order.toNat)).2 ≤ 0) := by
    constructor
    · intro h; by_contra hn
      have := mul_neg_of_pos_of_neg h (lt_of_not_ge hn)
      omega
    · intro h; by_contra hn
      have := mul_neg_of_neg_of_pos h (lt_of_not_ge hn)
      omega
  have hv : ((adjust_sign 100000 (y.u y.order.toNat) (y.l y.order.toNat)).1 * 100000 +
      (adjust_sign 100000 (y.u y.order.toNat) (y.l y.order.toNat)).2).natAbs < 10 ^ 12 := by
    have : (10 : Nat) ^ 12 = 1000000000000 := by norm_num
    rw [this]; omega
  obtain ⟨x, d2, d1, d0, hx, hxl⟩ := render_datum_shape _ hv
  refine ⟨{ y with u := Function.update y.u y.order.toNat (adjust_sign 100000 (y.u y.order.toNat) (y.l y.order.toNat)).1, l := Function.update y.l y.order.toNat (adjust_sign 100000 (y.u y.order.toNat) (y.l y.order.toNat)).2 }, ?_, ?_, ?_⟩
  · by_cases hz : (adjust_sign 100000 (y.u y.order.toNat) (y.l y.order.toNat)).1 ≠ 0
    · have hr : ¬ ((adjust_sign 100000 (y.u y.order.toNat) (y.l y.order.toNat)).1 > 99999999 ∨
          (adjust_sign 100000 (y.u y.order.toNat) (y.l y.order.toNat)).1 < -9999999) := by omega
      have ht := putfield_text_high _ _ f0 f1 hz hu hl hs
      simp only [putfield, hz, hr, if_true, if_false, ne_eq, not_false_eq_true]
      rw [ht]
    · have hz0 : (adjust_sign 100000 (y.u y.order.toNat) (y.l y.order.toNat)).1 = 0 := by
        simpa using hz
      have ht := putfield_text_low _ f0 f1 hl
      simp only [putfield, hz, if_false]
      rw [hz0, Int.zero_mul, Int.zero_add, ← ht]
  · rw [hx]
    simp only [List.length_append, hxl, List.length_cons, List.length_nil]
  · rw [hx, List.append_assoc]
    exact (get_back_append x ([ '.', d2, d1, d0] ++ [f0, f1]) 6 (show 6 ≤ 6 by decide)).trans rfl

/-- C14 (witness): the pair `u = -12`, `l = -34567` (the value -1234567) is printed as
`-1234.567` in 14 columns, followed by the two flag bytes. -/
theorem putfield_renders_witness :
    render_datum (-1234567) = "     -1234.567".toList ∧
    (-9999999 ≤ (adjust_sign 100000 (-12) (-34567)).1 ∧
      (adjust_sign 100000 (-12) (-34567)).1 ≤ 9999999) ∧
    ∃ y1, putfield { data_format.zero with u := fun _ => -12, l := fun _ => -34567 } '4' '7' =
        Except.ok (y1, render_datum ((adjust_sign 100000 (-12) (-34567)).1 * 100000 +
          (adjust_sign 100000 (-12) (-34567)).2) ++ [ '4', '7' ]) ∧
      (render_datum ((adjust_sign 100000 (-12) (-34567)).1 * 100000 +
          (adjust_sign 100000 (-12) (-34567)).2) ++ [ '4', '7' ]).length = 16 ∧
      get_back (render_datum ((adjust_sign 100000 (-12) (-34567)).1 * 100000 +
          (adjust_sign 100000 (-12) (-34567)).2) ++ [ '4', '7' ]) 6 = '.' :=
  ⟨by decide, by decide,
    putfield_renders { data_format.zero with u := fun _ => -12, l := fun _ => -34567 } '4' '7'
      (by decide) (by decide) (by decide)⟩

end CRinexStreamBuf
end GPSTk

namespace GPSTk
namespace CRinexStreamBuf

/-! ## `print_clock` -/

theorem adjust_sign_signs (m u l : Int) (hl : -m < l ∧ l < m) :
    ((adjust_sign m u l).1 > 0 → (adjust_sign m u l).2 ≥ 0) ∧
    ((adjust_sign m u l).1 < 0 → (adjust_sign m u l).2 ≤ 0) ∧
    -m < (adjust_sign m u l).2 ∧ (adjust_sign m u l).2 < m := by
  unfold adjust_sign
  by_cases h1 : u < 0 ∧ l > 0
  · simp only [h1, and_self, if_true]
    refine ⟨?_, ?_, ?_, ?_⟩ <;> intros <;> omega
  · by_cases h2 : u > 0 ∧ l < 0
    · simp only [h1, h2, and_self, if_true, if_false]
      refine ⟨?_, ?_, ?_, ?_⟩ <;> intros <;> omega
    · simp only [h1, h2, if_false]
      refine ⟨?_, ?_, ?_, ?_⟩ <;> intros <;> omega

theorem fmt_ld_prec_nat (k n : Nat) :
    fmt_ld_prec k (n : Int) = List.replicate (k - (utoa n).length) '0' ++ utoa n := by
  have hneg : ¬ ((n : Int) < 0) := by omega
  simp only [fmt_ld_prec, hneg, if_false, Int.natAbs_ofNat]

theorem fmt_ld_prec_length (k n : Nat) : k ≤ (fmt_ld_prec k (n : Int)).length := by
  rw [fmt_ld_prec_nat, List.length_append, List.length_replicate]
  omega

/-- The text that `sprintf` stores in `tmp`: the high part as it is written, and the
additional digit 1. -/
theorem print_clock_tmp (u l : Int) (k : Nat) (hk : 1 ≤ k)
    (hc : (u > 0 → l ≥ 0) ∧ (u < 0 → l ≤ 0)) (hslip : ¬ (u < 0 ∧ l = 0)) :
    fmt_ld_prec (k + 1) (u * 10 + (if l < 0 then -1 else 1)) = clock_high u l k ++ [ '1' ] := by
  have hstep := zero_fill_step k u.natAbs 1 (by norm_num) hk
  have h1 : Nat.digitChar 1 = '1' := rfl
  rw [h1] at hstep
  by_cases hl : l < 0
  · have hu : u ≤ 0 := by
      by_contra hn
      have := hc.1 (by omega)
      omega
    have hz : u * 10 + -1 < 0 := by omega
    have ha : (u * 10 + -1).natAbs = u.natAbs * 10 + 1 := by omega
    simp only [hl, if_true, fmt_ld_prec, hz, ha, clock_high, or_true, labs, Int.natAbs_ofNat,
      List.cons_append, List.nil_append]
    have hneg : ¬ ((u.natAbs : Int) < 0) := by omega
    simp only [hneg, if_false]
    rw [hstep]
  · have hu : 0 ≤ u := by
      by_contra hn
      have := hc.2 (by omega)
      exact hslip ⟨by omega, by omega⟩
    have hz : ¬ (u * 10 + 1 < 0) := by omega
    have ha : (u * 10 + 1).natAbs = u.natAbs * 10 + 1 := by omega
    have hu' : ¬ (u < 0) := by omega
    simp only [hl, if_false, fmt_ld_prec, hz, ha, clock_high, hu', or_self, labs,
      Int.natAbs_ofNat, List.nil_append]
    have hneg : ¬ ((u.natAbs : Int) < 0) := by omega
    simp only [hneg, if_false]
    rw [hstep]

theorem clock_high_length (u l : Int) (k : Nat) : k ≤ (clock_high u l k).length := by
  have := fmt_ld_prec_length k (labs u)
  simp only [clock_high, List.length_append]
  omega

end CRinexStreamBuf
end GPSTk

namespace GPSTk
namespace CRinexStreamBuf

/-- The characters before the low part that `print_clock` appends, when `tmp` holds `h`
and one more digit `x`, and `h` has at most two characters more than `shift_clk`. -/
theorem clock_layout (h : List Char) (k : Nat) (x : Char) (hk : k ≤ h.length)
    (h2 : h.length ≤ k + 2) :
    (if h.length > k + 1 then
        (if h.length > k then
            ([ ' ', ' ', '.' ] ++ ((h ++ [x]).take h.length).drop (h.length - k)).set 1
              ((h ++ [x]).getD (h.length - k - 1) NUL)
          else [ ' ', ' ', '.' ] ++ ((h ++ [x]).take h.length).drop (h.length - k)).set 0
          ((h ++ [x]).getD (h.length - k - 2) NUL)
      else
        (if h.length > k then
            ([ ' ', ' ', '.' ] ++ ((h ++ [x]).take h.length).drop (h.length - k)).set 1
              ((h ++ [x]).getD (h.length - k - 1) NUL)
          else [ ' ', ' ', '.' ] ++ ((h ++ [x]).take h.length).drop (h.length - k))) =
      pad_left 2 (h.take (h.length - k)) ++ '.' :: h.drop (h.length - k) := by
  have ht : (h ++ [x]).take h.length = h := by simp
  rw [ht]
  obtain ⟨p, hp⟩ : ∃ p, h.length = k + p := ⟨h.length - k, by omega⟩
  have hp2 : p ≤ 2 := by omega
  have e : h.length - k = p := by omega
  rw [e]
  interval_cases p
  · have a : ¬ (h.length > k + 1) := by omega
    have b : ¬ (h.length > k) := by omega
    simp only [a, b, if_false, List.take_zero, List.drop_zero, pad_left]
    rfl
  · have a : ¬ (h.length > k + 1) := by omega
    have b : h.length > k := by omega
    simp only [a, b, if_false, if_true]
    cases h with
    | nil => simp at hp
    | cons h0 t => rfl
  · have a : h.length > k + 1 := by omega
    have b : h.length > k := by omega
    simp only [a, b, if_true]
    cases h with
    | nil => simp at hp
    | cons h0 t =>
      cases t with
      | nil => simp at hp
      | cons h1 t => rfl

end CRinexStreamBuf
end GPSTk

namespace GPSTk
namespace CRinexStreamBuf

/-- C17 (counterexample): `shift_clk = 1`, `yu = -123`, `yl = -1`: the canonicalised
`|yu| = 123` has `shift_clk + 2 = 3` digits, not more, and `print_clock` raises the
out-of-range error: the `-` takes one of the two columns before the `.`. -/
theorem print_clock_raises_three_digits :
    (adjust_sign 100000000 (-123) (-1)).1 = -123 ∧ (utoa (labs (-123))).length = 1 + 2 ∧
    print_clock (-123) (-1) 1 = Except.error (Err.raised "Clock offset out of range") := by
  refine ⟨by decide, by decide, ?_⟩
  rfl

/-- C17 (amended): for `shift_clk` 1 or 4 and `|yl| < 10^8`, with `(u, l)` the pair after
the sign adjustment, when the high part as it is written (`clock_high`: a `-` for a
negative value, then `|u|` with at least `shift_clk` digits) has at most 6 characters, the
ones that `tmp` holds with the additional digit, and the pair is not (`u < 0`, `l = 0`):
`print_clock` raises the out-of-range error exactly when the high part as it is written,
sign included, has more than `shift_clk + 2` characters; otherwise it appends the
rendering of the specification, `shift_clk + 11` characters, and a line feed. -/
theorem print_clock_spec (yu yl : Int) (shift_clk : Nat) (hk : shift_clk = 1 ∨ shift_clk = 4)
    (hl : -100000000 < yl ∧ yl < 100000000)
    (hslip : ¬ ((adjust_sign 100000000 yu yl).1 < 0 ∧ (adjust_sign 100000000 yu yl).2 = 0))
    (hfit : (clock_high (adjust_sign 100000000 yu yl).1 (adjust_sign 100000000 yu yl).2
      shift_clk).length ≤ 6) :
    (print_clock yu yl shift_clk = Except.error (Err.raised "Clock offset out of range") ↔
      (clock_high (adjust_sign 100000000 yu yl).1 (adjust_sign 100000000 yu yl).2
        shift_clk).length > shift_clk + 2) ∧
    ((clock_high (adjust_sign 100000000 yu yl).1 (adjust_sign 100000000 yu yl).2
        shift_clk).length ≤ shift_clk + 2 →
      print_clock yu yl shift_clk = Except.ok
        (render_clock (adjust_sign 100000000 yu yl).1 (adjust_sign 100000000 yu yl).2
          shift_clk ++ [LF]) ∧
      (render_clock (adjust_sign 100000000 yu yl).1 (adjust_sign 100000000 yu yl).2
          shift_clk).length = shift_clk + 11) := by
  obtain ⟨c1, c2, c3, c4⟩ := adjust_sign_signs 100000000 yu yl hl
  have hk1 : 1 ≤ shift_clk := by omega
  have htmp := print_clock_tmp _ _ shift_clk hk1 ⟨c1, c2⟩ hslip
  have hlen := clock_high_length (adjust_sign 100000000 yu yl).1 (adjust_sign 100000000 yu yl).2
    shift_clk
  have hover : ¬ ((clock_high (adjust_sign 100000000 yu yl).1 (adjust_sign 100000000 yu yl).2
      shift_clk ++ [ '1' ]).length + 1 > 8) := by
    simp only [List.length_append, List.length_singleton]; omega
  have hn : (clock_high (adjust_sign 100000000 yu yl).1 (adjust_sign 100000000 yu yl).2
      shift_clk ++ [ '1' ]).length - 1 =
      (clock_high (adjust_sign 100000000 yu yl).1 (adjust_sign 100000000 yu yl).2
        shift_clk).length := by
    simp only [List.length_append, List.length_singleton]; omega
  have hlow : ¬ ((clock_high (adjust_sign 100000000 yu yl).1 (adjust_sign 100000000 yu yl).2
      shift_clk).length < shift_clk) := by omega
  by_cases hr : (clock_high (adjust_sign 100000000 yu yl).1 (adjust_sign 100000000 yu yl).2
      shift_clk).length > shift_clk + 2
  · refine ⟨⟨fun _ => hr, fun _ => ?_⟩, fun h => absurd hr (by omega)⟩
    simp only [print_clock, htmp, hover, hn, hlow, hr, if_true, if_false]
  · have hr' : (clock_high (adjust_sign 100000000 yu yl).1 (adjust_sign 100000000 yu yl).2
        shift_clk).length ≤ shift_clk + 2 := by omega
    have hlay := clock_layout _ shift_clk '1' hlen hr'
    have hok : print_clock yu yl shift_clk = Except.ok
        (render_clock (adjust_sign 100000000 yu yl).1 (adjust_sign 100000000 yu yl).2
          shift_clk ++ [LF]) := by
      simp only [print_clock, htmp, hover, hn, hlow, hr, if_false, render_clock]
      rw [← hlay]
    refine ⟨⟨fun he => ?_, fun h => absurd h hr⟩, fun _ => ⟨hok, ?_⟩⟩
    · rw [hok] at he; cases he
    · have hL : labs (adjust_sign 100000000 yu yl).2 < 100000000 := by
        simp only [labs]; omega
      have h8 : (fmt_ld_prec 8 (labs (adjust_sign 100000000 yu yl).2 : Int)).length = 8 := by
        rw [fmt_ld_prec_nat, List.length_append, List.length_replicate]
        have := (utoa_spec (labs (adjust_sign 100000000 yu yl).2)).2.2.2 8 (by norm_num)
          (by norm_num; exact hL)
        omega
      simp only [render_clock, List.length_append, List.length_cons, pad_left,
        List.length_replicate, List.length_take, List.length_drop, h8]
      omega

/-- C17 (witness): `shift_clk = 4`, `yu = -12345`, `yl = -6789`: the high part as it is
written is `-12345`, six characters, and the text is `-1.234500006789`. -/
theorem print_clock_spec_witness :
    render_clock (-12345) (-6789) 4 = "-1.234500006789".toList ∧
    ((print_clock (-12345) (-6789) 4 = Except.error (Err.raised "Clock offset out of range") ↔
      (clock_high (adjust_sign 100000000 (-12345) (-6789)).1
        (adjust_sign 100000000 (-12345) (-6789)).2 4).length > 4 + 2) ∧
    ((clock_high (adjust_sign 100000000 (-12345) (-6789)).1
        (adjust_sign 100000000 (-12345) (-6789)).2 4).length ≤ 4 + 2 →
      print_clock (-12345) (-6789) 4 = Except.ok
        (render_clock (adjust_sign 100000000 (-12345) (-6789)).1
          (adjust_sign 100000000 (-12345) (-6789)).2 4 ++ [LF]) ∧
      (render_clock (adjust_sign 100000000 (-12345) (-6789)).1
          (adjust_sign 100000000 (-12345) (-6789)).2 4).length = 4 + 11)) :=
  ⟨by decide, print_clock_spec (-12345) (-6789) 4 (Or.inr rfl) (by decide) (by decide)
    (by decide)⟩

/-- C17 (defect, wrong digit): for a negative high part with a low part that is zero the
additional digit is added with the wrong sign (`sgn = 1`), and the last digit of the high
part is printed one too small: the value `-5 * 10^8` is printed as `-.400000000`. -/
theorem print_clock_wrong_digit :
    print_clock (-5) 0 1 = Except.ok (" -.400000000".toList ++ [LF]) ∧
    render_clock (-5) 0 1 = " -.500000000".toList := by
  refine ⟨?_, by decide⟩
  rfl

/-- C17 (defect, `tmp`): for `shift_clk = 4` the out-of-range error is never raised: a
high part with more than `shift_clk + 2 = 6` characters and the additional digit do not
fit the 8 bytes of `tmp`, which `sprintf` overruns before the test. -/
theorem print_clock_overruns_tmp (yu yl : Int) :
    print_clock yu yl 4 ≠ Except.error (Err.raised "Clock offset out of range") ∧
    print_clock 1234567 0 4 = Except.error Err.outOfBounds := by
  refine ⟨?_, rfl⟩
  intro h
  simp only [print_clock] at h
  split_ifs at h <;> first | omega | cases h

end CRinexStreamBuf
end GPSTk

namespace GPSTk
namespace CRinexStreamBuf

/-! ## Satellite systems without a declared type count -/

/-- The error "GNSS type not defined in header" of `set_sat_table` needs a negative cell
of `ntype_gnss`. -/
theorem set_ntype_record3_raises (eb : List Char) :
    ∀ (is : List Nat) (crx : Crx),
      set_ntype_record3 eb crx is = Except.error (Err.raised "GNSS type not defined in header") →
      ∃ c : Nat, c < 128 ∧ crx.ntype_gnss c < 0 := by
  intro is
  induction is with
  | nil => intro crx h; cases h
  | cons i is ih =>
    intro crx h
    rw [set_ntype_record3] at h
    simp only [char_at] at h
    by_cases hb : crx.p_satlst + 3 * i ≤ eb.length
    · simp only [hb, if_true, bind, Except.bind] at h
      by_cases h128 : (eb.getD (crx.p_satlst + 3 * i) NUL).toNat ≥ 128
      · simp only [h128, if_true] at h
        cases h
      · simp only [h128, if_false] at h
        by_cases hv : crx.ntype_gnss (eb.getD (crx.p_satlst + 3 * i) NUL).toNat < 0
        · exact ⟨_, by omega, hv⟩
        · simp only [hv, if_false] at h
          obtain ⟨c', h1, h2⟩ := ih _ h
          exact ⟨c', h1, h2⟩
    · simp only [hb, if_false, bind, Except.bind] at h
      cases h

theorem set_sattbl_error (eb : List Char) :
    ∀ (is : List Nat) (crx : Crx) (e : Err), set_sattbl eb crx is = Except.error e →
      e = Err.outOfBounds := by
  intro is
  induction is with
  | nil => intro crx e h; cases h
  | cons i is ih =>
    intro crx e h
    rw [set_sattbl] at h
    simp only [ptr_at] at h
    by_cases hb : crx.p_satlst + 3 * i ≤ eb.length
    · simp only [hb, if_true, bind, Except.bind] at h
      exact ih _ e h
    · simp only [hb, if_false, bind, Except.bind] at h
      cases h
      rfl

set_option maxRecDepth 1000000 in
/-- C21 (the code at the failing input): `set_sat_table` raises "GNSS type not defined
in header" only when a cell of `ntype_gnss` is negative, and nothing stores -1 in these
cells (the constructor leaves `crx` as it finds it, `read_header` and `put_event_data`
only store the counts of the `SYS / # / OBS TYPES` lines). On storage that holds zeros,
a file whose header declares types for `G` only and whose first epoch lists `R01` is
decoded without an error: the three header lines are copied, and the epoch is written
with the satellite `R01` and no observation. -/
theorem unknown_system_not_raised :
    (∀ (eb : List Char) (crx : Crx) (nsat : Int), (∀ c, c < 128 → 0 ≤ crx.ntype_gnss c) →
      set_sat_table eb crx nsat ≠ Except.error (Err.raised "GNSS type not defined in header")) ∧
    decode_file 100 4 (preamble_v3 ++ header_gps_only ++ body_glonass) Crx.zero =
      Except.ok [labelled_line "     3.04           OBSERVATION DATA    M" "RINEX VERSION / TYPE" ++ [LF],
        labelled_line "G    1 C1C" "SYS / # / OBS TYPES" ++ [LF],
        labelled_line "" "END OF HEADER" ++ [LF],
        "> 2020 01 01 00 00  0.0000000  0  1      \nR01".toList] := by
  constructor
  · intro eb crx nsat hpos h
    simp only [set_sat_table] at h
    by_cases h2 : crx.rinex_version = 2
    · simp only [h2, if_true, bind, Except.bind] at h
      have := set_sattbl_error eb _ _ _ h
      cases this
    · simp only [h2, if_false, bind, Except.bind] at h
      cases h3 : set_ntype_record3 eb crx (List.range nsat.toNat) with
      | error e =>
        rw [h3] at h
        simp only at h
        cases h
        obtain ⟨c, hc, hneg⟩ := set_ntype_record3_raises eb _ crx h3
        have := hpos c hc
        omega
      | ok crx1 =>
        rw [h3] at h
        simp only at h
        have := set_sattbl_error eb _ _ _ h
        cases this
  · rfl

end CRinexStreamBuf
end GPSTk

namespace GPSTk
namespace CRinexStreamBuf

/-! ## The satellite count of an epoch -/

theorem toNat_of_neg (n : Int) (h : n < 0) : n.toNat = 0 := by omega

set_option maxRecDepth 1000000 in
/-- C22 (the code at the failing input): a satellite count above 90 raises
"Satellite number exceeds the maximum", but there is no test for a negative count. For
`nsat < 0` the loops over the satellites do nothing (`set_sat_table`, the calls of
`getdiff`, `write_data` return at once), and the epoch is decoded up to "save current
epoch", where `strncpy` is called with the length `(size_t)nsat * 3`. The RINEX 2 epoch
line with `-1` in the count field parses as `nsat = -1`, and `read_data` on it ends in
that call, past the clock line, without the fatal error of the count test; with the
count `0` in the same line the epoch line is written and `read_data` returns `true`. -/
theorem negative_satellite_count :
    (∀ (d : Decoder) (pn : List Char), ptr_at d.epoch_buffer d.crx.p_nsat = Except.ok pn →
      atol pn > MAXSAT →
      read_epoch d = Except.error (Err.raised "Satellite number exceeds the maximum")) ∧
    (∀ (d : Decoder) (nsat : Int), nsat < 0 →
      set_sat_table d.epoch_buffer d.crx nsat = Except.ok d.crx ∧
      getdiff_all (List.range nsat.toNat) d = Except.ok (d, true) ∧
      write_data d nsat = Except.ok d ∧
      save_epoch d nsat = Except.error Err.outOfBounds) ∧
    atol (" 20  1  1  0  0  0.0000000  0 -1".toList.drop crx_one_type.p_nsat) = -1 ∧
    read_data 100 (body_decoder crx_one_type body_negative_count) =
      Except.error Err.outOfBounds ∧
    (read_data 100 (body_decoder crx_one_type body_zero_count)).toOption.map
        (fun r => (r.2, r.1.out)) =
      some (true, " 20  1  1  0  0  0.0000000  0  0\n".toList) := by
  refine ⟨?_, ?_, by decide, rfl, rfl⟩
  · intro d pn hp hn
    simp only [read_epoch, hp, hn, if_true]
  · intro d nsat hn
    have h0 := toNat_of_neg nsat hn
    refine ⟨?_, ?_, ?_, ?_⟩
    · simp only [set_sat_table, h0, List.range_zero, set_ntype_record2, set_ntype_record3,
        set_sattbl, bind, Except.bind]
      split_ifs <;> rfl
    · simp only [h0, List.range_zero, getdiff_all]
    · simp only [write_data, h0, List.range_zero, write_sats, bind, Except.bind]
    · simp only [save_epoch, hn, if_true]

end CRinexStreamBuf
end GPSTk

namespace GPSTk
namespace CRinexStreamBuf

/-! ## Event records -/

theorem c_str_no_NUL (l : List Char) (h : NUL ∉ l) : c_str l = l := by
  simp only [c_str]
  rw [List.takeWhile_eq_self_iff]
  intro c hc
  have : c ≠ NUL := fun e => h (e ▸ hc)
  simpa using this

theorem getline_in_line (d : Decoder) (line more : List Char)
    (hin : d.input = { rest := line ++ LF :: more, eofbit := false, failbit := false })
    (hLF : LF ∉ line) :
    getline_in d = ({ d with input := { rest := more, eofbit := false, failbit := false }, in_buffer := line, in_capacity := max d.in_capacity line.length }, true) := by
  simp only [getline_in, hin, getline_line line more _ hLF]

/-- What `put_event_data` does with an auxiliary line that is not a
`SYS / # / OBS TYPES` record. -/
theorem event_types_aux (crx : Crx) (l : List Char) (h : aux_line l) :
    event_types crx l =
      Except.ok (if types_line l then { crx with ntype := atol l } else crx) := by
  obtain ⟨_, _, hlen, hsys⟩ := h
  have hpos : ¬ 60 > l.length := by omega
  have h5 : 5 ≤ l.length := by omega
  by_cases ht : (l.drop 60).take 19 = "# / TYPES OF OBSERV".toList
  · by_cases hc : l.getD 5 NUL = ' '
    · have hn : ¬ types_line l := fun t => t.2 hc
      have hne : ¬ ("# / TYPES OF OBSERV".toList = "SYS / # / OBS TYPES".toList) := by decide
      simp only [event_types, compare_eq, hpos, if_false, bind, Except.bind, char_at, h5,
        if_true, ht, hne, hc, hn, decide_True, decide_False, Bool.false_eq_true, ne_eq,
        not_true_eq_false, and_false]
    · have hy : types_line l := ⟨ht, hc⟩
      simp only [event_types, compare_eq, hpos, if_false, bind, Except.bind, char_at, h5,
        if_true, ht, hc, hy, decide_True, ne_eq, not_false_eq_true, and_self]
  · have hn : ¬ types_line l := fun t => ht t.1
    simp only [event_types, compare_eq, hpos, if_false, bind, Except.bind, ht, hsys, hn,
      decide_False, Bool.false_eq_true, false_and]

/-- The loop over the auxiliary lines of an event record: the lines are copied to the
output, and `crx.ntype` is what the last `# / TYPES OF OBSERV` line declares. -/
theorem event_lines_aux : ∀ (aux : List (List Char)) (d : Decoder) (more : List Char),
    d.input = { rest := lines_text aux ++ more, eofbit := false, failbit := false } →
    (∀ l, l ∈ aux → aux_line l) →
    ∃ (d1 : Decoder) (v : Int), event_lines aux.length d = Except.ok (d1, true) ∧
      d1.input = { rest := more, eofbit := false, failbit := false } ∧
      d1.out = d.out ++ lines_text aux ∧ d1.crx = { d.crx with ntype := v } ∧
      ((∀ l, l ∈ aux → ¬ types_line l) → v = d.crx.ntype) ∧
      (∀ pre tl post, aux = pre ++ tl :: post → types_line tl →
        (∀ l, l ∈ post → ¬ types_line l) → v = atol tl) := by
  intro aux
  induction aux with
  | nil =>
    intro d more hin _
    refine ⟨d, d.crx.ntype, rfl, by simpa [lines_text] using hin, by simp [lines_text], rfl,
      fun _ => rfl, ?_⟩
    intro pre tl post h
    cases pre <;> cases h
  | cons l ls ih =>
    intro d more hin haux
    have hl := haux l (List.mem_cons_self _ _)
    have hin' : d.input = { rest := l ++ LF :: (lines_text ls ++ more), eofbit := false, failbit := false } := by
      rw [hin]; simp [lines_text]
    have hg := getline_in_line d l _ hin' hl.1
    have het := event_types_aux d.crx l hl
    obtain ⟨d1, v, h1, h2, h3, h4, h5, h6⟩ := ih
      { d with input := { rest := lines_text ls ++ more, eofbit := false, failbit := false }, in_buffer := l, in_capacity := max d.in_capacity l.length, crx := (if types_line l then { d.crx with ntype := atol l } else d.crx), out := d.out ++ c_str l ++ [LF] }
      more rfl (fun k hk => haux k (List.mem_cons_of_mem _ hk))
    refine ⟨d1, v, ?_, h2, ?_, ?_, ?_, ?_⟩
    · simp only [List.length_cons, event_lines, hg, Bool.true_eq_false, if_false, het, bind,
        Except.bind]
      exact h1
    · rw [h3, c_str_no_NUL l hl.2.1]
      simp [lines_text]
    · rw [h4]
      by_cases ht : types_line l <;> simp [ht]
    · intro hno
      have hnl : ¬ types_line l := hno l (List.mem_cons_self _ _)
      have := h5 (fun k hk => hno k (List.mem_cons_of_mem _ hk))
      rw [this]
      simp [hnl]
    · intro pre tl post hsplit htl hpost
      cases pre with
      | nil =>
        simp only [List.nil_append, List.cons.injEq] at hsplit
        obtain ⟨e1, e2⟩ := hsplit
        subst e1
        have := h5 (fun k hk => hpost k (e2 ▸ hk))
        rw [this]
        simp [htl]
      | cons p pre =>
        simp only [List.cons_append, List.cons.injEq] at hsplit
        exact h6 pre tl post hsplit.2 htl hpost

end CRinexStreamBuf
end GPSTk

namespace GPSTk
namespace CRinexStreamBuf

theorem set_ntype_record2_ntype : ∀ (is : List Nat) (crx : Crx),
    (set_ntype_record2 crx is).ntype = crx.ntype ∧
    (set_ntype_record2 crx is).p_satlst = crx.p_satlst ∧
    ∀ i, i ∈ is → (set_ntype_record2 crx is).ntype_record i = crx.ntype := by
  intro is
  induction is with
  | nil => intro crx; exact ⟨rfl, rfl, fun i hi => absurd hi (List.not_mem_nil i)⟩
  | cons k ks ih =>
    intro crx
    obtain ⟨h1, h2, h3⟩ := ih { crx with ntype_record := Function.update crx.ntype_record k crx.ntype }
    rw [set_ntype_record2]
    refine ⟨h1, h2, ?_⟩
    intro i hi
    by_cases hk : i ∈ ks
    · exact h3 i hk
    · have hik : i = k := by
        rcases List.mem_cons.1 hi with h | h
        · exact h
        · exact absurd h hk
      subst hik
      obtain ⟨g, hg⟩ := set_ntype_record2_spec ks { crx with ntype_record := Function.update crx.ntype_record i crx.ntype }
      have key : ∀ (js : List Nat) (c : Crx), i ∉ js →
          (set_ntype_record2 c js).ntype_record i = c.ntype_record i := by
        intro js
        induction js with
        | nil => intro c _; rfl
        | cons j js ihj =>
          intro c hj
          rw [set_ntype_record2, ihj _ (fun h => hj (List.mem_cons_of_mem _ h))]
          have : i ≠ j := fun e => hj (e ▸ List.mem_cons_self _ _)
          simp only [Function.update_noteq this]
      rw [key ks _ hk]
      simp only [Function.update_same]

/-- The function `put_event_data` on one event record of a CRINEX 1 file that is followed
by an ordinary epoch line. -/
theorem put_event_data_record (fuel : Nat) (d : Decoder) (c0 : Char)
    (hdr next more : List Char) (aux pre post : List (List Char)) (tl : List Char)
    (hc1 : d.crx.version = 1) (hfrom : d.crx.ep_top_from = '&') (hto : d.crx.ep_top_to = ' ')
    (hpe : d.crx.p_event = 28) (hbuf : d.in_buffer = c0 :: hdr) (hlen : 29 ≤ hdr.length)
    (hnul : NUL ∉ hdr) (hn : atol (hdr.drop 28) = (aux.length : Int))
    (hin : d.input = { rest := lines_text aux ++ (next ++ LF :: more), eofbit := false, failbit := false })
    (haux : ∀ l, l ∈ aux → aux_line l)
    (hsplit : aux = pre ++ tl :: post) (htl : types_line tl)
    (hpost : ∀ l, l ∈ post → ¬ types_line l)
    (hnext0 : next.headD NUL = '&') (hnextLF : LF ∉ next) (hnextlen : 29 ≤ next.length)
    (hnextflag : next.getD 28 NUL = '0' ∨ next.getD 28 NUL = '1') :
    ∃ d1, put_event_data (fuel + 1) d = Except.ok (d1, true) ∧
      d1.out = d.out ++ ' ' :: hdr ++ [LF] ++ lines_text aux ∧ d1.in_buffer = next ∧
      d1.input = { rest := more, eofbit := false, failbit := false } ∧
      d1.crx = { d.crx with ntype := atol tl } := by
  have hnul' : NUL ∉ ' ' :: hdr := by
    intro h
    rcases List.mem_cons.1 h with h | h
    · revert h; decide
    · exact hnul h
  obtain ⟨d1, v, h1, h2, h3, h4, _, h6⟩ := event_lines_aux aux
    { d with in_buffer := ' ' :: hdr, out := d.out ++ c_str (' ' :: hdr) ++ [LF] }
    (next ++ LF :: more) hin haux
  have hv := h6 pre tl post hsplit htl hpost
  have hg := getline_in_line d1 next more h2 hnextLF
  have h29 : (c0 :: hdr).length > 29 := by simp only [List.length_cons]; omega
  have h29' : (' ' :: hdr).length > 29 := by simp only [List.length_cons]; omega
  have hp : 28 + 1 ≤ (' ' :: hdr).length := by simp only [List.length_cons]; omega
  have hver : ¬ (d1.crx.version = 3) := by
    rw [h4]
    intro h
    have h3' : d.crx.version = 3 := h
    rw [hc1] at h3'
    revert h3'; decide
  have hfrom1 : d1.crx.ep_top_from = '&' := by rw [h4]; exact hfrom
  have hpe1 : d1.crx.p_event = 28 := by rw [h4]; exact hpe
  have hdig : isdigit (next.getD 28 NUL) = true := by
    rcases hnextflag with h | h <;> rw [h] <;> decide
  have hfl : ¬ (next.getD 28 NUL ≠ '0' ∧ next.getD 28 NUL ≠ '1') := by
    rcases hnextflag with h | h
    · exact fun hh => hh.1 h
    · exact fun hh => hh.2 h
  have hnl : ¬ (next.length < 29) := by omega
  have hnl' : 28 ≤ next.length := by omega
  refine ⟨{ d1 with input := { rest := more, eofbit := false, failbit := false }, in_buffer := next, in_capacity := max d1.in_capacity next.length }, ?_, ?_, rfl, rfl, ?_⟩
  · rw [put_event_data]
    simp only [hbuf, put_at, List.length_cons, Nat.zero_lt_succ, if_true, List.set_cons_zero, hto,
      bind, Except.bind, ptr_at, hpe]
    have e1 : hdr.length + 1 > 29 := by omega
    have e2 : 28 + 1 ≤ hdr.length + 1 := by omega
    simp only [e1, e2, if_true, List.drop_succ_cons, hn, Int.toNat_natCast, h1,
      Bool.true_eq_false, if_false]
    have hfuel : d1.input.rest.length + 2 = (d1.input.rest.length + 1) + 1 := rfl
    rw [hfuel, event_next]
    simp only [hg, Bool.true_eq_false, if_false, hver, false_and, hnext0, hfrom1, hpe1, hnl,
      char_at, hnl', if_true, hdig, hfl, ne_eq, not_true_eq_false, or_self]
  · show d1.out = _
    rw [h3, c_str_no_NUL _ hnul']
  · show d1.crx = _
    rw [h4, hv]

end CRinexStreamBuf
end GPSTk

namespace GPSTk
namespace CRinexStreamBuf

/-- The event record whose auxiliary lines all have at least 60 characters (for a shorter
line see `body_event_short`): in the body of a CRINEX 1 file that wraps RINEX 2, let the
line in `in_buffer` be an epoch header (`&`, then `hdr`) whose event flag at column 28 is
one of 2 to 6 and whose columns from 29 on announce as many auxiliary lines as `aux` has; let the lines
`aux` follow in the input (each of at least 60 characters, the width up to the label of a
header record; none of them a RINEX 3 type record), one of them, `tl`, being a
`# / TYPES OF OBSERV` line with column 5 not blank and no later one being such a line; and
let an ordinary epoch line `next` (flag 0 or 1) follow. Then the head of the loop of
`read_data` (which calls `put_event_data`) returns to the label `SKIP` with `next` in
`in_buffer`, having written the event header, its first byte replaced by the 'to' byte
(a blank), and the auxiliary lines as they are, each followed by a line feed; `crx.ntype`
is the count `m` that `tl` declares, and `set_sat_table` for the next epoch gives every
satellite `m` observation types. -/
theorem event_updates_ntype (d : Decoder) (hdr next more : List Char)
    (aux pre post : List (List Char)) (tl : List Char)
    (hc1 : d.crx.version = 1) (hv2 : d.crx.rinex_version = 2)
    (hfrom : d.crx.ep_top_from = '&') (hto : d.crx.ep_top_to = ' ')
    (hpe : d.crx.p_event = 28) (hbuf : d.in_buffer = '&' :: hdr) (hlen : 29 ≤ hdr.length)
    (hnul : NUL ∉ hdr) (hflag : hdr.getD 27 NUL ∈ [ '2', '3', '4', '5', '6' ])
    (hn : atol (hdr.drop 28) = (aux.length : Int))
    (hin : d.input = { rest := lines_text aux ++ (next ++ LF :: more), eofbit := false, failbit := false })
    (haux : ∀ l, l ∈ aux → aux_line l)
    (hsplit : aux = pre ++ tl :: post) (htl : types_line tl)
    (hpost : ∀ l, l ∈ post → ¬ types_line l)
    (hnext0 : next.headD NUL = '&') (hnextLF : LF ∉ next) (hnextlen : 29 ≤ next.length)
    (hnextflag : next.getD 28 NUL = '0' ∨ next.getD 28 NUL = '1') :
    ∃ d1, epoch_top d = Except.ok (d1, true) ∧
      d1.out = d.out ++ ' ' :: hdr ++ [LF] ++ lines_text aux ∧ d1.in_buffer = next ∧
      d1.input = { rest := more, eofbit := false, failbit := false } ∧
      d1.crx.ntype = atol tl ∧
      ∀ (eb : List Char) (nsat : Nat), d1.crx.p_satlst + 3 * nsat ≤ eb.length →
        ∃ crx2, set_sat_table eb d1.crx (nsat : Int) = Except.ok crx2 ∧
          ∀ i, i < nsat → crx2.ntype_record i = atol tl := by
  obtain ⟨d1, h1, h2, h3, h4, h5⟩ := put_event_data_record (d.input.rest.length + 1)
    { d with in_buffer := ' ' :: hdr } ' ' hdr next more aux pre post tl hc1 hfrom hto hpe rfl
    hlen hnul hn hin haux hsplit htl hpost hnext0 hnextLF hnextlen hnextflag
  have hfl : hdr.getD 27 NUL ≠ '0' ∧ hdr.getD 27 NUL ≠ '1' := by
    constructor <;> intro h <;> rw [h] at hflag <;> revert hflag <;> decide
  have h28 : 28 ≤ hdr.length + 1 := by omega
  refine ⟨d1, ?_, h2, h3, h4, by rw [h5], ?_⟩
  · simp only [epoch_top, hbuf, List.headD_cons, hfrom, if_true, put_at, List.length_cons,
      Nat.zero_lt_succ, List.set_cons_zero, hto, char_at, hpe, h28, List.getD_cons_succ, hfl,
      ne_eq, not_false_eq_true, and_self]
    have hfuel : d.input.rest.length + 2 = d.input.rest.length + 1 + 1 := rfl
    rw [hfuel, h1]
    rfl
  · intro eb nsat hlen2
    have hv2' : d1.crx.rinex_version = 2 := by rw [h5]; exact hv2
    obtain ⟨h6, h7, h8⟩ := set_ntype_record2_ntype (List.range nsat) d1.crx
    have hs := set_sattbl_spec eb (List.range nsat) (set_ntype_record2 d1.crx (List.range nsat))
      (fun i hi => by rw [h7]; have := List.mem_range.1 hi; omega)
    refine ⟨{ set_ntype_record2 d1.crx (List.range nsat) with sattbl := sattbl_after eb (set_ntype_record2 d1.crx (List.range nsat)) (List.range nsat) }, ?_, ?_⟩
    · simp only [set_sat_table, hv2', if_true, Int.toNat_natCast, bind, Except.bind]
      exact hs
    · intro i hi
      show (set_ntype_record2 d1.crx (List.range nsat)).ntype_record i = atol tl
      rw [h8 i (List.mem_range.2 hi), h5]

set_option maxRecDepth 1000000 in
/-- An instance of `event_updates_ntype`: the event header with flag 4 and count 2, a
`# / TYPES OF OBSERV` line that declares 2 types, a comment, and the epoch line of `G01`.
The count becomes 2, and `read_data` on the whole body writes the event record as it is, then the epoch with
two observations for `G01`. -/
theorem event_updates_ntype_witness :
    atol (labelled_line "     2    L1    C1" "# / TYPES OF OBSERV") = 2 ∧
    (read_data 100 (body_decoder crx_one_type body_event)).toOption.map (fun r => r.1.out) =
      some (' ' :: event_header_rest ++ [LF] ++ lines_text event_aux ++
        (" 20  1  1  0  0  0.0000000  0  1G01\n" ++
          "       100.000         200.000\n").toList) ∧
    ∃ d1, epoch_top { body_decoder crx_one_type (lines_text event_aux ++ (epoch_after_event ++ LF :: "\n3&100000 3&200000\n".toList)) with in_buffer := '&' :: event_header_rest } =
        Except.ok (d1, true) ∧
      d1.out = [] ++ ' ' :: event_header_rest ++ [LF] ++ lines_text event_aux ∧
      d1.in_buffer = epoch_after_event ∧
      d1.input = { rest := "\n3&100000 3&200000\n".toList, eofbit := false, failbit := false } ∧
      d1.crx.ntype = atol (labelled_line "     2    L1    C1" "# / TYPES OF OBSERV") ∧
      ∀ (eb : List Char) (nsat : Nat), d1.crx.p_satlst + 3 * nsat ≤ eb.length →
        ∃ crx2, set_sat_table eb d1.crx (nsat : Int) = Except.ok crx2 ∧
          ∀ i, i < nsat →
            crx2.ntype_record i = atol (labelled_line "     2    L1    C1" "# / TYPES OF OBSERV") :=
  ⟨by decide, rfl,
    event_updates_ntype
      { body_decoder crx_one_type (lines_text event_aux ++ (epoch_after_event ++ LF :: "\n3&100000 3&200000\n".toList)) with in_buffer := '&' :: event_header_rest }
      event_header_rest epoch_after_event "\n3&100000 3&200000\n".toList event_aux []
      [labelled_line "two types from here on" "COMMENT"]
      (labelled_line "     2    L1    C1" "# / TYPES OF OBSERV")
      rfl rfl rfl rfl rfl rfl (by decide) (by decide) (by decide) (by decide) rfl (by decide) rfl
      (by decide) (by decide) (by decide) (by decide) (by decide) (by decide)⟩

end CRinexStreamBuf
end GPSTk

namespace GPSTk
namespace CRinexStreamBuf

/-! ## `read_preamble` -/

theorem takeWhile_dropWhile_nil (s : List Char) (p : Char → Bool)
    (h1 : s.takeWhile p = []) (h2 : s.dropWhile p = []) : s = [] := by
  have := List.takeWhile_append_dropWhile p s
  rw [h1, h2] at this
  exact this.symm

/-- The call `std::getline` on a stream that is good: the string becomes the first line,
the stream is left after it, and `failbit` is set exactly when the stream was empty. -/
theorem getline_fresh (src str : List Char) :
    (getline { rest := src, eofbit := false, failbit := false } str).2.1 = first_line src ∧
    (getline { rest := src, eofbit := false, failbit := false } str).1.rest = after_line src ∧
    ((getline { rest := src, eofbit := false, failbit := false } str).1.failbit = true ↔
      src = []) ∧
    ((getline { rest := src, eofbit := false, failbit := false } str).1.eofbit = true →
      after_line src = []) ∧
    ((getline { rest := src, eofbit := false, failbit := false } str).1.failbit = true →
      after_line src = []) := by
  simp only [getline, Bool.false_eq_true, or_self, if_false, first_line, after_line]
  cases hd : src.dropWhile (fun c => c ≠ LF) with
  | nil =>
    by_cases hl : src.takeWhile (fun c => c ≠ LF) = []
    · have hs := takeWhile_dropWhile_nil src _ hl hd
      simp only [hl, if_true, List.drop_nil]
      exact ⟨trivial, trivial, ⟨fun _ => hs, fun _ => trivial⟩, fun _ => trivial, fun _ => trivial⟩
    · have hs : src ≠ [] := by
        intro e; apply hl; rw [e]; rfl
      simp only [hl, if_false, List.drop_nil]
      refine ⟨trivial, trivial, ⟨fun h => (by cases h), fun h => absurd h hs⟩, fun _ => trivial,
        fun h => (by cases h)⟩
  | cons c r =>
    have hs : src ≠ [] := by
      intro e; rw [e] at hd; cases hd
    simp only [List.drop_succ_cons, List.drop_zero]
    refine ⟨trivial, trivial, ⟨fun h => (by cases h), fun h => absurd h hs⟩,
      fun h => (by cases h), fun h => (by cases h)⟩

/-- The call `std::getline` leaves the stream after its first line, if a stream that has
met the end or has failed holds nothing. -/
theorem getline_rest (inp : IStream) (str : List Char)
    (h : inp.eofbit = true ∨ inp.failbit = true → inp.rest = []) :
    (getline inp str).1.rest = after_line inp.rest := by
  by_cases hb : inp.eofbit = true ∨ inp.failbit = true
  · have hr := h hb
    simp only [getline, hb, if_true, hr]
    rfl
  · obtain ⟨rest, e, f⟩ := inp
    have he : e = false := by
      cases e
      · rfl
      · exact absurd (Or.inl rfl) hb
    have hf : f = false := by
      cases f
      · rfl
      · exact absurd (Or.inr rfl) hb
    subst he; subst hf
    exact (getline_fresh rest str).2.1

theorem atol_version (c : Char) (t : List Char) (hc : c = '1' ∨ c = '3') :
    atol (c :: '.' :: t) = if c = '1' then 1 else 3 := by
  rcases hc with h | h <;> subst h <;>
    simp [atol, List.dropWhile, isspace, digits_value, isdigit]

end CRinexStreamBuf
end GPSTk

namespace GPSTk
namespace CRinexStreamBuf

theorem take_three_version (l : List Char)
    (h : l.take 3 = "1.0".toList ∨ l.take 3 = "3.0".toList) :
    atol l = if l.take 3 = "1.0".toList then 1 else 3 := by
  match l, h with
  | [], h => rcases h with h | h <;> cases h
  | [_], h => rcases h with h | h <;> cases h
  | [_, _], h => rcases h with h | h <;> cases h
  | a :: b :: c :: t, h =>
    simp only [List.take_succ_cons, List.take_zero] at h ⊢
    rcases h with h | h
    · have ha : a = '1' := by injection h
      have hb : b = '.' := by
        injection h with _ h; injection h
      subst ha; subst hb
      rw [atol_version '1' _ (Or.inl rfl)]
      simp [h]
    · have ha : a = '3' := by injection h
      have hb : b = '.' := by
        injection h with _ h; injection h
      subst ha; subst hb
      rw [atol_version '3' _ (Or.inr rfl)]
      have hne : ¬ ([ '3', '.', c] = "1.0".toList) := by
        intro e; injection e with e1 _; revert e1; decide
      simp [hne]

/-- C24: the constructor (which runs `read_preamble`) returns if and only if the first
line of the input has `1.0` or `3.0` as its first three bytes and
`CRINEX VERS   / TYPE` at columns 60 to 79, and raises otherwise; when it returns, the
CRINEX version is 1 or 3 accordingly, the RINEX version is the sentinel -1, the header is
not done, and the input stands after its second line: one more line has been read. -/
theorem ctor_preamble (src : List Char) (n : Nat) (crx0 : Crx) :
    ((∃ d, ctor src n crx0 = Except.ok d) ↔
      ((first_line src).take 3 = "1.0".toList ∨ (first_line src).take 3 = "3.0".toList) ∧
        ((first_line src).drop 60).take 20 = "CRINEX VERS   / TYPE".toList) ∧
    (∀ d, ctor src n crx0 = Except.ok d →
      d.crx.version = (if (first_line src).take 3 = "1.0".toList then 1 else 3) ∧
      d.crx.rinex_version = -1 ∧ d.header_done = false ∧
      d.input.rest = after_line (after_line src)) ∧
    ((∃ d, ctor src n crx0 = Except.ok d) ∨ ∃ e, ctor src n crx0 = Except.error e) := by
  obtain ⟨g1, g2, g3, g4, g5⟩ := getline_fresh src (List.replicate n NUL)
  have hctor : ctor src n crx0 = read_preamble { input := { rest := src, eofbit := false, failbit := false }, in_buffer := List.replicate n NUL, in_capacity := n, epoch_buffer := List.replicate n NUL, header_done := false, crx := crx0, out := [] } := rfl
  simp only [read_preamble, getline_in] at hctor
  generalize getline { rest := src, eofbit := false, failbit := false } (List.replicate n NUL) = G
    at g1 g2 g3 g4 g5 hctor
  obtain ⟨inp1, buf, good⟩ := G
  simp only at g1 g2 g3 g4 g5 hctor
  subst g1
  have hlast : ((∃ d, ctor src n crx0 = Except.ok d) ∨ ∃ e, ctor src n crx0 = Except.error e) := by
    cases hc : ctor src n crx0 with
    | ok d => exact Or.inl ⟨d, rfl⟩
    | error e => exact Or.inr ⟨e, rfl⟩
  by_cases h60 : 60 > (first_line src).length
  · have hno : ¬ (((first_line src).drop 60).take 20 = "CRINEX VERS   / TYPE".toList) := by
      rw [List.drop_eq_nil_of_le (by omega)]
      decide
    have herr : ctor src n crx0 = Except.error (Err.raised "std::out_of_range") := by
      rw [hctor]
      simp only [compare_eq, h60, if_true, Nat.not_lt_zero, gt_iff_lt, if_false]
    refine ⟨⟨fun ⟨d, hd⟩ => ?_, fun h => absurd h.2 hno⟩, fun d hd => ?_, hlast⟩
    · rw [herr] at hd; cases hd
    · rw [herr] at hd; cases hd
  · have hsrc : src ≠ [] := by
      intro e
      rw [e] at h60
      exact h60 (by decide)
    have hfail : inp1.failbit = false := by
      cases hf : inp1.failbit
      · rfl
      · exact absurd (g3.1 hf) hsrc
    by_cases hcond : ((first_line src).take 3 = "1.0".toList ∨
        (first_line src).take 3 = "3.0".toList) ∧
        ((first_line src).drop 60).take 20 = "CRINEX VERS   / TYPE".toList
    · have hok : ctor src n crx0 = Except.ok (getline_in { input := inp1, in_buffer := first_line src, in_capacity := max n (first_line src).length, epoch_buffer := List.replicate n NUL, header_done := false, crx := { crx0 with version := atol (first_line src), rinex_version := -1 }, out := [] }).1 := by
        rw [hctor]
        simp only [compare_eq, h60, if_false, Nat.not_lt_zero, gt_iff_lt, hfail, List.drop_zero,
          Bool.false_eq_true, false_or, hcond.2, decide_True, not_true_eq_false, or_false,
          decide_eq_true_eq, hcond.1]
        rfl
      refine ⟨⟨fun _ => hcond, fun _ => ⟨_, hok⟩⟩, fun d hd => ?_, hlast⟩
      rw [hok] at hd
      simp only [Except.ok.injEq] at hd
      subst hd
      refine ⟨?_, rfl, rfl, ?_⟩
      · show atol (first_line src) = _
        exact take_three_version _ hcond.1
      · show (getline inp1 (first_line src)).1.rest = _
        rw [getline_rest inp1 _ (fun hb => by
          rw [g2]
          rcases hb with hb | hb
          · exact g4 hb
          · exact g5 hb), g2]
    · have herr : ctor src n crx0 = Except.error (Err.raised "Not a compressed RINEX file") := by
        rw [hctor]
        simp only [compare_eq, h60, if_false, Nat.not_lt_zero, gt_iff_lt, hfail, List.drop_zero,
          Bool.false_eq_true, false_or, decide_eq_true_eq]
        rw [if_pos]
        by_contra hn
        apply hcond
        push_neg at hn
        exact ⟨hn.1, hn.2⟩
      refine ⟨⟨fun ⟨d, hd⟩ => ?_, fun h => absurd h hcond⟩, fun d hd => ?_, hlast⟩
      · rw [herr] at hd; cases hd
      · rw [herr] at hd; cases hd

end CRinexStreamBuf
end GPSTk

namespace GPSTk
namespace CRinexStreamBuf

/-! ## The first header line -/

/-- The test of `read_header` on the first line after the preamble, for a line of at
least 60 characters: the line is accepted exactly when the whole C string from column 60
on is `RINEX VERSION / TYPE` and column 5 is `2` or `3`; the version stored is what
`atoi` reads at the head of the line. -/
theorem header_first_line_iff (d : Decoder) (h60 : 60 ≤ d.in_buffer.length) :
    ((∃ d1, header_first_line d = Except.ok d1) ↔
      c_str (d.in_buffer.drop 60) = "RINEX VERSION / TYPE".toList ∧
        (d.in_buffer.getD 5 NUL = '2' ∨ d.in_buffer.getD 5 NUL = '3')) ∧
    (∀ d1, header_first_line d = Except.ok d1 →
      d1 = { d with crx := { d.crx with rinex_version := atol d.in_buffer } }) ∧
    ((∃ d1, header_first_line d = Except.ok d1) ∨
      header_first_line d = Except.error (Err.raised "Incorrect RINEX header")) := by
  have h5 : 5 ≤ d.in_buffer.length := by omega
  by_cases hc : c_str (d.in_buffer.drop 60) = "RINEX VERSION / TYPE".toList ∧
      (d.in_buffer.getD 5 NUL = '2' ∨ d.in_buffer.getD 5 NUL = '3')
  · have hok : header_first_line d =
        Except.ok { d with crx := { d.crx with rinex_version := atol d.in_buffer } } := by
      have hn : ¬ (c_str (d.in_buffer.drop 60) ≠ "RINEX VERSION / TYPE".toList ∨
          (d.in_buffer.getD 5 NUL ≠ '2' ∧ d.in_buffer.getD 5 NUL ≠ '3')) := by
        intro h
        rcases h with h | h
        · exact h hc.1
        · rcases hc.2 with h2 | h3
          · exact h.1 h2
          · exact h.2 h3
      simp only [header_first_line, ptr_at, char_at, h60, h5, if_true, hn, if_false]
    refine ⟨⟨fun _ => hc, fun _ => ⟨_, hok⟩⟩, fun d1 hd => ?_, Or.inl ⟨_, hok⟩⟩
    rw [hok] at hd
    simp only [Except.ok.injEq] at hd
    exact hd.symm
  · have herr : header_first_line d = Except.error (Err.raised "Incorrect RINEX header") := by
      have hn : (c_str (d.in_buffer.drop 60) ≠ "RINEX VERSION / TYPE".toList ∨
          (d.in_buffer.getD 5 NUL ≠ '2' ∧ d.in_buffer.getD 5 NUL ≠ '3')) := by
        by_contra h
        push_neg at h
        apply hc
        refine ⟨h.1, ?_⟩
        by_cases h2 : d.in_buffer.getD 5 NUL = '2'
        · exact Or.inl h2
        · exact Or.inr (h.2 h2)
      simp only [header_first_line, ptr_at, char_at, h60, h5, if_true, hn]
    refine ⟨⟨fun ⟨d1, hd⟩ => ?_, fun h => absurd h hc⟩, fun d1 hd => ?_, Or.inr herr⟩
    · rw [herr] at hd; cases hd
    · rw [herr] at hd; cases hd

/-- C25 (the code at the failing input): a first header line of at least 60 characters is
accepted exactly when the whole C string from column 60 on is `RINEX VERSION / TYPE` and
column 5 is `2` or `3`. The line `     3.04 ... RINEX VERSION / TYPE` is accepted; the
same line with one blank after
column 79 has `RINEX VERSION / TYPE` at columns 60 to 79 and `3` at column 5, and
`read_header` raises "Incorrect RINEX header": the test compares the literal with the
whole C string at `&in_buffer[60]`. The sibling tests compare a fixed number of columns:
the preamble line with a blank after column 79 is accepted by `read_preamble`, and
`END OF HEADER` followed by blanks is recognised. -/
theorem first_header_line_trailing_blank :
    (∀ d : Decoder, 60 ≤ d.in_buffer.length →
      ((∃ d1, header_first_line d = Except.ok d1) ↔
        c_str (d.in_buffer.drop 60) = "RINEX VERSION / TYPE".toList ∧
          (d.in_buffer.getD 5 NUL = '2' ∨ d.in_buffer.getD 5 NUL = '3'))) ∧
    (read_header (header_decoder { Crx.zero with version := 3, rinex_version := -1 }
        (labelled_line "     3.04           OBSERVATION DATA    M" "RINEX VERSION / TYPE"))).toOption.map
      (fun r => (r.2, r.1.crx.rinex_version)) = some (true, 3) ∧
    ((labelled_line "     3.04           OBSERVATION DATA    M" "RINEX VERSION / TYPE" ++ [ ' ' ]).drop 60).take 20 =
      "RINEX VERSION / TYPE".toList ∧
    (labelled_line "     3.04           OBSERVATION DATA    M" "RINEX VERSION / TYPE" ++ [ ' ' ]).getD 5 NUL = '3' ∧
    read_header (header_decoder { Crx.zero with version := 3, rinex_version := -1 }
        (labelled_line "     3.04           OBSERVATION DATA    M" "RINEX VERSION / TYPE" ++ [ ' ' ])) =
      Except.error (Err.raised "Incorrect RINEX header") ∧
    (ctor (labelled_line "3.0                 COMPACT RINEX FORMAT" "CRINEX VERS   / TYPE" ++ [ ' ', LF ])
        1024 Crx.zero).toOption.map (fun d => d.crx.version) = some 3 ∧
    (read_header (header_decoder { Crx.zero with version := 3, rinex_version := 3 }
        (labelled_line "" "END OF HEADER" ++ [ ' ', ' ' ]))).toOption.map
      (fun r => r.1.header_done) = some true := by
  refine ⟨fun d h => (header_first_line_iff d h).1, ?_, by decide, by decide, ?_, ?_, ?_⟩ <;> rfl

/-- The number that `atoi` reads at the head of a line whose columns 0 to 4 are blank,
whose column 5 is the digit `c5` and whose column 6 is not a digit. -/
theorem atol_column_five (c5 c6 : Char) (t : List Char) (h5 : isdigit c5 = true)
    (h6 : isdigit c6 = false) :
    atol (' ' :: ' ' :: ' ' :: ' ' :: ' ' :: c5 :: c6 :: t) = ((c5.toNat - 48 : Nat) : Int) := by
  have hs : isspace ' ' = true := by decide
  have hns : isspace c5 = false := by
    have := (isdigit_iff c5).1 h5
    simp only [isspace, decide_eq_false_iff_not]
    omega
  have hm : c5 ≠ '-' := by
    intro e; rw [e] at h5; revert h5; decide
  have hp : c5 ≠ '+' := by
    intro e; rw [e] at h5; revert h5; decide
  simp only [atol, List.dropWhile, hs, hns, hm, hp, if_false, digits_value, h5, h6, if_true,
    Bool.false_eq_true]
  simp

/-- C26 (the code at the failing input): the first header line with `    12.00` in
columns 0 to 8 has the digit `2` at column 5 and `RINEX VERSION / TYPE` at column 60; it
is accepted, and the RINEX version stored is 12 (what `atoi` reads at the head of the
line), so that `END OF HEADER` commits the constants of RINEX 3. The version is the digit
at column 5 when columns 0 to 4 are blank and column 6 is not a digit. -/
theorem rinex_version_not_column_five :
    (labelled_line "    12.00           OBSERVATION DATA" "RINEX VERSION / TYPE").getD 5 NUL = '2' ∧
    (read_header (header_decoder { Crx.zero with version := 1, rinex_version := -1 }
        (labelled_line "    12.00           OBSERVATION DATA" "RINEX VERSION / TYPE"))).toOption.map
      (fun r => (r.2, r.1.crx.rinex_version)) = some (true, 12) ∧
    (read_header (header_decoder { Crx.zero with version := 1, rinex_version := 12 }
        (labelled_line "" "END OF HEADER"))).toOption.map
      (fun r => version_constants r.1.crx) = some ('>', '>', 31, 32, 41, 4, 6) ∧
    (∀ (d : Decoder) (d1 : Decoder) (c5 c6 : Char) (t : List Char),
      d.in_buffer = ' ' :: ' ' :: ' ' :: ' ' :: ' ' :: c5 :: c6 :: t → isdigit c6 = false →
      header_first_line d = Except.ok d1 →
      (d1.crx.rinex_version = 2 ∨ d1.crx.rinex_version = 3) ∧
        d1.crx.rinex_version = ((c5.toNat - 48 : Nat) : Int)) := by
  refine ⟨by decide, rfl, rfl, ?_⟩
  intro d d1 c5 c6 t hb h6 hok
  simp only [header_first_line, ptr_at, char_at] at hok
  by_cases h60 : 60 ≤ d.in_buffer.length
  · have h5 : 5 ≤ d.in_buffer.length := by omega
    simp only [h60, h5, if_true] at hok
    by_cases hn : (c_str (d.in_buffer.drop 60) ≠ "RINEX VERSION / TYPE".toList ∨
        (d.in_buffer.getD 5 NUL ≠ '2' ∧ d.in_buffer.getD 5 NUL ≠ '3'))
    · simp only [hn, if_true] at hok
      cases hok
    · simp only [hn, if_false, Except.ok.injEq] at hok
      subst hok
      have hc5 : c5 = '2' ∨ c5 = '3' := by
        have h5' : d.in_buffer.getD 5 NUL = c5 := by rw [hb]; rfl
        rw [h5'] at hn
        by_contra hx
        push_neg at hx
        exact hn (Or.inr hx)
      have hd5 : isdigit c5 = true := by
        rcases hc5 with h | h <;> rw [h] <;> decide
      show (atol d.in_buffer = 2 ∨ atol d.in_buffer = 3) ∧
        atol d.in_buffer = ((c5.toNat - 48 : Nat) : Int)
      rw [hb, atol_column_five c5 c6 t hd5 h6]
      rcases hc5 with h | h
      · subst h
        exact ⟨Or.inl (by decide), rfl⟩
      · subst h
        exact ⟨Or.inr (by decide), rfl⟩
  · simp only [h60, if_false] at hok
    cases hok

end CRinexStreamBuf
end GPSTk

namespace GPSTk
namespace ZStreamBuf

/-! ## `ZStreamBuf`: the flags byte -/

/-- C27 (counterexample): the flags byte `88` has bits 5 and 6 clear and `maxbits = 8`,
which is outside 9..16; the constructor does not raise, and stores `maxbits = 8`. -/
theorem ctor_accepts_maxbits_8 :
    (0x88 &&& 0x60 = 0 ∧ 0x88 &&& 0x1f = 8) ∧
    ∃ s, ctor [0x1f, 0x9d, 0x88] = Ctor.ok s ∧ s.maxbits = 8 ∧ s.block_mode = 0x80 := by
  refine ⟨by decide, _, rfl, rfl, rfl⟩

/-- C27 (amended): given the magic `1F 9D`, the constructor raises if and only if the
flags byte has bit 5 or bit 6 set or its low five bits (`maxbits`) exceed 16; there is no
lower bound. Otherwise `block_mode` is bit 7 of the flags byte (`flags & 0x80`) and
`maxbits` is its low five bits. -/
theorem ctor_flags (b2 : Nat) (rest : List Nat) :
    ((∃ msg, ctor (0x1f :: 0x9d :: b2 :: rest) = Ctor.raised msg) ↔
      (b2 &&& 0x60 ≠ 0 ∨ b2 &&& 0x1f > 16)) ∧
    (¬ (b2 &&& 0x60 ≠ 0 ∨ b2 &&& 0x1f > 16) →
      ∃ s, ctor (0x1f :: 0x9d :: b2 :: rest) = Ctor.ok s ∧ s.flags = b2 ∧
        s.block_mode = b2 &&& 0x80 ∧ s.maxbits = ((b2 &&& 0x1f : Nat) : Int)) := by
  have ht : strncmp_eq 0 2 [0x1f, 0x9d, b2] LZW_MAGIC = true := (strncmp_magic _ _ _).2 ⟨rfl, rfl⟩
  have hlen : ¬ (([0x1f, 0x9d, b2] : List Nat).length ≠ 3) := by simp
  have htake : List.take 3 (0x1f :: 0x9d :: b2 :: rest) = [0x1f, 0x9d, b2] := rfl
  by_cases h60 : b2 &&& 0x60 ≠ 0
  · have hr : ctor (0x1f :: 0x9d :: b2 :: rest) = Ctor.raised "Not a LZW-compressed stream" := by
      simp only [ctor, htake, hlen, if_false, ht, List.getD_cons_succ, List.getD_cons_zero, h60,
        Bool.true_eq_false, false_or, ne_eq, not_false_eq_true, if_true]
    exact ⟨⟨fun _ => Or.inl h60, fun _ => ⟨_, hr⟩⟩, fun h => absurd (Or.inl h60) h⟩
  · by_cases h16 : b2 &&& 0x1f > 16
    · have h16' : (((b2 &&& 0x1f : Nat) : Int)) > BITS := by
        simp only [BITS]; omega
      have hr : ctor (0x1f :: 0x9d :: b2 :: rest) = Ctor.raised "LZW bits flag exceeds maximum" := by
        simp only [ctor, htake, hlen, if_false, ht, List.getD_cons_succ, List.getD_cons_zero, h60,
          Bool.true_eq_false, false_or, h16', if_true]
      exact ⟨⟨fun _ => Or.inr h16, fun _ => ⟨_, hr⟩⟩, fun h => absurd (Or.inr h16) h⟩
    · have h16' : ¬ ((((b2 &&& 0x1f : Nat) : Int)) > BITS) := by
        simp only [BITS]; omega
      have hno : ¬ (b2 &&& 0x60 ≠ 0 ∨ b2 &&& 0x1f > 16) := by
        intro h
        rcases h with h | h
        · exact h60 h
        · exact h16 h
      obtain ⟨s, hs, p1, p2, p3⟩ : ∃ s, ctor (0x1f :: 0x9d :: b2 :: rest) = Ctor.ok s ∧
          s.flags = b2 ∧ s.block_mode = b2 &&& 0x80 ∧ s.maxbits = ((b2 &&& 0x1f : Nat) : Int) := by
        simp only [ctor, htake, hlen, if_false, ht, List.getD_cons_succ, List.getD_cons_zero, h60,
          Bool.true_eq_false, false_or, h16']
        exact ⟨_, rfl, rfl, rfl, rfl⟩
      refine ⟨⟨fun ⟨msg, hm⟩ => ?_, fun h => absurd h hno⟩, fun _ => ⟨s, hs, p1, p2, p3⟩⟩
      rw [hs] at hm
      cases hm

end ZStreamBuf
end GPSTk

namespace GPSTk
namespace ZStreamBuf

/-! ## `lzw_read`: general facts about the step machine -/

theorem bytes_at_length (buf : Nat → Nat) (off n : Nat) : (bytes_at buf off n).length = n := by
  simp [bytes_at]

theorem bytes_at_add (buf : Nat → Nat) (off n m : Nat) :
    bytes_at buf off (n + m) = bytes_at buf off n ++ bytes_at buf (off + n) m := by
  simp only [bytes_at, List.range_add, List.map_append, List.map_map]
  congr 1
  apply List.map_congr_left
  intro i _
  simp [Nat.add_assoc]

theorem bytes_at_zero (buf : Nat → Nat) (off : Nat) : bytes_at buf off 0 = [] := rfl

theorem run_succ (fuel : Nat) (pc : Pc) (s : LzwState) (c : Call) :
    run (fuel + 1) pc s c =
      match step pc s with
      | Step.next pc1 s1 => run fuel pc1 s1 c
      | Step.error s1 => some { state := s1, value := -1, bytes := c.readbuf }
      | Step.full s1 =>
        if s1.outpos < c.count_left then
          run fuel Pc.resume_reading s1 (resume_partial_reading s1 c 0)
        else some (empty_existing_buffer s1 c 0)
      | Step.finished s1 => some (finish s1 c) := rfl

/-- More fuel does not change what a call returns. -/
theorem run_mono (fuel : Nat) :
    ∀ (pc : Pc) (s : LzwState) (c : Call) (r : Ret) (n : Nat),
      run fuel pc s c = some r → run (fuel + n) pc s c = some r := by
  induction fuel with
  | zero => intro pc s c r n h; simp [run] at h
  | succ fuel ih =>
    intro pc s c r n h
    have e : fuel + 1 + n = (fuel + n) + 1 := by omega
    rw [e, run_succ]
    rw [run_succ] at h
    cases hs : step pc s with
    | next pc1 s1 => rw [hs] at h; exact ih _ _ _ _ _ h
    | error s1 => rw [hs] at h; exact h
    | full s1 =>
      rw [hs] at h
      by_cases hc : s1.outpos < c.count_left
      · simp only [hc, if_true] at h ⊢
        exact ih _ _ _ _ _ h
      · simp only [hc, if_false] at h ⊢
        exact h
    | finished s1 => rw [hs] at h; exact h

end ZStreamBuf
end GPSTk

namespace GPSTk
namespace ZStreamBuf

/-! ## `lzw_read`: the value returned -/

theorem input_nonneg (inbuf : Nat → Nat) (posbits bitmask : Int) : 0 ≤ input inbuf posbits bitmask := by
  simp only [input]
  exact Int.natCast_nonneg _

theorem step_stack_not_error (s s1 : LzwState) : step_stack s ≠ Step.error s1 := by
  intro h
  simp only [step_stack] at h
  split_ifs at h

/-- Only the macro `input` is followed by `return -1`. -/
theorem step_error_reads (pc : Pc) (s s1 : LzwState) (h : step pc s = Step.error s1) :
    reads pc s ∧ read_code s = Step.error s1 := by
  cases pc with
  | next_code =>
    simp only [step] at h
    by_cases h1 : s.inbits > s.posbits
    · by_cases h2 : s.free_ent > s.maxcode
      · simp only [h1, h2, if_true] at h
        cases h
      · simp only [h1, h2, if_true, if_false] at h
        exact ⟨⟨rfl, h1, h2⟩, h⟩
    · simp only [h1, if_false] at h
      split_ifs at h
  | resetbuf => simp only [step] at h; cases h
  | walk =>
    simp only [step, walk_end] at h
    split_ifs at h
  | put_out =>
    simp only [step] at h
    split_ifs at h
    exact absurd h (step_stack_not_error _ _)
  | resume_reading =>
    simp only [step] at h
    exact absurd h (step_stack_not_error _ _)
  | new_entry => simp only [step] at h; cases h

theorem read_code_error_iff (s : LzwState) (hf : 256 ≤ s.free_ent) :
    (∃ s1, read_code s = Step.error s1) ↔
      ((s.oldcode = -1 ∧ next_code s ≥ 256) ∨ (s.oldcode ≠ -1 ∧ next_code s > s.free_ent)) := by
  simp only [read_code, next_code]
  by_cases h3 : s.oldcode = -1
  · by_cases h4 : input s.inbuf s.posbits s.bitmask ≥ 256
    · simp only [h3, h4, if_true, and_self, true_or, iff_true]
      exact ⟨_, rfl⟩
    · simp only [h3, h4, if_true, if_false, and_false, false_or, ne_eq, not_true_eq_false,
        false_and, iff_false]
      rintro ⟨s1, h⟩
      cases h
  · by_cases h5 : input s.inbuf s.posbits s.bitmask = CLEAR ∧ s.block_mode ≠ 0
    · have h6 : ¬ input s.inbuf s.posbits s.bitmask > s.free_ent := by
        rw [h5.1]; simp only [CLEAR]; omega
      simp only [h3, h5, if_false, and_self, if_true, false_and, false_or, ne_eq,
        not_false_eq_true, true_and]
      constructor
      · rintro ⟨s1, h⟩
        cases h
      · intro h
        rw [h5.1] at h6
        exact absurd h h6
    · by_cases h7 : input s.inbuf s.posbits s.bitmask ≥ s.free_ent
      · by_cases h8 : input s.inbuf s.posbits s.bitmask > s.free_ent
        · simp only [h3, h5, h7, h8, if_false, if_true, false_and, false_or, ne_eq,
            not_false_eq_true, true_and, iff_true]
          exact ⟨_, rfl⟩
        · simp only [h3, h5, h7, h8, if_false, if_true, false_and, false_or, ne_eq,
            not_false_eq_true, true_and, iff_false]
          rintro ⟨s1, h⟩
          cases h
      · have h8 : ¬ input s.inbuf s.posbits s.bitmask > s.free_ent := by omega
        simp only [h3, h5, h7, h8, if_false, false_and, false_or, ne_eq,
          not_false_eq_true, true_and, iff_false]
        rintro ⟨s1, h⟩
        cases h

/-- A step ends in `return -1` exactly at a code that is `corrupt`. -/
theorem step_error_iff (pc : Pc) (s : LzwState) (hf : 256 ≤ s.free_ent) :
    (∃ s1, step pc s = Step.error s1) ↔ corrupt pc s := by
  constructor
  · rintro ⟨s1, h⟩
    obtain ⟨hr, hc⟩ := step_error_reads pc s s1 h
    exact ⟨hr, (read_code_error_iff s hf).1 ⟨s1, hc⟩⟩
  · rintro ⟨⟨hpc, h1, h2⟩, hbad⟩
    obtain ⟨s1, hs1⟩ := (read_code_error_iff s hf).2 hbad
    refine ⟨s1, ?_⟩
    subst hpc
    simp only [step, h1, h2, if_true, if_false]
    exact hs1

end ZStreamBuf
end GPSTk

namespace GPSTk
namespace ZStreamBuf

theorem step_stack_free_ent (s : LzwState) : (step_stack s).state.free_ent = s.free_ent := by
  simp only [step_stack]
  split_ifs <;> rfl

theorem put_out_free_ent (s : LzwState) : (put_out s).free_ent = s.free_ent := by
  simp only [put_out]
  split_ifs <;> rfl

theorem resetbuf_free_ent (s : LzwState) : (resetbuf s).free_ent = s.free_ent := by
  simp only [resetbuf]
  split_ifs <;> rfl

/-- The member `free_ent` never falls below 256. -/
theorem step_free_ent (pc : Pc) (s : LzwState) (hf : 256 ≤ s.free_ent) :
    256 ≤ (step pc s).state.free_ent := by
  cases pc with
  | resetbuf =>
    simp only [step, Step.state, resetbuf_free_ent]
    exact hf
  | next_code =>
    simp only [step]
    split_ifs
    · exact hf
    · simp only [read_code]
      split_ifs <;> first | exact hf | (simp only [Step.state, clear, FIRST]; omega)
    · exact hf
    · exact hf
  | walk =>
    simp only [step, walk_end]
    split_ifs <;> exact hf
  | put_out =>
    simp only [step]
    split_ifs
    · simp only [Step.state, put_out_free_ent]; exact hf
    · rw [step_stack_free_ent, put_out_free_ent]; exact hf
  | resume_reading =>
    simp only [step]
    rw [step_stack_free_ent]; exact hf
  | new_entry =>
    simp only [step, Step.state, new_entry]
    split_ifs
    · show 256 ≤ s.free_ent + 1
      omega
    · exact hf

theorem finish_value (s : LzwState) (c : Call) (h : c.count_left ≤ c.count) :
    0 ≤ (finish s c).value := by
  simp only [finish]
  split_ifs with h1
  · simp only [size_sub]
    split_ifs with h2
    · show (0 : Int) ≤ (c.count : Int) - ((c.count_left - s.outpos : Nat) : Int)
      omega
    · omega
  · simp only [empty_existing_buffer]
    exact Int.natCast_nonneg _

/-- The value that a call returns from the place `pc` is negative exactly when a code that
is `corrupt` is met on the way. -/
theorem run_negative : ∀ (fuel : Nat) (pc : Pc) (s : LzwState) (c : Call) (r : Ret),
    run fuel pc s c = some r → 256 ≤ s.free_ent → c.count_left ≤ c.count →
    ((r.value < 0 ↔ ∃ v, v ∈ visits fuel pc s c ∧ corrupt v.1 v.2) ∧
      (r.value < 0 → r.value = -1)) := by
  intro fuel
  induction fuel with
  | zero => intro pc s c r h; simp [run] at h
  | succ fuel ih =>
    intro pc s c r h hf hc
    rw [run_succ] at h
    have herr := step_error_iff pc s hf
    have hfe := step_free_ent pc s hf
    rw [visits]
    cases hs : step pc s with
    | next pc1 s1 =>
      rw [hs] at h hfe
      have hnot : ¬ corrupt pc s := fun hb => by
        obtain ⟨s2, h2⟩ := herr.2 hb
        rw [hs] at h2; cases h2
      obtain ⟨ih1, ih2⟩ := ih pc1 s1 c r h hfe hc
      refine ⟨?_, ih2⟩
      rw [ih1]
      constructor
      · rintro ⟨v, hv, hb⟩
        exact ⟨v, List.mem_cons_of_mem _ hv, hb⟩
      · rintro ⟨v, hv, hb⟩
        rcases List.mem_cons.1 hv with e | hv'
        · rw [e] at hb; exact absurd hb hnot
        · exact ⟨v, hv', hb⟩
    | error s1 =>
      rw [hs] at h
      simp only [Option.some.injEq] at h
      subst h
      refine ⟨⟨fun _ => ⟨(pc, s), List.mem_cons_self _ _, herr.1 ⟨s1, hs⟩⟩, fun _ => (show (-1 : Int) < 0 by decide)⟩,
        fun _ => rfl⟩
    | full s1 =>
      rw [hs] at h hfe
      have hnot : ¬ corrupt pc s := fun hb => by
        obtain ⟨s2, h2⟩ := herr.2 hb
        rw [hs] at h2; cases h2
      by_cases hlt : s1.outpos < c.count_left
      · simp only [hlt, if_true] at h ⊢
        have hc' : (resume_partial_reading s1 c 0).count_left ≤ (resume_partial_reading s1 c 0).count := by
          simp only [resume_partial_reading, size_sub]
          split_ifs <;> omega
        obtain ⟨ih1, ih2⟩ := ih _ s1 _ r h hfe hc'
        refine ⟨?_, ih2⟩
        rw [ih1]
        constructor
        · rintro ⟨v, hv, hb⟩
          exact ⟨v, List.mem_cons_of_mem _ hv, hb⟩
        · rintro ⟨v, hv, hb⟩
          rcases List.mem_cons.1 hv with e | hv'
          · rw [e] at hb; exact absurd hb hnot
          · exact ⟨v, hv', hb⟩
      · simp only [hlt, if_false, Option.some.injEq] at h ⊢
        subst h
        have hv : ¬ ((empty_existing_buffer s1 c 0).value < 0) := by
          simp only [empty_existing_buffer]; omega
        refine ⟨⟨fun hneg => absurd hneg hv, ?_⟩, fun hneg => absurd hneg hv⟩
        rintro ⟨v, hv', hb⟩
        simp only [List.mem_singleton] at hv'
        rw [hv'] at hb; exact absurd hb hnot
    | finished s1 =>
      rw [hs] at h
      have hnot : ¬ corrupt pc s := fun hb => by
        obtain ⟨s2, h2⟩ := herr.2 hb
        rw [hs] at h2; cases h2
      simp only [Option.some.injEq] at h
      subst h
      have hv : ¬ ((finish s1 c).value < 0) := by
        have := finish_value s1 c hc; omega
      refine ⟨⟨fun hneg => absurd hneg hv, ?_⟩, fun hneg => absurd hneg hv⟩
      rintro ⟨v, hv', hb⟩
      simp only [List.mem_singleton] at hv'
      rw [hv'] at hb; exact absurd hb hnot

end ZStreamBuf
end GPSTk

namespace GPSTk
namespace ZStreamBuf

theorem step_stack_codes (s : LzwState) :
    (step_stack s).state.oldcode = s.oldcode ∧ (step_stack s).state.incode = s.incode := by
  simp only [step_stack]
  split_ifs <;> exact ⟨rfl, rfl⟩

theorem put_out_codes (s : LzwState) :
    (put_out s).oldcode = s.oldcode ∧ (put_out s).incode = s.incode := by
  simp only [put_out]
  split_ifs <;> exact ⟨rfl, rfl⟩

theorem resetbuf_codes (s : LzwState) :
    (resetbuf s).oldcode = s.oldcode ∧ (resetbuf s).incode = s.incode := by
  simp only [resetbuf]
  split_ifs <;> exact ⟨rfl, rfl⟩

/-- The member `oldcode` is -1 until the first code has been read, and never again: a
step keeps `oldcode >= 0`, and the step that reads a code with `oldcode = -1` either
returns -1 or stores the code in `oldcode`. -/
theorem oldcode_first (pc : Pc) (s : LzwState) (hi : 0 ≤ s.incode) :
    0 ≤ (step pc s).state.incode ∧
    (0 ≤ s.oldcode → 0 ≤ (step pc s).state.oldcode) ∧
    (reads pc s → s.oldcode = -1 → ¬ corrupt pc s →
      (step pc s).state.oldcode = next_code s ∧ 0 ≤ next_code s) := by
  have hin := input_nonneg s.inbuf s.posbits s.bitmask
  cases pc with
  | resetbuf =>
    simp only [step, Step.state, (resetbuf_codes s).1, (resetbuf_codes s).2]
    exact ⟨hi, fun h => h, fun hr => absurd hr.1 (by decide)⟩
  | next_code =>
    refine ⟨?_, ?_, ?_⟩
    · simp only [step]
      split_ifs
      · exact hi
      · simp only [read_code]
        split_ifs <;> first | exact hi | exact hin
      · exact hi
      · exact hi
    · intro ho
      simp only [step]
      split_ifs
      · exact ho
      · simp only [read_code]
        split_ifs <;> first | exact ho | exact hin
      · exact ho
      · exact ho
    · intro hr h1 hnc
      obtain ⟨_, h2, h3⟩ := hr
      have h4 : ¬ input s.inbuf s.posbits s.bitmask ≥ 256 := by
        intro h
        exact hnc ⟨⟨rfl, h2, h3⟩, Or.inl ⟨h1, h⟩⟩
      simp only [step, h2, h3, if_true, if_false, read_code, h1, h4, Step.state, next_code]
      exact ⟨trivial, hin⟩
  | walk =>
    simp only [step, walk_end]
    refine ⟨?_, ?_, fun hr => absurd hr.1 (by decide)⟩
    · split_ifs <;> exact hi
    · intro ho; split_ifs <;> exact ho
  | put_out =>
    simp only [step]
    refine ⟨?_, ?_, fun hr => absurd hr.1 (by decide)⟩
    · split_ifs
      · simp only [Step.state, (put_out_codes s).2]; exact hi
      · rw [(step_stack_codes _).2, (put_out_codes s).2]; exact hi
    · intro ho
      split_ifs
      · simp only [Step.state, (put_out_codes s).1]; exact ho
      · rw [(step_stack_codes _).1, (put_out_codes s).1]; exact ho
  | resume_reading =>
    simp only [step]
    refine ⟨?_, ?_, fun hr => absurd hr.1 (by decide)⟩
    · rw [(step_stack_codes _).2]; exact hi
    · intro ho; rw [(step_stack_codes _).1]; exact ho
  | new_entry =>
    simp only [step, Step.state, new_entry]
    refine ⟨?_, ?_, fun hr => absurd hr.1 (by decide)⟩
    · split_ifs <;> exact hi
    · intro _; split_ifs <;> exact hi

end ZStreamBuf
end GPSTk

namespace GPSTk
namespace ZStreamBuf

/-- C28: a call `lzw_read(readbuf, count)` (the source delivers what it holds and never
fails) returns a negative value, which is -1, if and only if one of the codes that it
reads is the first code of the stream (`oldcode` is still -1) and is 256 or more, or is a
later code and is greater than `free_ent` at the moment it is read; and `underflow` raises
"Error while decompressing" exactly when the value is negative. -/
theorem lzw_read_negative (fuel : Nat) (s : LzwState) (count : Nat) (r : Ret)
    (h : lzw_read fuel s count = some r) (hf : 256 ≤ s.free_ent) :
    (r.value < 0 ↔ ∃ v, v ∈ read_visits fuel s count ∧ reads v.1 v.2 ∧
      ((v.2.oldcode = -1 ∧ next_code v.2 ≥ 256) ∨
        (v.2.oldcode ≠ -1 ∧ next_code v.2 > v.2.free_ent))) ∧
    (r.value < 0 → r.value = -1) ∧
    (underflow fuel s count = some (Underflow.raised "Error while decompressing") ↔
      r.value < 0) := by
  have hu : (underflow fuel s count = some (Underflow.raised "Error while decompressing") ↔
      r.value < 0) := by
    simp only [underflow, h]
    split_ifs with hneg
    · exact ⟨fun _ => hneg, fun _ => rfl⟩
    · constructor
      · intro e; cases e
      · intro e; exact absurd e hneg
  have key : (r.value < 0 ↔ ∃ v, v ∈ read_visits fuel s count ∧ corrupt v.1 v.2) ∧
      (r.value < 0 → r.value = -1) := by
    simp only [lzw_read] at h
    simp only [read_visits]
    by_cases h0 : count = 0 ∨ s.eof = true
    · simp only [h0, if_true, Option.some.injEq] at h ⊢
      subst h
      have hz : ¬ ((0 : Int) < 0) := by decide
      refine ⟨⟨fun hn => absurd hn hz, ?_⟩, fun hn => absurd hn hz⟩
      rintro ⟨v, hv, _⟩
      cases hv
    · simp only [h0, if_false] at h ⊢
      cases hst : s.stackp with
      | none =>
        rw [hst] at h
        exact run_negative fuel _ s _ r h hf (Nat.le_refl _)
      | some st =>
        rw [hst] at h
        simp only at h ⊢
        by_cases hop : s.outpos ≠ 0
        · by_cases hge : s.outpos ≥ count
          · simp only [hop, hge, if_true, Option.some.injEq, ne_eq, not_false_eq_true] at h ⊢
            subst h
            have hv : ¬ ((empty_existing_buffer s { readbuf := [], count_left := count, count := count } s.unreadbuf).value < 0) := by
              simp only [empty_existing_buffer]; omega
            refine ⟨⟨fun hn => absurd hn hv, ?_⟩, fun hn => absurd hn hv⟩
            rintro ⟨v, hv', _⟩
            cases hv'
          · simp only [hop, hge, if_true, if_false, ne_eq, not_false_eq_true] at h ⊢
            refine run_negative fuel _ s _ r h hf ?_
            simp only [resume_partial_reading, size_sub]
            split_ifs <;> omega
        · simp only [hop, if_false] at h ⊢
          exact run_negative fuel _ s _ r h hf (Nat.le_refl _)
  exact ⟨key.1, key.2, hu⟩

set_option maxRecDepth 1000000 in
/-- C28 (witness): the stream `1F 9D 90 2C 01` holds the single code 300: the first code
is not below 256, `lzw_read` returns -1 and `underflow` raises. The stream
`1F 9D 90 61 02 02` (codes `a`, 257) returns 3. -/
theorem lzw_read_negative_witness :
    (∃ s r, (ctor [0x1f, 0x9d, 0x90, 0x2c, 0x01]).state = some s ∧
      lzw_read 100 s 1024 = some r ∧ r.value = -1 ∧
      ((r.value < 0 ↔ ∃ v, v ∈ read_visits 100 s 1024 ∧ reads v.1 v.2 ∧
        ((v.2.oldcode = -1 ∧ next_code v.2 ≥ 256) ∨
          (v.2.oldcode ≠ -1 ∧ next_code v.2 > v.2.free_ent))) ∧
      (r.value < 0 → r.value = -1) ∧
      (underflow 100 s 1024 = some (Underflow.raised "Error while decompressing") ↔
        r.value < 0))) ∧
    ((ctor [0x1f, 0x9d, 0x90, 0x61, 0x02, 0x02]).state.bind (fun s => lzw_read 100 s 1024)).map
      (fun r => (r.value, r.bytes)) = some (3, [97, 97, 97]) :=
  ⟨⟨_, _, rfl, rfl, rfl, lzw_read_negative 100 _ 1024 _ rfl (by decide)⟩, by decide⟩

end ZStreamBuf
end GPSTk

namespace GPSTk
namespace ZStreamBuf

/-! ## `lzw_read`: the bytes of one code -/

theorem bytes_at_congr (f g : Nat → Nat) (off n : Nat)
    (h : ∀ i, i < n → f (off + i) = g (off + i)) : bytes_at f off n = bytes_at g off n := by
  simp only [bytes_at]
  apply List.map_congr_left
  intro i hi
  exact h i (List.mem_range.1 hi)

theorem take_eq_map_getD (src : List Nat) : ∀ (d : Nat), d ≤ src.length →
    (List.range d).map (fun i => src.getD i 0) = src.take d := by
  intro d hd
  apply List.ext_getElem
  · simp [Nat.min_eq_left hd]
  · intro i h1 h2
    simp only [List.length_map, List.length_range] at h1
    simp only [List.getElem_map, List.getElem_range, List.getElem_take]
    rw [List.getD_eq_getElem _ _ (by omega)]

/-- The bytes of `outbuf` after `memcpy(outbuf + outpos, stackp, d)`. -/
theorem bytes_at_memcpy (buf : Nat → Nat) (off : Nat) (src : List Nat) (d : Nat)
    (hd : d ≤ src.length) :
    bytes_at (memcpy_at buf off src d) 0 (off + d) = bytes_at buf 0 off ++ src.take d := by
  rw [bytes_at_add]
  congr 1
  · apply bytes_at_congr
    intro i hi
    simp only [memcpy_at, Nat.zero_add]
    have : ¬ (off ≤ i ∧ i < off + d) := by omega
    simp only [this, if_false]
  · simp only [bytes_at, memcpy_at, Nat.zero_add]
    rw [← take_eq_map_getD src d hd]
    apply List.map_congr_left
    intro i hi
    have hi' := List.mem_range.1 hi
    have : off ≤ off + i ∧ off + i < off + d := by omega
    simp only [this, and_self, if_true, Nat.add_sub_cancel_left]

theorem advance_add (n m : Nat) : ∀ (pc : Pc) (s : LzwState) (c : Call),
    advance (n + m) pc s c =
      match advance n pc s c with
      | none => none
      | some r => advance m r.1 r.2.1 r.2.2 := by
  induction n with
  | zero => intro pc s c; simp [advance]
  | succ n ih =>
    intro pc s c
    have e : n + 1 + m = (n + m) + 1 := by omega
    rw [e, advance, advance]
    cases hs : step pc s with
    | next pc1 s1 => exact ih pc1 s1 c
    | error s1 => rfl
    | full s1 =>
      simp only
      split_ifs
      · exact ih _ _ _
      · rfl
    | finished s1 => rfl

/-- The steps of `advance` are steps of the call. -/
theorem run_advance (n : Nat) : ∀ (pc : Pc) (s : LzwState) (c : Call) (r : Pc × LzwState × Call)
    (fuel : Nat), advance n pc s c = some r → run (n + fuel) pc s c = run fuel r.1 r.2.1 r.2.2 := by
  induction n with
  | zero =>
    intro pc s c r fuel h
    simp only [advance, Option.some.injEq] at h
    subst h
    simp
  | succ n ih =>
    intro pc s c r fuel h
    have e : n + 1 + fuel = (n + fuel) + 1 := by omega
    rw [e, run_succ]
    rw [advance] at h
    cases hs : step pc s with
    | next pc1 s1 =>
      rw [hs] at h
      exact ih pc1 s1 c r fuel h
    | error s1 => rw [hs] at h; cases h
    | full s1 =>
      rw [hs] at h
      simp only at h ⊢
      split_ifs at h with hlt
      simp only [hlt, if_true]
      exact ih _ _ _ r fuel h
    | finished s1 => rw [hs] at h; cases h

theorem expand_ne_nil (htab codetab : Nat → Nat) : ∀ (n k : Nat), expand htab codetab n k ≠ [] := by
  intro n
  cases n with
  | zero => intro k; simp [expand]
  | succ n =>
    intro k
    simp only [expand]
    split_ifs <;> simp

/-- The loop `while (code >= 256)`: the bytes of the chain are pushed, last byte first,
and the loop ends at the code below 256 at the end of the chain. -/
theorem walk_chain (c : Call) : ∀ (n k : Nat) (s : LzwState) (st : List Nat),
    s.code = (k : Int) → s.stackp = some st → chain_ends s.codetab n k →
    ∃ (m k1 : Nat) (t : List Nat), k1 < 256 ∧
      expand s.htab s.codetab n k = k1 :: t ∧
      advance m Pc.walk s c = some (Pc.walk, { s with stackp := some (t ++ st), code := (k1 : Int) }, c) := by
  intro n
  induction n with
  | zero =>
    intro k s st hk hst hch
    simp only [chain_ends] at hch
    refine ⟨0, k, [], hch, ?_, ?_⟩
    · simp only [expand, Nat.mod_eq_of_lt (show k < 256 from hch)]
    · simp only [advance, List.nil_append, ← hk, ← hst]
  | succ n ih =>
    intro k s st hk hst hch
    by_cases hlt : k < 256
    · refine ⟨0, k, [], hlt, ?_, ?_⟩
      · simp only [expand, hlt, if_true]
      · simp only [advance, List.nil_append, ← hk, ← hst]
    · have hch' : chain_ends s.codetab n (s.codetab k) := by
        simp only [chain_ends] at hch
        exact hch.resolve_left hlt
      have hge : s.code ≥ 256 := by rw [hk]; omega
      have htn : s.code.toNat = k := by rw [hk]; simp
      obtain ⟨m, k1, t, h1, h2, h3⟩ := ih (s.codetab k)
        { push s (s.htab k) with code := (s.codetab k : Int) } ((s.htab k % 256) :: st) rfl
        (by simp only [push, stack, hst, Option.getD_some]) hch'
      refine ⟨m + 1, k1, t ++ [s.htab k % 256], h1, ?_, ?_⟩
      · simp only [expand, hlt, if_false]
        have h2' : expand s.htab s.codetab n (s.codetab k) = k1 :: t := h2
        rw [h2']
        rfl
      · rw [advance]
        simp only [step, hge, if_true, htn]
        rw [h3]
        simp only [push, List.append_assoc, List.singleton_append]

end ZStreamBuf
end GPSTk

namespace GPSTk
namespace ZStreamBuf

/-- The inner `do ... while` copies the whole stack to the output, handing `outbuf` to the
caller each time it is full, as long as the caller's buffer has room. -/
theorem put_out_loop : ∀ (l : Nat) (s : LzwState) (c : Call) (st : List Nat),
    st.length = l → 0 < l → s.stackp = some st → s.stackp_diff = st.length →
    s.outpos < BUFSIZE → 0 < c.count_left →
    BUFSIZE * ((s.outpos + l) / BUFSIZE) < c.count_left →
    ∃ (m : Nat) (s1 : LzwState) (c1 : Call),
      advance m Pc.put_out s c = some (Pc.new_entry, s1, c1) ∧
      emitted c1 s1 = emitted c s ++ st ∧ s1.outpos < BUFSIZE ∧
      decoding s1 = decoding s ∧ c1.count = c.count ∧ 0 < c1.count_left ∧
      c1.count_left + s.outpos + l = c.count_left + s1.outpos := by
  intro l
  induction l using Nat.strong_induction_on with
  | _ l ih =>
    intro s c st hl hpos hst hd hout hcl hroom
    have hB : BUFSIZE = 4 := rfl
    rw [hB] at hout hroom
    have hsub : size_sub BUFSIZE s.outpos = 4 - s.outpos := by
      simp only [size_sub, hB]
      rw [if_pos (by omega)]
    have hstack : stack s = st := by simp only [stack, hst, Option.getD_some]
    by_cases hbig : l > 4 - s.outpos
    · -- the stack does not fit: `outbuf` is filled and handed over
      have hp : put_out s = { s with stackp_diff := 4 - s.outpos, outbuf := memcpy_at s.outbuf s.outpos st (4 - s.outpos), outpos := s.outpos + (4 - s.outpos) } := by
        simp only [put_out, hsub, hd, hl]
        rw [if_pos hbig]
        simp only
        rw [if_pos (by omega)]
        simp only [stack, hst, Option.getD_some]
      have hdrop : (st.drop (4 - s.outpos)).length = l - (4 - s.outpos) := by
        rw [List.length_drop, hl]
      have hc1 : (resume_partial_reading (put_out s) c 0).count_left = c.count_left - 4 := by
        simp only [resume_partial_reading, hp, size_sub]
        rw [if_pos (by omega)]
        omega
      obtain ⟨m, s1, c1, h1, h2, h3, h4, h5, h7, h6⟩ := ih (l - (4 - s.outpos)) (by omega)
        { s with stackp_diff := (st.drop (4 - s.outpos)).length, outbuf := memcpy_at s.outbuf s.outpos st (4 - s.outpos), outpos := 0, stackp := some (st.drop (4 - s.outpos)) }
        (resume_partial_reading (put_out s) c 0) (st.drop (4 - s.outpos)) hdrop (by omega) rfl rfl
        (by simp only [hB]; omega)
        (by rw [hc1]; omega)
        (by rw [hc1]; simp only [hB]; omega)
      refine ⟨m + 2, s1, c1, ?_, ?_, h3, ?_, ?_, h7, ?_⟩
      · rw [advance]
        simp only [step]
        rw [if_pos (by rw [hp]; simp only [hB]; omega)]
        simp only
        rw [if_pos (by rw [hp]; simp only; omega)]
        rw [advance]
        simp only [step, step_stack]
        rw [if_pos (by simp only [hp, stack, Option.getD_some, hst]; rw [hdrop]; omega)]
        simp only
        rw [← h1]
        simp only [hp, stack, hst, Option.getD_some]
      · rw [h2]
        simp only [emitted, resume_partial_reading, hp, bytes_at_zero, List.append_nil]
        have e : s.outpos + (4 - s.outpos) = s.outpos + (4 - s.outpos) := rfl
        rw [bytes_at_memcpy s.outbuf s.outpos st (4 - s.outpos) (by omega)]
        simp only [List.append_assoc, List.take_append_drop]
      · rw [h4]; rfl
      · rw [h5]; rfl
      · rw [hc1] at h6
        simp only at h6
        omega
    · -- the rest of the stack fits
      have hp : put_out s = { s with outbuf := memcpy_at s.outbuf s.outpos st l, outpos := s.outpos + l } := by
        simp only [put_out, hsub, hd, hl]
        rw [if_neg hbig]
        rw [if_pos (by omega)]
        simp only [stack, hst, Option.getD_some, hd, hl]
      have htake : st.take l = st := by rw [← hl]; exact List.take_length st
      have hdrop : st.drop l = [] := by rw [← hl]; exact List.drop_length st
      by_cases hfull : s.outpos + l ≥ 4
      · refine ⟨2, { s with outbuf := memcpy_at s.outbuf s.outpos st l, outpos := 0, stackp := some [], stackp_diff := 0 }, resume_partial_reading (put_out s) c 0, ?_, ?_, ?_, rfl, rfl, ?_, ?_⟩
        · rw [advance]
          simp only [step]
          rw [if_pos (by rw [hp]; simp only [hB]; omega)]
          simp only
          rw [if_pos (by rw [hp]; simp only; omega)]
          rw [advance]
          simp only [step, step_stack]
          rw [if_neg (by simp only [hp, stack, Option.getD_some, hst, hd, hl, hdrop, List.length_nil]; omega)]
          simp only [advance, hp, stack, hst, Option.getD_some, hd, hl, hdrop, List.length_nil]
        · simp only [emitted, resume_partial_reading, hp, bytes_at_zero, List.append_nil]
          rw [bytes_at_memcpy s.outbuf s.outpos st l (by omega), htake]
          simp only [List.append_assoc]
        · simp only [hB]; omega
        · simp only [resume_partial_reading, hp, size_sub]
          rw [if_pos (by omega)]
          omega
        · simp only [resume_partial_reading, hp, size_sub]
          rw [if_pos (by omega)]
          omega
      · refine ⟨1, { s with outbuf := memcpy_at s.outbuf s.outpos st l, outpos := s.outpos + l, stackp := some [], stackp_diff := 0 }, c, ?_, ?_, ?_, rfl, rfl, hcl, ?_⟩
        · rw [advance]
          simp only [step]
          rw [if_neg (by rw [hp]; simp only [hB]; omega)]
          simp only [step_stack]
          rw [if_neg (by simp only [hp, stack, Option.getD_some, hst, hd, hl, hdrop, List.length_nil]; omega)]
          simp only [advance, hp, stack, hst, Option.getD_some, hd, hl, hdrop, List.length_nil]
        · simp only [emitted]
          rw [bytes_at_memcpy s.outbuf s.outpos st l (by omega), htake]
          simp only [List.append_assoc]
        · simp only [hB]; omega
        · simp only; omega

end ZStreamBuf
end GPSTk

namespace GPSTk
namespace ZStreamBuf

/-- The inner `do ... while` when the caller's buffer fills before the stack is out: the
call returns `count`, and the bytes delivered, followed by what the decoder holds for the
next call, are the output so far followed by the stack. -/
theorem put_out_returns : ∀ (l : Nat) (s : LzwState) (c : Call) (st : List Nat),
    st.length = l → 0 < l → s.stackp = some st → s.stackp_diff = st.length →
    s.outpos < BUFSIZE → 0 < c.count_left →
    ¬ (BUFSIZE * ((s.outpos + l) / BUFSIZE) < c.count_left) →
    ∃ (fuel : Nat) (r : Ret),
      run fuel Pc.put_out s c = some r ∧ r.value = (c.count : Int) ∧
      r.bytes ++ pending r.state = emitted c s ++ st ∧
      r.bytes.length = c.readbuf.length + c.count_left ∧
      decoding r.state = decoding s := by
  intro l
  induction l using Nat.strong_induction_on with
  | _ l ih =>
    intro s c st hl hpos hst hd hout hcl hroom
    have hB : BUFSIZE = 4 := rfl
    rw [hB] at hout hroom
    have hsub : size_sub BUFSIZE s.outpos = 4 - s.outpos := by
      simp only [size_sub, hB]
      rw [if_pos (by omega)]
    by_cases hbig : l > 4 - s.outpos
    · have hp : put_out s = { s with stackp_diff := 4 - s.outpos, outbuf := memcpy_at s.outbuf s.outpos st (4 - s.outpos), outpos := s.outpos + (4 - s.outpos) } := by
        simp only [put_out, hsub, hd, hl]
        rw [if_pos hbig]
        simp only
        rw [if_pos (by omega)]
        simp only [stack, hst, Option.getD_some]
      have hdrop : (st.drop (4 - s.outpos)).length = l - (4 - s.outpos) := by
        rw [List.length_drop, hl]
      have hfour : s.outpos + (4 - s.outpos) = 4 := by omega
      by_cases hgo : 4 < c.count_left
      · have hc1 : (resume_partial_reading (put_out s) c 0).count_left = c.count_left - 4 := by
          simp only [resume_partial_reading, hp, size_sub]
          rw [if_pos (by omega)]
          omega
        obtain ⟨fuel, r, h1, h2, h3, h4, h5⟩ := ih (l - (4 - s.outpos)) (by omega)
          { s with stackp_diff := (st.drop (4 - s.outpos)).length, outbuf := memcpy_at s.outbuf s.outpos st (4 - s.outpos), outpos := 0, stackp := some (st.drop (4 - s.outpos)) }
          (resume_partial_reading (put_out s) c 0) (st.drop (4 - s.outpos)) hdrop (by omega) rfl rfl
          (by simp only [hB]; omega)
          (by rw [hc1]; omega)
          (by rw [hc1]; simp only [hB]; omega)
        refine ⟨fuel + 2, r, ?_, ?_, ?_, ?_, ?_⟩
        · rw [run_succ]
          simp only [step]
          rw [if_pos (by rw [hp]; simp only [hB]; omega)]
          simp only
          rw [if_pos (by rw [hp]; simp only; omega)]
          rw [run_succ]
          simp only [step, step_stack]
          rw [if_pos (by simp only [hp, stack, Option.getD_some, hst]; rw [hdrop]; omega)]
          simp only
          rw [← h1]
          simp only [hp, stack, hst, Option.getD_some]
        · rw [h2]; rfl
        · rw [h3]
          simp only [emitted, resume_partial_reading, hp, bytes_at_zero, List.append_nil]
          rw [bytes_at_memcpy s.outbuf s.outpos st (4 - s.outpos) (by omega)]
          simp only [List.append_assoc, List.take_append_drop]
        · rw [h4]
          simp only [resume_partial_reading, hp, size_sub, List.length_append, bytes_at_length]
          rw [if_pos (by omega)]
          omega
        · rw [h5]; rfl
      · refine ⟨1, empty_existing_buffer (put_out s) c 0, ?_, rfl, ?_, ?_, by rw [hp]; rfl⟩
        · rw [run_succ]
          simp only [step]
          rw [if_pos (by rw [hp]; simp only [hB]; omega)]
          simp only
          rw [if_neg (by rw [hp]; simp only; omega)]
        · simp only [empty_existing_buffer, pending, emitted, hp, stack, hst, Option.getD_some, size_sub, Nat.zero_add, List.append_assoc]
          rw [if_pos (by omega)]
          have e : bytes_at (memcpy_at s.outbuf s.outpos st (4 - s.outpos)) 0 c.count_left ++ bytes_at (memcpy_at s.outbuf s.outpos st (4 - s.outpos)) c.count_left (s.outpos + (4 - s.outpos) - c.count_left) = bytes_at s.outbuf 0 s.outpos ++ st.take (4 - s.outpos) := by
            rw [← bytes_at_memcpy s.outbuf s.outpos st (4 - s.outpos) (by omega)]
            have e2 : s.outpos + (4 - s.outpos) = c.count_left + (s.outpos + (4 - s.outpos) - c.count_left) := by omega
            rw [e2, bytes_at_add, Nat.zero_add]
            congr 2
            omega
          rw [← List.append_assoc (bytes_at _ 0 c.count_left), e]
          simp only [List.append_assoc, List.take_append_drop]
        · simp only [empty_existing_buffer, List.length_append, bytes_at_length]
    · have hp : put_out s = { s with outbuf := memcpy_at s.outbuf s.outpos st l, outpos := s.outpos + l } := by
        simp only [put_out, hsub, hd, hl]
        rw [if_neg hbig]
        rw [if_pos (by omega)]
        simp only [stack, hst, Option.getD_some, hd, hl]
      have htake : st.take l = st := by rw [← hl]; exact List.take_length st
      have hdrop : st.drop l = [] := by rw [← hl]; exact List.drop_length st
      have hfull : s.outpos + l = 4 := by omega
      have hgo : ¬ (4 < c.count_left) := by omega
      refine ⟨1, empty_existing_buffer (put_out s) c 0, ?_, rfl, ?_, ?_, by rw [hp]; rfl⟩
      · rw [run_succ]
        simp only [step]
        rw [if_pos (by rw [hp]; simp only [hB]; omega)]
        simp only
        rw [if_neg (by rw [hp]; simp only; omega)]
      · simp only [empty_existing_buffer, pending, emitted, hp, stack, hst, Option.getD_some, size_sub, Nat.zero_add, List.append_assoc, hd, hl, hdrop, List.append_nil]
        rw [if_pos (by omega)]
        have e : bytes_at (memcpy_at s.outbuf s.outpos st l) 0 c.count_left ++ bytes_at (memcpy_at s.outbuf s.outpos st l) c.count_left (s.outpos + l - c.count_left) = bytes_at s.outbuf 0 s.outpos ++ st.take l := by
          rw [← bytes_at_memcpy s.outbuf s.outpos st l (by omega)]
          have e2 : s.outpos + l = c.count_left + (s.outpos + l - c.count_left) := by omega
          rw [e2, bytes_at_add, Nat.zero_add]
          congr 2
          omega
        rw [e, htake]
      · simp only [empty_existing_buffer, List.length_append, bytes_at_length]

end ZStreamBuf
end GPSTk

namespace GPSTk
namespace ZStreamBuf

theorem advance_trans (n m : Nat) (pc : Pc) (s : LzwState) (c : Call) (r q : Pc × LzwState × Call)
    (h1 : advance n pc s c = some r) (h2 : advance m r.1 r.2.1 r.2.2 = some q) :
    advance (n + m) pc s c = some q := by
  rw [advance_add, h1]
  exact h2

/-- From the loop `while (code >= 256)` to the comment "Generate the new entry": the
string of the code, followed by what the stack held, is added to the output. -/
theorem walk_emits (c : Call) (n k : Nat) (s : LzwState) (st : List Nat)
    (hk : s.code = (k : Int)) (hst : s.stackp = some st) (hch : chain_ends s.codetab n k)
    (hlit : ∀ j, j < 256 → s.htab j = j) (hout : s.outpos < BUFSIZE)
    (hcl : 0 < c.count_left)
    (hroom : BUFSIZE * ((s.outpos + ((expand s.htab s.codetab n k).length + st.length)) / BUFSIZE) < c.count_left) :
    ∃ (m : Nat) (s1 : LzwState) (c1 : Call),
      advance m Pc.walk s c = some (Pc.new_entry, s1, c1) ∧
      emitted c1 s1 = emitted c s ++ (expand s.htab s.codetab n k ++ st) ∧
      s1.outpos < BUFSIZE ∧
      decoding s1 = decoding { s with code := (((expand s.htab s.codetab n k).headD 0 : Nat) : Int), finchar := (((expand s.htab s.codetab n k).headD 0 : Nat) : Int) } ∧
      c1.count = c.count ∧ 0 < c1.count_left ∧
      c1.count_left + s.outpos + ((expand s.htab s.codetab n k).length + st.length) = c.count_left + s1.outpos := by
  obtain ⟨m1, k1, t, hk1, hex, hadv⟩ := walk_chain c n k s st hk hst hch
  rw [hex] at hroom ⊢
  simp only [List.headD_cons, List.length_cons, List.cons_append] at hroom ⊢
  have hB : BUFSIZE = 4 := rfl
  have hh : s.htab k1 = k1 := hlit k1 hk1
  have hmod : k1 % 256 = k1 := Nat.mod_eq_of_lt hk1
  have hnge : ¬ ((k1 : Int) ≥ 256) := by omega
  by_cases hfit : s.outpos + (t.length + 1 + st.length) ≥ 4
  · obtain ⟨m2, s1, c1, h1, h2, h3, h4, h5, h7, h6⟩ := put_out_loop (t.length + 1 + st.length)
      { s with stackp := some (k1 :: (t ++ st)), code := (k1 : Int), finchar := (k1 : Int), stackp_diff := (k1 :: (t ++ st)).length }
      c (k1 :: (t ++ st)) (by simp only [List.length_cons, List.length_append]; omega) (by omega) rfl rfl hout hcl hroom
    refine ⟨m1 + (1 + m2), s1, c1, ?_, ?_, h3, ?_, h5, h7, h6⟩
    · refine advance_trans m1 (1 + m2) _ _ _ _ _ hadv ?_
      refine advance_trans 1 m2 _ _ _ (Pc.put_out, _, c) _ ?_ h1
      simp only [advance, step, hnge, if_false, walk_end, push, stack, Option.getD_some, Int.toNat_ofNat, hh, hmod]
      rw [if_pos (by simp only [List.length_cons, List.length_append, hB]; omega)]
    · rw [h2]; rfl
    · rw [h4]; rfl
  · refine ⟨m1 + 1, { s with stackp := some (k1 :: (t ++ st)), code := (k1 : Int), finchar := (k1 : Int), stackp_diff := (k1 :: (t ++ st)).length, outbuf := memcpy_at s.outbuf s.outpos (k1 :: (t ++ st)) (k1 :: (t ++ st)).length, outpos := s.outpos + (k1 :: (t ++ st)).length }, c, ?_, ?_, ?_, rfl, rfl, hcl, ?_⟩
    · refine advance_trans m1 1 _ _ _ _ _ hadv ?_
      simp only [advance, step, hnge, if_false, walk_end, push, stack, Option.getD_some, Int.toNat_ofNat, hh, hmod]
      rw [if_neg (by simp only [List.length_cons, List.length_append, hB]; omega)]
    · simp only [emitted]
      rw [bytes_at_memcpy s.outbuf s.outpos _ _ (Nat.le_refl _), List.take_length]
      simp only [List.append_assoc]
    · simp only [List.length_cons, List.length_append, hB]; omega
    · simp only [List.length_cons, List.length_append]; omega

/-- From the loop `while (code >= 256)` on, when the caller's buffer fills before the
string of the code is out: the call returns `count`. -/
theorem walk_returns (c : Call) (n k : Nat) (s : LzwState) (st : List Nat)
    (hk : s.code = (k : Int)) (hst : s.stackp = some st) (hch : chain_ends s.codetab n k)
    (hlit : ∀ j, j < 256 → s.htab j = j) (hout : s.outpos < BUFSIZE)
    (hcl : 0 < c.count_left)
    (hroom : ¬ (BUFSIZE * ((s.outpos + ((expand s.htab s.codetab n k).length + st.length)) / BUFSIZE) < c.count_left)) :
    ∃ (fuel : Nat) (r : Ret),
      run fuel Pc.walk s c = some r ∧ r.value = (c.count : Int) ∧
      r.bytes ++ pending r.state = emitted c s ++ (expand s.htab s.codetab n k ++ st) ∧
      r.bytes.length = c.readbuf.length + c.count_left ∧
      decoding r.state = decoding { s with code := (((expand s.htab s.codetab n k).headD 0 : Nat) : Int), finchar := (((expand s.htab s.codetab n k).headD 0 : Nat) : Int) } := by
  obtain ⟨m1, k1, t, hk1, hex, hadv⟩ := walk_chain c n k s st hk hst hch
  rw [hex] at hroom ⊢
  simp only [List.headD_cons, List.length_cons, List.cons_append] at hroom ⊢
  have hB : BUFSIZE = 4 := rfl
  have hh : s.htab k1 = k1 := hlit k1 hk1
  have hmod : k1 % 256 = k1 := Nat.mod_eq_of_lt hk1
  have hnge : ¬ ((k1 : Int) ≥ 256) := by omega
  have hfit : s.outpos + (t.length + 1 + st.length) ≥ 4 := by
    by_contra hlt
    apply hroom
    rw [hB, Nat.div_eq_of_lt (by omega)]
    exact hcl
  obtain ⟨fuel, r, h1, h2, h3, h4, h5⟩ := put_out_returns (t.length + 1 + st.length)
    { s with stackp := some (k1 :: (t ++ st)), code := (k1 : Int), finchar := (k1 : Int), stackp_diff := (k1 :: (t ++ st)).length }
    c (k1 :: (t ++ st)) (by simp only [List.length_cons, List.length_append]; omega) (by omega) rfl rfl hout hcl hroom
  have hstep : advance 1 Pc.walk { s with stackp := some (t ++ st), code := (k1 : Int) } c = some (Pc.put_out, { s with stackp := some (k1 :: (t ++ st)), code := (k1 : Int), finchar := (k1 : Int), stackp_diff := (k1 :: (t ++ st)).length }, c) := by
    simp only [advance, step, hnge, if_false, walk_end, push, stack, Option.getD_some, Int.toNat_ofNat, hh, hmod]
    rw [if_pos (by simp only [List.length_cons, List.length_append, hB]; omega)]
  refine ⟨m1 + (1 + fuel), r, ?_, h2, ?_, h4, ?_⟩
  · rw [run_advance m1 _ _ _ _ (1 + fuel) hadv]
    rw [run_advance 1 _ _ _ _ fuel hstep]
    exact h1
  · rw [h3]; rfl
  · rw [h5]; rfl

end ZStreamBuf
end GPSTk

namespace GPSTk
namespace ZStreamBuf

theorem new_entry_fields (s : LzwState) :
    (new_entry s).finchar = s.finchar ∧ (new_entry s).oldcode = s.incode ∧
    (new_entry s).outbuf = s.outbuf ∧ (new_entry s).outpos = s.outpos := by
  simp only [new_entry]
  split_ifs <;> exact ⟨rfl, rfl, rfl, rfl⟩

theorem emitted_new_entry (c : Call) (s : LzwState) : emitted c (new_entry s) = emitted c s := by
  simp only [emitted, (new_entry_fields s).2.2.1, (new_entry_fields s).2.2.2]

/-- The step at the head of the loop over the codes for a code below `free_ent` that is
not the first and not a CLEAR code in block mode. -/
theorem step_known_code (s : LzwState)
    (hr : reads Pc.next_code s) (hold : s.oldcode ≠ -1)
    (hclear : ¬ (next_code s = CLEAR ∧ s.block_mode ≠ 0))
    (hlt : next_code s < s.free_ent) :
    step Pc.next_code s = Step.next Pc.walk
      { s with code := next_code s, posbits := s.posbits + s.n_bits, incode := next_code s, stackp := some [] } := by
  obtain ⟨_, h1, h2⟩ := hr
  simp only [next_code] at hclear hlt ⊢
  simp only [step, read_code]
  rw [if_pos h1, if_neg h2, if_neg hold, if_neg hclear, if_neg (by omega)]

/-- The step at the head of the loop over the codes for a code equal to `free_ent` that is
not the first and not a CLEAR code in block mode. -/
theorem step_kwkwk (s : LzwState)
    (hr : reads Pc.next_code s) (hold : s.oldcode ≠ -1)
    (hclear : ¬ (next_code s = CLEAR ∧ s.block_mode ≠ 0))
    (heq : next_code s = s.free_ent) :
    step Pc.next_code s = Step.next Pc.walk
      { s with code := s.oldcode, posbits := s.posbits + s.n_bits, incode := next_code s, stackp := some [s.finchar.toNat % 256] } := by
  obtain ⟨_, h1, h2⟩ := hr
  simp only [next_code] at hclear heq ⊢
  simp only [step, read_code]
  rw [if_pos h1, if_neg h2, if_neg hold, if_neg hclear, if_pos (by omega), if_neg (by omega)]
  rfl

end ZStreamBuf
end GPSTk

namespace GPSTk
namespace ZStreamBuf

theorem step_stack_htab (s : LzwState) : (step_stack s).state.htab = s.htab := by
  simp only [step_stack]
  split_ifs <;> rfl

theorem put_out_htab (s : LzwState) : (put_out s).htab = s.htab := by
  simp only [put_out]
  split_ifs <;> rfl

theorem resetbuf_htab (s : LzwState) : (resetbuf s).htab = s.htab := by
  simp only [resetbuf]
  split_ifs <;> rfl

/-- The literal entries `htab[j] = j` for `j < 256`, which the constructor sets, are kept by
every step of `lzw_read`: the only store into `htab` is at the index `free_ent`, which is
not below 256. -/
theorem step_literals (pc : Pc) (s : LzwState) (hf : 256 ≤ s.free_ent)
    (hlit : ∀ j, j < 256 → s.htab j = j) :
    ∀ j, j < 256 → (step pc s).state.htab j = j := by
  cases pc with
  | resetbuf =>
    simp only [step, Step.state, resetbuf_htab]
    exact hlit
  | next_code =>
    simp only [step]
    split_ifs
    · exact hlit
    · simp only [read_code]
      split_ifs <;> exact hlit
    · exact hlit
    · exact hlit
  | walk =>
    simp only [step, walk_end]
    split_ifs <;> exact hlit
  | put_out =>
    simp only [step]
    split_ifs
    · simp only [Step.state, put_out_htab]; exact hlit
    · rw [step_stack_htab, put_out_htab]; exact hlit
  | resume_reading =>
    simp only [step]
    rw [step_stack_htab]; exact hlit
  | new_entry =>
    simp only [step, Step.state, new_entry]
    split_ifs
    · intro j hj
      show Function.update s.htab s.free_ent.toNat s.finchar.toNat j = j
      rw [Function.update_noteq (by omega)]
      exact hlit j hj
    · exact hlit

/-- The state that the constructor leaves has the literal entries and `free_ent >= 256`. -/
theorem ctor_literals (src : List Nat) (s : LzwState) (h : (ctor src).state = some s) :
    256 ≤ s.free_ent ∧ ∀ j, j < 256 → s.htab j = j := by
  simp only [ctor] at h
  split_ifs at h
  · cases h
  · cases h
  · cases h
  · simp only [Ctor.state, Option.some.injEq] at h
    subst h
    exact ⟨show (256 : Int) ≤ FIRST by decide, fun j hj => if_pos hj⟩
  · simp only [Ctor.state, Option.some.injEq] at h
    subst h
    exact ⟨show (256 : Int) ≤ 256 by decide, fun j hj => if_pos hj⟩

end ZStreamBuf
end GPSTk

namespace GPSTk
namespace ZStreamBuf

/-- More fuel than the chain needs does not change the string of a code. -/
theorem expand_fuel (htab codetab : Nat → Nat) : ∀ (n j k : Nat), chain_ends codetab n k →
    expand htab codetab (n + j) k = expand htab codetab n k := by
  intro n
  induction n with
  | zero =>
    intro j k h
    simp only [chain_ends] at h
    cases j with
    | zero => rfl
    | succ j => simp only [Nat.zero_add, expand, h, if_true, Nat.mod_eq_of_lt h]
  | succ n ih =>
    intro j k h
    have e : n + 1 + j = (n + j) + 1 := by omega
    rw [e]
    by_cases hlt : k < 256
    · simp only [expand, hlt, if_true]
    · simp only [chain_ends] at h
      simp only [expand, hlt, if_false, ih j (codetab k) (h.resolve_left hlt)]

/-- The members of `lzwstate` that the copying of the stack leaves alone, read off an
equation between two states up to the output buffer. -/
theorem decoding_fields (s t : LzwState) (h : decoding s = decoding t) :
    s.finchar = t.finchar ∧ s.incode = t.incode ∧ s.oldcode = t.oldcode ∧
    s.free_ent = t.free_ent ∧ s.maxbits = t.maxbits ∧ s.codetab = t.codetab ∧ s.htab = t.htab := by
  have e1 : (decoding s).finchar = (decoding t).finchar := by rw [h]
  have e2 : (decoding s).incode = (decoding t).incode := by rw [h]
  have e3 : (decoding s).oldcode = (decoding t).oldcode := by rw [h]
  have e4 : (decoding s).free_ent = (decoding t).free_ent := by rw [h]
  have e5 : (decoding s).maxbits = (decoding t).maxbits := by rw [h]
  have e6 : (decoding s).codetab = (decoding t).codetab := by rw [h]
  have e7 : (decoding s).htab = (decoding t).htab := by rw [h]
  exact ⟨e1, e2, e3, e4, e5, e6, e7⟩

/-- C29: a code `c` read after the first, below `free_ent` and not the CLEAR code in block
mode, in a state whose literal entries are in place (`htab[j] = j` below 256) and in which
the chain of `codetab` from `c` ends. If the caller's buffer is not filled before the string
is out, the loop over the codes is reached again with exactly `expand(c)` added to the
decoded output, in forward order, `finchar` the first byte of `expand(c)` and `oldcode = c`;
otherwise the call returns `count` and the bytes delivered, followed by those the decoder
holds for the next call, are the output so far followed by `expand(c)`, with `finchar` the
first byte of `expand(c)`. -/
theorem decode_known_code (s : LzwState) (c : Call) (n : Nat)
    (hr : reads Pc.next_code s) (hold : s.oldcode ≠ -1)
    (hclear : ¬ (next_code s = CLEAR ∧ s.block_mode ≠ 0))
    (hlt : next_code s < s.free_ent)
    (hlit : ∀ j, j < 256 → s.htab j = j)
    (hch : chain_ends s.codetab n (next_code s).toNat)
    (hout : s.outpos < BUFSIZE) (hcl : 0 < c.count_left) :
    (BUFSIZE * ((s.outpos + (expand s.htab s.codetab n (next_code s).toNat).length) / BUFSIZE) < c.count_left →
      ∃ (m : Nat) (s1 : LzwState) (c1 : Call),
        advance m Pc.next_code s c = some (Pc.next_code, s1, c1) ∧
        emitted c1 s1 = emitted c s ++ expand s.htab s.codetab n (next_code s).toNat ∧
        s1.finchar = (((expand s.htab s.codetab n (next_code s).toNat).headD 0 : Nat) : Int) ∧
        s1.oldcode = next_code s ∧ s1.outpos < BUFSIZE ∧ 0 < c1.count_left) ∧
    (¬ (BUFSIZE * ((s.outpos + (expand s.htab s.codetab n (next_code s).toNat).length) / BUFSIZE) < c.count_left) →
      ∃ (fuel : Nat) (r : Ret),
        run fuel Pc.next_code s c = some r ∧ r.value = (c.count : Int) ∧
        r.bytes ++ pending r.state = emitted c s ++ expand s.htab s.codetab n (next_code s).toNat ∧
        r.state.finchar = (((expand s.htab s.codetab n (next_code s).toNat).headD 0 : Nat) : Int)) := by
  have hstep := step_known_code s hr hold hclear hlt
  have hnn : 0 ≤ next_code s := input_nonneg _ _ _
  have hk : next_code s = (((next_code s).toNat : Nat) : Int) := (Int.toNat_of_nonneg hnn).symm
  have hadv1 : advance 1 Pc.next_code s c = some (Pc.walk, { s with code := next_code s, posbits := s.posbits + s.n_bits, incode := next_code s, stackp := some [] }, c) := by
    simp only [advance, hstep]
  constructor
  · intro hroom
    obtain ⟨m, s1, c1, h1, h2, h3, h4, h5, h6, _⟩ := walk_emits c n (next_code s).toNat
      { s with code := next_code s, posbits := s.posbits + s.n_bits, incode := next_code s, stackp := some [] }
      [] hk rfl hch hlit hout hcl (by simpa only [List.length_nil, Nat.add_zero] using hroom)
    have hf := decoding_fields _ _ h4
    refine ⟨1 + (m + 1), new_entry s1, c1, ?_, ?_, ?_, ?_, ?_, h6⟩
    · refine advance_trans 1 (m + 1) _ _ _ _ _ hadv1 ?_
      refine advance_trans m 1 _ _ _ _ _ h1 ?_
      simp only [advance, step]
    · rw [emitted_new_entry, h2, List.append_nil]
      rfl
    · rw [(new_entry_fields s1).1, hf.1]
    · rw [(new_entry_fields s1).2.1, hf.2.1]
    · rw [(new_entry_fields s1).2.2.2]
      exact h3
  · intro hroom
    obtain ⟨fuel, r, h1, h2, h3, _, h5⟩ := walk_returns c n (next_code s).toNat
      { s with code := next_code s, posbits := s.posbits + s.n_bits, incode := next_code s, stackp := some [] }
      [] hk rfl hch hlit hout hcl (by simpa only [List.length_nil, Nat.add_zero] using hroom)
    have hf := decoding_fields _ _ h5
    refine ⟨1 + fuel, r, ?_, h2, ?_, hf.1⟩
    · rw [run_advance 1 _ _ _ _ fuel hadv1]
      exact h1
    · rw [h3, List.append_nil]
      rfl

end ZStreamBuf
end GPSTk

namespace GPSTk
namespace ZStreamBuf

set_option maxRecDepth 1000000 in
/-- C29 (witness): in the stream `1F 9D 90 61 C4 04 04` (codes `a`, `b`, 257) the third
code is read seven steps into the first call, with `free_ent = 258` and `expand(257) = ab`;
the hypotheses hold there, and the bytes `ab` are added to the output `ab`. -/
theorem decode_known_code_witness :
    ∃ (s0 s : LzwState) (c : Call),
      (ctor [0x1f, 0x9d, 0x90, 0x61, 0xC4, 0x04, 0x04]).state = some s0 ∧
      advance 7 Pc.resetbuf s0 { readbuf := [], count_left := 1024, count := 1024 } = some (Pc.next_code, s, c) ∧
      (next_code s, s.free_ent, s.oldcode) = (257, 258, 98) ∧
      emitted c s = [97, 98] ∧
      expand s.htab s.codetab 1 (next_code s).toNat = [97, 98] ∧
      reads Pc.next_code s ∧ (∀ j, j < 256 → s.htab j = j) ∧
      chain_ends s.codetab 1 (next_code s).toNat ∧
      ∃ (m : Nat) (s1 : LzwState) (c1 : Call),
        advance m Pc.next_code s c = some (Pc.next_code, s1, c1) ∧
        emitted c1 s1 = emitted c s ++ expand s.htab s.codetab 1 (next_code s).toNat ∧
        s1.finchar = (((expand s.htab s.codetab 1 (next_code s).toNat).headD 0 : Nat) : Int) ∧
        s1.oldcode = next_code s ∧ s1.outpos < BUFSIZE ∧ 0 < c1.count_left :=
  ⟨_, _, _, rfl, rfl, rfl, rfl, rfl, ⟨rfl, by decide, by decide⟩, by decide, by decide,
    (decode_known_code _ _ 1 ⟨rfl, by decide, by decide⟩ (by decide) (by decide) (by decide)
      (by decide) (by decide) (by decide) (by decide)).1 (by decide)⟩

end ZStreamBuf
end GPSTk

namespace GPSTk
namespace ZStreamBuf

end ZStreamBuf
end GPSTk

namespace GPSTk
namespace CRinexStreamBuf

/-! ## `repair` applied twice -/

theorem repair_col_idem (c o : Char) : repair_col c (repair_col c o) = repair_col c o := by
  simp only [repair_col]
  split_ifs <;> rfl

theorem eq_of_col (l1 l2 : List Char) (hl : l1.length = l2.length)
    (h : ∀ k, k < l1.length → col l1 k = col l2 k) : l1 = l2 := by
  apply List.ext_getElem hl
  intro k h1 h2
  have := h k h1
  simp only [col, List.getD_eq_getElem?_getD, List.getElem?_eq_getElem h1,
    List.getElem?_eq_getElem h2, Option.getD_some] at this
  exact this

theorem col_append_lt (l t : List Char) (k : Nat) (h : k < l.length) : col (l ++ t) k = col l k := by
  simp only [col, List.getD_eq_getElem?_getD, List.getElem?_append_left h]

/-- C39: `repair` is idempotent: a second `repair` with the same delta leaves the buffer as
the first one made it (the terminator that the first call may have pushed included). -/
theorem repair_idempotent (out d : List Char) : repair (repair out d) d = repair out d := by
  obtain ⟨h1, h2, h3⟩ := repair_loop_spec d 0 out false (Nat.zero_le _)
  simp only [Nat.zero_add, Bool.false_or, Nat.sub_zero, Nat.zero_le, true_and] at h1 h2 h3
  have hlen : d.length ≤ (repair out d).length := by
    simp only [repair]
    split_ifs with hf
    · rw [List.length_append, h1]
      split_ifs
      · simp
      · simp
        omega
    · rw [h1]
      split_ifs with hlt
      · omega
      · omega
  obtain ⟨g1, g2, g3⟩ := repair_loop_spec d 0 (repair out d) false (Nat.zero_le _)
  simp only [Nat.zero_add, Bool.false_or, Nat.sub_zero, Nat.zero_le, true_and] at g1 g2 g3
  have hnot : ¬ (repair out d).length < d.length := by omega
  have g2' : (repair_loop d 0 (repair out d) false).2 = false := by
    rw [g2]; simp only [hnot, decide_False]
  have e : repair (repair out d) d = (repair_loop d 0 (repair out d) false).1 := by
    conv_lhs => rw [repair]
    simp only [g2', Bool.false_eq_true, if_false]
  rw [e]
  apply eq_of_col
  · rw [g1, if_neg hnot]
  · intro k hk
    rw [g3 k]
    split_ifs with hkd
    · have hc : col (repair out d) k = repair_col (col d k) (col out k) := by
        simp only [repair]
        split_ifs with hf
        · rw [col_append_lt _ _ _ (by rw [h1]; split_ifs <;> omega), h3 k, if_pos hkd]
        · rw [h3 k, if_pos hkd]
      rw [hc, repair_col_idem]
    · rfl

end CRinexStreamBuf
end GPSTk

namespace GPSTk
namespace ZStreamBuf

/-! ## The macro `input` -/

theorem sum_bits (x : Nat) : ∀ (n : Nat),
    ((List.range n).map (fun i => x / 2 ^ i % 2 * 2 ^ i)).sum = x % 2 ^ n := by
  intro n
  induction n with
  | zero => simp [Nat.mod_one]
  | succ n ih =>
    rw [List.range_succ, List.map_append, List.sum_append, ih, Nat.mod_pow_succ]
    simp [Nat.mul_comm]

theorem word_eq (b0 b1 b2 : Nat) (h0 : b0 < 256) (h1 : b1 < 256) :
    b0 ||| (b1 <<< 8) ||| (b2 <<< 16) = b0 + 256 * b1 + 65536 * b2 := by
  have e1 : b0 ||| (b1 <<< 8) = 256 * b1 + b0 := by
    rw [Nat.shiftLeft_eq, Nat.lor_comm, Nat.mul_comm b1]
    exact (Nat.mul_add_lt_is_or (show b0 < 2 ^ 8 from h0) b1).symm
  rw [e1, Nat.shiftLeft_eq, Nat.lor_comm, Nat.mul_comm b2]
  rw [← Nat.mul_add_lt_is_or (show 256 * b1 + b0 < 2 ^ 16 by omega) b2]
  omega

theorem bit_of_word (b0 b1 b2 j : Nat) (h0 : b0 < 256) (h1 : b1 < 256) (hj : j < 24) :
    (b0 + 256 * b1 + 65536 * b2) / 2 ^ j % 2 =
      (if j < 8 then b0 else if j < 16 then b1 else b2) / 2 ^ (j % 8) % 2 := by
  interval_cases j <;> norm_num <;> omega

end ZStreamBuf
end GPSTk

namespace GPSTk
namespace ZStreamBuf

theorem bit_at_word (inbuf : Nat → Nat) (o i : Nat) (hi : o % 8 + i < 24) :
    bit_at inbuf (o + i) =
      (inbuf (o / 8) % 256 + 256 * (inbuf (o / 8 + 1) % 256) + 65536 * (inbuf (o / 8 + 2) % 256)) /
        2 ^ (o % 8 + i) % 2 := by
  rw [bit_of_word _ _ _ _ (Nat.mod_lt _ (by decide)) (Nat.mod_lt _ (by decide)) hi]
  have hm : (o + i) % 8 = (o % 8 + i) % 8 := by omega
  simp only [bit_at, hm]
  by_cases h8 : o % 8 + i < 8
  · have hd : (o + i) / 8 = o / 8 := by omega
    rw [if_pos h8, hd]
  · by_cases h16 : o % 8 + i < 16
    · have hd : (o + i) / 8 = o / 8 + 1 := by omega
      rw [if_neg h8, if_pos h16, hd]
    · have hd : (o + i) / 8 = o / 8 + 2 := by omega
      rw [if_neg h8, if_neg h16, hd]

theorem input_eq_code_bits (inbuf : Nat → Nat) (o n : Nat) (hn : n ≤ 17) :
    input inbuf (o : Int) ((2 : Int) ^ n - 1) = ((code_bits inbuf o n : Nat) : Int) := by
  have hq : ((o : Int) / 8).toNat = o / 8 := by omega
  have hr : ((o : Int) % 8).toNat = o % 8 := by omega
  have hpos : 1 ≤ 2 ^ n := Nat.one_le_two_pow
  have hm : ((2 : Int) ^ n - 1).toNat = 2 ^ n - 1 := by
    have e : ((2 : Int) ^ n - 1) = ((2 ^ n - 1 : Nat) : Int) := by
      rw [Nat.cast_sub hpos]; simp
    rw [e, Int.toNat_ofNat]
  simp only [input, hq, hr, hm]
  congr 1
  rw [word_eq _ _ _ (Nat.mod_lt _ (by decide)) (Nat.mod_lt _ (by decide)),
    Nat.and_pow_two_sub_one_eq_mod, Nat.shiftRight_eq_div_pow, ← sum_bits]
  simp only [code_bits]
  congr 1
  apply List.map_congr_left
  intro i hi
  have hi' := List.mem_range.1 hi
  rw [bit_at_word inbuf o i (by omega), Nat.div_div_eq_div_mul, ← Nat.pow_add]

end ZStreamBuf
end GPSTk

namespace GPSTk
namespace ZStreamBuf

/-- C31: the macro `input` at the bit offset `posbits = o` with the width `n_bits = n` in
9..16 and `bitmask = 2^n - 1` extracts the code `sum over i < n of bit(o + i) * 2^i`, where
`bit(k)` is bit `k mod 8`, least significant first, of the byte `floor(k / 8)` of `inbuf`;
afterwards `posbits` is `o + n` (and the branch for the CLEAR code in block mode realigns it
from there). -/
theorem input_unpacks (s : LzwState) (o n : Nat) (hp : s.posbits = (o : Int))
    (hn : s.n_bits = (n : Int)) (h9 : 9 ≤ n) (h16 : n ≤ 16) (hm : s.bitmask = 2 ^ n - 1) :
    input s.inbuf s.posbits s.bitmask = ((code_bits s.inbuf o n : Nat) : Int) ∧
    (¬ (s.oldcode ≠ -1 ∧ next_code s = CLEAR ∧ s.block_mode ≠ 0) →
      (read_code s).state.posbits = (o : Int) + (n : Int)) ∧
    ((s.oldcode ≠ -1 ∧ next_code s = CLEAR ∧ s.block_mode ≠ 0) →
      (read_code s).state.posbits = realign ((o : Int) + (n : Int)) (n : Int)) := by
  have h9' : 0 < n := by omega
  refine ⟨?_, ?_, ?_⟩
  · rw [hp, hm]
    exact input_eq_code_bits s.inbuf o n (by omega)
  · intro hc
    simp only [next_code] at hc
    simp only [read_code]
    by_cases h1 : s.oldcode = -1
    · rw [if_pos h1]
      split_ifs <;> simp only [Step.state, hp, hn]
    · rw [if_neg h1]
      have hc' : ¬ (input s.inbuf s.posbits s.bitmask = CLEAR ∧ s.block_mode ≠ 0) :=
        fun h => hc ⟨h1, h.1, h.2⟩
      rw [if_neg hc']
      split_ifs <;> simp only [Step.state, push, hp, hn]
  · intro hc
    simp only [next_code] at hc
    simp only [read_code]
    rw [if_neg hc.1, if_pos ⟨hc.2.1, hc.2.2⟩]
    simp only [Step.state, clear, hp, hn]

set_option maxRecDepth 1000000 in
/-- C31 (witness): in the stream `1F 9D 90 61 C4 04 04` the third code is read at the bit
offset 18 with the width 9 from the bytes `61 C4 04 04`: the bits 18..26 give 257. -/
theorem input_unpacks_witness :
    ∃ (s0 s : LzwState) (c : Call),
      (ctor [0x1f, 0x9d, 0x90, 0x61, 0xC4, 0x04, 0x04]).state = some s0 ∧
      advance 7 Pc.resetbuf s0 { readbuf := [], count_left := 1024, count := 1024 } = some (Pc.next_code, s, c) ∧
      s.posbits = ((18 : Nat) : Int) ∧ s.n_bits = ((9 : Nat) : Int) ∧ s.bitmask = 2 ^ 9 - 1 ∧
      bytes_at s.inbuf 0 4 = [0x61, 0xC4, 0x04, 0x04] ∧ code_bits s.inbuf 18 9 = 257 ∧
      input s.inbuf s.posbits s.bitmask = ((code_bits s.inbuf 18 9 : Nat) : Int) ∧
      (¬ (s.oldcode ≠ -1 ∧ next_code s = CLEAR ∧ s.block_mode ≠ 0) →
        (read_code s).state.posbits = ((18 : Nat) : Int) + ((9 : Nat) : Int)) ∧
      ((s.oldcode ≠ -1 ∧ next_code s = CLEAR ∧ s.block_mode ≠ 0) →
        (read_code s).state.posbits = realign (((18 : Nat) : Int) + ((9 : Nat) : Int)) ((9 : Nat) : Int)) :=
  ⟨_, _, _, rfl, rfl, rfl, rfl, rfl, rfl, rfl,
    input_unpacks _ 18 9 rfl rfl (by decide) (by decide) rfl⟩

end ZStreamBuf
end GPSTk

namespace GPSTk
namespace ZStreamBuf

/-! ## The realignment of `posbits` -/

theorem realign_eq (p n : Int) (hp : 0 ≤ p) (hn : 1 ≤ n) :
    realign p n = (p - 1) + ((n * 8) - (p - 1 + n * 8) % (n * 8)) := by
  simp only [realign]
  rw [Int.tmod_eq_emod (by omega) (by omega)]

/-- C32: for `posbits >= 0` and `n_bits` in 9..16 the realignment expression gives the
least multiple of `8 * n_bits` that is not below `posbits` (an aligned `posbits` is left as
it is); it is the new `posbits` on a width increase and on CLEAR. -/
theorem realign_least_multiple (p n : Int) (hp : 0 ≤ p) (h9 : 9 ≤ n) (h16 : n ≤ 16) :
    (n * 8) ∣ realign p n ∧ p ≤ realign p n ∧
    (∀ k, (n * 8) ∣ k → p ≤ k → realign p n ≤ k) ∧
    ((n * 8) ∣ p → realign p n = p) ∧
    (∀ s : LzwState, s.posbits = p → s.n_bits = n →
      (widen s).posbits = realign p n ∧ (clear s).posbits = realign p n) := by
  rw [realign_eq p n hp (by omega)]
  refine ⟨?_, ?_, ?_, ?_, ?_⟩
  · interval_cases n <;> omega
  · interval_cases n <;> omega
  · intro k hk hpk
    interval_cases n <;> omega
  · intro hd
    interval_cases n <;> omega
  · intro s h1 h2
    rw [← realign_eq p n hp (by omega)]
    simp only [widen, clear, h1, h2, and_self]

/-- C32 (witness): at `posbits = 100` with `n_bits = 9` the result is 144, the least
multiple of 72 from 100 on. -/
theorem realign_least_multiple_witness :
    realign 100 9 = 144 ∧ realign 144 9 = 144 ∧
    ((9 * 8 : Int) ∣ realign 100 9 ∧ (100 : Int) ≤ realign 100 9 ∧
    (∀ k, (9 * 8 : Int) ∣ k → 100 ≤ k → realign 100 9 ≤ k) ∧
    ((9 * 8 : Int) ∣ 100 → realign 100 9 = 100) ∧
    (∀ s : LzwState, s.posbits = 100 → s.n_bits = 9 →
      (widen s).posbits = realign 100 9 ∧ (clear s).posbits = realign 100 9)) :=
  ⟨by decide, by decide, realign_least_multiple 100 9 (by decide) (by decide) (by decide)⟩

end ZStreamBuf
end GPSTk

namespace GPSTk
namespace ZStreamBuf

/-! ## The CLEAR code -/

/-- C34: the code 256 read after the first code. In block mode no byte is added to the
output, `codetab` is zeroed, `free_ent = 256`, `n_bits = 9`, `maxcode = 511`,
`bitmask = 511`, `posbits` is realigned (from its value after the macro `input`, with the
width the code was read at), `htab`, `oldcode` and `finchar` are left alone, and the code
goes on at `resetbuf`. When the block-mode bit is clear, the code takes the path of every
other code (it is below `free_ent`, or equal to it and a KwKwK code) and none of these
members is reset. -/
theorem clear_code (s : LzwState) (hr : reads Pc.next_code s) (hold : s.oldcode ≠ -1)
    (hc : next_code s = CLEAR) (hf : 256 ≤ s.free_ent) :
    (s.block_mode ≠ 0 →
      ∃ s1, step Pc.next_code s = Step.next Pc.resetbuf s1 ∧
        s1.outbuf = s.outbuf ∧ s1.outpos = s.outpos ∧ (∀ c, emitted c s1 = emitted c s) ∧
        (∀ k, s1.codetab k = 0) ∧ s1.free_ent = 256 ∧ s1.n_bits = 9 ∧ s1.maxcode = 511 ∧
        s1.bitmask = 511 ∧ s1.posbits = realign (s.posbits + s.n_bits) s.n_bits ∧
        s1.htab = s.htab ∧ s1.oldcode = s.oldcode ∧ s1.finchar = s.finchar) ∧
    (s.block_mode = 0 →
      ∃ s1, step Pc.next_code s = Step.next Pc.walk s1 ∧
        s1.incode = 256 ∧
        (256 < s.free_ent → s1.code = 256 ∧ s1.stackp = some []) ∧
        (256 = s.free_ent → s1.code = s.oldcode ∧ s1.stackp = some [s.finchar.toNat % 256]) ∧
        s1.outbuf = s.outbuf ∧ s1.outpos = s.outpos ∧
        s1.codetab = s.codetab ∧ s1.free_ent = s.free_ent ∧ s1.n_bits = s.n_bits ∧
        s1.maxcode = s.maxcode ∧ s1.bitmask = s.bitmask ∧ s1.posbits = s.posbits + s.n_bits ∧
        s1.htab = s.htab ∧ s1.oldcode = s.oldcode ∧ s1.finchar = s.finchar) := by
  have hCL : CLEAR = 256 := rfl
  constructor
  · intro hb
    obtain ⟨_, h1, h2⟩ := hr
    simp only [next_code] at hc
    refine ⟨clear { s with code := input s.inbuf s.posbits s.bitmask, posbits := s.posbits + s.n_bits }, ?_, rfl, rfl, fun _ => rfl, fun _ => rfl, rfl, rfl, rfl, rfl, rfl, rfl, rfl, rfl⟩
    simp only [step, read_code]
    rw [if_pos h1, if_neg h2, if_neg hold, if_pos ⟨hc, hb⟩]
  · intro hb
    have hclear : ¬ (next_code s = CLEAR ∧ s.block_mode ≠ 0) := fun h => h.2 hb
    by_cases hlt : next_code s < s.free_ent
    · refine ⟨_, step_known_code s hr hold hclear hlt, hc, fun _ => ⟨hc, rfl⟩, ?_, rfl, rfl, rfl, rfl, rfl, rfl, rfl, rfl, rfl, rfl, rfl⟩
      intro he
      rw [hc, hCL] at hlt
      omega
    · have heq : next_code s = s.free_ent := by rw [hc, hCL] at hlt ⊢; omega
      refine ⟨_, step_kwkwk s hr hold hclear heq, hc, ?_, fun _ => ⟨rfl, rfl⟩, rfl, rfl, rfl, rfl, rfl, rfl, rfl, rfl, rfl, rfl, rfl⟩
      intro he
      rw [hc, hCL] at hlt
      omega

set_option maxRecDepth 1000000 in
/-- C34 (witness): in the block-mode stream `1F 9D 90 61 00 02` (codes `a`, 256) the
second code is read four steps into the first call; the hypotheses hold there. -/
theorem clear_code_witness :
    ∃ (s0 s : LzwState) (c : Call),
      (ctor [0x1f, 0x9d, 0x90, 0x61, 0x00, 0x02]).state = some s0 ∧
      advance 4 Pc.resetbuf s0 { readbuf := [], count_left := 1024, count := 1024 } = some (Pc.next_code, s, c) ∧
      reads Pc.next_code s ∧ s.oldcode ≠ -1 ∧ next_code s = CLEAR ∧ 256 ≤ s.free_ent ∧
      s.block_mode ≠ 0 ∧ (s.posbits, s.n_bits, s.oldcode, s.finchar) = (9, 9, 97, 97) ∧
      ∃ s1, step Pc.next_code s = Step.next Pc.resetbuf s1 ∧
        s1.outbuf = s.outbuf ∧ s1.outpos = s.outpos ∧ (∀ c, emitted c s1 = emitted c s) ∧
        (∀ k, s1.codetab k = 0) ∧ s1.free_ent = 256 ∧ s1.n_bits = 9 ∧ s1.maxcode = 511 ∧
        s1.bitmask = 511 ∧ s1.posbits = realign (s.posbits + s.n_bits) s.n_bits ∧
        s1.htab = s.htab ∧ s1.oldcode = s.oldcode ∧ s1.finchar = s.finchar :=
  ⟨_, _, _, rfl, rfl, ⟨rfl, by decide, by decide⟩, by decide, by rfl, by decide, by decide, rfl,
    (clear_code _ ⟨rfl, by decide, by decide⟩ (by decide) (by rfl) (by decide)).1 (by decide)⟩

end ZStreamBuf
end GPSTk

namespace GPSTk
namespace CompressedObsStream

open CRinexStreamBuf (Err NUL atol)

/-! ## `ObsState::update` at order 0 -/

theorem getD_one_ne_amp (diff : List Char) (h : '&' ∉ diff) : ¬ (diff.length > 2 ∧ diff.getD 1 NUL = '&') := by
  rintro ⟨hl, he⟩
  apply h
  rw [List.getD_eq_getElem _ _ (by omega)] at he
  rw [← he]
  exact List.getElem_mem _

/-- C35 (the code): for a cell with `order = 0` and `arcOrder = 0` and a token that is not
empty and holds no `&`, `update` stores the parsed integer in `dy[0]` and then enters the
fold loop with `i = (size_t)(order - 1) = 2^64 - 1`: the test `i >= 0` holds for every
`size_t`, and the first round reads and writes `dy[2^64 - 1]`, outside `dy[0..9]`. -/
theorem update_order_zero_out_of_bounds (st : ObsState) (diff : List Char)
    (ho : st.order = 0) (ha : st.arcOrder = 0) (hne : diff ≠ []) (hamp : '&' ∉ diff) :
    to_size_t (st.order - 1) = 2 ^ 64 - 1 ∧ ¬ (to_size_t (st.order - 1) < MAX_ORDER) ∧
    st.update diff = Except.error Err.outOfBounds := by
  have h1 := getD_one_ne_amp diff hamp
  have h2 : ¬ (diff.length = 0) := by
    intro h
    exact hne (List.length_eq_zero.1 h)
  refine ⟨by rw [ho]; decide, by rw [ho]; decide, ?_⟩
  simp only [ObsState.update, h1, h2, if_false, ho, ha]
  rfl

/-- C35 (witness): the cell that `0&5` initialises has `order = 0` and `arcOrder = 0`; the
token `7` then takes `update` outside `dy`. A cell with `order = arcOrder = 1` takes the
token `7` as the claim says: one round of the fold loop. -/
theorem update_order_zero_out_of_bounds_witness :
    (∃ st, ObsState.fresh.update "0&5".toList = Except.ok st ∧
      (st.order, st.arcOrder, st.dy 0) = (0, 0, 5) ∧
      (to_size_t (st.order - 1) = 2 ^ 64 - 1 ∧ ¬ (to_size_t (st.order - 1) < MAX_ORDER) ∧
        st.update "7".toList = Except.error Err.outOfBounds)) ∧
    ((({ ObsState.fresh with order := 1, arcOrder := 1, dy := fun i => if i = 0 then 100 else 0 } : ObsState).update
      "7".toList).toOption.map (fun st => (st.order, st.dy 0, st.dy 1)) = some (1, 107, 7)) :=
  ⟨⟨_, rfl, rfl, update_order_zero_out_of_bounds _ "7".toList rfl rfl (by decide) (by decide)⟩, by rfl⟩

end CompressedObsStream
end GPSTk

namespace GPSTk
namespace CRinexStreamBuf

/-! ## `read_data` on an input that ends inside an epoch -/

theorem stuck_decoder_rounds (n : Nat) : ∀ (fuel : Nat) (out : List Char),
    read_data_go (fuel + n) false
        (stuck_decoder out (Function.update crx_one_type.sattbl 0 (-1))
          (Function.update crx_one_type.ntype_record 0 1)) =
      read_data_go fuel false
        (stuck_decoder (out ++ skip_markers n) (Function.update crx_one_type.sattbl 0 (-1))
          (Function.update crx_one_type.ntype_record 0 1)) := by
  induction n with
  | zero => intro fuel out; simp [skip_markers]
  | succ n ih =>
    intro fuel out
    have e : fuel + (n + 1) = (fuel + 1) + n := by omega
    rw [e, ih (fuel + 1) out, stuck_decoder_round, Function.update_idem, Function.update_idem]
    simp only [skip_markers, List.append_assoc]

theorem skip_markers_length (n : Nat) : (skip_markers n).length = n * (skip_message 2).length := by
  induction n with
  | zero => rfl
  | succ n ih => simp only [skip_markers, List.length_append, ih, Nat.succ_mul]

set_option maxRecDepth 1000000 in
/-- C36 (the code at the failing input): the finite RINEX 2 body `body_truncated` ends
inside its first epoch. One call of `read_data` on it does not return and does not raise:
for every amount of fuel the model runs out of it, and after `n + 1` rounds through the
label `SKIP` the call is in the same state as after the first round but for the output
buffer, to which `n + 1` markers of `skip_to_next` have been appended; the bytes appended
exceed every bound. -/
theorem read_data_never_returns :
    (∀ fuel, read_data fuel (body_decoder crx_one_type body_truncated) = Except.error Err.diverged) ∧
    (∀ n fuel, read_data (fuel + n + 1) (body_decoder crx_one_type body_truncated) =
      read_data_go fuel false
        (stuck_decoder (skip_markers (n + 1)) (Function.update crx_one_type.sattbl 0 (-1))
          (Function.update crx_one_type.ntype_record 0 1))) ∧
    (∀ n, (stuck_decoder (skip_markers (n + 1)) (Function.update crx_one_type.sattbl 0 (-1))
          (Function.update crx_one_type.ntype_record 0 1)).out.length = (n + 1) * (skip_message 2).length) ∧
    0 < (skip_message 2).length := by
  refine ⟨?_, ?_, ?_, by decide⟩
  · intro fuel
    cases fuel with
    | zero => rfl
    | succ n =>
      rw [body_truncated_first_round]
      exact stuck_decoder_never_returns n _ _ _
  · intro n fuel
    have e : fuel + n + 1 = (fuel + n) + 1 := by omega
    rw [e, body_truncated_first_round, stuck_decoder_rounds n fuel]
    simp only [skip_markers, List.append_assoc]
    congr 2
    induction n with
    | zero => rfl
    | succ n ih => simp only [skip_markers, List.append_assoc, ← ih]
  · intro n
    exact skip_markers_length (n + 1)

end CRinexStreamBuf
end GPSTk

namespace GPSTk
namespace CRinexStreamBuf

/-! ## The flag bytes of a new satellite -/

theorem apply_dflag_cons (c : Char) (cs : List Char) (n : Nat) (f : Nat → Char) :
    apply_dflag (c :: cs) n f =
      apply_dflag cs (n + 1)
        (if c = ' ' then f else Function.update f n (if c = '&' then ' ' else c)) := by
  simp only [apply_dflag]
  split_ifs <;> rfl

theorem apply_dflag_col (dflag : List Char) : ∀ (n : Nat) (f : Nat → Char) (k : Nat),
    apply_dflag dflag n f k =
      if n ≤ k ∧ k < n + dflag.length then
        (if dflag.getD (k - n) ' ' = ' ' then f k
         else if dflag.getD (k - n) ' ' = '&' then ' ' else dflag.getD (k - n) ' ')
      else f k := by
  induction dflag with
  | nil =>
    intro n f k
    have : ¬ (n ≤ k ∧ k < n + ([] : List Char).length) := by simp
    simp only [apply_dflag, this, if_false]
  | cons c cs ih =>
    intro n f k
    rw [apply_dflag_cons, ih]
    have hlen : (c :: cs).length = cs.length + 1 := rfl
    by_cases hk : k = n
    · subst hk
      have h1 : k ≤ k ∧ k < k + (c :: cs).length := by rw [hlen]; omega
      have h2 : ¬ (k + 1 ≤ k ∧ k < k + 1 + cs.length) := by omega
      rw [if_neg h2, if_pos h1, Nat.sub_self, List.getD_cons_zero]
      by_cases hc1 : c = ' '
      · rw [if_pos hc1, if_pos hc1]
      · rw [if_neg hc1, if_neg hc1, Function.update_same]
    · have hf : (if c = ' ' then f else Function.update f n (if c = '&' then ' ' else c)) k = f k := by
        split_ifs
        · rfl
        · exact Function.update_noteq hk _ _
        · exact Function.update_noteq hk _ _
      rw [hf]
      by_cases hin : n ≤ k ∧ k < n + (c :: cs).length
      · have h2 : n + 1 ≤ k ∧ k < n + 1 + cs.length := by omega
        have hsub : k - n = (k - (n + 1)) + 1 := by omega
        rw [if_pos hin, if_pos h2, hsub, List.getD_cons_succ]
      · have h2 : ¬ (n + 1 ≤ k ∧ k < n + 1 + cs.length) := by omega
        rw [if_neg hin, if_neg h2]

/-- C38 (the code): for a satellite that is new in the epoch in RINEX 3 the flag row that
`write_data` prints from holds, at a position where the flag delta has a byte other than a
blank, that byte (`&` read as blank); at position 0, where the delta has a blank or has
ended, the terminator that `*crx.flag[i] = NUL` stored (not a blank); and at every later
position where the delta has a blank or has ended, the byte that the row of slot `i` held
before (not a blank). -/
theorem new_satellite_flags (crx : Crx) (i : Nat) (hs : crx.sattbl i < 0)
    (hv : crx.rinex_version = 3) :
    (∀ n c, (crx.dflag i)[n]? = some c → c ≠ ' ' →
      repair_flags crx i n = if c = '&' then ' ' else c) ∧
    (((crx.dflag i)[0]? = none ∨ (crx.dflag i)[0]? = some ' ') → repair_flags crx i 0 = NUL) ∧
    (∀ n, 0 < n → ((crx.dflag i)[n]? = none ∨ (crx.dflag i)[n]? = some ' ') →
      repair_flags crx i n = crx.flag i n) := by
  have hbase : repair_flags crx i = apply_dflag (crx.dflag i) 0 (Function.update (crx.flag i) 0 NUL) := by
    simp only [repair_flags, hs, hv, if_true]
  refine ⟨?_, ?_, ?_⟩
  · intro n c hc hne
    have hlt : n < (crx.dflag i).length := by
      by_contra h
      rw [List.getElem?_eq_none (by omega)] at hc
      cases hc
    have hg : (crx.dflag i).getD n ' ' = c := by
      rw [List.getD_eq_getElem?_getD, hc]; rfl
    rw [hbase, apply_dflag_col, if_pos ⟨Nat.zero_le _, by omega⟩, Nat.sub_zero, hg, if_neg hne]
  · intro h
    have hg : (crx.dflag i).getD 0 ' ' = ' ' := by
      rw [List.getD_eq_getElem?_getD]
      rcases h with h | h <;> rw [h] <;> rfl
    rw [hbase, apply_dflag_col, Nat.sub_zero, hg]
    simp only [if_true, ite_self, Function.update_same]
  · intro n hn h
    have hg : (crx.dflag i).getD n ' ' = ' ' := by
      rw [List.getD_eq_getElem?_getD]
      rcases h with h | h <;> rw [h] <;> rfl
    rw [hbase, apply_dflag_col, Nat.sub_zero, hg]
    simp only [if_true, ite_self]
    exact Function.update_noteq (by omega) _ _

set_option maxRecDepth 1000000 in
/-- C38 (witness and failing input): a new satellite in RINEX 3 with the flag delta blank,
`4`: position 0 of the row holds the terminator. The body `body_new_flag` (one initialised
epoch for `G01` with that flag delta) is decoded to a line that ends in the bytes NUL, `4`
where the claim has blank, `4`. -/
theorem new_satellite_flags_witness :
    ((∀ n c, (({ crx_gps_one_type with sattbl := fun _ => -1, dflag := fun _ => " 4".toList } : Crx).dflag 0)[n]? = some c → c ≠ ' ' →
      repair_flags { crx_gps_one_type with sattbl := fun _ => -1, dflag := fun _ => " 4".toList } 0 n = if c = '&' then ' ' else c) ∧
    (((({ crx_gps_one_type with sattbl := fun _ => -1, dflag := fun _ => " 4".toList } : Crx).dflag 0)[0]? = none ∨
        (({ crx_gps_one_type with sattbl := fun _ => -1, dflag := fun _ => " 4".toList } : Crx).dflag 0)[0]? = some ' ') →
      repair_flags { crx_gps_one_type with sattbl := fun _ => -1, dflag := fun _ => " 4".toList } 0 0 = NUL) ∧
    (∀ n, 0 < n → ((({ crx_gps_one_type with sattbl := fun _ => -1, dflag := fun _ => " 4".toList } : Crx).dflag 0)[n]? = none ∨
        (({ crx_gps_one_type with sattbl := fun _ => -1, dflag := fun _ => " 4".toList } : Crx).dflag 0)[n]? = some ' ') →
      repair_flags { crx_gps_one_type with sattbl := fun _ => -1, dflag := fun _ => " 4".toList } 0 n =
        ({ crx_gps_one_type with sattbl := fun _ => -1, dflag := fun _ => " 4".toList } : Crx).flag 0 n)) ∧
    (decode_calls 100 1 (body_decoder crx_gps_one_type body_new_flag)).toOption =
      some [("> 2020 01 01 00 00  0.0000000  0  1      \n" ++ "G01       101.000\x004\n").toList] :=
  ⟨new_satellite_flags { crx_gps_one_type with sattbl := fun _ => -1, dflag := fun _ => " 4".toList } 0
    (by decide) (by rfl), by rfl⟩

end CRinexStreamBuf
end GPSTk

namespace GPSTk
namespace ZStreamBuf

/-! ## Invariants of `lzw_read` over the states of successive calls -/

/-- A property of the places and states that every step keeps holds at every place that a
run visits. -/
theorem visits_invariant (I : Pc → LzwState → Prop)
    (hnext : ∀ pc s pc1 s1, I pc s → step pc s = Step.next pc1 s1 → I pc1 s1)
    (hfull : ∀ pc s s1, I pc s → step pc s = Step.full s1 → I Pc.resume_reading s1) :
    ∀ (fuel : Nat) (pc : Pc) (s : LzwState) (c : Call), I pc s →
      ∀ v, v ∈ visits fuel pc s c → I v.1 v.2 := by
  intro fuel
  induction fuel with
  | zero => intro pc s c _ v hv; simp [visits] at hv
  | succ fuel ih =>
    intro pc s c hI v hv
    rw [visits] at hv
    rcases List.mem_cons.1 hv with rfl | hv
    · exact hI
    · cases hs : step pc s with
      | next pc1 s1 =>
        rw [hs] at hv
        exact ih pc1 s1 c (hnext pc s pc1 s1 hI hs) v hv
      | error s1 => rw [hs] at hv; cases hv
      | full s1 =>
        rw [hs] at hv
        simp only at hv
        split_ifs at hv
        · exact ih _ s1 _ (hfull pc s s1 hI hs) v hv
        · cases hv
      | finished s1 => rw [hs] at hv; cases hv

/-- The state that a run returns with a value that is not negative: it is the state of a
step `full` or `finished`, with `outpos`, `unreadbuf` and `eof` changed. -/
theorem run_invariant (I : Pc → LzwState → Prop) (R : LzwState → Prop)
    (hnext : ∀ pc s pc1 s1, I pc s → step pc s = Step.next pc1 s1 → I pc1 s1)
    (hfull : ∀ pc s s1, I pc s → step pc s = Step.full s1 → I Pc.resume_reading s1)
    (hret : ∀ pc s s1 c, I pc s → step pc s = Step.full s1 → R (empty_existing_buffer s1 c 0).state)
    (hfin : ∀ pc s s1 c, I pc s → step pc s = Step.finished s1 → R (finish s1 c).state) :
    ∀ (fuel : Nat) (pc : Pc) (s : LzwState) (c : Call) (r : Ret), I pc s →
      run fuel pc s c = some r → 0 ≤ r.value → R r.state := by
  intro fuel
  induction fuel with
  | zero => intro pc s c r _ h; simp [run] at h
  | succ fuel ih =>
    intro pc s c r hI h hv
    rw [run_succ] at h
    cases hs : step pc s with
    | next pc1 s1 =>
      rw [hs] at h
      exact ih pc1 s1 c r (hnext pc s pc1 s1 hI hs) h hv
    | error s1 =>
      rw [hs] at h
      simp only [Option.some.injEq] at h
      subst h
      exact absurd hv (show ¬ ((0 : Int) ≤ -1) by decide)
    | full s1 =>
      rw [hs] at h
      simp only at h
      split_ifs at h
      · exact ih _ s1 _ r (hfull pc s s1 hI hs) h hv
      · simp only [Option.some.injEq] at h
        subst h
        exact hret pc s s1 c hI hs
    | finished s1 =>
      rw [hs] at h
      simp only [Option.some.injEq] at h
      subst h
      exact hfin pc s s1 c hI hs

theorem read_visits_invariant (I : Pc → LzwState → Prop) (R : LzwState → Prop)
    (hnext : ∀ pc s pc1 s1, I pc s → step pc s = Step.next pc1 s1 → I pc1 s1)
    (hfull : ∀ pc s s1, I pc s → step pc s = Step.full s1 → I Pc.resume_reading s1)
    (hsome : ∀ s, R s → s.stackp ≠ none → I Pc.resume_reading s)
    (hnone : ∀ s, R s → s.stackp = none → I Pc.resetbuf s)
    (fuel : Nat) (s : LzwState) (k : Nat) (hR : R s) :
    ∀ v, v ∈ read_visits fuel s k → I v.1 v.2 := by
  intro v hv
  by_cases h0 : k = 0 ∨ s.eof = true
  · simp only [read_visits, h0, if_true] at hv
    cases hv
  · cases hst : s.stackp with
    | none =>
      simp only [read_visits, h0, if_false, hst] at hv
      exact visits_invariant I hnext hfull fuel _ s _ (hnone s hR hst) v hv
    | some st =>
      have hne : s.stackp ≠ none := by rw [hst]; exact fun h => by cases h
      by_cases h1 : s.outpos ≠ 0
      · by_cases h2 : s.outpos ≥ k
        · simp only [read_visits, h0, if_false, hst, h1, h2, if_true, ne_eq, not_false_eq_true] at hv
          cases hv
        · simp only [read_visits, h0, if_false, hst, h1, h2, if_true, ne_eq, not_false_eq_true] at hv
          exact visits_invariant I hnext hfull fuel _ s _ (hsome s hR hne) v hv
      · simp only [read_visits, h0, if_false, hst, h1] at hv
        exact visits_invariant I hnext hfull fuel _ s _ (hsome s hR hne) v hv

theorem lzw_read_invariant (I : Pc → LzwState → Prop) (R : LzwState → Prop)
    (hnext : ∀ pc s pc1 s1, I pc s → step pc s = Step.next pc1 s1 → I pc1 s1)
    (hfull : ∀ pc s s1, I pc s → step pc s = Step.full s1 → I Pc.resume_reading s1)
    (hret : ∀ pc s s1 c, I pc s → step pc s = Step.full s1 → R (empty_existing_buffer s1 c 0).state)
    (hfin : ∀ pc s s1 c, I pc s → step pc s = Step.finished s1 → R (finish s1 c).state)
    (hsome : ∀ s, R s → s.stackp ≠ none → I Pc.resume_reading s)
    (hnone : ∀ s, R s → s.stackp = none → I Pc.resetbuf s)
    (hmod : ∀ s c off, R s → s.stackp ≠ none → R (empty_existing_buffer s c off).state)
    (fuel : Nat) (s : LzwState) (k : Nat) (r : Ret) (hR : R s)
    (hr : lzw_read fuel s k = some r) (hv0 : 0 ≤ r.value) : R r.state := by
  by_cases h0 : k = 0 ∨ s.eof = true
  · simp only [lzw_read, h0, if_true, Option.some.injEq] at hr
    subst hr
    exact hR
  · cases hst : s.stackp with
    | none =>
      simp only [lzw_read, h0, if_false, hst] at hr
      exact run_invariant I R hnext hfull hret hfin fuel _ s _ r (hnone s hR hst) hr hv0
    | some st =>
      have hne : s.stackp ≠ none := by rw [hst]; exact fun h => by cases h
      by_cases h1 : s.outpos ≠ 0
      · by_cases h2 : s.outpos ≥ k
        · simp only [lzw_read, h0, if_false, hst, h1, h2, if_true, ne_eq, not_false_eq_true, Option.some.injEq] at hr
          subst hr
          exact hmod s _ _ hR hne
        · simp only [lzw_read, h0, if_false, hst, h1, h2, if_true, ne_eq, not_false_eq_true] at hr
          exact run_invariant I R hnext hfull hret hfin fuel _ s _ r (hsome s hR hne) hr hv0
      · simp only [lzw_read, h0, if_false, hst, h1] at hr
        exact run_invariant I R hnext hfull hret hfin fuel _ s _ r (hsome s hR hne) hr hv0

/-- A property `R` of the decoder between calls that gives the property `I` at the entry
of a call, and that the calls give back, makes `I` hold at every place that the successive
calls visit. -/
theorem calls_invariant (I : Pc → LzwState → Prop) (R : LzwState → Prop)
    (hnext : ∀ pc s pc1 s1, I pc s → step pc s = Step.next pc1 s1 → I pc1 s1)
    (hfull : ∀ pc s s1, I pc s → step pc s = Step.full s1 → I Pc.resume_reading s1)
    (hret : ∀ pc s s1 c, I pc s → step pc s = Step.full s1 → R (empty_existing_buffer s1 c 0).state)
    (hfin : ∀ pc s s1 c, I pc s → step pc s = Step.finished s1 → R (finish s1 c).state)
    (hsome : ∀ s, R s → s.stackp ≠ none → I Pc.resume_reading s)
    (hnone : ∀ s, R s → s.stackp = none → I Pc.resetbuf s)
    (hmod : ∀ s c off, R s → s.stackp ≠ none → R (empty_existing_buffer s c off).state)
    (fuel : Nat) :
    ∀ (ks : List Nat) (s : LzwState), R s →
      ∀ v, v ∈ calls_visits fuel s ks → I v.1 v.2 := by
  intro ks
  induction ks with
  | nil => intro s _ v hv; simp [calls_visits] at hv
  | cons k ks ih =>
    intro s hR v hv
    rw [calls_visits] at hv
    rcases List.mem_append.1 hv with hv | hv
    · exact read_visits_invariant I R hnext hfull hsome hnone fuel s k hR v hv
    · cases hr : lzw_read fuel s k with
      | none => rw [hr] at hv; cases hv
      | some r =>
        rw [hr] at hv
        simp only at hv
        by_cases hneg : r.value < 0
        · rw [if_pos hneg] at hv; cases hv
        · rw [if_neg hneg] at hv
          exact ih r.state
            (lzw_read_invariant I R hnext hfull hret hfin hsome hnone hmod fuel s k r hR hr (by omega)) v hv

end ZStreamBuf
end GPSTk

namespace GPSTk
namespace ZStreamBuf

/-! ## The code width -/

theorem step_stack_width (s : LzwState) : width_members (step_stack s).state = width_members s := by
  simp only [step_stack]
  split_ifs <;> rfl

theorem put_out_width (s : LzwState) : width_members (put_out s) = width_members s := by
  simp only [put_out]
  split_ifs <;> rfl

theorem resetbuf_width (s : LzwState) : width_members (resetbuf s) = width_members s := by
  simp only [resetbuf]
  split_ifs <;> rfl

theorem MAXCODE_mono (a b : Int) (h : a ≤ b) (_ : 0 ≤ a) : MAXCODE a ≤ MAXCODE b := by
  simp only [MAXCODE]
  exact pow_le_pow_right₀ (by decide) (by omega)

theorem MAXCODE_succ (a : Int) (ha : 0 ≤ a) : MAXCODE (a + 1) = 2 * MAXCODE a := by
  simp only [MAXCODE]
  have e : (a + 1).toNat = a.toNat + 1 := by omega
  rw [e, pow_succ]
  ring

/-- Every step of `lzw_read` keeps the invariant of the width members. -/
theorem step_width (pc : Pc) (s : LzwState) (h : width_inv (width_members s)) :
    width_inv (width_members (step pc s).state) := by
  have h256 : (256 : Int) ≤ MAXCODE s.maxbits := by
    have := MAXCODE_mono 10 s.maxbits h.1 (by decide)
    have e : MAXCODE 10 = 1024 := by decide
    omega
  cases pc with
  | resetbuf =>
    simp only [step, Step.state, resetbuf_width]
    exact h
  | next_code =>
    simp only [step]
    split_ifs with h1 h2 h3
    · -- the width grows
      obtain ⟨a1, a2, a3, a4, a5, a6, a7⟩ := h
      simp only [width_members] at a1 a2 a3 a4 a5 a6 a7
      have hlt : s.n_bits < s.maxbits := by
        by_contra hge
        have e : s.n_bits = s.maxbits := by omega
        have := a6 e
        omega
      simp only [Step.state, widen, width_members, width_inv]
      refine ⟨a1, a2, by omega, by omega, a5, ?_, ?_⟩
      · intro e
        rw [if_pos e]
      · intro e
        rw [if_neg (by omega)]
    · simp only [read_code]
      split_ifs
      · exact h
      · exact h
      · obtain ⟨a1, a2, a3, a4, a5, a6, a7⟩ := h
        simp only [width_members] at a1 a2 a3 a4 a5 a6 a7
        simp only [Step.state, clear, width_members, width_inv, INIT_BITS, FIRST]
        refine ⟨a1, a2, by decide, by omega, by omega, ?_, ?_⟩
        · intro e
          omega
        · intro _
          trivial
      · exact h
      · exact h
      · exact h
    · exact h
    · exact h
  | walk =>
    simp only [step, walk_end]
    split_ifs <;> exact h
  | put_out =>
    simp only [step]
    split_ifs
    · simp only [Step.state, put_out_width]; exact h
    · rw [step_stack_width, put_out_width]; exact h
  | resume_reading =>
    simp only [step]
    rw [step_stack_width]; exact h
  | new_entry =>
    simp only [step, Step.state, new_entry]
    split_ifs with hlt
    · obtain ⟨a1, a2, a3, a4, a5, a6, a7⟩ := h
      simp only [width_members] at a1 a2 a3 a4 a5 a6 a7 hlt
      simp only [width_members, width_inv]
      exact ⟨a1, a2, a3, a4, by omega, a6, a7⟩
    · exact h

theorem width_inv_capped (s : LzwState) (h : width_inv (width_members s)) : width_capped s := by
  obtain ⟨a1, a2, a3, a4, a5, a6, a7⟩ := h
  simp only [width_members, MAXCODE] at a1 a2 a3 a4 a5 a6 a7
  refine ⟨a3, a4, a5, ?_⟩
  intro e
  have := a6 e
  exact ⟨this, by omega⟩

theorem ctor_width (src : List Nat) (s : LzwState) (h : (ctor src).state = some s)
    (h10 : 10 ≤ s.maxbits) : width_inv (width_members s) := by
  simp only [ctor] at h
  split_ifs at h with c1 c2 c3 c4
  · cases h
  · cases h
  · cases h
  all_goals
    simp only [Ctor.state, Option.some.injEq] at h
    subst h
    simp only [BITS] at c3
    simp only at h10
    have hm : ((256 : Int) ≤ MAXCODE 10) ∧ ((257 : Int) ≤ MAXCODE 10) := by decide
    have hmono := MAXCODE_mono 10 _ h10 (by decide)
    simp only [width_members, width_inv, INIT_BITS, FIRST]
    refine ⟨h10, by omega, by decide, by omega, by omega, ?_, ?_⟩
    · intro e
      omega
    · intro _
      trivial

theorem step_maxbits (pc : Pc) (s : LzwState) : (step pc s).state.maxbits = s.maxbits := by
  have h1 : ∀ t, (step_stack t).state.maxbits = t.maxbits := by
    intro t
    simp only [step_stack]
    split_ifs <;> rfl
  have h2 : ∀ t, (put_out t).maxbits = t.maxbits := by
    intro t
    simp only [put_out]
    split_ifs <;> rfl
  cases pc with
  | resetbuf =>
    simp only [step, Step.state, resetbuf]
    split_ifs <;> rfl
  | next_code =>
    simp only [step]
    split_ifs
    · rfl
    · simp only [read_code]
      split_ifs <;> rfl
    · rfl
    · rfl
  | walk =>
    simp only [step, walk_end]
    split_ifs <;> rfl
  | put_out =>
    simp only [step]
    split_ifs
    · simp only [Step.state, h2]
    · rw [h1, h2]
  | resume_reading =>
    simp only [step]
    rw [h1]
  | new_entry =>
    simp only [step, Step.state, new_entry]
    split_ifs <;> rfl

/-- For a header with `10 <= maxbits <= 16` every state that successive calls of
`lzw_read` visit has `9 <= n_bits <= maxbits` and `free_ent <= 2^maxbits`, and where
`n_bits = maxbits` the member `maxcode` is `2^maxbits` and the width does not grow. -/
theorem width_capped_from_10 (src : List Nat) (s0 : LzwState) (h : (ctor src).state = some s0)
    (h10 : 10 ≤ s0.maxbits) (fuel : Nat) (ks : List Nat) :
    ∀ v, v ∈ calls_visits fuel s0 ks →
      v.2.maxbits = s0.maxbits ∧ s0.maxbits ≤ 16 ∧ width_capped v.2 := by
  intro v hv
  have hstep : ∀ pc s, (s.maxbits = s0.maxbits ∧ width_inv (width_members s)) →
      ((step pc s).state.maxbits = s0.maxbits ∧ width_inv (width_members (step pc s).state)) :=
    fun pc s hI => ⟨(step_maxbits pc s).trans hI.1, step_width pc s hI.2⟩
  have key := calls_invariant (fun _ s => s.maxbits = s0.maxbits ∧ width_inv (width_members s))
    (fun s => s.maxbits = s0.maxbits ∧ width_inv (width_members s))
    (fun pc s pc1 s1 hI hs => by have := hstep pc s hI; rw [hs] at this; exact this)
    (fun pc s s1 hI hs => by have := hstep pc s hI; rw [hs] at this; exact this)
    (fun pc s s1 c hI hs => by have := hstep pc s hI; rw [hs] at this; exact this)
    (fun pc s s1 c hI hs => by
      have := hstep pc s hI
      rw [hs] at this
      simp only [finish]
      split_ifs
      · exact this
      · exact this)
    (fun s hR _ => hR) (fun s hR _ => hR) (fun s c off hR _ => hR)
    fuel ks s0 ⟨rfl, ctor_width src s0 h h10⟩ v hv
  have h16 : v.2.maxbits ≤ 16 := key.2.2.1
  rw [key.1] at h16
  exact ⟨key.1, h16, width_inv_capped _ key.2⟩

set_option maxRecDepth 10000000 in
set_option maxHeartbeats 4000000 in
/-- C33 (the code at the failing input): the header `1F 9D 89` has `maxbits = 9`. The
constructor leaves `n_bits = 9 = maxbits` with `maxcode = 511`, not `2^maxbits = 512`; in
the stream `stream_maxbits_9` (the code 97 written 257 times) `free_ent` reaches 512 after
256 codes, the test `free_ent > maxcode` succeeds and the width grows to `n_bits = 10`,
above `maxbits`, with `maxcode = 1023`. The call returns the 257 bytes without an error. -/
theorem n_bits_exceeds_maxbits_9 :
    (ctor stream_maxbits_9).state.map (fun s => (s.maxbits, s.n_bits, s.maxcode, s.free_ent)) =
      some (9, 9, 511, 257) ∧
    ((ctor stream_maxbits_9).state.bind (fun s => lzw_read 2000 s 4096)).map
      (fun r => (r.value, r.bytes.length, r.state.maxbits, r.state.n_bits, r.state.maxcode, r.state.free_ent)) =
      some (257, 257, 9, 10, 1023, 512) := by
  constructor <;> rfl

end ZStreamBuf
end GPSTk

namespace GPSTk
namespace ZStreamBuf

/-! ## The string table is well founded -/

theorem step_stack_table (s : LzwState) : table (step_stack s).state = table s := by
  simp only [step_stack]
  split_ifs <;> rfl

theorem put_out_table (s : LzwState) : table (put_out s) = table s := by
  simp only [put_out]
  split_ifs <;> rfl

theorem resetbuf_table (s : LzwState) : table (resetbuf s) = table s := by
  simp only [resetbuf]
  split_ifs <;> rfl

theorem step_stack_stackp (s : LzwState) : (step_stack s).state.stackp ≠ none := by
  simp only [step_stack]
  split_ifs <;> exact fun h => by cases h

theorem step_stack_exhausted (s : LzwState) (h : ¬ (s.inbits > s.posbits) ∧ s.rsize = 0) :
    exhausted (step_stack s).state := by
  refine ⟨?_, ?_, step_stack_stackp s⟩
  · simp only [step_stack]
    split_ifs <;> exact h.1
  · simp only [step_stack]
    split_ifs <;> exact h.2

theorem put_out_input (s : LzwState) :
    (put_out s).inbits = s.inbits ∧ (put_out s).posbits = s.posbits ∧
    (put_out s).rsize = s.rsize ∧ (put_out s).stackp = s.stackp := by
  simp only [put_out]
  split_ifs <;> exact ⟨rfl, rfl, rfl, rfl⟩

theorem put_out_exhausted (s : LzwState) (h : exhausted s) : exhausted (put_out s) := by
  obtain ⟨h1, h2, h3, h4⟩ := put_out_input s
  simp only [exhausted, h1, h2, h3, h4]
  exact h

theorem new_entry_exhausted (s : LzwState) (h : exhausted s) : exhausted (new_entry s) := by
  simp only [exhausted, new_entry] at h ⊢
  split_ifs <;> exact h

/-- The old code is not negative once a code has been read. -/
theorem Table.old_nonneg (t : Table) (hok : t.ok) (h : t.old_ok) (hne : t.oldcode ≠ -1) :
    0 ≤ t.oldcode := by
  rcases h with h | h | h | h
  · exact absurd h hne
  · exact h.1
  · have := hok.1
    omega
  · exact h.2.2

end ZStreamBuf
end GPSTk

namespace GPSTk
namespace ZStreamBuf

theorem MAXCODE_le_65536 (m : Int) (h : m ≤ 16) : MAXCODE m ≤ 65536 := by
  have e : MAXCODE 16 = 65536 := by decide
  have h2 : MAXCODE m ≤ MAXCODE 16 := by
    simp only [MAXCODE]
    exact pow_le_pow_right₀ (by decide) (by omega)
  omega

theorem table_new_entry (s : LzwState) :
    table (new_entry s) =
      if s.free_ent < MAXCODE s.maxbits then
        { table s with codetab := Function.update s.codetab s.free_ent.toNat ((s.oldcode % 65536).toNat), free_ent := s.free_ent + 1, oldcode := s.incode }
      else { table s with oldcode := s.incode } := by
  simp only [new_entry]
  split_ifs <;> rfl

/-- The block "Generate the new entry" keeps the table in order. -/
theorem new_entry_table_ok (s : LzwState) (hok : (table s).ok) (hold : (table s).old_ok)
    (hmid : (table s).mid_ok) : (table (new_entry s)).ok ∧ (table (new_entry s)).old_ok := by
  obtain ⟨k1, k2, k3, k4⟩ := hok
  obtain ⟨m1, m2, m3, m4⟩ := hmid
  simp only [table, Table.reserved] at k1 k2 k3 k4 m1 m2 m3 m4 hold
  simp only [Table.old_ok, table, Table.reserved] at hold
  rw [table_new_entry]
  by_cases hlt : s.free_ent < MAXCODE s.maxbits
  · rw [if_pos hlt]
    have h16 := MAXCODE_le_65536 s.maxbits k2
    constructor
    · refine ⟨?_, k2, ?_, ?_⟩
      · show (256 : Int) ≤ s.free_ent + 1
        omega
      · intro c hc
        have hc' : s.free_ent + 1 ≤ (c : Int) := hc
        show Function.update s.codetab s.free_ent.toNat _ c = 0
        rw [Function.update_noteq (by omega)]
        exact k3 c (by omega)
      · intro c h256 hc hres
        have hc' : (c : Int) < s.free_ent + 1 := hc
        simp only [table, Table.reserved] at hres ⊢
        show Function.update s.codetab s.free_ent.toNat _ c < c ∧
          ¬ (((Function.update s.codetab s.free_ent.toNat ((s.oldcode % 65536).toNat) c : Nat) : Int) = 256 ∧ s.block_mode ≠ 0)
        by_cases hcf : c = s.free_ent.toNat
        · rw [hcf, Function.update_same]
          rcases hold with h | h | h | h
          · exact absurd h m1
          · obtain ⟨o1, o2, o3⟩ := h
            have e : s.oldcode % 65536 = s.oldcode := Int.emod_eq_of_lt o1 (by omega)
            rw [e]
            refine ⟨by omega, ?_⟩
            rw [Int.toNat_of_nonneg o1]
            exact o3
          · exact absurd hlt h.2.1
          · exfalso
            apply hres
            exact ⟨by omega, h.2.1⟩
        · rw [Function.update_noteq hcf]
          exact k4 c h256 (by omega) hres
    · right; left
      exact ⟨m2, by show s.incode < s.free_ent + 1; omega, m4⟩
  · rw [if_neg hlt]
    constructor
    · exact ⟨k1, k2, k3, k4⟩
    · by_cases hi : s.incode < s.free_ent
      · right; left
        exact ⟨m2, hi, m4⟩
      · right; right; left
        exact ⟨by show s.incode = s.free_ent; omega, hlt, m4⟩

/-- The branch for the CLEAR code keeps the table in order. -/
theorem clear_table_ok (s : LzwState) (hok : (table s).ok) (hold : (table s).old_ok)
    (hne : s.oldcode ≠ -1) (hb : s.block_mode ≠ 0) :
    (table (clear s)).ok ∧ (table (clear s)).old_ok := by
  have hnn := Table.old_nonneg (table s) hok hold hne
  constructor
  · refine ⟨show (256 : Int) ≤ FIRST - 1 by decide, hok.2.1, fun c _ => rfl, ?_⟩
    intro c h256 hc
    have hc' : (c : Int) < 256 := hc
    omega
  · right; right; right
    exact ⟨rfl, hb, hnn⟩

end ZStreamBuf
end GPSTk

namespace GPSTk
namespace ZStreamBuf

theorem post_of_next (pc : Pc) (s : LzwState) (pcx : Pc) (sx : LzwState)
    (hs : step pc s = Step.next pcx sx) (hI : table_inv pcx sx) : table_post pc s := by
  refine ⟨?_, ?_, ?_⟩
  · intro pc1 s1 e
    rw [hs] at e
    cases e
    exact hI
  · intro s1 e
    rw [hs] at e
    cases e
  · intro s1 e
    rw [hs] at e
    cases e

theorem post_of_full (pc : Pc) (s : LzwState) (sx : LzwState)
    (hs : step pc s = Step.full sx) (hI : table_inv Pc.resume_reading sx) : table_post pc s := by
  refine ⟨?_, ?_, ?_⟩
  · intro pc1 s1 e
    rw [hs] at e
    cases e
  · intro s1 e
    rw [hs] at e
    cases e
    exact hI
  · intro s1 e
    rw [hs] at e
    cases e

theorem post_of_error (pc : Pc) (s : LzwState) (sx : LzwState)
    (hs : step pc s = Step.error sx) : table_post pc s := by
  refine ⟨?_, ?_, ?_⟩
  · intro pc1 s1 e
    rw [hs] at e
    cases e
  · intro s1 e
    rw [hs] at e
    cases e
  · intro s1 e
    rw [hs] at e
    cases e

theorem post_of_finished (pc : Pc) (s : LzwState) (sx : LzwState)
    (hs : step pc s = Step.finished sx)
    (hI : (sx.stackp ≠ none → exhausted sx) ∧ (sx.stackp = none → (table sx).ok ∧ (table sx).old_ok)) :
    table_post pc s := by
  refine ⟨?_, ?_, ?_⟩
  · intro pc1 s1 e
    rw [hs] at e
    cases e
  · intro s1 e
    rw [hs] at e
    cases e
  · intro s1 e
    rw [hs] at e
    cases e
    exact hI

/-- The invariant at a place inside the decoding of a code depends on the state only
through the table members, the input members and the stack pointer being set. -/
theorem table_inv_mid (pc pc1 : Pc) (s s1 : LzwState) (h : table_inv pc s)
    (hp : pc ≠ Pc.resetbuf ∧ pc ≠ Pc.next_code) (hp1 : pc1 ≠ Pc.resetbuf ∧ pc1 ≠ Pc.walk)
    (ht : table s1 = table s) (hst : s1.stackp ≠ none)
    (hin : s1.inbits = s.inbits ∧ s1.posbits = s.posbits ∧ s1.rsize = s.rsize) :
    table_inv pc1 s1 := by
  rcases h with ⟨hd, _, _⟩ | ⟨hok, hold, hmid⟩
  · left
    refine ⟨?_, hp1.1, hp1.2⟩
    simp only [exhausted, hin.1, hin.2.1, hin.2.2]
    exact ⟨hd.1, hd.2.1, hst⟩
  · right
    rw [ht]
    exact ⟨hok, hold, fun _ _ => ⟨(hmid hp.1 hp.2).1, hst⟩⟩

theorem step_stack_input (s : LzwState) :
    (step_stack s).state.inbits = s.inbits ∧ (step_stack s).state.posbits = s.posbits ∧
    (step_stack s).state.rsize = s.rsize := by
  simp only [step_stack]
  split_ifs <;> exact ⟨rfl, rfl, rfl⟩

theorem step_stack_next (s : LzwState) :
    ∃ pc1, step_stack s = Step.next pc1 (step_stack s).state ∧ pc1 ≠ Pc.resetbuf ∧ pc1 ≠ Pc.walk := by
  simp only [step_stack]
  split_ifs
  · exact ⟨Pc.put_out, rfl, by decide, by decide⟩
  · exact ⟨Pc.new_entry, rfl, by decide, by decide⟩

theorem table_post_resetbuf (s : LzwState) (h : table_inv Pc.resetbuf s) :
    table_post Pc.resetbuf s := by
  refine post_of_next _ _ Pc.next_code (resetbuf s) rfl ?_
  rcases h with ⟨_, hp, _⟩ | ⟨hok, hold, _⟩
  · exact absurd rfl hp
  · right
    rw [resetbuf_table]
    exact ⟨hok, hold, fun _ hp => absurd rfl hp⟩

theorem walk_step_next (s : LzwState) :
    ∃ pc1 s1, step Pc.walk s = Step.next pc1 s1 ∧ pc1 ≠ Pc.resetbuf ∧ pc1 ≠ Pc.next_code ∧
      table s1 = table s ∧ s1.stackp ≠ none := by
  simp only [step, walk_end]
  split_ifs
  · exact ⟨_, _, rfl, by decide, by decide, rfl, fun e => by cases e⟩
  · exact ⟨_, _, rfl, by decide, by decide, rfl, fun e => by cases e⟩
  · exact ⟨_, _, rfl, by decide, by decide, rfl, fun e => by cases e⟩

theorem table_post_walk (s : LzwState) (h : table_inv Pc.walk s) : table_post Pc.walk s := by
  rcases h with ⟨_, _, hp⟩ | ⟨hok, hold, hmid⟩
  · exact absurd rfl hp
  · have hm := (hmid (by decide) (by decide)).1
    obtain ⟨pc1, s1, e, p1, p2, ht, hst⟩ := walk_step_next s
    refine post_of_next _ _ pc1 s1 e ?_
    right
    rw [ht]
    exact ⟨hok, hold, fun _ _ => ⟨hm, hst⟩⟩

theorem table_post_put_out (s : LzwState) (h : table_inv Pc.put_out s) :
    table_post Pc.put_out s := by
  obtain ⟨i1, i2, i3, i4⟩ := put_out_input s
  have hst : s.stackp ≠ none := by
    rcases h with ⟨hd, _, _⟩ | ⟨_, _, hmid⟩
    · exact hd.2.2
    · exact (hmid (by decide) (by decide)).2
  by_cases hf : (put_out s).outpos ≥ BUFSIZE
  · refine post_of_full _ _ (put_out s) (by simp only [step, hf, if_true]) ?_
    exact table_inv_mid Pc.put_out Pc.resume_reading s _ h ⟨by decide, by decide⟩
      ⟨by decide, by decide⟩ (put_out_table s) (by rw [i4]; exact hst) ⟨i1, i2, i3⟩
  · obtain ⟨pc1, e1, e2, e3⟩ := step_stack_next (put_out s)
    obtain ⟨j1, j2, j3⟩ := step_stack_input (put_out s)
    refine post_of_next _ _ pc1 _ (by simp only [step, hf, if_false]; exact e1) ?_
    exact table_inv_mid Pc.put_out pc1 s _ h ⟨by decide, by decide⟩ ⟨e2, e3⟩
      (by rw [step_stack_table, put_out_table]) (step_stack_stackp _)
      ⟨by rw [j1, i1], by rw [j2, i2], by rw [j3, i3]⟩

theorem table_post_resume_reading (s : LzwState) (h : table_inv Pc.resume_reading s) :
    table_post Pc.resume_reading s := by
  obtain ⟨pc1, e1, e2, e3⟩ := step_stack_next { s with outpos := 0 }
  obtain ⟨j1, j2, j3⟩ := step_stack_input { s with outpos := 0 }
  refine post_of_next _ _ pc1 _ (by simp only [step]; exact e1) ?_
  exact table_inv_mid Pc.resume_reading pc1 s _ h ⟨by decide, by decide⟩ ⟨e2, e3⟩
    (by rw [step_stack_table]; rfl) (step_stack_stackp _) ⟨j1, j2, j3⟩

theorem table_post_new_entry (s : LzwState) (h : table_inv Pc.new_entry s) :
    table_post Pc.new_entry s := by
  refine post_of_next _ _ Pc.next_code (new_entry s) rfl ?_
  rcases h with ⟨hd, _, _⟩ | ⟨hok, hold, hmid⟩
  · left
    exact ⟨new_entry_exhausted s hd, by decide, by decide⟩
  · right
    obtain ⟨a, b⟩ := new_entry_table_ok s hok hold (hmid (by decide) (by decide)).1
    exact ⟨a, b, fun _ hp => absurd rfl hp⟩

end ZStreamBuf
end GPSTk

namespace GPSTk
namespace ZStreamBuf

theorem table_post_next_code (s : LzwState) (h : table_inv Pc.next_code s) :
    table_post Pc.next_code s := by
  have hin := input_nonneg s.inbuf s.posbits s.bitmask
  have hCL : CLEAR = 256 := rfl
  rcases h with ⟨⟨d1, d2, d3⟩, _, _⟩ | ⟨hok, hold, _⟩
  · have hs : step Pc.next_code s = Step.finished s := by
      simp only [step]
      rw [if_neg d1, if_neg (not_not.2 d2)]
    exact post_of_finished _ _ s hs ⟨fun _ => ⟨d1, d2, d3⟩, fun hn => absurd hn d3⟩
  · by_cases h1 : s.inbits > s.posbits
    · by_cases h2 : s.free_ent > s.maxcode
      · have hs : step Pc.next_code s = Step.next Pc.resetbuf (widen s) := by
          simp only [step]
          rw [if_pos h1, if_pos h2]
        refine post_of_next _ _ _ _ hs ?_
        right
        exact ⟨hok, hold, fun hp => absurd rfl hp⟩
      · have hr : reads Pc.next_code s := ⟨rfl, h1, h2⟩
        by_cases ho : s.oldcode = -1
        · by_cases hc : input s.inbuf s.posbits s.bitmask ≥ 256
          · obtain ⟨s1, hs⟩ := (step_error_iff Pc.next_code s hok.1).2 ⟨hr, Or.inl ⟨ho, hc⟩⟩
            exact post_of_error _ _ s1 hs
          · have hs : step Pc.next_code s = Step.next Pc.next_code
                { s with code := input s.inbuf s.posbits s.bitmask, posbits := s.posbits + s.n_bits, outbuf := Function.update s.outbuf s.outpos ((input s.inbuf s.posbits s.bitmask).toNat % 256), outpos := s.outpos + 1, finchar := input s.inbuf s.posbits s.bitmask, oldcode := input s.inbuf s.posbits s.bitmask } := by
              simp only [step, read_code]
              rw [if_pos h1, if_neg h2, if_pos ho, if_neg hc]
            refine post_of_next _ _ _ _ hs ?_
            right
            refine ⟨hok, ?_, fun _ hp => absurd rfl hp⟩
            right; left
            have k1 := hok.1
            simp only [table] at k1
            refine ⟨hin, ?_, ?_⟩
            · show input s.inbuf s.posbits s.bitmask < s.free_ent
              omega
            · intro hres
              have h256 : input s.inbuf s.posbits s.bitmask = 256 := hres.1
              omega
        · by_cases hcl : next_code s = CLEAR ∧ s.block_mode ≠ 0
          · have hs : step Pc.next_code s = Step.next Pc.resetbuf
                (clear { s with code := input s.inbuf s.posbits s.bitmask, posbits := s.posbits + s.n_bits }) := by
              have hcl2 := hcl
              simp only [next_code] at hcl2
              simp only [step, read_code]
              rw [if_pos h1, if_neg h2, if_neg ho, if_pos hcl2]
            refine post_of_next _ _ _ _ hs ?_
            right
            obtain ⟨a, b⟩ := clear_table_ok
              { s with code := input s.inbuf s.posbits s.bitmask, posbits := s.posbits + s.n_bits }
              hok hold ho hcl.2
            exact ⟨a, b, fun hp => absurd rfl hp⟩
          · have hnres : ¬ (table s).reserved (next_code s) := by
              intro hres
              exact hcl ⟨hres.1, hres.2⟩
            by_cases hlt : next_code s < s.free_ent
            · refine post_of_next _ _ _ _ (step_known_code s hr ho hcl hlt) ?_
              right
              refine ⟨hok, hold, fun _ _ => ⟨⟨ho, hin, ?_, hnres⟩, fun e => by cases e⟩⟩
              show next_code s ≤ s.free_ent
              omega
            · by_cases heq : next_code s = s.free_ent
              · refine post_of_next _ _ _ _ (step_kwkwk s hr ho hcl heq) ?_
                right
                refine ⟨hok, hold, fun _ _ => ⟨⟨ho, hin, ?_, hnres⟩, fun e => by cases e⟩⟩
                show next_code s ≤ s.free_ent
                omega
              · obtain ⟨s1, hs⟩ := (step_error_iff Pc.next_code s hok.1).2
                  ⟨hr, Or.inr ⟨ho, by omega⟩⟩
                exact post_of_error _ _ s1 hs
    · by_cases h3 : s.rsize ≠ 0
      · have hs : step Pc.next_code s = Step.next Pc.resetbuf s := by
          simp only [step]
          rw [if_neg h1, if_pos h3]
        refine post_of_next _ _ _ _ hs ?_
        right
        exact ⟨hok, hold, fun hp => absurd rfl hp⟩
      · have hs : step Pc.next_code s = Step.finished s := by
          simp only [step]
          rw [if_neg h1, if_neg h3]
        exact post_of_finished _ _ s hs
          ⟨fun hst => ⟨h1, not_not.1 h3, hst⟩, fun _ => ⟨hok, hold⟩⟩

/-- Every step of `lzw_read` keeps the invariant of the string table. -/
theorem step_table_inv (pc : Pc) (s : LzwState) (h : table_inv pc s) : table_post pc s := by
  cases pc with
  | resetbuf => exact table_post_resetbuf s h
  | next_code => exact table_post_next_code s h
  | walk => exact table_post_walk s h
  | put_out => exact table_post_put_out s h
  | resume_reading => exact table_post_resume_reading s h
  | new_entry => exact table_post_new_entry s h

theorem ctor_table (src : List Nat) (s : LzwState) (h : (ctor src).state = some s) :
    table_ret s := by
  simp only [ctor] at h
  split_ifs at h with c1 c2 c3 c4
  · cases h
  · cases h
  · cases h
  all_goals
    simp only [Ctor.state, Option.some.injEq] at h
    subst h
    simp only [BITS] at c3
    refine ⟨fun _ => ⟨⟨?_, by simp only [table]; omega, fun _ _ => rfl, ?_⟩, Or.inl rfl⟩, fun hn => absurd rfl hn⟩
    · first | exact (show (256 : Int) ≤ FIRST by decide) | exact (show (256 : Int) ≤ 256 by decide)
    · intro c h256 _ _
      exact ⟨by show 0 < c; omega, fun hres => by have := hres.1; simp only [table] at this; omega⟩

/-- The invariant of the string table holds at every place that successive calls of
`lzw_read` visit on a decoder that the constructor has set up. -/
theorem calls_table_inv (src : List Nat) (s0 : LzwState) (h : (ctor src).state = some s0)
    (fuel : Nat) (ks : List Nat) :
    ∀ v, v ∈ calls_visits fuel s0 ks → table_inv v.1 v.2 := by
  refine calls_invariant table_inv table_ret
    (fun pc s pc1 s1 hI hs => (step_table_inv pc s hI).1 pc1 s1 hs)
    (fun pc s s1 hI hs => (step_table_inv pc s hI).2.1 s1 hs)
    ?_ ?_ ?_ ?_ ?_ fuel ks s0 (ctor_table src s0 h)
  · intro pc s s1 c hI hs
    have hr := (step_table_inv pc s hI).2.1 s1 hs
    rcases hr with ⟨hd, _, _⟩ | ⟨hok, hold, hmid⟩
    · exact ⟨fun hn => absurd hn hd.2.2, fun _ => Or.inl hd⟩
    · have hm := hmid (by decide) (by decide)
      exact ⟨fun hn => absurd hn hm.2, fun _ => Or.inr ⟨hok, hold, hm.1⟩⟩
  · intro pc s s1 c hI hs
    have hr := (step_table_inv pc s hI).2.2 s1 hs
    simp only [finish]
    split_ifs
    · exact ⟨fun hn => hr.2 hn, fun hn => Or.inl (hr.1 hn)⟩
    · exact ⟨fun hn => hr.2 hn, fun hn => Or.inl (hr.1 hn)⟩
  · intro s hR hn
    rcases hR.2 hn with hd | ⟨hok, hold, hmid⟩
    · left
      exact ⟨hd, by decide, by decide⟩
    · right
      exact ⟨hok, hold, fun _ _ => ⟨hmid, hn⟩⟩
  · intro s hR hn
    right
    obtain ⟨hok, hold⟩ := hR.1 hn
    exact ⟨hok, hold, fun hp => absurd rfl hp⟩
  · intro s c off hR hn
    exact ⟨fun hn2 => absurd hn2 hn, fun _ => hR.2 hn⟩

end ZStreamBuf
end GPSTk

namespace GPSTk
namespace ZStreamBuf

/-- In a table that is in order every code that is not reserved, from 256 on, points to a
code below it that is not reserved (the entries from `free_ent` on are 0). -/
theorem Table.descends (t : Table) (hok : t.ok) (c : Nat) (h256 : 256 ≤ c)
    (hres : ¬ t.reserved c) : t.codetab c < c ∧ ¬ t.reserved (t.codetab c) := by
  obtain ⟨k1, _, k3, k4⟩ := hok
  by_cases hc : (c : Int) < t.free_ent
  · exact k4 c h256 hc hres
  · rw [k3 c (by omega)]
    refine ⟨by omega, ?_⟩
    intro h
    have := h.1
    omega

/-- The walk from a code that is not reserved, in a table that is in order: it ends within
`n` rounds when `c <= n + 255`, every code it visits points to a code below it, and it
pushes at most `c - 254` bytes (one byte for `c < 256`). -/
theorem walk_descends (t : Table) (htab : Nat → Nat) (hok : t.ok) : ∀ (n c : Nat),
    ¬ t.reserved c → c ≤ n + 255 →
    chain_ends t.codetab n c ∧ (∀ k, k ∈ chain t.codetab n c → t.codetab k < k) ∧
    (expand htab t.codetab n c).length ≤ (if c < 256 then 1 else c - 254) := by
  intro n
  induction n with
  | zero =>
    intro c _ hc
    have hlt : c < 256 := by omega
    refine ⟨hlt, ?_, ?_⟩
    · intro k hk
      simp [chain] at hk
    · simp [expand, hlt]
  | succ n ih =>
    intro c hres hc
    by_cases hlt : c < 256
    · refine ⟨Or.inl hlt, ?_, ?_⟩
      · intro k hk
        simp [chain, hlt] at hk
      · simp [expand, hlt]
    · obtain ⟨d1, d2⟩ := Table.descends t hok c (by omega) hres
      obtain ⟨i1, i2, i3⟩ := ih (t.codetab c) d2 (by omega)
      refine ⟨Or.inr i1, ?_, ?_⟩
      · intro k hk
        simp only [chain, hlt, if_false, List.mem_cons] at hk
        rcases hk with rfl | hk
        · exact d1
        · exact i2 k hk
      · simp only [expand, hlt, if_false, List.length_append, List.length_singleton]
        split_ifs at i3 <;> omega

/-- C37: on a decoder that the constructor has set up, at every place that successive
calls of `lzw_read` visit (as long as no call returns a negative value) at which a code is
read that is not the first, not the CLEAR code of a block-mode stream and not above
`free_ent`: the walk `while (code >= 256) code = codetab[code]` from that code (from
`oldcode` for a KwKwK code) ends within `free_ent` rounds, every code `k` it visits has
`codetab[k] < k`, and at most `free_ent` bytes are pushed. -/
theorem chain_well_founded (src : List Nat) (s0 : LzwState) (h : (ctor src).state = some s0)
    (fuel : Nat) (ks : List Nat) (v : Pc × LzwState) (hv : v ∈ calls_visits fuel s0 ks)
    (hr : reads v.1 v.2) (ho : v.2.oldcode ≠ -1)
    (hcl : ¬ (next_code v.2 = CLEAR ∧ v.2.block_mode ≠ 0))
    (hle : next_code v.2 ≤ v.2.free_ent) :
    chain_ends v.2.codetab v.2.free_ent.toNat (walk_start v.2) ∧
    (∀ k, k ∈ chain v.2.codetab v.2.free_ent.toNat (walk_start v.2) → v.2.codetab k < k) ∧
    pushed v.2 v.2.free_ent.toNat ≤ v.2.free_ent.toNat := by
  have hinv := calls_table_inv src s0 h fuel ks v hv
  have hin := input_nonneg v.2.inbuf v.2.posbits v.2.bitmask
  have hnc : next_code v.2 = input v.2.inbuf v.2.posbits v.2.bitmask := rfl
  rcases hinv with ⟨hd, _, _⟩ | ⟨hok, hold, _⟩
  · exact absurd hr.2.1 hd.1
  · have hf : (256 : Int) ≤ v.2.free_ent := hok.1
    have key : ¬ (table v.2).reserved ((walk_start v.2 : Nat) : Int) ∧
        ((walk_start v.2 : Nat) : Int) ≤ v.2.free_ent := by
      simp only [walk_start]
      by_cases heq : next_code v.2 = v.2.free_ent
      · rw [if_pos heq]
        rcases hold with ho1 | ho2 | ho3 | ho4
        · exact absurd ho1 ho
        · obtain ⟨o1, o2, o3⟩ := ho2
          simp only [table] at o1 o2 o3
          rw [Int.toNat_of_nonneg o1]
          exact ⟨o3, by omega⟩
        · obtain ⟨o1, _, o3⟩ := ho3
          simp only [table] at o1 o3
          have o0 : 0 ≤ v.2.oldcode := by omega
          rw [Int.toNat_of_nonneg o0]
          exact ⟨o3, by omega⟩
        · exfalso
          apply hcl
          have o1 : v.2.free_ent = 256 := ho4.1
          exact ⟨by rw [heq, o1]; rfl, ho4.2.1⟩
      · rw [if_neg heq, Int.toNat_of_nonneg (by omega)]
        exact ⟨fun hres => hcl ⟨hres.1, hres.2⟩, hle⟩
    obtain ⟨w1, w2, w3⟩ := walk_descends (table v.2) v.2.htab hok v.2.free_ent.toNat
      (walk_start v.2) key.1 (by omega)
    refine ⟨w1, w2, ?_⟩
    simp only [pushed]
    have w3' : (expand v.2.htab v.2.codetab v.2.free_ent.toNat (walk_start v.2)).length ≤
        (if walk_start v.2 < 256 then 1 else walk_start v.2 - 254) := w3
    split_ifs at w3' ⊢ <;> omega

set_option maxRecDepth 1000000 in
/-- C37 (witness): in the stream `1F 9D 90 61 C4 04 04` (codes `a`, `b`, 257) the eighth
place that the first call visits is the one at which 257 is read, with `free_ent = 258`
and `codetab[257] = 97`; the hypotheses hold there, the walk visits the code 257 only and
pushes two bytes. -/
theorem chain_well_founded_witness :
    ∃ (s0 : LzwState) (v : Pc × LzwState),
      (ctor [0x1f, 0x9d, 0x90, 0x61, 0xC4, 0x04, 0x04]).state = some s0 ∧
      (calls_visits 100 s0 [1024])[7]? = some v ∧
      reads v.1 v.2 ∧ v.2.oldcode ≠ -1 ∧ ¬ (next_code v.2 = CLEAR ∧ v.2.block_mode ≠ 0) ∧
      next_code v.2 ≤ v.2.free_ent ∧
      (next_code v.2, v.2.free_ent, v.2.codetab 257, walk_start v.2) = (257, 258, 97, 257) ∧
      chain v.2.codetab v.2.free_ent.toNat (walk_start v.2) = [257] ∧
      pushed v.2 v.2.free_ent.toNat = 2 ∧
      (chain_ends v.2.codetab v.2.free_ent.toNat (walk_start v.2) ∧
        (∀ k, k ∈ chain v.2.codetab v.2.free_ent.toNat (walk_start v.2) → v.2.codetab k < k) ∧
        pushed v.2 v.2.free_ent.toNat ≤ v.2.free_ent.toNat) :=
  ⟨_, _, rfl, rfl, ⟨rfl, by decide, by decide⟩, by decide, by decide, by decide, by rfl, by rfl,
    by rfl,
    chain_well_founded [0x1f, 0x9d, 0x90, 0x61, 0xC4, 0x04, 0x04] _ rfl 100 [1024] _
      (List.getElem?_mem (n := 7) (by rfl)) ⟨rfl, by decide, by decide⟩ (by decide) (by decide)
      (by decide)⟩

end ZStreamBuf
end GPSTk

namespace GPSTk
namespace CRinexStreamBuf

/-! ## The terminator that `repair` pushes -/

set_option maxRecDepth 1000000 in
/-- C8 (the code at the failing input): the RINEX 2 body `body_second_sat`. The first
`repair`, on the empty `epoch_buffer`, gives the 35 columns of the epoch line followed by
the terminator that `finalize` pushes: 36 bytes, not `max(0, 35)`. The delta of the second
epoch line leaves column 35 alone and writes `1`, `5` at columns 36 and 37, so the second
`repair` gives the line with the terminator inside it, bytes `G12`, NUL, `15`, NUL, where
the claim has `G12 15`. The conversion `%.68s` stops at that terminator: the second epoch
is written with the count 2 and the satellite `G12` only (the ID ` 15` is lost), followed by
the observations of two satellites. -/
theorem repair_terminator_in_line :
    repair [] (' ' :: epoch_one_sat.tail) = " 20  1  1  0  0  0.0000000  0  1G12".toList ++ [NUL] ∧
    (repair [] (' ' :: epoch_one_sat.tail)).length ≠
      max ([] : List Char).length (' ' :: epoch_one_sat.tail).length ∧
    repair (repair [] (' ' :: epoch_one_sat.tail)) delta_second_sat =
      " 20  1  1  0  0  0.0000000  0  2G12".toList ++ [NUL, '1', '5', NUL] ∧
    (repair (repair [] (' ' :: epoch_one_sat.tail)) delta_second_sat)[35]? = some NUL ∧
    delta_second_sat[35]? = some ' ' ∧
    (decode_calls 100 2 (body_decoder crx_one_type body_second_sat)).toOption =
      some [" 20  1  1  0  0  0.0000000  0  1G12\n       100.000\n".toList,
        " 20  1  1  0  0  0.0000000  0  2G12\n       100.005\n       200.000\n".toList] := by
  refine ⟨by decide, by decide, by decide, by decide, by decide, by rfl⟩

/-! ## An event record with a short auxiliary line -/

set_option maxRecDepth 1000000 in
/-- C23 (the code at the failing input): the RINEX 2 body `body_event_short`, an event
record (flag 4, two auxiliary lines) whose first auxiliary line is a `# / TYPES OF OBSERV`
record that declares two types and whose second auxiliary line, `site visit`, has ten
characters. `put_event_data` writes the second line and then calls
`instr.compare(60, 19, ...)` on it, which throws `std::out_of_range` for a position beyond
the end of the string: `read_data` raises, the epoch that follows is not decoded. With a
comment of 60 characters or more in its place (`body_event`) the record is written as it is
and the next epoch has two observations. -/
theorem event_short_aux_line_raises :
    read_data 100 (body_decoder crx_one_type body_event_short) =
      Except.error (Err.raised "std::out_of_range") ∧
    (∀ l, l ∈ event_aux_short → LF ∉ l ∧ NUL ∉ l) ∧
    types_line (event_aux_short.headD []) ∧
    (read_data 100 (body_decoder crx_one_type body_event)).toOption.map (fun r => r.1.out) =
      some (' ' :: event_header_rest ++ [LF] ++ lines_text event_aux ++
        (" 20  1  1  0  0  0.0000000  0  1G01\n" ++
          "       100.000         200.000\n").toList) := by
  refine ⟨by rfl, by decide, by decide, by rfl⟩

end CRinexStreamBuf
end GPSTk
